import Mathlib

/-!
Porto volume manager: a shallow embedding of `src/volume.cpp`.

The definitions below follow the C++ of `src/volume.cpp` function by function.
Member functions of `TVolume` take the fields of the object as a `TVolume`
value and, where the code compares object identity, its handle; they return
the fields after the call together with the returned `TError`.  Values of
type `uint64_t` are natural numbers reduced modulo `2^64` after every
addition.  A `TError` result is an `Except TError _`, with `Except.ok` for
`TError::Success()`.  Whatever the code asks of the host (statfs, the user
database, string helpers of `util/string.cpp`, the key-value store) is an
oracle of a `World`; calls that change the host are also recorded in a trace
of events, and a `Host` gives the world observed after a given trace.
A `std::map<std::string, T>` is an association list kept in key order.
-/

namespace Porto

/-! ## Errors -/

/-- Error kinds surfaced by the volume manager (`EError`). -/
inductive EError
  | InvalidValue
  | InvalidProperty
  | Permission
  | NotSupported
  | NoSpace
  | ResourceNotAvailable
  | LayerNotFound
  | VolumeAlreadyExists
  | Busy
  | Unknown
  deriving DecidableEq, Repr

/-- A failing `TError`: kind and message. -/
structure TError where
  Error : EError
  Msg : String
  deriving DecidableEq, Repr

/-- The test `if (error)` on a returned `TError`. -/
def failed {α : Type} (r : Except TError α) : Bool :=
  match r with
  | .ok _ => false
  | .error _ => true

/-- Wrap-around of `uint64_t` arithmetic. -/
def u64 (n : Nat) : Nat := n % 2 ^ 64

/-! ## Data model -/

/-- Result of a statfs call (`TStatFS`). -/
structure TStatFS where
  SpaceUsage : Nat
  SpaceAvail : Nat
  InodeUsage : Nat
  InodeAvail : Nat
  deriving DecidableEq, Repr

/-- The value left by `TStatFS::Reset()`. -/
def TStatFS.Reset : TStatFS := ⟨0, 0, 0, 0⟩

/-- Credentials (`TCred`): uid and gid. -/
structure TCred where
  Uid : Nat
  Gid : Nat
  deriving DecidableEq, Repr

/-- The backend object created by `TVolume::OpenBackend`: the class chosen
from the backend type and the device index kept by the loop and rbd
backends (`LoopDev`, `DeviceIndex`). -/
structure TVolumeBackend where
  Kind : String
  DeviceIndex : Int
  deriving DecidableEq, Repr

/-- Fields of `TVolume`. -/
structure TVolume where
  Id : String
  Path : String
  IsAutoPath : Bool
  StoragePath : String
  IsAutoStorage : Bool
  BackendType : String
  Backend : Option TVolumeBackend
  VolumeOwner : TCred
  VolumePerms : Nat
  Creator : String
  CreatorCred : TCred
  CreatorRoot : String
  IsReady : Bool
  Private : String
  Containers : List String
  LoopDev : Int
  IsReadOnly : Bool
  Layers : List String
  IsLayersSet : Bool
  Place : String
  CustomPlace : Bool
  SpaceLimit : Nat
  SpaceGuarantee : Nat
  InodeLimit : Nat
  InodeGuarantee : Nat
  deriving DecidableEq, Repr

/-- A `std::shared_ptr<TVolume>`: the handle of a volume object. -/
abbrev VolumePtr := Nat

/-- The volume objects reachable through handles. -/
abbrev Heap := VolumePtr → TVolume

/-- Fields of `TVolumeHolder`: the map from path to volume, in key order, and
the id allocator. -/
structure TVolumeHolder where
  Volumes : List (String × VolumePtr)
  NextId : Nat
  deriving DecidableEq, Repr

/-- A `std::map<std::string, std::string>` of properties, also the `Data` of a
`TKeyValue` node. -/
abbrev Props := List (String × String)

/-- The creating container as far as `Configure` reads it. -/
structure TContainer where
  Name : String
  RootPath : String
  deriving DecidableEq, Repr

/-- Calls that leave the volume code and act on the host or on the holder
lock. -/
inductive Event
  | BackendResize (space_limit inode_limit : Nat)
  | ScopedLock
  | CheckGuarantee (space_guarantee inode_guarantee : Nat)
  | KvSave (id : String) (record : Props)
  | UmountAll (path : String)
  | RemoveAll (path : String)
  | ClearDirectory (path : String)
  | Unlink (path : String)
  | Rename (source target : String)
  | QuotaDestroy (path : String)
  | PutLoopDev (index : Int)
  | UnmapDevice (device : String)
  | CheckPlace (place : String) (init : Bool)
  | Attach (container : String) (volume : Nat)
  | Mkdir (path : String) (mode : Nat)
  | Rmdir (path : String)
  | BackendBuild
  | OpenDir (path : String)
  | BindRemount (path source : String)
  | Remount (path : String)
  | CopyRecursive (source target : String)
  | SanitizeLayer (path : String) (merge : Bool)
  | Chown (path : String) (cred : TCred)
  | Chmod (path : String) (perms : Nat)
  deriving DecidableEq, Repr

/-- The calls made so far, oldest first. -/
abbrev Trace := List Event

/-- Modelled from the spec: `TPath::operator/` is not in the sources; the
filesystem layout of the spec joins components with a slash. -/
def pathJoin (a b : String) : String := a ++ "/" ++ b

/-- Host oracles used by the volume code: configuration values, helpers of
`util/` that are not in the sources, and the results the host gives to the
calls of the code. -/
structure World where
  /-- Configuration value `config().volumes().volume_dir()`. -/
  volume_dir : String
  /-- Configuration value `config().volumes().layers_dir()`. -/
  layers_dir : String
  /-- Configuration value `config().volumes().default_place()`. -/
  default_place : String
  /-- Configuration value `config().container().chroot_porto_dir()`. -/
  chroot_porto_dir : String
  /-- Configuration value `config().volumes().enable_quota()`. -/
  enable_quota : Bool
  /-- The constant `PORTO_NAME_CHARS`. -/
  PORTO_NAME_CHARS : String
  /-- Result of `TPath::StatFS`. -/
  PathStatFS : String → Except TError TStatFS
  /-- Result of `TPath::GetDev`. -/
  GetDev : String → Nat
  /-- Result of `Backend->StatFS` for a volume. -/
  BackendStatFS : TVolume → Except TError TStatFS
  /-- Result of the tmpfs remount `TPath::Mount` with the new size. -/
  Remount : TVolume → Nat → Except TError Unit
  /-- Result of `TProjectQuota::Create` on a path with the given limits. -/
  QuotaCreate : String → Nat → Nat → Except TError Unit
  /-- Result of `TProjectQuota::Resize` on a path with the given limits. -/
  QuotaResize : String → Nat → Nat → Except TError Unit
  /-- Result of `TKeyValue::Save` for the node of the given id. -/
  KvSave : String → Props → Except TError Unit
  /-- The path `VolumesKV` of the key-value nodes of volumes. -/
  VolumesKV : String
  /-- Result of `TKeyValue::ListAll`: the paths of the nodes. -/
  KvListAll : String → Except TError (List String)
  /-- Result of `TKeyValue::Load` for the node at a path. -/
  KvLoad : String → Except TError Props
  /-- Result of `TContainerHolder::Get`: whether the name is a known
  container. -/
  ContainerGet : String → Bool
  /-- Result of `TPath::ReadDirectory`. -/
  ReadDirectory : String → Except TError (List String)
  /-- Result of `TPath::UmountAll`. -/
  UmountAll : String → Except TError Unit
  /-- Result of `TPath::RemoveAll`. -/
  RemoveAll : String → Except TError Unit
  /-- Result of `TPath::ClearDirectory`. -/
  ClearDirectory : String → Except TError Unit
  /-- Result of `TPath::Unlink`. -/
  Unlink : String → Except TError Unit
  /-- Result of `TPath::Rename`. -/
  Rename : String → String → Except TError Unit
  /-- Result of `TProjectQuota::Destroy` on a path. -/
  QuotaDestroy : String → Except TError Unit
  /-- Result of `TProjectQuota::Exists` on a path. -/
  QuotaExists : String → Bool
  /-- Result of `PutLoopDev`. -/
  PutLoopDev : Int → Except TError Unit
  /-- Result of the command `rbd unmap` run by `UnmapDevice`. -/
  UnmapDevice : String → Except TError Unit
  /-- Result of `TVolume::HaveQuota`, declared in `volume.hpp`. -/
  HaveQuota : TVolume → Bool
  /-- Result of `TVolumeQuotaBackend::Supported` once probed. -/
  QuotaSupported : Bool
  /-- Result of `TVolumeOverlayBackend::Supported` once probed. -/
  OverlaySupported : Bool
  /-- Result of `CheckPlace(place)`. -/
  CheckPlace : String → Except TError Unit
  /-- Result of `TPath::IsAbsolute`. -/
  IsAbsolute : String → Bool
  /-- Result of `TPath::IsNormal`. -/
  IsNormal : String → Bool
  /-- Result of `TPath::IsRoot`. -/
  IsRoot : String → Bool
  /-- Result of `TPath::Exists`. -/
  Exists : String → Bool
  /-- Result of `TPath::IsDirectoryStrict`. -/
  IsDirectoryStrict : String → Bool
  /-- Result of `TPath::IsDirectoryFollow`. -/
  IsDirectoryFollow : String → Bool
  /-- Result of `TPath::CanWrite`. -/
  CanWrite : String → TCred → Bool
  /-- Result of `TPath::Mkdir`. -/
  Mkdir : String → Nat → Except TError Unit
  /-- Result of `TCred::User`. -/
  User : TCred → String
  /-- Result of `TCred::Group`. -/
  Group : TCred → String
  /-- Result of `TCred::IsRootUser`. -/
  IsRootUser : TCred → Bool
  /-- Result of `TCred::IsMemberOf`. -/
  IsMemberOf : TCred → Nat → Bool
  /-- Result of `UserId(name, uid)`. -/
  UserId : String → Except TError Nat
  /-- Result of `GroupId(name, gid)`. -/
  GroupId : String → Except TError Nat
  /-- Result of `StringToOct`. -/
  StringToOct : String → Except TError Nat
  /-- Result of `StringToSize`. -/
  StringToSize : String → Except TError Nat
  /-- Result of `StringToInt`. -/
  StringToInt : String → Except TError Int
  /-- Result of `StringFormat("%#o", perms)`. -/
  FormatOct : Nat → String
  /-- Result of `SplitEscapedString(str, vec, sep)`: the vector after the call, given
  the string, the vector before the call and the separator. -/
  SplitEscapedString : String → List String → Char → List String
  /-- Result of `MergeEscapeStrings(vec, sep)`. -/
  MergeEscapeStrings : List String → Char → String

/-- The world observed after the calls of a trace. -/
abbrev Host := Trace → World

/-! ## Property keys and the property table -/

/-- Modelled from the spec: the record keys `V_*` of `volume.hpp`, which is
not in the sources, with the names of the volume record fields and of the
configurable options. -/
abbrev V_ID : String := "id"
/-- Modelled from the spec: key `path`. -/
abbrev V_PATH : String := "path"
/-- Modelled from the spec: key `auto_path`. -/
abbrev V_AUTO_PATH : String := "auto_path"
/-- Modelled from the spec: key `storage`. -/
abbrev V_STORAGE : String := "storage"
/-- Modelled from the spec: key `backend`. -/
abbrev V_BACKEND : String := "backend"
/-- Modelled from the spec: key `user`. -/
abbrev V_USER : String := "user"
/-- Modelled from the spec: key `group`. -/
abbrev V_GROUP : String := "group"
/-- Modelled from the spec: key `permissions`. -/
abbrev V_PERMISSIONS : String := "permissions"
/-- Modelled from the spec: key `creator`. -/
abbrev V_CREATOR : String := "creator"
/-- Modelled from the spec: key `ready`. -/
abbrev V_READY : String := "ready"
/-- Modelled from the spec: key `private`. -/
abbrev V_PRIVATE : String := "private"
/-- Modelled from the spec: key `containers`. -/
abbrev V_CONTAINERS : String := "containers"
/-- Modelled from the spec: key `loop_dev`. -/
abbrev V_LOOP_DEV : String := "loop_dev"
/-- Modelled from the spec: key `read_only`. -/
abbrev V_READ_ONLY : String := "read_only"
/-- Modelled from the spec: key `layers`. -/
abbrev V_LAYERS : String := "layers"
/-- Modelled from the spec: key `place`. -/
abbrev V_PLACE : String := "place"
/-- Modelled from the spec: key `space_limit`. -/
abbrev V_SPACE_LIMIT : String := "space_limit"
/-- Modelled from the spec: key `inode_limit`. -/
abbrev V_INODE_LIMIT : String := "inode_limit"
/-- Modelled from the spec: key `space_guarantee`. -/
abbrev V_SPACE_GUARANTEE : String := "space_guarantee"
/-- Modelled from the spec: key `inode_guarantee`. -/
abbrev V_INODE_GUARANTEE : String := "inode_guarantee"
/-- Modelled from the spec: key of the used space report. -/
abbrev V_SPACE_USED : String := "space_used"
/-- Modelled from the spec: key of the used inodes report. -/
abbrev V_INODE_USED : String := "inode_used"
/-- Modelled from the spec: key of the available space report. -/
abbrev V_SPACE_AVAILABLE : String := "space_available"
/-- Modelled from the spec: key of the available inodes report. -/
abbrev V_INODE_AVAILABLE : String := "inode_available"

/-- One row of the property table (`TVolumeProperty`). -/
structure TVolumeProperty where
  Name : String
  Desc : String
  ReadOnly : Bool
  deriving DecidableEq, Repr

/-- The table `VolumeProperties`. -/
def VolumeProperties : List TVolumeProperty :=
  [ ⟨V_BACKEND, "plain|tmpfs|quota|native|overlay|loop|rbd (default - autodetect)", false⟩,
    ⟨V_STORAGE, "path to data storage (default - internal)", false⟩,
    ⟨V_READY, "true|false - contruction complete (ro)", true⟩,
    ⟨V_PRIVATE, "user-defined property", false⟩,
    ⟨V_USER, "user (default - creator)", false⟩,
    ⟨V_GROUP, "group (default - creator)", false⟩,
    ⟨V_PERMISSIONS, "directory permissions (default - 0775)", false⟩,
    ⟨V_CREATOR, "container user group (ro)", true⟩,
    ⟨V_READ_ONLY, "true|false (default - false)", true⟩,
    ⟨V_LAYERS, "top-layer;...;bottom-layer - overlayfs layers", false⟩,
    ⟨V_PLACE, "place for layers and default storage (optional)", false⟩,
    ⟨V_SPACE_LIMIT, "disk space limit (dynamic, default zero - unlimited)", false⟩,
    ⟨V_INODE_LIMIT, "disk inode limit (dynamic, default zero - unlimited)", false⟩,
    ⟨V_SPACE_GUARANTEE, "disk space guarantee (dynamic, default - zero)", false⟩,
    ⟨V_INODE_GUARANTEE, "disk inode guarantee (dynamic, default - zero)", false⟩,
    ⟨V_SPACE_USED, "current disk space usage (ro)", true⟩,
    ⟨V_INODE_USED, "current disk inode used (ro)", true⟩,
    ⟨V_SPACE_AVAILABLE, "available disk space (ro)", true⟩,
    ⟨V_INODE_AVAILABLE, "available disk inodes (ro)", true⟩ ]

/-! ## Ordered maps -/

/-- Lookup `m.find(key)`: the value stored under the key, if any. -/
def mapFind {α : Type} (m : List (String × α)) (key : String) : Option α :=
  match m with
  | [] => none
  | (k, p) :: rest => if k = key then some p else mapFind rest key

/-- Order of `std::string` keys: lexicographic on the characters. -/
def strLt (a b : List Char) : Bool :=
  match a, b with
  | [], [] => false
  | [], _ :: _ => true
  | _ :: _, [] => false
  | x :: xs, y :: ys =>
    if x.toNat < y.toNat then true
    else if y.toNat < x.toNat then false
    else strLt xs ys

/-- Assignment `m[key] = value`: replace the value of an existing key or
insert the key at its place in key order. -/
def mapSet {α : Type} (m : List (String × α)) (key : String) (p : α) :
    List (String × α) :=
  match m with
  | [] => [(key, p)]
  | (k, q) :: rest =>
    if k = key then (k, p) :: rest
    else if strLt key.data k.data then (key, p) :: (k, q) :: rest
    else (k, q) :: mapSet rest key p

/-- Removal `m.erase(key)`: removes every element stored under the key. -/
def mapErase {α : Type} (m : List (String × α)) (key : String) :
    List (String × α) :=
  match m with
  | [] => []
  | (k, q) :: rest =>
    if k = key then mapErase rest key else (k, q) :: mapErase rest key

/-- Membership test `m.count(key)` read as a boolean. -/
def mapCount {α : Type} (m : List (String × α)) (key : String) : Bool :=
  (mapFind m key).isSome

/-- Access `m.at(key)` for a key that is present; the empty string stands for
the exception thrown on a missing key. -/
def mapAt (m : Props) (key : String) : String :=
  (mapFind m key).getD ""

/-! ## TVolume accessors -/

/-- Path `/place/porto_volumes/<id>/<type>` of `TVolume::GetInternal`. -/
def TVolume.GetInternal (w : World) (v : TVolume) (type : String) : String :=
  pathJoin (pathJoin (pathJoin v.Place w.volume_dir) v.Id) type

/-- Path `/chroot/porto/<type>_<id>` of `TVolume::GetChrootInternal`; the
empty path when the porto directory cannot be made. -/
def TVolume.GetChrootInternal (w : World) (v : TVolume) (container_root type : String) :
    String :=
  let porto_path := pathJoin container_root w.chroot_porto_dir
  if !w.Exists porto_path && failed (w.Mkdir porto_path 0o755) then ""
  else pathJoin porto_path (type ++ "_" ++ v.Id)

/-- Getter `TVolume::GetPath`. -/
def TVolume.GetPath (v : TVolume) : String := v.Path

/-- Getter `TVolume::GetStorage`. -/
def TVolume.GetStorage (w : World) (v : TVolume) : String :=
  if !v.IsAutoStorage then v.StoragePath else v.GetInternal w v.BackendType

/-- Member `TVolume::StatFS`: delegates to the backend. -/
def TVolume.StatFS (w : World) (v : TVolume) : Except TError TStatFS :=
  w.BackendStatFS v

/-- Static `TVolumeNativeBackend::Supported`. -/
def TVolumeNativeBackend.Supported (w : World) : Bool := w.QuotaSupported

/-- Static `TVolumeOverlayBackend::Supported`. -/
def TVolumeOverlayBackend.Supported (w : World) : Bool := w.OverlaySupported

/-! ## TVolumeHolder registry -/

/-- Member `TVolumeHolder::Register`: the holder after the call and the
returned error. -/
def TVolumeHolder.Register (heap : Heap) (h : TVolumeHolder) (volume : VolumePtr) :
    TVolumeHolder × Except TError Unit :=
  if mapFind h.Volumes (heap volume).GetPath = none then
    ({ h with Volumes := mapSet h.Volumes (heap volume).GetPath volume }, .ok ())
  else
    (h, .error ⟨.VolumeAlreadyExists, "Volume already exists"⟩)

/-- Member `TVolumeHolder::Unregister`. -/
def TVolumeHolder.Unregister (heap : Heap) (h : TVolumeHolder) (volume : VolumePtr) :
    TVolumeHolder :=
  { h with Volumes := mapErase h.Volumes (heap volume).GetPath }

/-- Member `TVolumeHolder::Find`: `none` is `nullptr`. -/
def TVolumeHolder.Find (h : TVolumeHolder) (path : String) : Option VolumePtr :=
  mapFind h.Volumes path

/-- Member `TVolumeHolder::ListPaths`. -/
def TVolumeHolder.ListPaths (h : TVolumeHolder) : List String :=
  h.Volumes.map Prod.fst
/-! ## Guarantee check -/

/-- Accumulators of the loop in `TVolume::CheckGuarantee`. -/
structure Claimed where
  space_claimed : Nat
  space_guaranteed : Nat
  inode_claimed : Nat
  inode_guaranteed : Nat
  deriving DecidableEq, Repr

/-- One iteration of the loop over `holder.ListPaths()` in
`TVolume::CheckGuarantee`. -/
def CheckGuarantee.step (w : World) (heap : Heap) (holder : TVolumeHolder)
    (self : TVolume) (this : VolumePtr) (storage : String)
    (acc : Claimed) (path : String) : Claimed :=
  match holder.Find path with
  | none => acc
  | some volume =>
    if volume = this ∨ w.GetDev ((heap volume).GetStorage w) ≠ w.GetDev storage then acc
    else
      let volume_backend := (heap volume).BackendType
      if volume_backend = "rbd" ∨ volume_backend = "plain" then acc
      else
        let volume_space_guarantee := self.SpaceGuarantee
        let volume_inode_guarantee := self.InodeGuarantee
        if volume_space_guarantee = 0 ∧ volume_inode_guarantee = 0 then acc
        else
          let stat : TStatFS :=
            if !(heap volume).IsReady then TStatFS.Reset
            else match (heap volume).StatFS w with
              | .ok s => s
              | .error _ => TStatFS.Reset
          let space_guaranteed := u64 (acc.space_guaranteed + volume_space_guarantee)
          let space_claimed :=
            if stat.SpaceUsage < volume_space_guarantee then
              u64 (acc.space_claimed + stat.SpaceUsage)
            else u64 (acc.space_claimed + volume_space_guarantee)
          if volume_backend ≠ "loop" then
            { space_claimed := space_claimed
              space_guaranteed := space_guaranteed
              inode_guaranteed := u64 (acc.inode_guaranteed + volume_inode_guarantee)
              inode_claimed :=
                if stat.InodeUsage < volume_inode_guarantee then
                  u64 (acc.inode_claimed + stat.InodeUsage)
                else u64 (acc.inode_claimed + volume_inode_guarantee) }
          else
            { acc with space_claimed := space_claimed, space_guaranteed := space_guaranteed }

/-- Member `TVolume::CheckGuarantee`. -/
def TVolume.CheckGuarantee (self : TVolume) (w : World) (heap : Heap)
    (holder : TVolumeHolder) (this : VolumePtr)
    (space_guarantee inode_guarantee : Nat) : Except TError Unit :=
  let backend := self.BackendType
  if backend = "rbd" ∨ backend = "tmpfs" then .ok ()
  else if space_guarantee = 0 ∧ inode_guarantee = 0 then .ok ()
  else
    let storage :=
      if self.IsAutoStorage then pathJoin self.Place w.volume_dir else self.GetStorage w
    match w.PathStatFS storage with
    | .error e => .error e
    | .ok total =>
      let current : TStatFS :=
        if !self.IsReady then TStatFS.Reset
        else match self.StatFS w with
          | .ok s => s
          | .error _ => TStatFS.Reset
      if u64 (total.SpaceAvail + current.SpaceUsage) < space_guarantee then
        .error ⟨.NoSpace, "Not enough space for volume guarantee: " ++
          toString total.SpaceAvail ++ " available " ++
          toString current.SpaceUsage ++ " used"⟩
      else if u64 (total.InodeAvail + current.InodeUsage) < inode_guarantee ∧
          backend ≠ "loop" then
        .error ⟨.NoSpace, "Not enough inodes for volume guarantee: " ++
          toString total.InodeAvail ++ " available " ++
          toString current.InodeUsage ++ " used"⟩
      else
        let acc := holder.ListPaths.foldl
          (CheckGuarantee.step w heap holder self this storage) ⟨0, 0, 0, 0⟩
        if u64 (u64 (total.SpaceAvail + current.SpaceUsage) + acc.space_claimed) <
            u64 (space_guarantee + acc.space_guaranteed) then
          .error ⟨.NoSpace, "Not enough space for volume guarantee: " ++
            toString total.SpaceAvail ++ " available " ++
            toString current.SpaceUsage ++ " used " ++
            toString acc.space_claimed ++ " claimed " ++
            toString acc.space_guaranteed ++ " guaranteed"⟩
        else if backend ≠ "loop" ∧
            u64 (u64 (total.InodeAvail + current.InodeUsage) + acc.inode_claimed) <
            u64 (inode_guarantee + acc.inode_guaranteed) then
          .error ⟨.NoSpace, "Not enough inodes for volume guarantee: " ++
            toString total.InodeAvail ++ " available " ++
            toString current.InodeUsage ++ " used " ++
            toString acc.inode_claimed ++ " claimed " ++
            toString acc.inode_guaranteed ++ " guaranteed"⟩
        else .ok ()

/-! ## Layer names -/

/-- Position of the first character of `name` that is not in `chars`
(`std::string::find_first_not_of`); `none` is `npos`. -/
def find_first_not_of (name : List Char) (chars : List Char) : Option Nat :=
  match name with
  | [] => none
  | c :: rest =>
    if c ∈ chars then (find_first_not_of rest chars).map (· + 1) else some 0

/-- The substring `s.substr(pos, len)`. -/
def substr (s : String) (pos len : Nat) : String :=
  String.mk ((s.data.drop pos).take len)

/-- Function `ValidateLayerName`. -/
def ValidateLayerName (w : World) (name : String) : Except TError Unit :=
  match find_first_not_of name.data w.PORTO_NAME_CHARS.data with
  | some pos =>
    .error ⟨.InvalidValue,
      "forbidden character '" ++ substr name pos 1 ++ "' in layer name"⟩
  | none =>
    if name = "." ∨ name = ".." ∨ name = "_tmp_" then
      .error ⟨.InvalidValue, "invalid layer name '" ++ name ++ "'"⟩
    else .ok ()

/-! ## Properties, persistence -/

/-- Body of the loop of `TVolume::SetProperty` for one property. -/
def TVolume.SetProperty.step (w : World) (v : TVolume) (prop : String × String) :
    TVolume × Except TError Unit :=
  if prop.1 = V_PATH then ({ v with Path := prop.2 }, .ok ())
  else if prop.1 = V_AUTO_PATH then
    if prop.2 = "true" then ({ v with IsAutoPath := true }, .ok ())
    else if prop.2 = "false" then ({ v with IsAutoPath := false }, .ok ())
    else (v, .error ⟨.InvalidValue, "Invalid bool value"⟩)
  else if prop.1 = V_STORAGE then ({ v with StoragePath := prop.2 }, .ok ())
  else if prop.1 = V_BACKEND then ({ v with BackendType := prop.2 }, .ok ())
  else if prop.1 = V_USER then
    match w.UserId prop.2 with
    | .error e => (v, .error e)
    | .ok uid => ({ v with VolumeOwner := { v.VolumeOwner with Uid := uid } }, .ok ())
  else if prop.1 = V_GROUP then
    match w.GroupId prop.2 with
    | .error e => (v, .error e)
    | .ok gid => ({ v with VolumeOwner := { v.VolumeOwner with Gid := gid } }, .ok ())
  else if prop.1 = V_PERMISSIONS then
    match w.StringToOct prop.2 with
    | .error e => (v, .error e)
    | .ok perms => ({ v with VolumePerms := perms }, .ok ())
  else if prop.1 = V_CREATOR then ({ v with Creator := prop.2 }, .ok ())
  else if prop.1 = V_ID then ({ v with Id := prop.2 }, .ok ())
  else if prop.1 = V_READY then
    if prop.2 = "true" then ({ v with IsReady := true }, .ok ())
    else if prop.2 = "false" then ({ v with IsReady := false }, .ok ())
    else (v, .error ⟨.InvalidValue, "Invalid bool value"⟩)
  else if prop.1 = V_PRIVATE then ({ v with Private := prop.2 }, .ok ())
  else if prop.1 = V_CONTAINERS then
    ({ v with Containers := w.SplitEscapedString prop.2 v.Containers ';' }, .ok ())
  else if prop.1 = V_LOOP_DEV then
    match w.StringToInt prop.2 with
    | .error e => (v, .error e)
    | .ok dev => ({ v with LoopDev := dev }, .ok ())
  else if prop.1 = V_READ_ONLY then
    if prop.2 = "true" then ({ v with IsReadOnly := true }, .ok ())
    else if prop.2 = "false" then ({ v with IsReadOnly := false }, .ok ())
    else (v, .error ⟨.InvalidValue, "Invalid bool value"⟩)
  else if prop.1 = V_LAYERS then
    ({ v with Layers := w.SplitEscapedString prop.2 v.Layers ';', IsLayersSet := true },
      .ok ())
  else if prop.1 = V_SPACE_LIMIT then
    match w.StringToSize prop.2 with
    | .error e => (v, .error e)
    | .ok limit => ({ v with SpaceLimit := limit }, .ok ())
  else if prop.1 = V_SPACE_GUARANTEE then
    match w.StringToSize prop.2 with
    | .error e => (v, .error e)
    | .ok guarantee => ({ v with SpaceGuarantee := guarantee }, .ok ())
  else if prop.1 = V_INODE_LIMIT then
    match w.StringToSize prop.2 with
    | .error e => (v, .error e)
    | .ok limit => ({ v with InodeLimit := limit }, .ok ())
  else if prop.1 = V_INODE_GUARANTEE then
    match w.StringToSize prop.2 with
    | .error e => (v, .error e)
    | .ok guarantee => ({ v with InodeGuarantee := guarantee }, .ok ())
  else if prop.1 = V_PLACE then ({ v with Place := prop.2, CustomPlace := true }, .ok ())
  else (v, .error ⟨.InvalidValue, "Invalid value name: " ++ prop.1⟩)

/-- Member `TVolume::SetProperty`: applies the properties in key order and
stops at the first error, keeping what was applied before it. -/
def TVolume.SetProperty (w : World) (v : TVolume) (properties : Props) :
    TVolume × Except TError Unit :=
  match properties with
  | [] => (v, .ok ())
  | prop :: rest =>
    match TVolume.SetProperty.step w v prop with
    | (v1, .ok _) => TVolume.SetProperty w v1 rest
    | (v1, .error e) => (v1, .error e)

/-- Rendering of a boolean as `"true"` or `"false"`. -/
def boolString (b : Bool) : String := if b then "true" else "false"

/-- Rendering `std::to_string` of an unsigned or signed integer. -/
def to_string (n : Int) : String := toString n

/-- The `node.Set` calls of `TVolume::Save`: the data of the node that is
written. -/
def TVolume.SaveRecord (w : World) (v : TVolume) : Props :=
  let node : Props := []
  let node := mapSet node V_ID v.Id
  let node := mapSet node V_PATH v.Path
  let node := mapSet node V_AUTO_PATH (boolString v.IsAutoPath)
  let node := mapSet node V_STORAGE v.StoragePath
  let node := mapSet node V_BACKEND v.BackendType
  let node := mapSet node V_USER (w.User v.VolumeOwner)
  let node := mapSet node V_GROUP (w.Group v.VolumeOwner)
  let node := mapSet node V_PERMISSIONS (w.FormatOct v.VolumePerms)
  let node := mapSet node V_CREATOR v.Creator
  let node := mapSet node V_READY (boolString v.IsReady)
  let node := mapSet node V_PRIVATE v.Private
  let node := mapSet node V_CONTAINERS (w.MergeEscapeStrings v.Containers ';')
  let node := mapSet node V_LOOP_DEV (to_string v.LoopDev)
  let node := mapSet node V_READ_ONLY (boolString v.IsReadOnly)
  let node := mapSet node V_LAYERS (w.MergeEscapeStrings v.Layers ';')
  let node := mapSet node V_SPACE_LIMIT (to_string v.SpaceLimit)
  let node := mapSet node V_SPACE_GUARANTEE (to_string v.SpaceGuarantee)
  let node := mapSet node V_INODE_LIMIT (to_string v.InodeLimit)
  let node := mapSet node V_INODE_GUARANTEE (to_string v.InodeGuarantee)
  if v.CustomPlace then mapSet node V_PLACE v.Place else node

/-- Member `TVolume::Save`: the trace after the call and the result of
`node.Save()`. -/
def TVolume.Save (host : Host) (v : TVolume) (tr : Trace) : Trace × Except TError Unit :=
  (tr ++ [Event.KvSave v.Id (v.SaveRecord (host tr))],
    (host tr).KvSave v.Id (v.SaveRecord (host tr)))

/-- Member `TVolume::OpenBackend`. -/
def TVolume.OpenBackend (v : TVolume) : TVolume × Except TError Unit :=
  if v.BackendType = "plain" ∨ v.BackendType = "tmpfs" ∨ v.BackendType = "quota" ∨
      v.BackendType = "native" ∨ v.BackendType = "overlay" ∨ v.BackendType = "loop" ∨
      v.BackendType = "rbd" then
    ({ v with Backend := some ⟨v.BackendType, -1⟩ }, .ok ())
  else (v, .error ⟨.InvalidValue, "Unknown volume backend: " ++ v.BackendType⟩)

/-- Virtual `Backend->Restore()`: the loop and rbd backends take the device
index from the volume, the other backends do nothing. -/
def TVolume.BackendRestore (v : TVolume) : TVolume × Except TError Unit :=
  match v.Backend with
  | none => (v, .ok ())
  | some b =>
    if b.Kind = "loop" ∨ b.Kind = "rbd" then
      ({ v with Backend := some { b with DeviceIndex := v.LoopDev } }, .ok ())
    else (v, .ok ())

/-- Member `TVolume::Restore` on the data of a loaded node. -/
def TVolume.Restore (w : World) (v : TVolume) (node : Props) :
    TVolume × Except TError Unit :=
  if !mapCount node V_ID then (v, .error ⟨.InvalidValue, "No volume id stored"⟩)
  else
    let v := { v with Place := w.default_place, CustomPlace := false }
    match v.SetProperty w node with
    | (v, .error e) => (v, .error e)
    | (v, .ok _) =>
      if !v.IsReady then (v, .error ⟨.Busy, "Volume not ready"⟩)
      else
        match v.OpenBackend with
        | (v, .error e) => (v, .error e)
        | (v, .ok _) => v.BackendRestore

/-! ## Backends -/

/-- Virtual `Backend->Configure()` of the backend classes. -/
def TVolume.BackendConfigure (w : World) (v : TVolume) : Except TError Unit :=
  match v.Backend with
  | none => .ok ()
  | some b =>
    if b.Kind = "plain" then
      if w.HaveQuota v then
        .error ⟨.NotSupported, "Plain backend have no support of quota"⟩
      else .ok ()
    else if b.Kind = "tmpfs" then
      if !w.HaveQuota v then
        .error ⟨.NotSupported, "tmpfs backend requires space_limit"⟩
      else if !v.IsAutoStorage then
        .error ⟨.NotSupported, "tmpfs backed doesn't support storage"⟩
      else .ok ()
    else if b.Kind = "quota" then
      if v.IsAutoPath then .error ⟨.NotSupported, "Quota backend requires path"⟩
      else if !w.HaveQuota v then
        .error ⟨.NotSupported, "Quota backend requires space_limit"⟩
      else if v.IsReadOnly then
        .error ⟨.NotSupported, "Quota backed doesn't support read_only"⟩
      else if !v.IsAutoStorage then
        .error ⟨.NotSupported, "Quota backed doesn't support storage"⟩
      else if v.IsLayersSet then
        .error ⟨.NotSupported, "Quota backed doesn't support layers"⟩
      else .ok ()
    else if b.Kind = "native" then
      if !w.enable_quota && w.HaveQuota v then
        .error ⟨.NotSupported, "project quota is disabled"⟩
      else .ok ()
    else if b.Kind = "overlay" then
      if !TVolumeOverlayBackend.Supported w then
        .error ⟨.InvalidValue, "overlay not supported"⟩
      else if !w.enable_quota && w.HaveQuota v then
        .error ⟨.NotSupported, "project quota is disabled"⟩
      else .ok ()
    else .ok ()

/-- Virtual `Backend->Resize(space_limit, inode_limit)` of the backend
classes. -/
def TVolume.BackendResize (w : World) (v : TVolume) (space_limit inode_limit : Nat) :
    Except TError Unit :=
  match v.Backend with
  | none => .error ⟨.NotSupported, "not implemented"⟩
  | some b =>
    if b.Kind = "tmpfs" then w.Remount v space_limit
    else if b.Kind = "quota" then w.QuotaResize v.GetPath space_limit inode_limit
    else if b.Kind = "native" ∨ b.Kind = "overlay" then
      if !w.HaveQuota v then w.QuotaCreate (v.GetStorage w) space_limit inode_limit
      else w.QuotaResize (v.GetStorage w) space_limit inode_limit
    else if b.Kind = "loop" then
      .error ⟨.NotSupported, "loop backend doesn't suppport resize"⟩
    else if b.Kind = "rbd" then
      .error ⟨.NotSupported, "rbd backend doesn't suppport resize"⟩
    else .error ⟨.NotSupported, "not implemented"⟩

/-! ## Configure -/

/-- Run the next step of a member function only if the previous one
succeeded; an error is returned with the fields as they are then. -/
def andThen (r : TVolume × Except TError Unit)
    (k : TVolume → TVolume × Except TError Unit) : TVolume × Except TError Unit :=
  match r with
  | (v, .ok _) => k v
  | (v, .error e) => (v, .error e)

/-- Block "Verify properties" of `TVolume::Configure`. -/
def Configure.verifyProperties (properties : Props) : Except TError Unit :=
  match properties with
  | [] => .ok ()
  | pair :: rest =>
    match VolumeProperties.find? (fun p => p.Name = pair.1) with
    | none => .error ⟨.InvalidProperty, "Unknown: " ++ pair.1⟩
    | some prop =>
      if prop.ReadOnly then .error ⟨.InvalidProperty, "Read-only: " ++ pair.1⟩
      else Configure.verifyProperties rest

/-- Block "Verify place" of `TVolume::Configure`. -/
def Configure.verifyPlace (w : World) (v : TVolume) (properties : Props) :
    TVolume × Except TError Unit :=
  if mapCount properties V_PLACE then
    let v := { v with Place := mapAt properties V_PLACE }
    match w.CheckPlace v.Place with
    | .error e => (v, .error e)
    | .ok _ => ({ v with CustomPlace := true }, .ok ())
  else ({ v with Place := w.default_place, CustomPlace := false }, .ok ())

/-- Block "Verify volume path" of `TVolume::Configure`. -/
def Configure.verifyPath (w : World) (v : TVolume) (path : String) (creator_cred : TCred)
    (container_root : String) : TVolume × Except TError Unit :=
  if path ≠ "" then
    if !w.IsAbsolute path then
      (v, .error ⟨.InvalidValue, "Volume path must be absolute"⟩)
    else if !w.IsNormal path then
      (v, .error ⟨.InvalidValue, "Volume path must be normalized"⟩)
    else if !w.Exists path then
      (v, .error ⟨.InvalidValue, "Volume path does not exist"⟩)
    else if !w.IsDirectoryStrict path then
      (v, .error ⟨.InvalidValue, "Volume path must be a directory"⟩)
    else if !w.CanWrite path creator_cred then
      (v, .error ⟨.Permission, "Volume path usage not permitted"⟩)
    else ({ v with Path := path }, .ok ())
  else
    let volume_path :=
      if w.IsRoot container_root then v.GetInternal w "volume"
      else v.GetChrootInternal w container_root "volume"
    if volume_path = "" then
      (v, .error ⟨.InvalidValue, "Cannot choose automatic volume path"⟩)
    else ({ v with Path := volume_path, IsAutoPath := true }, .ok ())

/-- Block "Verify storage path" of `TVolume::Configure`. -/
def Configure.verifyStorage (w : World) (v : TVolume) (backend : String)
    (properties : Props) (creator_cred : TCred) : TVolume × Except TError Unit :=
  if backend ≠ "rbd" ∧ backend ≠ "tmpfs" ∧ mapCount properties V_STORAGE then
    let storage := mapAt properties V_STORAGE
    if !w.IsAbsolute storage then
      (v, .error ⟨.InvalidValue, "Storage path must be absolute"⟩)
    else if !w.IsNormal storage then
      (v, .error ⟨.InvalidValue, "Storage path must be normalized"⟩)
    else if !w.Exists storage then
      (v, .error ⟨.InvalidValue, "Storage path does not exist"⟩)
    else if !w.IsDirectoryFollow storage then
      (v, .error ⟨.InvalidValue, "Storage path must be a directory"⟩)
    else if !w.CanWrite storage creator_cred then
      (v, .error ⟨.Permission, "Storage path usage not permitted"⟩)
    else ({ v with IsAutoStorage := false }, .ok ())
  else (v, .ok ())

/-- Blocks "Save original creator" and "Set default credentials to creator"
of `TVolume::Configure`. -/
def Configure.setCreator (w : World) (v : TVolume) (creator_cred : TCred)
    (creator_container : TContainer) : TVolume :=
  { v with
    Creator := creator_container.Name ++ " " ++ w.User creator_cred ++ " " ++
      w.Group creator_cred
    CreatorCred := creator_cred
    CreatorRoot := creator_container.RootPath
    VolumeOwner := creator_cred }

/-- Block "Verify default credentials" of `TVolume::Configure`. -/
def Configure.verifyCredentials (w : World) (v : TVolume) (creator_cred : TCred) :
    TVolume × Except TError Unit :=
  if v.VolumeOwner.Uid ≠ creator_cred.Uid ∧ !w.IsRootUser creator_cred then
    (v, .error ⟨.Permission, "Changing user is not permitted"⟩)
  else if v.VolumeOwner.Gid ≠ creator_cred.Gid ∧ !w.IsRootUser creator_cred ∧
      !w.IsMemberOf creator_cred v.VolumeOwner.Gid then
    (v, .error ⟨.Permission, "Changing group is not permitted"⟩)
  else (v, .ok ())

/-- Loop of the block "Verify and resolve layers": the layers with the
absolute ones visited so far resolved under the container root, and the
first error. -/
def Configure.verifyLayersLoop (w : World) (place : String) (creator_cred : TCred)
    (container_root : String) (layers : List String) : List String × Except TError Unit :=
  match layers with
  | [] => ([], .ok ())
  | l :: rest =>
    if !w.IsNormal l then
      (l :: rest, .error ⟨.InvalidValue, "Layer path must be normalized"⟩)
    else
      let resolved : String × Except TError String :=
        if w.IsAbsolute l then
          let layer := pathJoin container_root l
          if !w.Exists layer then (layer, .error ⟨.LayerNotFound, "Layer not found"⟩)
          else if !w.CanWrite layer creator_cred then
            (layer, .error ⟨.Permission, "Layer path not permitted: " ++ layer⟩)
          else (layer, .ok layer)
        else
          match ValidateLayerName w l with
          | .error e => (l, .error e)
          | .ok _ => (l, .ok (pathJoin (pathJoin place w.layers_dir) l))
      match resolved with
      | (l, .error e) => (l :: rest, .error e)
      | (l, .ok layer) =>
        if !w.Exists layer then
          (l :: rest, .error ⟨.LayerNotFound, "Layer not found"⟩)
        else if !w.IsDirectoryFollow layer then
          (l :: rest, .error ⟨.InvalidValue, "Layer must be a directory"⟩)
        else
          match Configure.verifyLayersLoop w place creator_cred container_root rest with
          | (rest, r) => (l :: rest, r)

/-- Block "Verify and resolve layers" of `TVolume::Configure`. -/
def Configure.verifyLayers (w : World) (v : TVolume) (creator_cred : TCred)
    (container_root : String) : TVolume × Except TError Unit :=
  if v.IsLayersSet then
    match Configure.verifyLayersLoop w v.Place creator_cred container_root v.Layers with
    | (layers, r) => ({ v with Layers := layers }, r)
  else (v, .ok ())

/-- Block "Verify guarantees" of `TVolume::Configure`. -/
def Configure.verifyGuarantees (v : TVolume) (properties : Props) :
    TVolume × Except TError Unit :=
  if mapCount properties V_SPACE_LIMIT ∧ mapCount properties V_SPACE_GUARANTEE ∧
      v.SpaceLimit < v.SpaceGuarantee then
    (v, .error ⟨.InvalidValue, "Space guarantree bigger than limit"⟩)
  else if mapCount properties V_INODE_LIMIT ∧ mapCount properties V_INODE_GUARANTEE ∧
      v.InodeLimit < v.InodeGuarantee then
    (v, .error ⟨.InvalidValue, "Inode guarantree bigger than limit"⟩)
  else (v, .ok ())

/-- Block "Autodetect volume backend" of `TVolume::Configure`. -/
def Configure.autodetect (w : World) (v : TVolume) (properties : Props) : TVolume :=
  if !mapCount properties V_BACKEND then
    if w.HaveQuota v && !TVolumeNativeBackend.Supported w then
      { v with BackendType := "loop" }
    else if v.IsLayersSet && TVolumeOverlayBackend.Supported w then
      { v with BackendType := "overlay" }
    else if TVolumeNativeBackend.Supported w then
      { v with BackendType := "native" }
    else { v with BackendType := "plain" }
  else v

/-- Member `TVolume::Configure`. -/
def TVolume.Configure (w : World) (heap : Heap) (holder : TVolumeHolder)
    (self : TVolume) (this : VolumePtr) (path : String) (creator_cred : TCred)
    (creator_container : TContainer) (properties : Props) :
    TVolume × Except TError Unit :=
  let backend := if mapCount properties V_BACKEND then mapAt properties V_BACKEND else ""
  let container_root := creator_container.RootPath
  match Configure.verifyProperties properties with
  | .error e => (self, .error e)
  | .ok _ =>
    andThen (Configure.verifyPlace w self properties) fun v =>
    andThen (Configure.verifyPath w v path creator_cred container_root) fun v =>
    andThen (Configure.verifyStorage w v backend properties creator_cred) fun v =>
    andThen ((Configure.setCreator w v creator_cred creator_container).SetProperty w
      properties) fun v =>
    andThen (Configure.verifyCredentials w v creator_cred) fun v =>
    andThen (Configure.verifyLayers w v creator_cred container_root) fun v =>
    andThen (Configure.verifyGuarantees v properties) fun v =>
    andThen (Configure.autodetect w v properties).OpenBackend fun v =>
    match v.BackendConfigure w with
    | .error e => (v, .error e)
    | .ok _ =>
      (v, v.CheckGuarantee w heap holder this v.SpaceGuarantee v.InodeGuarantee)

/-! ## Tune -/

/-- Member `TVolume::Resize`: the fields and the trace after the call, and
the returned error. -/
def TVolume.Resize (host : Host) (self : TVolume) (space_limit inode_limit : Nat)
    (tr : Trace) : TVolume × Trace × Except TError Unit :=
  let tr1 := tr ++ [Event.BackendResize space_limit inode_limit]
  match self.BackendResize (host tr) space_limit inode_limit with
  | .error e => (self, tr1, .error e)
  | .ok _ =>
    let v := { self with SpaceLimit := space_limit, InodeLimit := inode_limit }
    (v, v.Save host tr1)

/-- The test of the first loop of `TVolume::Tune`: the property is none of
the four that can be changed. -/
def Tune.cannotChange (p : String × String) : Bool :=
  p.1 ≠ V_INODE_LIMIT ∧ p.1 ≠ V_INODE_GUARANTEE ∧
  p.1 ≠ V_SPACE_LIMIT ∧ p.1 ≠ V_SPACE_GUARANTEE

/-- The block of `TVolume::Tune` for the limits.  An error here is an early
return; the error of `Resize` itself is stored and not tested. -/
def Tune.limits (host : Host) (self : TVolume) (properties : Props) (tr : Trace) :
    TVolume × Trace × Except TError Unit :=
  if mapCount properties V_SPACE_LIMIT || mapCount properties V_INODE_LIMIT then
    let spaceLimit : Except TError Nat :=
      if mapCount properties V_SPACE_LIMIT then
        (host tr).StringToSize (mapAt properties V_SPACE_LIMIT)
      else .ok self.SpaceLimit
    match spaceLimit with
    | .error e => (self, tr, .error e)
    | .ok spaceLimit =>
      let inodeLimit : Except TError Nat :=
        if mapCount properties V_INODE_LIMIT then
          (host tr).StringToSize (mapAt properties V_INODE_LIMIT)
        else .ok self.InodeLimit
      match inodeLimit with
      | .error e => (self, tr, .error e)
      | .ok inodeLimit =>
        match self.Resize host spaceLimit inodeLimit tr with
        | (v, tr, _) => (v, tr, .ok ())
  else (self, tr, .ok ())

/-- The block of `TVolume::Tune` for the guarantees. -/
def Tune.guarantees (host : Host) (heap : Heap) (holder : TVolumeHolder)
    (self : TVolume) (this : VolumePtr) (properties : Props) (tr : Trace) :
    TVolume × Trace × Except TError Unit :=
  if mapCount properties V_SPACE_GUARANTEE || mapCount properties V_INODE_GUARANTEE then
    let space_guarantee : Except TError Nat :=
      if mapCount properties V_SPACE_GUARANTEE then
        (host tr).StringToSize (mapAt properties V_SPACE_GUARANTEE)
      else .ok self.SpaceGuarantee
    match space_guarantee with
    | .error e => (self, tr, .error e)
    | .ok space_guarantee =>
      let inode_guarantee : Except TError Nat :=
        if mapCount properties V_INODE_GUARANTEE then
          (host tr).StringToSize (mapAt properties V_INODE_GUARANTEE)
        else .ok self.InodeGuarantee
      match inode_guarantee with
      | .error e => (self, tr, .error e)
      | .ok inode_guarantee =>
        let tr1 := tr ++ [Event.ScopedLock,
          Event.CheckGuarantee space_guarantee inode_guarantee]
        match self.CheckGuarantee (host tr) heap holder this space_guarantee
            inode_guarantee with
        | .error e => (self, tr1, .error e)
        | .ok _ =>
          ({ self with SpaceGuarantee := space_guarantee,
                       InodeGuarantee := inode_guarantee }, tr1, .ok ())
  else (self, tr, .ok ())

/-- Member `TVolume::Tune`: the fields and the trace after the call, and the
returned error. -/
def TVolume.Tune (host : Host) (heap : Heap) (holder : TVolumeHolder)
    (self : TVolume) (this : VolumePtr) (properties : Props) (tr : Trace) :
    TVolume × Trace × Except TError Unit :=
  match properties.find? Tune.cannotChange with
  | some p =>
    (self, tr, .error ⟨.InvalidProperty,
      "Volume property " ++ p.1 ++ " cannot be changed"⟩)
  | none =>
    match Tune.limits host self properties tr with
    | (v, tr, .error e) => (v, tr, .error e)
    | (v, tr, .ok _) =>
      match Tune.guarantees host heap holder v this properties tr with
      | (v, tr, .error e) => (v, tr, .error e)
      | (v, tr, .ok _) => (v, v.Save host tr)

/-! ## Allocation of ids -/

/-- Modelled from the spec: the member initialisers of `TVolume` in
`volume.hpp`, which is not in the sources: no path, automatic storage,
permissions 0775, not ready, no containers, no device, not read-only, no
layers, no limits and no guarantees. -/
def TVolume.fresh : TVolume :=
  { Id := ""
    Path := ""
    IsAutoPath := false
    StoragePath := ""
    IsAutoStorage := true
    BackendType := ""
    Backend := none
    VolumeOwner := ⟨0, 0⟩
    VolumePerms := 0o775
    Creator := ""
    CreatorCred := ⟨0, 0⟩
    CreatorRoot := ""
    IsReady := false
    Private := ""
    Containers := []
    LoopDev := -1
    IsReadOnly := false
    Layers := []
    IsLayersSet := false
    Place := ""
    CustomPlace := false
    SpaceLimit := 0
    SpaceGuarantee := 0
    InodeLimit := 0
    InodeGuarantee := 0 }

/-- Member `TVolumeHolder::Create`: the holder after the call and the fields
of the volume made by `std::make_shared<TVolume>()`. -/
def TVolumeHolder.Create (h : TVolumeHolder) : TVolumeHolder × TVolume :=
  ({ h with NextId := u64 (h.NextId + 1) }, { TVolume.fresh with Id := to_string h.NextId })

/-! ## Parsing of ids -/

/-- The test `isspace` of the C locale. -/
def isspace (c : Char) : Bool :=
  c = ' ' || c = '\t' || c = '\n' || c = '\x0b' || c = '\x0c' || c = '\r'

/-- Value of a run of decimal digits. -/
def digitsValue (cs : List Char) : Nat :=
  cs.foldl (fun n c => 10 * n + (c.toNat - 48)) 0

/-- The library call `std::stoull(string)`: blanks are skipped, a sign is
accepted, the longest run of digits is converted and what follows is
ignored; `none` stands for the exceptions thrown when there is no digit or
the value does not fit 64 bits.  A minus sign negates modulo `2^64`. -/
def stoull (s : String) : Option Nat :=
  let cs := s.data.dropWhile isspace
  let signed : Bool × List Char :=
    match cs with
    | '-' :: rest => (true, rest)
    | '+' :: rest => (false, rest)
    | rest => (false, rest)
  let digits := signed.2.takeWhile Char.isDigit
  if digits = [] then none
  else if 2 ^ 64 ≤ digitsValue digits then none
  else some (if signed.1 then u64 (2 ^ 64 - digitsValue digits) else digitsValue digits)

/-- Function `StringToUint64` of `stringutil.cpp`. -/
def StringToUint64 (string : String) : Except TError Nat :=
  match stoull string with
  | some value => .ok value
  | none => .error ⟨.Unknown, "Bad integer value"⟩

/-! ## Destroy, layers, container links -/

/-- Keep the first error: `if (error && !ret) ret = error`. -/
def firstError (ret error : Except TError Unit) : Except TError Unit :=
  match ret with
  | .error e => .error e
  | .ok _ => error

/-- Modelled from the spec: `StringStartsWith` of `util/string.hpp`, which is
not in the sources: the string begins with the prefix. -/
def StringStartsWith (s pre : String) : Bool := pre.data.isPrefixOf s.data

/-- Member `TVolumeHolder::LayerInUse`. -/
def TVolumeHolder.LayerInUse (heap : Heap) (h : TVolumeHolder) (name place : String) :
    Bool :=
  h.Volumes.any fun volume =>
    (heap volume.2).Place = place && (heap volume.2).Layers.contains name

/-- Member `TVolumeHolder::RemoveLayer`: the trace after the call and the
returned error. -/
def TVolumeHolder.RemoveLayer (host : Host) (heap : Heap) (h : TVolumeHolder)
    (name place : String) (tr : Trace) : Trace × Except TError Unit :=
  let layers := pathJoin place (host tr).layers_dir
  let layer := pathJoin layers name
  if !(host tr).Exists layer then
    (tr, .error ⟨.LayerNotFound, "Layer " ++ name ++ " not found"⟩)
  else
    let layers_tmp := pathJoin layers "_tmp_"
    let layer_tmp := pathJoin layers_tmp name
    let tr1 := tr ++ [Event.ScopedLock]
    let locked : Trace × Except TError Unit :=
      if h.LayerInUse heap name place then
        (tr1, .error ⟨.Busy, "Layer " ++ name ++ "in use"⟩)
      else (tr1 ++ [Event.Rename layer layer_tmp], (host tr1).Rename layer layer_tmp)
    match locked with
    | (tr2, .error e) => (tr2, .error e)
    | (tr2, .ok _) => (tr2 ++ [Event.RemoveAll layer_tmp], (host tr2).RemoveAll layer_tmp)

/-- Virtual `Backend->Destroy()` of the backend classes: the backend object
and the trace after the call, and the returned error. -/
def TVolume.BackendDestroy (host : Host) (v : TVolume) (b : TVolumeBackend) (tr : Trace) :
    TVolumeBackend × Trace × Except TError Unit :=
  let path := v.GetPath
  if b.Kind = "plain" ∨ b.Kind = "tmpfs" then
    (b, tr ++ [Event.UmountAll path], (host tr).UmountAll path)
  else if b.Kind = "quota" then
    (b, tr ++ [Event.QuotaDestroy path], (host tr).QuotaDestroy path)
  else if b.Kind = "native" then
    let storage := v.GetStorage (host tr)
    let error := (host tr).UmountAll path
    let tr1 := tr ++ [Event.UmountAll path]
    if (host tr1).HaveQuota v && (host tr1).QuotaExists storage then
      (b, tr1 ++ [Event.QuotaDestroy storage], (host tr1).QuotaDestroy storage)
    else (b, tr1, error)
  else if b.Kind = "overlay" then
    let storage := v.GetStorage (host tr)
    let error := (host tr).UmountAll path
    let tr1 := tr ++ [Event.UmountAll path]
    let cleared : Trace × Except TError Unit :=
      if v.IsAutoStorage then
        let error2 := (host tr1).ClearDirectory storage
        let tr2 := tr1 ++ [Event.ClearDirectory storage]
        if failed error2 then
          (tr2 ++ [Event.RemoveAll (pathJoin storage "upper")], firstError error error2)
        else (tr2, error)
      else (tr1, error)
    let work := pathJoin storage "work"
    let tr3 :=
      if (host cleared.1).Exists work then cleared.1 ++ [Event.RemoveAll work]
      else cleared.1
    if (host tr3).HaveQuota v && (host tr3).QuotaExists storage then
      (b, tr3 ++ [Event.QuotaDestroy storage], (host tr3).QuotaDestroy storage)
    else (b, tr3, cleared.2)
  else if b.Kind = "loop" then
    if b.DeviceIndex < 0 then (b, tr, .ok ())
    else
      let error := (host tr).UmountAll path
      let tr1 := tr ++ [Event.UmountAll path]
      let error2 := (host tr1).PutLoopDev b.DeviceIndex
      ({ b with DeviceIndex := -1 }, tr1 ++ [Event.PutLoopDev b.DeviceIndex],
        firstError error error2)
  else if b.Kind = "rbd" then
    let device := if b.DeviceIndex < 0 then "" else "/dev/rbd" ++ to_string b.DeviceIndex
    if b.DeviceIndex < 0 then (b, tr, .ok ())
    else
      let error := (host tr).UmountAll path
      let tr1 := tr ++ [Event.UmountAll path]
      let error2 := (host tr1).UnmapDevice device
      ({ b with DeviceIndex := -1 }, tr1 ++ [Event.UnmapDevice device],
        firstError error error2)
  else (b, tr, .ok ())

/-- One cleanup step of `TVolume::Destroy` guarded by a condition: remove the
path and keep the first error. -/
def Destroy.remove (host : Host) (cond : World → Bool) (path : String)
    (st : Trace × Except TError Unit) : Trace × Except TError Unit :=
  if cond (host st.1) then
    (st.1 ++ [Event.RemoveAll path], firstError st.2 ((host st.1).RemoveAll path))
  else st

/-- The loop of `TVolume::Destroy` over the layers: every layer whose name
starts with `_weak_` is removed from the place, errors are only logged. -/
def Destroy.weakLayers (host : Host) (heap : Heap) (holder : TVolumeHolder)
    (place : String) (layers : List String) (tr : Trace) : Trace :=
  match layers with
  | [] => tr
  | layer :: rest =>
    if StringStartsWith layer "_weak_" then
      Destroy.weakLayers host heap holder place rest
        (holder.RemoveLayer host heap layer place tr).1
    else Destroy.weakLayers host heap holder place rest tr

/-- Member `TVolume::Destroy`: the fields and the trace after the call, and
the returned error. -/
def TVolume.Destroy (host : Host) (heap : Heap) (holder : TVolumeHolder) (v : TVolume)
    (tr : Trace) : TVolume × Trace × Except TError Unit :=
  let internal := v.GetInternal (host tr) ""
  let storage := v.GetStorage (host tr)
  let backend : Option TVolumeBackend × Trace × Except TError Unit :=
    match v.Backend with
    | none => (none, tr, .ok ())
    | some b =>
      match v.BackendDestroy host b tr with
      | (b, tr, error) => (some b, tr, firstError (.ok ()) error)
  let st : Trace × Except TError Unit := backend.2
  let st := Destroy.remove host (fun w => v.IsAutoStorage && w.Exists storage) storage st
  let st := Destroy.remove host (fun w => v.IsAutoPath && w.Exists v.GetPath) v.GetPath st
  let st := Destroy.remove host (fun w => w.Exists internal) internal st
  let tr1 :=
    if v.IsLayersSet then Destroy.weakLayers host heap holder v.Place v.Layers st.1
    else st.1
  let node := pathJoin (host tr1).VolumesKV v.Id
  ({ v with Backend := backend.1, Layers := if v.IsLayersSet then [] else v.Layers },
    tr1 ++ [Event.Unlink node], firstError st.2 ((host tr1).Unlink node))

/-- Member `TVolume::LinkContainer`. -/
def TVolume.LinkContainer (host : Host) (v : TVolume) (name : String) (tr : Trace) :
    TVolume × Trace × Except TError Unit :=
  let v := { v with Containers := v.Containers ++ [name] }
  (v, v.Save host tr)

/-- Member `TVolume::UnlinkContainer`: the fields and the trace after the
call, and whether the list of containers is now empty. -/
def TVolume.UnlinkContainer (host : Host) (v : TVolume) (name : String) (tr : Trace) :
    TVolume × Trace × Bool :=
  let v := { v with Containers := v.Containers.filter (· ≠ name) }
  (v, (v.Save host tr).1, v.Containers.isEmpty)

/-! ## Recovery -/

/-- The daemon state that recovery works on: the holder, the volume objects,
the next handle that `std::make_shared` gives out, and the calls made so
far. -/
structure Daemon where
  holder : TVolumeHolder
  heap : Heap
  brk : VolumePtr
  trace : Trace

/-- The statements `(void)volume->Destroy(*this); (void)Unregister(volume);`
of `RestoreFromStorage`. -/
def RestoreFromStorage.destroyUnregister (host : Host) (s : Daemon) (this : VolumePtr) :
    Daemon :=
  match (s.heap this).Destroy host s.heap s.holder s.trace with
  | (v, tr, _) =>
    { s with
      heap := Function.update s.heap this v
      trace := tr
      holder := s.holder.Unregister (Function.update s.heap this v) this }

/-- Body of the loop of `RestoreFromStorage` over the containers of a restored
volume: a known container gets the volume attached; an unknown one is
unlinked, and the volume is destroyed and unregistered when
`UnlinkContainer` returns false. -/
def RestoreFromStorage.link (host : Host) (this : VolumePtr) (s : Daemon) (name : String) :
    Daemon :=
  if (host s.trace).ContainerGet name then
    { s with trace := s.trace ++ [Event.Attach name this] }
  else
    match (s.heap this).UnlinkContainer host name s.trace with
    | (v, tr, empty) =>
      let s1 := { s with heap := Function.update s.heap this v, trace := tr }
      if !empty then RestoreFromStorage.destroyUnregister host s1 this else s1

/-- The update of `NextId` in `RestoreFromStorage` for a restored id. -/
def RestoreFromStorage.advance (NextId : Nat) (Id : String) : Nat :=
  match StringToUint64 Id with
  | .ok id => if id ≥ NextId then u64 (id + 1) else NextId
  | .error _ => NextId

/-- Body of the loop of `RestoreFromStorage` over the nodes. -/
def RestoreFromStorage.step (host : Host) (s : Daemon) (node : String) : Daemon :=
  match (host s.trace).KvLoad node with
  | .error _ => { s with trace := s.trace ++ [Event.Unlink node] }
  | .ok data =>
    let this := s.brk
    match TVolume.fresh.Restore (host s.trace) data with
    | (v, .error _) =>
      match v.Destroy host (Function.update s.heap this v) s.holder s.trace with
      | (v, tr, _) =>
        { s with heap := Function.update s.heap this v, brk := this + 1, trace := tr }
    | (v, .ok _) =>
      let heap := Function.update s.heap this v
      let holder := { s.holder with
        NextId := RestoreFromStorage.advance s.holder.NextId v.Id }
      match holder.Register heap this with
      | (holder, .error _) =>
        match v.Destroy host heap holder s.trace with
        | (v, tr, _) =>
          { holder := holder, heap := Function.update heap this v, brk := this + 1,
            trace := tr }
      | (holder, .ok _) =>
        let s1 : Daemon := { holder := holder, heap := heap, brk := this + 1, trace := s.trace }
        let s2 := v.Containers.foldl (RestoreFromStorage.link host this) s1
        match (s2.heap this).Save host s2.trace with
        | (tr, .error _) =>
          RestoreFromStorage.destroyUnregister host { s2 with trace := tr } this
        | (tr, .ok _) => { s2 with trace := tr }

/-- Body of the loop of `RestoreFromStorage` over the subdirectories of the
volumes directory: a directory that is the id of no registered volume is
unmounted and removed. -/
def RestoreFromStorage.removeStale (host : Host) (volumes : String) (s : Daemon)
    (dir_name : String) : Daemon :=
  if s.holder.Volumes.any (fun v => (s.heap v.2).Id = dir_name) then s
  else
    let dir := pathJoin volumes dir_name
    let mnt := pathJoin dir "volume"
    let tr := if (host s.trace).Exists mnt then s.trace ++ [Event.UmountAll mnt] else s.trace
    { s with trace := tr ++ [Event.RemoveAll dir] }

/-- Member `TVolumeHolder::RestoreFromStorage`: the daemon state after the
call and the returned error. -/
def TVolumeHolder.RestoreFromStorage (host : Host) (s : Daemon) :
    Daemon × Except TError Unit :=
  let place := (host s.trace).default_place
  let tr1 := s.trace ++ [Event.CheckPlace place true]
  let layers_tmp := pathJoin (pathJoin place (host tr1).layers_dir) "_tmp_"
  let tr2 := tr1 ++ [Event.ClearDirectory layers_tmp]
  match (host tr2).KvListAll (host tr2).VolumesKV with
  | .error e => ({ s with trace := tr2 }, .error e)
  | .ok nodes =>
    let s1 := nodes.foldl (RestoreFromStorage.step host) { s with trace := tr2 }
    let volumes := pathJoin place (host s1.trace).volume_dir
    let subdirs :=
      match (host s1.trace).ReadDirectory volumes with
      | .ok subdirs => subdirs
      | .error _ => []
    (subdirs.foldl (RestoreFromStorage.removeStale host volumes) s1, .ok ())

/-- The volume objects of `Create` enter the daemon state at the next
handle. -/
def Daemon.Create (s : Daemon) : Daemon × VolumePtr :=
  ({ s with
    holder := s.holder.Create.1
    heap := Function.update s.heap s.brk s.holder.Create.2
    brk := s.brk + 1 }, s.brk)

/-! ## Loop image -/

/-- Member `TVolumeLoopBackend::GetLoopImage` of the backend of a volume. -/
def TVolume.GetLoopImage (w : World) (v : TVolume) : String :=
  pathJoin (v.GetStorage w) "loop.img"
/-! ## Cgroups (`src/cgroup.cpp`)

A `TCgroup` object is reached through `shared_ptr` handles and, from its
parent, through `weak_ptr` entries.  Objects live in a heap of handles with a
count of the strong references to each: a weak entry locks exactly while the
count is positive.  The name and the parent of an object never change after
construction, so every object carries the chain of names up to its root by
value; the mutable part is the list of children. -/

/-- Handle of a `TCgroup` object. -/
abbrev CgroupPtr := Nat

/-- Members of a `TCgroup` that are fixed at construction: the root has its
mount point and its subsystems (names), any other node its name and its
parent. -/
inductive CgNode
  | root (mountpoint : String) (subsystems : List String)
  | child (name : String) (parent : CgNode)
  deriving DecidableEq, Repr

/-- Member `name`: the root constructor sets it to the slash. -/
def CgNode.name : CgNode → String
  | .root _ _ => "/"
  | .child name _ => name

/-- Member `TCgroup::IsRoot`. -/
def CgNode.IsRoot : CgNode → Bool
  | .root _ _ => true
  | .child _ _ => false

/-- Member `TCgroup::Path`. -/
def CgNode.Path : CgNode → String
  | .root mountpoint _ => mountpoint
  | .child name parent => parent.Path ++ "/" ++ name

/-- Member `TCgroup::Relpath`. -/
def CgNode.Relpath : CgNode → String
  | .root _ _ => ""
  | .child name parent => parent.Relpath ++ "/" ++ name

/-- Member `TCgroup::HasSubsystem`. -/
def CgNode.HasSubsystem : CgNode → String → Bool
  | .root _ subsystems, name => subsystems.any fun c => c = name
  | .child _ parent, name => parent.HasSubsystem name

/-- A `TCgroup` object: the fixed members, the handle of the parent, and the
vector of weak handles of the children. -/
structure TCgroup where
  node : CgNode
  parent : Option CgroupPtr
  children : List CgroupPtr

/-- All cgroup objects: the heap, the number of strong references to each
object, and the next unused handle. -/
structure Cgroups where
  heap : CgroupPtr → TCgroup
  refs : CgroupPtr → Nat
  brk : CgroupPtr

/-- The test `iter->lock()` on a weak handle. -/
def Cgroups.alive (s : Cgroups) (c : CgroupPtr) : Bool := decide (0 < s.refs c)

/-- Modelled from the spec: the class `TMount` of `mount.hpp`, which is not in
the sources: source, mount point, type and flag set, the set in its order of
iteration.  Two mounts are equal when the four fields are. -/
structure TMount where
  device : String
  mountpoint : String
  vfstype : String
  flags : List String
  deriving DecidableEq, Repr

/-- Calls that the cgroup code makes on the host. -/
inductive CgEvent
  | Umount (mountpoint : String)
  | Rmdir (path : String)
  | Kill (pid signal : Int)
  | Unfreeze (path : String)
  | Subfolders (path : String)
  | AppendString (path value : String)
  | WriteStringNoAppend (path value : String)
  | Mounts
  | Mount (mount : TMount)
  | FolderCreate (path : String) (mode : Nat)
  | UseHierarchy (path : String)
  deriving DecidableEq, Repr

/-- Calls made so far, oldest first. -/
abbrev CgTrace := List CgEvent

/-- What the cgroup code reads from its surroundings: constants and members
declared in headers that are not in the sources, and the answers of the host. -/
structure CgWorld where
  /-- Constant `PORTO_ROOT_CGROUP`. -/
  PORTO_ROOT_CGROUP : String
  /-- Constant `CGROUP_REMOVE_TIMEOUT_S`. -/
  CGROUP_REMOVE_TIMEOUT_S : Int
  /-- Constant `SIGKILL`. -/
  SIGKILL : Int
  /-- Value of `FreezerSubsystem->Name()`. -/
  FreezerName : String
  /-- Member `need_cleanup`, which no source file assigns. -/
  need_cleanup : Bool
  /-- Result of `TMount::Umount` on the mount with this mount point. -/
  Umount : String → Except TError Unit
  /-- Result of `TFile::AsLines` on this path. -/
  AsLines : String → Except TError (List String)
  /-- Result of `TFile::AppendString` on this path with this value. -/
  AppendString : String → String → Except TError Unit
  /-- Result of `TFile::WriteStringNoAppend` on this path with this value. -/
  WriteStringNoAppend : String → String → Except TError Unit
  /-- Result of `TMountSnapshot::Mounts`: the mounts in the order in which
  the set is iterated. -/
  Mounts : Except TError (List TMount)
  /-- Member `tmpfs`, declared in `cgroup.hpp`. -/
  tmpfs : String
  /-- Member `mode`, declared in `cgroup.hpp`. -/
  mode : Nat
  /-- Result of `TMount::Mount`. -/
  Mount : TMount → Except TError Unit
  /-- Result of `TFolder::Exists` on this path. -/
  FolderExists : String → Bool
  /-- Result of `TFolder::Create` on this path with this mode. -/
  FolderCreate : String → Nat → Except TError Unit
  /-- Value of `MemorySubsystem->Name()`. -/
  MemoryName : String
  /-- Result of `TMemorySubsystem::UseHierarchy` on the cgroup at this path. -/
  UseHierarchy : String → Except TError Unit
  /-- Result of `TSubsystem::Get`: the name of the subsystem object, `none`
  for the null pointer. -/
  SubsystemGet : String → Option String

/-- The host answers according to the calls made so far. -/
abbrev CgHost := CgTrace → CgWorld

/-- A directory as the discovery walk finds it: its name, the error of
`TFolder::Subfolders` on it when that call fails, and its subdirectories
in the order in which `Subfolders` lists them. -/
inductive Folder
  | mk (name : String) (error : Option TError) (subs : List Folder)

/-- Name of a directory. -/
def Folder.name : Folder → String
  | .mk name _ _ => name

/-- Error of listing a directory, if any. -/
def Folder.error : Folder → Option TError
  | .mk _ error _ => error

/-- Subdirectories of a directory. -/
def Folder.subs : Folder → List Folder
  | .mk _ _ subs => subs

/-- Loop of `TCgroup::GetChild` over the weak handles: the entries that
remain, and the live child with the name if one is met.  An expired
entry is erased, a live one with another name is stepped over, and the loop
returns at the first live child with the name. -/
def GetChild.lookup (s : Cgroups) (name : String) :
    List CgroupPtr → List CgroupPtr × Option CgroupPtr
  | [] => ([], none)
  | c :: rest =>
    if s.alive c then
      if (s.heap c).node.name = name then (c :: rest, some c)
      else ((c :: (GetChild.lookup s name rest).1), (GetChild.lookup s name rest).2)
    else GetChild.lookup s name rest

/-- Member `TCgroup::GetChild`.  The returned handle is one more strong
reference to the child; a new child holds a strong reference to its
parent. -/
def TCgroup.GetChild (s : Cgroups) (this : CgroupPtr) (name : String) :
    Cgroups × CgroupPtr :=
  let self := s.heap this
  match GetChild.lookup s name self.children with
  | (children, some child) =>
    ({ s with
       heap := Function.update s.heap this { self with children := children }
       refs := Function.update s.refs child (s.refs child + 1) }, child)
  | (children, none) =>
    let child := s.brk
    ({ heap := Function.update
         (Function.update s.heap this { self with children := children ++ [child] })
         child ⟨.child name self.node, some this, []⟩
       refs := Function.update (Function.update s.refs this (s.refs this + 1)) child 1
       brk := s.brk + 1 }, child)

/-- Names of the live children of an object, in the order of its vector. -/
def Cgroups.liveNames (s : Cgroups) (this : CgroupPtr) : List String :=
  ((s.heap this).children.filter s.alive).map fun c => (s.heap c).node.name
/-! ## Tasks of a cgroup and removal -/

/-- The library call `std::stoi(string)`: blanks are skipped, a sign is
accepted, the longest run of digits is converted and what follows is
ignored; `none` stands for the exceptions thrown when there is no digit or
the value does not fit an `int`. -/
def stoi (s : String) : Option Int :=
  let cs := s.data.dropWhile isspace
  let signed : Bool × List Char :=
    match cs with
    | '-' :: rest => (true, rest)
    | '+' :: rest => (false, rest)
    | rest => (false, rest)
  let digits := signed.2.takeWhile Char.isDigit
  let value : Int := if signed.1 then -(digitsValue digits : Int) else (digitsValue digits : Int)
  if digits = [] then none
  else if value < -(2 ^ 31) ∨ 2 ^ 31 ≤ value then none
  else some value

/-- Function `StringsToIntegers` of `stringutil.cpp`: the integers pushed so
far stay in the vector when a string is refused. -/
def StringsToIntegers : List String → List Int → List Int × Except TError Unit
  | [], integers => (integers, .ok ())
  | l :: strings, integers =>
    match stoi l with
    | some i => StringsToIntegers strings (integers ++ [i])
    | none => (integers, .error ⟨.Unknown, "Bad integer value"⟩)

/-- Member `TCgroup::GetKnobValueAsLines`. -/
def TCgroup.GetKnobValueAsLines (w : CgWorld) (node : CgNode) (knob : String) :
    Except TError (List String) :=
  w.AsLines (node.Path ++ "/" ++ knob)

/-- Member `TCgroup::GetTasks`, called with an empty vector: the vector
afterwards and the error. -/
def TCgroup.GetTasks (w : CgWorld) (node : CgNode) : List Int × Except TError Unit :=
  match TCgroup.GetKnobValueAsLines w node "tasks" with
  | .error ret => ([], .error ret)
  | .ok lines => StringsToIntegers lines []

/-- Member `TCgroup::IsEmpty`. -/
def TCgroup.IsEmpty (w : CgWorld) (node : CgNode) : Bool :=
  (TCgroup.GetTasks w node).1.isEmpty

/-- A `TTask` made for an existing process. -/
structure TTask where
  pid : Int

/-- Modelled from the spec: the constructor `TTask(pid)` of `task.hpp`, which
is not in the sources: the task of the process with this pid. -/
def TTask.ofPid (pid : Int) : TTask := ⟨pid⟩

/-- Member `TTask::Kill` of `task.cpp`: the signal is sent, unless the pid is
zero, for which a C string is thrown (the error side of the result). -/
def TTask.Kill (task : TTask) (signal : Int) (tr : CgTrace) : CgTrace × Except String Unit :=
  if task.pid = 0 then (tr, .error "Tried to kill invalid process!")
  else (tr ++ [.Kill task.pid signal], .ok ())

/-- Loop of `TCgroup::Kill` over the tasks. -/
def Kill.each (signal : Int) : List Int → CgTrace → CgTrace × Except String Unit
  | [], tr => (tr, .ok ())
  | pid :: tasks, tr =>
    match (TTask.ofPid pid).Kill signal tr with
    | (tr1, .error what) => (tr1, .error what)
    | (tr1, .ok _) => Kill.each signal tasks tr1

/-- Member `TCgroup::Kill`; it returns success whenever it returns. -/
def TCgroup.Kill (host : CgHost) (node : CgNode) (signal : Int) (tr : CgTrace) :
    CgTrace × Except String Unit :=
  if !node.IsRoot then
    match TCgroup.GetTasks (host tr) node with
    | (tasks, .ok _) => Kill.each signal tasks tr
    | (_, .error _) => (tr, .ok ())
  else (tr, .ok ())

/-- The handler that `TCgroup::Remove` passes to `RetryFailed`: kill, thaw,
and report whether tasks are left. -/
def Remove.handler (host : CgHost) (node : CgNode) (tr : CgTrace) :
    CgTrace × Except String Bool :=
  match TCgroup.Kill host node (host tr).SIGKILL tr with
  | (tr1, .error what) => (tr1, .error what)
  | (tr1, .ok _) =>
    let tr2 :=
      if node.HasSubsystem (host tr1).FreezerName then tr1 ++ [.Unfreeze node.Path] else tr1
    (tr2, .ok (!TCgroup.IsEmpty (host tr2) node))

/-- Modelled from the spec: `RetryFailed` of `util/unix.hpp`, which is not in
the sources: the handler is tried up to `times` times and the tries stop at
the first one that does not fail; the result is that of the last try. -/
def RetryFailed (handler : CgTrace → CgTrace × Except String Bool) :
    Nat → CgTrace → CgTrace × Except String Bool
  | 0, tr => (tr, .ok false)
  | times + 1, tr =>
    match handler tr with
    | (tr1, .error what) => (tr1, .error what)
    | (tr1, .ok false) => (tr1, .ok false)
    | (tr1, .ok true) =>
      if times = 0 then (tr1, .ok true) else RetryFailed handler times tr1

/-- Member `TCgroup::Remove`.  The outer error side is an exception that
leaves the call; the result of removing the directory is only logged. -/
def TCgroup.Remove (host : CgHost) (node : CgNode) (tr : CgTrace) :
    CgTrace × Except String (Except TError Unit) :=
  match node with
  | .root mountpoint _ =>
    match (host tr).Umount mountpoint with
    | .error error => (tr ++ [.Umount mountpoint], .ok (.error error))
    | .ok _ => (tr ++ [.Umount mountpoint, .Rmdir node.Path], .ok (.ok ()))
  | .child _ _ =>
    match RetryFailed (Remove.handler host node)
        ((host tr).CGROUP_REMOVE_TIMEOUT_S * 10).toNat tr with
    | (tr1, .error what) => (tr1, .error what)
    | (tr1, .ok _) => (tr1 ++ [.Rmdir node.Path], .ok (.ok ()))

/-- Destructor `TCgroup::~TCgroup`; an exception that leaves it ends the
process. -/
def TCgroup.destruct (host : CgHost) (node : CgNode) (tr : CgTrace) :
    CgTrace × Except String Unit :=
  if (host tr).need_cleanup then
    match TCgroup.Remove host node tr with
    | (tr1, .error what) => (tr1, .error what)
    | (tr1, .ok _) => (tr1, .ok ())
  else (tr, .ok ())

/-- Release of one strong handle of the object `c`, whose fixed members are
`node`: the count drops, and at zero the object is destroyed and its own
handle of the parent is released in turn. -/
def Cgroups.release (host : CgHost) :
    CgNode → CgroupPtr → Cgroups → CgTrace → Cgroups × CgTrace × Except String Unit
  | .root m subs, c, s, tr =>
    let s1 := { s with refs := Function.update s.refs c (s.refs c - 1) }
    if s1.refs c = 0 then
      match TCgroup.destruct host (.root m subs) tr with
      | (tr1, r) => (s1, tr1, r)
    else (s1, tr, .ok ())
  | .child name parent, c, s, tr =>
    let s1 := { s with refs := Function.update s.refs c (s.refs c - 1) }
    if s1.refs c = 0 then
      match TCgroup.destruct host (.child name parent) tr with
      | (tr1, .error what) => (s1, tr1, .error what)
      | (tr1, .ok _) =>
        match (s.heap c).parent with
        | some p => Cgroups.release host parent p s1 tr1
        | none => (s1, tr1, .ok ())
    else (s1, tr, .ok ())

/-- The test of `TCgroup::FindChildren` that skips a subtree:
`parent && parent->IsRoot() && name != PORTO_ROOT_CGROUP`. -/
def FindChildren.ignored (w : CgWorld) : CgNode → Bool
  | .root _ _ => false
  | .child name parent => parent.IsRoot && name != w.PORTO_ROOT_CGROUP

mutual
/-- Member `TCgroup::FindChildren`, on the object `this` whose directory is
`dir`.  The vector `cglist` is passed by value, so the handle pushed at the
end goes to a copy that ends with the call.  The outer error side is an
exception that ends the process (from a destructor). -/
def TCgroup.FindChildren (host : CgHost) :
    Folder → CgroupPtr → List CgroupPtr → Cgroups → CgTrace →
      Cgroups × CgTrace × Except String (Except TError Unit)
  | .mk _ error subs, this, cglist, s, tr =>
    if FindChildren.ignored (host tr) (s.heap this).node then (s, tr, .ok (.ok ()))
    else
      match error with
      | some error => (s, tr ++ [.Subfolders (s.heap this).node.Path], .ok (.error error))
      | none =>
        FindChildren.loop host subs this cglist s
          (tr ++ [.Subfolders (s.heap this).node.Path])
/-- Loop of `TCgroup::FindChildren` over the listed names; the handle `cg` is
released at the end of each round. -/
def FindChildren.loop (host : CgHost) :
    List Folder → CgroupPtr → List CgroupPtr → Cgroups → CgTrace →
      Cgroups × CgTrace × Except String (Except TError Unit)
  | [], _, _, s, tr => (s, tr, .ok (.ok ()))
  | f :: list, this, cglist, s, tr =>
    match TCgroup.GetChild s this f.name with
    | (s1, cg) =>
      match TCgroup.FindChildren host f cg cglist s1 tr with
      | (s2, tr2, .error what) => (s2, tr2, .error what)
      | (s2, tr2, .ok error) =>
        match Cgroups.release host (s2.heap cg).node cg s2 tr2 with
        | (s3, tr3, .error what) => (s3, tr3, .error what)
        | (s3, tr3, .ok _) =>
          match error with
          | .error e => (s3, tr3, .ok (.error e))
          | .ok _ => FindChildren.loop host list this cglist s3 tr3
end

/-! ### What the discovery walk is to list -/

/-- Paths that the calls of `TFolder::Subfolders` in a trace were made on,
oldest first. -/
def listed (tr : CgTrace) : List String :=
  tr.filterMap fun e =>
    match e with
    | .Subfolders path => some path
    | _ => none

mutual
/-- Path of a directory followed by the paths of all directories beneath it,
each directory before its subdirectories, in listing order. -/
def Folder.paths (path : String) : Folder → List String
  | .mk _ _ subs => path :: Folder.pathsList path subs
/-- Paths of the directories in and beneath a list of subdirectories of the
directory at `path`. -/
def Folder.pathsList (path : String) : List Folder → List String
  | [] => []
  | f :: rest => Folder.paths (path ++ "/" ++ f.name) f ++ Folder.pathsList path rest
end

mutual
/-- No listing fails in the directory or beneath it. -/
def Folder.Readable : Folder → Bool
  | .mk _ error subs => error.isNone && Folder.ReadableList subs
/-- No listing fails in or beneath the directories of a list. -/
def Folder.ReadableList : List Folder → Bool
  | [] => true
  | f :: rest => f.Readable && Folder.ReadableList rest
end

/-- Paths in and beneath those top-level directories of the hierarchy mounted
at `mountpoint` whose name is `porto`; other top-level directories add
nothing. -/
def Folder.portoPaths (porto mountpoint : String) : List Folder → List String
  | [] => []
  | f :: rest =>
    (if f.name = porto then Folder.paths (mountpoint ++ "/" ++ f.name) f else []) ++
      Folder.portoPaths porto mountpoint rest

/-- No listing fails in or beneath the top-level directories named `porto`. -/
def Folder.portoReadable (porto : String) : List Folder → Bool
  | [] => true
  | f :: rest => (f.name != porto || f.Readable) && Folder.portoReadable porto rest

/-- Well-formed objects: every entry of a children vector is a handle in use,
of an object that was made with this parent. -/
def Cgroups.WF (s : Cgroups) : Prop :=
  ∀ p, ∀ c ∈ (s.heap p).children,
    c < s.brk ∧ ∃ name, (s.heap c).node = .child name (s.heap p).node
/-! ## Layer sanitization (`SanitizeLayer`)

The function works on a directory tree, so the tree is part of the state: a
directory is the list of its entries in the order in which `ReadDirectory`
returns them.  The calls that can fail take their error from the host. -/

/-- A node of a directory tree: a directory with its opaque attribute and
its entries, the character device that `Mknod(S_IFCHR, 0)` makes, or anything
else that is not a directory. -/
inductive FsNode
  | file
  | chardev
  | dir (opq : Bool) (entries : List (String × FsNode))

/-- Member `TPath::IsDirectoryStrict` on a node. -/
def FsNode.IsDirectoryStrict : FsNode → Bool
  | .dir _ _ => true
  | _ => false

/-- Calls of `SanitizeLayer` that change the tree, failed ones included. -/
inductive FsEvent
  | RemoveAll (path : String)
  | SetXAttr (path name value : String)
  | Mknod (path : String)
  deriving DecidableEq, Repr

/-- Calls made so far, oldest first. -/
abbrev FsTrace := List FsEvent

/-- Errors of the file system calls: `none` when the call succeeds. -/
structure FsWorld where
  ReadDirectory : String → Option TError
  /-- Error of `ReadDirectory` on a path that is not a directory. -/
  NotDirectory : String → TError
  RemoveAll : String → Option TError
  SetXAttr : String → String → String → Option TError
  Mknod : String → Option TError

/-- The host answers according to the calls made so far. -/
abbrev FsHost := FsTrace → FsWorld

/-- Entry of a directory by name. -/
def findEntry (entries : List (String × FsNode)) (name : String) : Option FsNode :=
  (entries.find? fun e => e.1 = name).map fun e => e.2

/-- The directory without the entry of this name. -/
def removeEntry (entries : List (String × FsNode)) (name : String) :
    List (String × FsNode) :=
  entries.filter fun e => e.1 ≠ name

/-- The directory with another node in the place of the entry of this name. -/
def replaceEntry : List (String × FsNode) → String → FsNode → List (String × FsNode)
  | [], _, _ => []
  | e :: rest, name, node =>
    if e.1 = name then (name, node) :: rest else e :: replaceEntry rest name node

/-- The test `entry.compare(0, len, str) == 0`. -/
def compareEq (entry : String) (len : Nat) (str : String) : Bool :=
  decide (substr entry 0 len = str)

/-- What the path `layer / name` names in the directory at `layer`: the
directory itself for the empty name and the dot, the directory that holds it
for dot-dot, and the entry of that name otherwise. -/
inductive Target
  | self
  | parent
  | child (name : String)
  deriving DecidableEq, Repr

/-- The target that a name added to the path of a directory names. -/
def target (name : String) : Target :=
  if name = "" ∨ name = "." then .self
  else if name = ".." then .parent
  else .child name

/-- A directory during the loop of `SanitizeLayer`: its attribute and its
entries, or `none` once it has been removed. -/
abbrev Dir := Option (Bool × List (String × FsNode))

/-- The node of a directory during the loop, if it is still there. -/
def Dir.node (dir : Dir) : Option FsNode :=
  dir.map fun d => FsNode.dir d.1 d.2

/-- Result of `SanitizeLayer` on the node at a path: what is at the path
afterwards (`none` when it has been removed), whether the directory that
holds the path has been removed, the calls, and the error; the outer `none`
when the fuel of the model is used up. -/
abbrev Sanitized := Option (Option FsNode × Bool × FsTrace × Except TError Unit)

/-- The part of a round of `SanitizeLayer` after the whiteout `entry` itself
has been removed and found to be no metadata, in a directory that is there:
the entry behind the whiteout is removed if it exists, and a device is made
in its place when not merging.  The name behind the marks `.wh.`, `.wh..`
and `.wh...` is empty, dot or dot-dot: the path then names the directory
itself or the one that holds it, which exists and is removed with all that
is in it; the path of the device then leads nowhere, so that call changes
nothing whatever the host answers. -/
def SanitizeLayer.whiteout (host : FsHost) (layer : String) (merge : Bool) (name : String)
    (opq : Bool) (entries : List (String × FsNode)) (tr : FsTrace) :
    Dir × Bool × FsTrace × Except TError Unit :=
  let path := pathJoin layer name
  let removed : Dir × Bool × FsTrace × Option TError :=
    match target name with
    | .child _ =>
      if (findEntry entries name).isSome then
        match (host tr).RemoveAll path with
        | some error => (some (opq, entries), false, tr ++ [.RemoveAll path], some error)
        | none => (some (opq, removeEntry entries name), false, tr ++ [.RemoveAll path], none)
      else (some (opq, entries), false, tr, none)
    | .self =>
      match (host tr).RemoveAll path with
      | some error => (some (opq, entries), false, tr ++ [.RemoveAll path], some error)
      | none => (none, false, tr ++ [.RemoveAll path], none)
    | .parent =>
      match (host tr).RemoveAll path with
      | some error => (some (opq, entries), false, tr ++ [.RemoveAll path], some error)
      | none => (none, true, tr ++ [.RemoveAll path], none)
  match removed with
  | (dir, up, tr2, some error) => (dir, up, tr2, .error error)
  | (dir, up, tr2, none) =>
    if !merge then
      -- Convert into overlayfs whiteout; an entry name is free at this point
      match (host tr2).Mknod path with
      | some error => (dir, up, tr2 ++ [.Mknod path], .error error)
      | none =>
        match dir, target name with
        | some (opq2, entries2), .child _ =>
          (some (opq2, entries2 ++ [(name, .chardev)]), up, tr2 ++ [.Mknod path], .ok ())
        | _, _ => (dir, up, tr2 ++ [.Mknod path], .ok ())
    else (dir, up, tr2, .ok ())

/-- One round of the loop of `SanitizeLayer` on the directory `layer`, which
is there and whose attribute and entries are passed along; `sub` is the
recursive call.  A recursive call that has removed the directory that holds
its path has removed this directory. -/
def SanitizeLayer.step (sub : String → FsNode → FsTrace → Sanitized) (host : FsHost)
    (layer : String) (merge : Bool) (entry : String) (opq : Bool)
    (entries : List (String × FsNode)) (tr : FsTrace) :
    Option (Dir × Bool × FsTrace × Except TError Unit) :=
  if compareEq entry 4 ".wh." then
    -- Remove it completely
    match (host tr).RemoveAll (pathJoin layer entry) with
    | some error =>
      some (some (opq, entries), false, tr ++ [.RemoveAll (pathJoin layer entry)], .error error)
    | none =>
      let tr1 := tr ++ [.RemoveAll (pathJoin layer entry)]
      let entries1 := removeEntry entries entry
      -- Opaque directory
      if entry = ".wh..wh..opq" then
        match (host tr1).SetXAttr layer "trusted.overlay.opaque" "y" with
        | some error =>
          some (some (opq, entries1), false,
            tr1 ++ [.SetXAttr layer "trusted.overlay.opaque" "y"], .error error)
        | none =>
          -- Metadata is done: the name begins with `.wh..wh.`
          some (some (true, entries1), false,
            tr1 ++ [.SetXAttr layer "trusted.overlay.opaque" "y"], .ok ())
      else if compareEq entry 8 ".wh..wh." then some (some (opq, entries1), false, tr1, .ok ())
      else
        -- Remove whiteouted entry
        some (SanitizeLayer.whiteout host layer merge (substr entry 4 entry.length) opq
          entries1 tr1)
  else
    match findEntry entries entry with
    | some (.dir o es) =>
      match sub (pathJoin layer entry) (.dir o es) tr with
      | none => none
      | some (some node, false, tr1, r) =>
        some (some (opq, replaceEntry entries entry node), false, tr1, r)
      | some (none, false, tr1, r) => some (some (opq, removeEntry entries entry), false, tr1, r)
      | some (_, true, tr1, r) => some (none, false, tr1, r)
    | _ => some (some (opq, entries), false, tr, .ok ())

/-- One round of the loop of `SanitizeLayer` once the directory `layer` has
been removed: no path below it leads anywhere, so no entry exists and no
call changes anything; the calls are made and the host answers them. -/
def SanitizeLayer.absent (host : FsHost) (layer : String) (merge : Bool) (entry : String)
    (tr : FsTrace) : FsTrace × Except TError Unit :=
  if compareEq entry 4 ".wh." then
    match (host tr).RemoveAll (pathJoin layer entry) with
    | some error => (tr ++ [.RemoveAll (pathJoin layer entry)], .error error)
    | none =>
      let tr1 := tr ++ [.RemoveAll (pathJoin layer entry)]
      if entry = ".wh..wh..opq" then
        match (host tr1).SetXAttr layer "trusted.overlay.opaque" "y" with
        | some error => (tr1 ++ [.SetXAttr layer "trusted.overlay.opaque" "y"], .error error)
        | none => (tr1 ++ [.SetXAttr layer "trusted.overlay.opaque" "y"], .ok ())
      else if compareEq entry 8 ".wh..wh." then (tr1, .ok ())
      else if !merge then
        let path := pathJoin layer (substr entry 4 entry.length)
        match (host tr1).Mknod path with
        | some error => (tr1 ++ [.Mknod path], .error error)
        | none => (tr1 ++ [.Mknod path], .ok ())
      else (tr1, .ok ())
  else (tr, .ok ())

/-- Loop of `SanitizeLayer` over the names that `ReadDirectory` returned;
`up` tells whether the directory that holds `layer` has been removed. -/
def SanitizeLayer.loop (sub : String → FsNode → FsTrace → Sanitized) (host : FsHost)
    (layer : String) (merge : Bool) : List String → Dir → Bool → FsTrace → Sanitized
  | [], dir, up, tr => some (dir.node, up, tr, .ok ())
  | entry :: content, some (opq, entries), up, tr =>
    match SanitizeLayer.step sub host layer merge entry opq entries tr with
    | none => none
    | some (dir1, up1, tr1, .error error) => some (dir1.node, up || up1, tr1, .error error)
    | some (dir1, up1, tr1, .ok _) =>
      SanitizeLayer.loop sub host layer merge content dir1 (up || up1) tr1
  | entry :: content, none, up, tr =>
    match SanitizeLayer.absent host layer merge entry tr with
    | (tr1, .error error) => some (none, up, tr1, .error error)
    | (tr1, .ok _) => SanitizeLayer.loop sub host layer merge content none up tr1

/-- Function `SanitizeLayer` of `volume.cpp` on the node at the path `layer`.
The recursion follows the tree as it is when an entry is reached, so the model
counts the nesting down with `fuel`. -/
def SanitizeLayer (host : FsHost) (merge : Bool) : Nat → String → FsNode → FsTrace → Sanitized
  | 0, _, _, _ => none
  | fuel + 1, layer, node, tr =>
    match node with
    | .dir opq entries =>
      match (host tr).ReadDirectory layer with
      | some error => some (some node, false, tr, .error error)
      | none =>
        SanitizeLayer.loop (SanitizeLayer host merge fuel) host layer merge
          (entries.map fun e => e.1) (some (opq, entries)) false tr
    | _ => some (some node, false, tr, .error ((host tr).NotDirectory layer))

/-- The function `SanitizeLayer` called on a path, whatever is there: with
nothing at the path the directory cannot be read. -/
def SanitizeLayer.onPath (host : FsHost) (merge : Bool) (fuel : Nat) (layer : String)
    (slot : Option FsNode) (tr : FsTrace) : Sanitized :=
  match slot with
  | some node => SanitizeLayer host merge fuel layer node tr
  | none => some (none, false, tr, .error ((host tr).NotDirectory layer))

mutual
/-- No name in the directory or in a directory beneath it begins with the
whiteout mark. -/
def FsNode.Clean : FsNode → Bool
  | .dir _ entries => FsNode.CleanList entries
  | _ => true
/-- No name in the entries or in a directory beneath them begins with the
whiteout mark. -/
def FsNode.CleanList : List (String × FsNode) → Bool
  | [] => true
  | (name, node) :: rest => !compareEq name 4 ".wh." && node.Clean && FsNode.CleanList rest
end

mutual
/-- Nesting of directories: 0 for what is not a directory. -/
def FsNode.depth : FsNode → Nat
  | .dir _ entries => FsNode.depthList entries + 1
  | _ => 0
/-- Greatest nesting among the entries. -/
def FsNode.depthList : List (String × FsNode) → Nat
  | [] => 0
  | (_, node) :: rest => max node.depth (FsNode.depthList rest)
end

/-- Names that an entry of a directory can have: not the empty name, not dot
or dot-dot, and without a slash. -/
def entryName (name : String) : Bool :=
  !(["", ".", ".."].contains name) && !name.data.contains '/'

mutual
/-- A tree as a file system holds it: in every directory the names are names
of entries and no name occurs twice. -/
def FsNode.WellFormed : FsNode → Prop
  | .dir _ entries => (entries.map fun e => e.1).Nodup ∧ FsNode.WellFormedList entries
  | _ => True
/-- Every entry has the name of an entry and is well formed. -/
def FsNode.WellFormedList : List (String × FsNode) → Prop
  | [] => True
  | (name, node) :: rest => entryName name = true ∧ node.WellFormed ∧ FsNode.WellFormedList rest
end

/-- Invariant of the loop of `SanitizeLayer` with the names `content` still to
come: the names of the entries are distinct, and every entry either waits
for its round (and then satisfies `U`) or has a name without the whiteout
mark and is clean, nested at most `fuel` deep. -/
def SanitizeLayer.Inv (U : FsNode → Prop) (fuel : Nat) (content : List String)
    (entries : List (String × FsNode)) : Prop :=
  (entries.map fun e => e.1).Nodup ∧
  ∀ e ∈ entries, (e.1 ∈ content ∧ U e.2) ∨
    (compareEq e.1 4 ".wh." = false ∧ e.2.Clean = true ∧ e.2.depth ≤ fuel)
/-! ## Building a volume (`TVolume::Build`) -/

/-- Results of the calls that only `TVolume::Build` makes on the host. -/
structure BuildWorld where
  /-- Result of the virtual `Backend->Build()` on the backend object of a
  volume: the object afterwards and the error. -/
  BackendBuild : TVolume → TVolumeBackend → TVolumeBackend × Except TError Unit
  /-- Result of `TFile::OpenDir` on a layer path. -/
  OpenDir : String → Except TError Unit
  /-- Value of `TFile::RealPath` of the directory opened at a layer path. -/
  RealPath : String → String
  /-- Value of `TPath::InnerPath` of a root on a path; empty when the path is
  outside of the root. -/
  InnerPath : String → String → String
  /-- Result of `TPath::BindRemount` of the opened directory on a path. -/
  BindRemount : String → String → Except TError Unit
  /-- Result of `TPath::Remount(MS_PRIVATE)`. -/
  Remount : String → Except TError Unit
  /-- Result of `CopyRecursive(source, target)`. -/
  CopyRecursive : String → String → Except TError Unit
  /-- Result of `SanitizeLayer(path, merge)` on the tree at a path. -/
  SanitizeLayer : String → Bool → Except TError Unit
  /-- Result of `TPath::Chown`. -/
  Chown : String → TCred → Except TError Unit
  /-- Result of `TPath::Chmod`. -/
  Chmod : String → Nat → Except TError Unit

/-- The host answers according to the calls made so far. -/
abbrev BuildHost := Trace → BuildWorld

/-- Virtual `Backend->Save()`: the loop and rbd backends store their device
index in the volume, the other backends do nothing; every class returns
success. -/
def TVolume.BackendSave (v : TVolume) (b : TVolumeBackend) : TVolume × Except TError Unit :=
  if b.Kind = "loop" ∨ b.Kind = "rbd" then ({ v with LoopDev := b.DeviceIndex }, .ok ())
  else (v, .ok ())

/-- Body of the loop of `TVolume::Build` over the layers: the layer `name` is
copied onto the path of the volume, an absolute one through a bind mount at
the internal directory `temp`. -/
def Build.mergeLayer (host : Host) (build : BuildHost) (v : TVolume) (name : String)
    (tr : Trace) : Trace × Except TError Unit :=
  let path := v.Path
  if name.data.head? = some '/' then
    let tr1 := tr ++ [Event.OpenDir name]
    match (build tr).OpenDir name with
    | .error e => (tr1, .error e)
    | .ok _ =>
      if (build tr1).InnerPath v.CreatorRoot ((build tr1).RealPath name) = "" then
        (tr1, .error ⟨.Permission, "Layer path outside root: " ++ name⟩)
      else
        let temp := v.GetInternal (host tr1) "temp"
        let made : Trace × Except TError Unit :=
          (tr1 ++ [Event.Mkdir temp 0o700], (host tr1).Mkdir temp 0o700)
        let bound : Trace × Except TError Unit :=
          if !failed made.2 then
            (made.1 ++ [Event.BindRemount temp name], (build made.1).BindRemount temp name)
          else made
        let remounted : Trace × Except TError Unit :=
          if !failed bound.2 then
            (bound.1 ++ [Event.Remount temp], (build bound.1).Remount temp)
          else bound
        match remounted with
        | (tr2, .error e) => (tr2 ++ [Event.Rmdir temp], .error e)
        | (tr2, .ok _) =>
          let copied : Trace × Except TError Unit :=
            if !(host tr2).CanWrite temp v.CreatorCred then
              (tr2, .error ⟨.Permission, "Layer path not permitted: " ++ name⟩)
            else (tr2 ++ [Event.CopyRecursive temp path], (build tr2).CopyRecursive temp path)
          (copied.1 ++ [Event.UmountAll temp, Event.Rmdir temp], copied.2)
  else
    let layer := pathJoin (pathJoin v.Place (host tr).layers_dir) name
    (tr ++ [Event.CopyRecursive layer path], (build tr).CopyRecursive layer path)

/-- Loop of `TVolume::Build` over the layers, left at the first error. -/
def Build.merge (host : Host) (build : BuildHost) (v : TVolume) :
    List String → Trace → Trace × Except TError Unit
  | [], tr => (tr, .ok ())
  | name :: rest, tr =>
    match Build.mergeLayer host build v name tr with
    | (tr1, .error e) => (tr1, .error e)
    | (tr1, .ok _) => Build.merge host build v rest tr1

/-- Label `err_storage` of `TVolume::Build`. -/
def Build.err_storage (internal : String) (tr : Trace) : Trace :=
  tr ++ [Event.RemoveAll internal]

/-- Label `err_path` of `TVolume::Build`, which runs on into `err_storage`. -/
def Build.err_path (v : TVolume) (storage internal : String) (tr : Trace) : Trace :=
  Build.err_storage internal (if v.IsAutoStorage then tr ++ [Event.RemoveAll storage] else tr)

/-- Label `err_build` of `TVolume::Build`, which runs on into `err_path`. -/
def Build.err_build (v : TVolume) (storage internal : String) (tr : Trace) : Trace :=
  Build.err_path v storage internal (if v.IsAutoPath then tr ++ [Event.RemoveAll v.Path] else tr)

/-- Labels `err_merge` and `err_save` of `TVolume::Build`, which run on into
`err_build`: the backend object and the trace afterwards. -/
def Build.err_save (host : Host) (v : TVolume) (b : TVolumeBackend) (storage internal : String)
    (tr : Trace) : TVolumeBackend × Trace :=
  match v.BackendDestroy host b tr with
  | (b1, tr1, _) => (b1, Build.err_build v storage internal tr1)

/-- The block of `TVolume::Build` that merges the layers into a volume whose
backend is not the overlay one: the trace afterwards, and the error together
with whether the code leaves through the label `err_merge` (`true`) or by
`return error` (`false`). -/
def Build.layers (host : Host) (build : BuildHost) (v : TVolume) (tr : Trace) :
    Trace × Except (Bool × TError) Unit :=
  let path := v.Path
  match Build.merge host build v v.Layers tr with
  | (tr1, .error error) => (tr1, .error (true, error))
  | (tr1, .ok _) =>
    match (build tr1).SanitizeLayer path true with
    | .error error => (tr1 ++ [Event.SanitizeLayer path true], .error (true, error))
    | .ok _ =>
      let tr2 := tr1 ++ [Event.SanitizeLayer path true]
      match (build tr2).Chown path v.VolumeOwner with
      | .error error => (tr2 ++ [Event.Chown path v.VolumeOwner], .error (false, error))
      | .ok _ =>
        let tr3 := tr2 ++ [Event.Chown path v.VolumeOwner]
        match (build tr3).Chmod path v.VolumePerms with
        | .error error => (tr3 ++ [Event.Chmod path v.VolumePerms], .error (false, error))
        | .ok _ => (tr3 ++ [Event.Chmod path v.VolumePerms], .ok ())

/-- Member `TVolume::Build`: the fields and the trace after the call, and the
returned error.  The call `Backend->Build()` needs the backend object, which
`Configure` opens; without one the model has no result. -/
def TVolume.Build (host : Host) (build : BuildHost) (v : TVolume) (tr : Trace) :
    Option (TVolume × Trace × Except TError Unit) :=
  match v.Backend with
  | none => none
  | some b =>
    let storage := v.GetStorage (host tr)
    let internal := v.GetInternal (host tr) ""
    let tr1 := tr ++ [Event.Mkdir internal 0o755]
    match (host tr).Mkdir internal 0o755 with
    | .error error => some (v, tr1, .error error)
    | .ok _ =>
      let st2 : Trace × Except TError Unit :=
        if v.IsAutoStorage then (tr1 ++ [Event.Mkdir storage 0o755], (host tr1).Mkdir storage 0o755)
        else (tr1, .ok ())
      match st2 with
      | (tr2, .error error) => some (v, Build.err_storage internal tr2, .error error)
      | (tr2, .ok _) =>
        let st3 : Trace × Except TError Unit :=
          if v.IsAutoPath then (tr2 ++ [Event.Mkdir v.Path 0o755], (host tr2).Mkdir v.Path 0o755)
          else (tr2, .ok ())
        match st3 with
        | (tr3, .error error) => some (v, Build.err_path v storage internal tr3, .error error)
        | (tr3, .ok _) =>
          match (build tr3).BackendBuild v b with
          | (b1, .error error) =>
            some ({ v with Backend := some b1 },
              Build.err_build v storage internal (tr3 ++ [Event.BackendBuild]), .error error)
          | (b1, .ok _) =>
            let tr4 := tr3 ++ [Event.BackendBuild]
            match TVolume.BackendSave { v with Backend := some b1 } b1 with
            | (v1, .error error) =>
              match Build.err_save host v1 b1 storage internal tr4 with
              | (b2, tr5) => some ({ v1 with Backend := some b2 }, tr5, .error error)
            | (v1, .ok _) =>
              let merged : Trace × Except (Bool × TError) Unit :=
                if v1.IsLayersSet && v1.BackendType != "overlay" then
                  Build.layers host build v1 tr4
                else (tr4, .ok ())
              match merged with
              | (tr5, .error (true, error)) =>
                match Build.err_save host v1 b1 storage internal tr5 with
                | (b2, tr6) => some ({ v1 with Backend := some b2 }, tr6, .error error)
              | (tr5, .error (false, error)) => some (v1, tr5, .error error)
              | (tr5, .ok _) =>
                match v1.Save host tr5 with
                | (tr6, r) => some (v1, tr6, r)
/-! ## String utilities (`src/stringutil.cpp`) -/

/-- Loop of `CommaSeparatedList` over the elements still to come, with the
string `ret` built so far: the comma is added when the advanced iterator is
not at the end. -/
def CommaSeparatedList.loop : List String → String → String
  | [], ret => ret
  | c :: rest, ret =>
    CommaSeparatedList.loop rest (if rest ≠ [] then ret ++ c ++ "," else ret ++ c)

/-- Function `CommaSeparatedList` of `stringutil.cpp` on a vector. -/
def CommaSeparatedList (list : List String) : String :=
  CommaSeparatedList.loop list ""

/-- Loop `while (std::getline(ss, tok, sep)) tokens.push_back(tok)` of
`SplitString` on the characters left in the stream.  A call of `getline` that
finds the stream at its end extracts nothing and fails, which ends the loop;
one that has begun a token (`cur`) ends it at the separator, which it drops,
or at the end of the stream, and succeeds. -/
def SplitString.loop (sep : Char) : List Char → Option (List Char) → List String → List String
  | [], none, tokens => tokens
  | [], some tok, tokens => tokens ++ [String.mk tok]
  | c :: cs, cur, tokens =>
    if c = sep then SplitString.loop sep cs none (tokens ++ [String.mk (cur.getD [])])
    else SplitString.loop sep cs (some (cur.getD [] ++ [c])) tokens

/-- Function `SplitString` of `stringutil.cpp`: the vector afterwards and the
error.  The handler of the `try` block is reached by a failed allocation
only, which the model leaves out. -/
def SplitString (s : String) (sep : Char) (tokens : List String) :
    List String × Except TError Unit :=
  (SplitString.loop sep s.data none tokens, .ok ())
/-! ## Attaching a task and creating a cgroup -/

/-- Member `TCgroup::SetKnobValue`. -/
def TCgroup.SetKnobValue (host : CgHost) (node : CgNode) (knob value : String) (append : Bool)
    (tr : CgTrace) : CgTrace × Except TError Unit :=
  let f := node.Path ++ "/" ++ knob
  if append then (tr ++ [.AppendString f value], (host tr).AppendString f value)
  else (tr ++ [.WriteStringNoAppend f value], (host tr).WriteStringNoAppend f value)

/-- Member `TCgroup::Attach`: the error of the write is logged only. -/
def TCgroup.Attach (host : CgHost) (node : CgNode) (pid : Int) (tr : CgTrace) :
    CgTrace × Except TError Unit :=
  if !node.IsRoot then
    match TCgroup.SetKnobValue host node "cgroup.procs" (to_string pid) true tr with
    | (tr1, _) => (tr1, .ok ())
  else (tr, .ok ())

/-- Loop of `TTask::Start` in the child over `leaf_cgroups`: the trace
afterwards, and the error with which `ReportResultAndExit` ends the child, if
an attach returns one. -/
def Start.attach (host : CgHost) (pid : Int) : List CgNode → CgTrace → CgTrace × Option TError
  | [], tr => (tr, none)
  | cg :: leaf_cgroups, tr =>
    match TCgroup.Attach host cg pid tr with
    | (tr1, .error error) => (tr1, some error)
    | (tr1, .ok _) => Start.attach host pid leaf_cgroups tr1

/-- Loop of `TCgroup::Create` over the mounts of the snapshot: `none` when
the mount of the hierarchy is met, where the function returns success, else
the value of `mount_root` after the loop. -/
def Create.scan (root mount : TMount) : List TMount → Bool → Option Bool
  | [], mount_root => some mount_root
  | m :: mounts, mount_root =>
    let mount_root := if m = root then false else mount_root
    if m = mount then none else Create.scan root mount mounts mount_root

/-- The part of `TCgroup::Create` after the branch on `IsRoot`: the
directory, the mount of the hierarchy at a root, and the hierarchy flag of
the memory subsystem. -/
def Create.directory (host : CgHost) (mount : TMount) (node : CgNode) (tr : CgTrace) :
    CgTrace × Except TError Unit :=
  let made : CgTrace × Except TError Unit :=
    if !(host tr).FolderExists node.Path then
      (tr ++ [.FolderCreate node.Path (host tr).mode],
        (host tr).FolderCreate node.Path (host tr).mode)
    else (tr, .ok ())
  match made with
  | (tr1, .error error) => (tr1, .error error)
  | (tr1, .ok _) =>
    let mounted : CgTrace × Except TError Unit :=
      if node.IsRoot then (tr1 ++ [.Mount mount], (host tr1).Mount mount) else (tr1, .ok ())
    match mounted with
    | (tr2, .error error) => (tr2, .error error)
    | (tr2, .ok _) =>
      if node.HasSubsystem (host tr2).MemoryName then
        (tr2 ++ [.UseHierarchy node.Path], (host tr2).UseHierarchy node.Path)
      else (tr2, .ok ())

/-- Member `TCgroup::Create`.  The member `mount` of the root of the
hierarchy is passed along; its mount point is the one that the root node
keeps.  The result of `parent->Create()` is not used. -/
def TCgroup.Create (host : CgHost) (mount : TMount) : CgNode → CgTrace →
    CgTrace × Except TError Unit
  | .root mountpoint subsystems, tr =>
    match (host tr).Mounts with
    | .error error => (tr ++ [.Mounts], .error error)
    | .ok mounts =>
      let tr1 := tr ++ [.Mounts]
      let root : TMount := ⟨"cgroup", (host tr1).tmpfs, "tmpfs", []⟩
      match Create.scan root mount mounts true with
      | none => (tr1, .ok ())
      | some mount_root =>
        let mounted : CgTrace × Except TError Unit :=
          if mount_root then (tr1 ++ [.Mount root], (host tr1).Mount root) else (tr1, .ok ())
        match mounted with
        | (tr2, .error error) => (tr2, .error error)
        | (tr2, .ok _) => Create.directory host mount (.root mountpoint subsystems) tr2
  | .child name parent, tr =>
    match TCgroup.Create host mount parent tr with
    | (tr1, _) => Create.directory host mount (.child name parent) tr1
/-! ## The snapshot of the cgroup hierarchies (`TCgroupSnapshot::Create`) -/

/-- Member `subsystems` of a `TCgroup`: the root keeps the subsystems it was
made with. -/
def CgNode.subsystems : CgNode → List String
  | .root _ subsystems => subsystems
  | .child _ _ => []

/-- The `operator==` of `TCgroup`. -/
def TCgroup.eq (c1 c2 : TCgroup) : Bool :=
  if c1.node.name ≠ c2.node.name then false
  else if c1.parent ≠ c2.parent then false
  else if c1.parent = none ∧ c2.parent = none then
    decide (c1.node.subsystems = c2.node.subsystems)
  else true

/-- Modelled from the spec: `TRegistry::GetItem` of `registry.hpp`, which is
not in the sources: the registry interns objects through weak handles; a
live registered object equal to the item is returned, else the item becomes a
new registered object.  The returned handle is one more strong reference. -/
def TCgroupRegistry.GetItem (s : Cgroups) (registry : List CgroupPtr) (item : TCgroup) :
    Cgroups × List CgroupPtr × CgroupPtr :=
  match registry.find? fun c => s.alive c && TCgroup.eq (s.heap c) item with
  | some c => ({ s with refs := Function.update s.refs c (s.refs c + 1) }, registry, c)
  | none =>
    ({ heap := Function.update s.heap s.brk item
       refs := Function.update s.refs s.brk 1
       brk := s.brk + 1 }, registry.filter s.alive ++ [s.brk], s.brk)

/-- Static `TCgroupRegistry::GetRoot(mount, subsystems)`: the item is the
root made for the mount with the subsystems. -/
def TCgroupRegistry.GetRoot (s : Cgroups) (registry : List CgroupPtr) (mount : TMount)
    (subsystems : List String) : Cgroups × List CgroupPtr × CgroupPtr :=
  TCgroupRegistry.GetItem s registry ⟨.root mount.mountpoint subsystems, none, []⟩

/-- Fields of `TCgroupSnapshot`: the vector of handles and the map from the
name of a subsystem to the subsystem, in key order. -/
structure TCgroupSnapshot where
  cgroups : List CgroupPtr
  subsystems : List (String × String)

/-- The set `supported_subsystems` of `TCgroupSnapshot::Create`, in its
order of iteration. -/
def supported_subsystems : List String :=
  ["blkio", "cpu", "cpuacct", "cpuset", "devices", "freezer", "hugetlb", "memory",
   "name=systemd", "net_cls", "net_prio", "perf_event"]

/-- The objects, the registry, the snapshot and the calls made. -/
structure SnapshotState where
  objects : Cgroups
  registry : List CgroupPtr
  snapshot : TCgroupSnapshot
  trace : CgTrace

/-- Loop of `TCgroupSnapshot::Create` over the names in `cs`: the map
`subsystems` and the vector `cg_controllers` afterwards.  The subsystem is
looked up under `name`, the joined names. -/
def Snapshot.controllers (w : CgWorld) (name : String) :
    List String → List (String × String) → List String → List (String × String) × List String
  | [], subsystems, cg_controllers => (subsystems, cg_controllers)
  | c :: cs, subsystems, cg_controllers =>
    match w.SubsystemGet name with
    | none => Snapshot.controllers w name cs subsystems cg_controllers
    | some subsys =>
      Snapshot.controllers w name cs (mapSet subsystems c subsys) (cg_controllers ++ [subsys])

/-- Loop of `TCgroupSnapshot::Create` over the mounts; `dirs` gives the
directory tree at a mount point.  The handle `root` is pushed to `cgroups`,
and `FindChildren` gets a copy of that vector; `root` is released at the
end of the round.  The outer error side is an exception that ends the
process. -/
def Snapshot.loop (host : CgHost) (dirs : String → Folder) :
    List TMount → SnapshotState → SnapshotState × Except String (Except TError Unit)
  | [], st => (st, .ok (.ok ()))
  | mount :: mounts, st =>
    let cs := mount.flags.filter fun flag => supported_subsystems.contains flag
    if cs.isEmpty then Snapshot.loop host dirs mounts st
    else
      let name := CommaSeparatedList cs
      match Snapshot.controllers (host st.trace) name cs st.snapshot.subsystems [] with
      | (subsystems, cg_controllers) =>
        match TCgroupRegistry.GetRoot st.objects st.registry mount cg_controllers with
        | (s1, registry, root) =>
          let cgroups := st.snapshot.cgroups ++ [root]
          let s2 := { s1 with refs := Function.update s1.refs root (s1.refs root + 1) }
          match TCgroup.FindChildren host (dirs mount.mountpoint) root cgroups s2 st.trace with
          | (s3, tr3, .error what) => (⟨s3, registry, ⟨cgroups, subsystems⟩, tr3⟩, .error what)
          | (s3, tr3, .ok error) =>
            match Cgroups.release host (s3.heap root).node root s3 tr3 with
            | (s4, tr4, .error what) =>
              (⟨s4, registry, ⟨cgroups, subsystems⟩, tr4⟩, .error what)
            | (s4, tr4, .ok _) =>
              match error with
              | .error e => (⟨s4, registry, ⟨cgroups, subsystems⟩, tr4⟩, .ok (.error e))
              | .ok _ =>
                Snapshot.loop host dirs mounts ⟨s4, registry, ⟨cgroups, subsystems⟩, tr4⟩

/-- Member `TCgroupSnapshot::Create`. -/
def TCgroupSnapshot.Create (host : CgHost) (dirs : String → Folder) (st : SnapshotState) :
    SnapshotState × Except String (Except TError Unit) :=
  match (host st.trace).Mounts with
  | .error error => ({ st with trace := st.trace ++ [.Mounts] }, .ok (.error error))
  | .ok mounts => Snapshot.loop host dirs mounts { st with trace := st.trace ++ [.Mounts] }

/-- Equality of results can be decided when that of the errors and of the
values can. -/
instance decEqExcept {ε α : Type} [DecidableEq ε] [DecidableEq α] : DecidableEq (Except ε α)
  | .ok a, .ok b =>
    if h : a = b then isTrue (by rw [h]) else isFalse (fun h1 => h (by cases h1; rfl))
  | .error a, .error b =>
    if h : a = b then isTrue (by rw [h]) else isFalse (fun h1 => h (by cases h1; rfl))
  | .ok _, .error _ => isFalse (fun h => by cases h)
  | .error _, .ok _ => isFalse (fun h => by cases h)
/-! ## The whiteout rules as a function on trees

What the rules of layer sanitization make of a directory tree, written from
their wording and without the loop: the function that `SanitizeLayer` is
compared with. -/

/-- A whiteout: a name that begins with `.wh.`. -/
def isWhiteout (name : String) : Bool := StringStartsWith name ".wh."

/-- Whiteout metadata: a name that begins with `.wh..wh.`. -/
def isWhiteoutMetadata (name : String) : Bool := StringStartsWith name ".wh..wh."

/-- The name `X` that the whiteout `.wh.X` stands for. -/
def whiteoutTarget (name : String) : String := String.mk (name.data.drop 4)

/-- The names whited out by the names of a directory: the target of every
whiteout that is no metadata, in the order of the whiteouts. -/
def whiteoutTargets (names : List String) : List String :=
  (names.filter fun name => isWhiteout name && !isWhiteoutMetadata name).map whiteoutTarget

mutual
/-- The tree that the whiteout rules make of a tree.  In a directory the
entries that are whiteouts or whited out are dropped and the others stay in
their order, directories among them treated in the same way; when not
merging a character device stands at every whited out name, after the
entries that stay; the directory is opaque if it was or if it holds
`.wh..wh..opq`. -/
def FsNode.sanitizedSpec (merge : Bool) : FsNode → FsNode
  | .dir opq entries =>
    .dir (opq || (entries.map fun e => e.1).contains ".wh..wh..opq")
      (FsNode.sanitizedSpecList merge (whiteoutTargets (entries.map fun e => e.1)) entries ++
        if merge then []
        else (whiteoutTargets (entries.map fun e => e.1)).map fun name => (name, FsNode.chardev))
  | .file => .file
  | .chardev => .chardev
/-- The entries that stay, given the whited out names of the directory. -/
def FsNode.sanitizedSpecList (merge : Bool) (targets : List String) :
    List (String × FsNode) → List (String × FsNode)
  | [] => []
  | (name, node) :: rest =>
    if isWhiteout name || targets.contains name then
      FsNode.sanitizedSpecList merge targets rest
    else (name, node.sanitizedSpec merge) :: FsNode.sanitizedSpecList merge targets rest
end

/-- What the loop of `SanitizeLayer` has made of an entry of the directory
after the rounds on the names `done`: it is gone when whited out by one of
them, a whiteout among them is gone, another entry among them has been
treated, and an entry whose round is still to come is as it was. -/
def SanitizeLayer.kept (merge : Bool) (done : List String) (e : String × FsNode) :
    Option (String × FsNode) :=
  if e.1 ∈ whiteoutTargets done then none
  else if e.1 ∈ done then
    if isWhiteout e.1 then none else some (e.1, e.2.sanitizedSpec merge)
  else some e

/-- The character devices that the loop of `SanitizeLayer` has made after
the rounds on the names `done`. -/
def SanitizeLayer.made (merge : Bool) (done : List String) : List (String × FsNode) :=
  if merge then [] else (whiteoutTargets done).map fun name => (name, FsNode.chardev)

/-- The whiteouts with nothing, a dot or dot-dot behind the mark: what they
white out is no entry of the directory. -/
def bareWhiteouts : List String := [".wh.", ".wh..", ".wh..."]

mutual
/-- No name in the directory or in a directory beneath it is a bare
whiteout. -/
def FsNode.Regular : FsNode → Bool
  | .dir _ entries => FsNode.RegularList entries
  | _ => true
/-- No name in the entries or in a directory beneath them is a bare
whiteout. -/
def FsNode.RegularList : List (String × FsNode) → Bool
  | [] => true
  | (name, node) :: rest =>
    !bareWhiteouts.contains name && node.Regular && FsNode.RegularList rest
end

/-! ## Statements of the specification -/

/-- Spec: the decision table of backend autodetection: `loop` if a quota is
requested but native is unavailable; `overlay` if layers are set and overlay
is supported; `native` if supported; else `plain`. -/
def backendTable (have_quota layers_set native_supported overlay_supported : Bool) :
    String :=
  if have_quota && !native_supported then "loop"
  else if layers_set && overlay_supported then "overlay"
  else if native_supported then "native"
  else "plain"
/-- The codecs of the host invert each other on the saved values of a
volume. -/
structure CodecsInvert (w : World) (v : TVolume) : Prop where
  user : w.UserId (w.User v.VolumeOwner) = .ok v.VolumeOwner.Uid
  group : w.GroupId (w.Group v.VolumeOwner) = .ok v.VolumeOwner.Gid
  perms : w.StringToOct (w.FormatOct v.VolumePerms) = .ok v.VolumePerms
  loop_dev : w.StringToInt (to_string v.LoopDev) = .ok v.LoopDev
  space_limit : w.StringToSize (to_string v.SpaceLimit) = .ok v.SpaceLimit
  space_guarantee : w.StringToSize (to_string v.SpaceGuarantee) = .ok v.SpaceGuarantee
  inode_limit : w.StringToSize (to_string v.InodeLimit) = .ok v.InodeLimit
  inode_guarantee : w.StringToSize (to_string v.InodeGuarantee) = .ok v.InodeGuarantee
  containers :
    w.SplitEscapedString (w.MergeEscapeStrings v.Containers ';') [] ';' = v.Containers
  layers : w.SplitEscapedString (w.MergeEscapeStrings v.Layers ';') [] ';' = v.Layers

/-- The fields of a volume that `Save` writes, applied to a volume `v0`. -/
def restoredFrom (v0 v : TVolume) : TVolume :=
  { v0 with
    Id := v.Id
    Path := v.Path
    IsAutoPath := v.IsAutoPath
    StoragePath := v.StoragePath
    BackendType := v.BackendType
    VolumeOwner := v.VolumeOwner
    VolumePerms := v.VolumePerms
    Creator := v.Creator
    IsReady := v.IsReady
    Private := v.Private
    Containers := v.Containers
    LoopDev := v.LoopDev
    IsReadOnly := v.IsReadOnly
    Layers := v.Layers
    IsLayersSet := true
    Place := if v.CustomPlace then v.Place else v0.Place
    CustomPlace := v.CustomPlace || v0.CustomPlace
    SpaceLimit := v.SpaceLimit
    SpaceGuarantee := v.SpaceGuarantee
    InodeLimit := v.InodeLimit
    InodeGuarantee := v.InodeGuarantee }


/-- Every registered volume is an object made before the next handle, and its
numeric id, when it has one, is below `NextId`. -/
def IdsBelowNext (s : Daemon) : Prop :=
  ∀ e ∈ s.holder.Volumes, e.2 < s.brk ∧
    ∀ id, StringToUint64 (s.heap e.2).Id = .ok id → id < s.holder.NextId

/-- Absence of 64-bit wrap-around in recovery: no node restores to a volume
whose numeric id is `2^64 - 1`. -/
def NoWrap (host : Host) : Prop :=
  ∀ (tr : Trace) (node : String) (data : Props), (host tr).KvLoad node = .ok data →
    StringToUint64 (TVolume.fresh.Restore (host tr) data).1.Id ≠ .ok (2 ^ 64 - 1)

/-- Recovery steps that keep the allocator and the ids and register
nothing. -/
def Keeps (s s1 : Daemon) : Prop :=
  s1.brk = s.brk ∧ s1.holder.NextId = s.holder.NextId ∧
  (∀ e ∈ s1.holder.Volumes, e ∈ s.holder.Volumes) ∧
  ∀ p, (s1.heap p).Id = (s.heap p).Id


/-! ## A concrete host for the examples -/

/-- One mebibyte. -/
def MiB : Nat := 1048576

/-- Decimal value of a string of digits, for the example host. -/
def exParseNat (s : String) : Except TError Nat :=
  if s.data ≠ [] ∧ s.data.all Char.isDigit then
    .ok (s.data.foldl (fun n c => 10 * n + (c.toNat - 48)) 0)
  else .error ⟨.InvalidValue, "Bad integer value: " ++ s⟩

/-- Decimal value of an optionally signed string of digits, for the example
host. -/
def exParseInt (s : String) : Except TError Int :=
  match s.data with
  | '-' :: rest =>
    match exParseNat (String.mk rest) with
    | .ok n => .ok (-(n : Int))
    | .error e => .error e
  | _ =>
    match exParseNat s with
    | .ok n => .ok (n : Int)
    | .error e => .error e

/-- Octal value of a string of octal digits, for the example host. -/
def exParseOct (s : String) : Except TError Nat :=
  if s.data ≠ [] ∧ s.data.all (fun c => decide ('0' ≤ c ∧ c ≤ '7')) then
    .ok (s.data.foldl (fun n c => 8 * n + (c.toNat - 48)) 0)
  else .error ⟨.InvalidValue, "Bad integer value: " ++ s⟩

/-- Split at every separator, for the example host (no escapes). -/
def exSplit (cs : List Char) (sep : Char) (cur : List Char) : List String :=
  match cs with
  | [] => if cur = [] then [] else [String.mk cur.reverse]
  | c :: rest =>
    if c = sep then String.mk cur.reverse :: exSplit rest sep []
    else exSplit rest sep (c :: cur)

/-- A host whose single device has 1 GiB available and on which every volume
reports zero usage; every path exists and is writable, names of users are
their numbers, and lists are joined without escapes. -/
def exWorld : World :=
  { volume_dir := "porto_volumes"
    layers_dir := "porto_layers"
    default_place := "/place"
    chroot_porto_dir := "porto"
    enable_quota := true
    PORTO_NAME_CHARS :=
      "abcdefghijklmnopqrstuvwxyzABCDEFGHIJKLMNOPQRSTUVWXYZ0123456789_-@:."
    PathStatFS := fun _ => .ok ⟨0, 1024 * MiB, 0, 1000000⟩
    GetDev := fun _ => 1
    BackendStatFS := fun _ => .ok ⟨0, 1024 * MiB, 0, 1000000⟩
    Remount := fun _ _ => .ok ()
    QuotaCreate := fun _ _ _ => .ok ()
    QuotaResize := fun _ _ _ => .ok ()
    KvSave := fun _ _ => .ok ()
    VolumesKV := "/run/porto/kvs"
    KvListAll := fun _ => .ok []
    KvLoad := fun _ => .error ⟨.Unknown, "no such node"⟩
    ContainerGet := fun _ => true
    ReadDirectory := fun _ => .ok []
    UmountAll := fun _ => .ok ()
    RemoveAll := fun _ => .ok ()
    ClearDirectory := fun _ => .ok ()
    Unlink := fun _ => .ok ()
    Rename := fun _ _ => .ok ()
    QuotaDestroy := fun _ => .ok ()
    QuotaExists := fun _ => true
    PutLoopDev := fun _ => .ok ()
    UnmapDevice := fun _ => .ok ()
    HaveQuota := fun v => v.SpaceLimit ≠ 0 || v.InodeLimit ≠ 0
    QuotaSupported := true
    OverlaySupported := true
    CheckPlace := fun _ => .ok ()
    IsAbsolute := fun p => p.data.head? = some '/'
    IsNormal := fun _ => true
    IsRoot := fun p => p = "/"
    Exists := fun _ => true
    IsDirectoryStrict := fun _ => true
    IsDirectoryFollow := fun _ => true
    CanWrite := fun _ _ => true
    Mkdir := fun _ _ => .ok ()
    User := fun c => toString c.Uid
    Group := fun c => toString c.Gid
    IsRootUser := fun c => c.Uid = 0
    IsMemberOf := fun _ _ => false
    UserId := exParseNat
    GroupId := exParseNat
    StringToOct := exParseOct
    StringToSize := exParseNat
    StringToInt := exParseInt
    FormatOct := fun n => String.mk ('0' :: Nat.toDigits 8 n)
    SplitEscapedString := fun s vec sep => vec ++ exSplit s.data sep []
    MergeEscapeStrings := fun xs sep => String.intercalate (String.singleton sep) xs }

/-- The example host never changes. -/
def exHost : Host := fun _ => exWorld

/-- Volume A: a ready native volume with a space guarantee of 800 MiB. -/
def exVolumeA : TVolume :=
  { Id := "1"
    Path := "/place/porto_volumes/1/volume"
    IsAutoPath := true
    StoragePath := ""
    IsAutoStorage := true
    BackendType := "native"
    Backend := some ⟨"native", -1⟩
    VolumeOwner := ⟨0, 0⟩
    VolumePerms := 0o775
    Creator := "/ 0 0"
    CreatorCred := ⟨0, 0⟩
    CreatorRoot := "/"
    IsReady := true
    Private := ""
    Containers := ["a"]
    LoopDev := -1
    IsReadOnly := false
    Layers := []
    IsLayersSet := false
    Place := "/place"
    CustomPlace := false
    SpaceLimit := 0
    SpaceGuarantee := 800 * MiB
    InodeLimit := 0
    InodeGuarantee := 0 }

/-- Volume B while it is being configured with space guarantee `g`. -/
def exVolumeB (g : Nat) : TVolume :=
  { exVolumeA with
    Id := "2"
    Path := "/place/porto_volumes/2/volume"
    IsReady := false
    Containers := []
    SpaceGuarantee := g }

/-- Handle 1 is volume A, every other handle is volume B. -/
def exHeap (g : Nat) : Heap := fun p => if p = 1 then exVolumeA else exVolumeB g

/-- The holder in which only volume A is registered. -/
def exHolder : TVolumeHolder := ⟨[("/place/porto_volumes/1/volume", 1)], 2⟩

/-- The root container run by root, creator of the example volumes. -/
def exCreator : TContainer := ⟨"/", "/"⟩

/-- Volume C: a ready native volume with a space limit of 5 MiB and no
guarantee. -/
def exVolumeC : TVolume :=
  { exVolumeB 0 with IsReady := true, SpaceLimit := 5 * MiB }

/-- Handle 1 is volume A, every other handle is volume C. -/
def exHeapC : Heap := fun p => if p = 1 then exVolumeA else exVolumeC

/-- The holder in which volumes A and C are registered. -/
def exHolderC : TVolumeHolder :=
  ⟨[("/place/porto_volumes/1/volume", 1), ("/place/porto_volumes/2/volume", 2)], 3⟩

/-- Volume A as it would be with id 7. -/
def exVolume7 : TVolume :=
  { exVolumeA with Id := "7", Path := "/place/porto_volumes/7/volume" }

/-- A host whose key-value store holds one node, the saved record of the
volume with id 7. -/
def exRestoreHost : Host := fun _ =>
  { exWorld with
    KvListAll := fun _ => .ok ["/run/porto/kvs/7"]
    KvLoad := fun node =>
      if node = "/run/porto/kvs/7" then .ok (exVolume7.SaveRecord exWorld)
      else .error ⟨.Unknown, "no such node"⟩ }

/-- The daemon at startup: no volume registered, `NextId` is 1. -/
def exDaemon : Daemon :=
  { holder := ⟨[], 1⟩, heap := fun _ => TVolume.fresh, brk := 0, trace := [] }

/-- The example host on which every unmount fails. -/
def exHostBusy : Host := fun _ =>
  { exWorld with UmountAll := fun _ => .error ⟨.Unknown, "umount: device is busy"⟩ }


/-- The root of the freezer hierarchy. -/
def exCgRoot : CgNode := .root "/sys/fs/cgroup/freezer" ["freezer"]

/-- Cgroup objects of the examples: handle 0 is the held root, whose vector
lists an expired child (handle 2) and then a live one (handle 1), both named
`porto`. -/
def exCgroups : Cgroups :=
  { heap := fun p =>
      if p = 0 then ⟨exCgRoot, none, [2, 1]⟩
      else ⟨.child "porto" exCgRoot, some 0, []⟩
    refs := fun p => if p = 0 then 2 else if p = 1 then 1 else 0
    brk := 3 }

/-- A host for the cgroup examples: the tasks knob of every cgroup always
lists the tasks 12 and 13, and the hierarchy cannot be unmounted. -/
def exCgHost : CgHost := fun _ =>
  { PORTO_ROOT_CGROUP := "porto"
    CGROUP_REMOVE_TIMEOUT_S := 1
    SIGKILL := 9
    FreezerName := "freezer"
    need_cleanup := false
    Umount := fun _ => .error ⟨.Unknown, "umount: target is busy"⟩
    AsLines := fun _ => .ok ["12", "13"]
    AppendString := fun _ _ => .ok ()
    WriteStringNoAppend := fun _ _ => .ok ()
    Mounts := .ok [⟨"cgroup", "/sys/fs/cgroup/freezer", "cgroup", ["freezer", "rw"]⟩]
    tmpfs := "/sys/fs/cgroup"
    mode := 0o755
    Mount := fun _ => .ok ()
    FolderExists := fun _ => false
    FolderCreate := fun _ _ => .ok ()
    MemoryName := "memory"
    UseHierarchy := fun _ => .ok ()
    SubsystemGet := fun name => some name }

/-- The same host when the tasks knob lists the task id 0. -/
def exCgHostZero : CgHost := fun _ =>
  { exCgHost [] with AsLines := fun _ => .ok ["0"] }

/-- Cgroup objects before any walk: the held root at handle 0, no child. -/
def exCgFresh : Cgroups :=
  { heap := fun _ => ⟨exCgRoot, none, []⟩
    refs := fun p => if p = 0 then 1 else 0
    brk := 1 }

/-- The directory of the freezer hierarchy in the examples: a directory of
another user of cgroups with one subdirectory, and the porto directory with
two containers, one of which has a subdirectory. -/
def exCgTree : Folder :=
  .mk "freezer" none
    [.mk "user.slice" none [.mk "session" none []],
     .mk "porto" none [.mk "c1" none [.mk "hook" none []], .mk "c2" none []]]

/-- A host on which every file system call succeeds. -/
def exFsHost : FsHost := fun _ =>
  { ReadDirectory := fun _ => none
    NotDirectory := fun _ => ⟨.Unknown, "Not a directory"⟩
    RemoveAll := fun _ => none
    SetXAttr := fun _ _ _ => none
    Mknod := fun _ => none }

/-- A layer with aufs whiteouts: `b` is whited out at the top, the directory
`d` is marked opaque and whites out `x`, which is not there. -/
def exLayer : FsNode :=
  .dir false
    [("a", .file), (".wh.b", .file), ("b", .dir false [("c", .file)]),
     ("d", .dir false [(".wh..wh..opq", .file), (".wh.x", .file), ("y", .file)])]

/-- Volume 7 linked to two containers. -/
def exVolume7Links : TVolume :=
  { exVolume7 with Containers := ["known", "gone"] }

/-- A host whose key-value store holds the record of volume 7 with its two
links, and on which only the container `known` exists. -/
def exLinksHost : Host := fun _ =>
  { exWorld with
    KvListAll := fun _ => .ok ["/run/porto/kvs/7"]
    KvLoad := fun node =>
      if node = "/run/porto/kvs/7" then .ok (exVolume7Links.SaveRecord exWorld)
      else .error ⟨.Unknown, "no such node"⟩
    ContainerGet := fun name => name = "known" }

/-- The same host when the record of volume 7 has the single link `gone`. -/
def exDanglingHost : Host := fun _ =>
  { exWorld with
    KvListAll := fun _ => .ok ["/run/porto/kvs/7"]
    KvLoad := fun node =>
      if node = "/run/porto/kvs/7" then
        .ok (({ exVolume7 with Containers := ["gone"] }).SaveRecord exWorld)
      else .error ⟨.Unknown, "no such node"⟩
    ContainerGet := fun name => name = "known" }

/-- Whether the key-value store holds the record of the volume `id` after the
calls of a trace, all of which succeeded: a save writes it, an unlink of
its node removes it. -/
def recordLeft (VolumesKV id : String) (before : Bool) (tr : Trace) : Bool :=
  tr.foldl (fun left e =>
    match e with
    | .KvSave id1 _ => if id1 = id then true else left
    | .Unlink path => if path = pathJoin VolumesKV id then false else left
    | _ => left) before

/-- The calls of a trace that write (`true`, with the id) or unlink (`false`,
with the path) a record of the key-value store, oldest first. -/
def kvCalls (tr : Trace) : List (Bool × String) :=
  tr.filterMap fun e =>
    match e with
    | .KvSave id _ => some (true, id)
    | .Unlink path => some (false, path)
    | _ => none

/-- Volume L: a ready loop volume with a space limit of 5 MiB on the loop
device 3. -/
def exVolumeL : TVolume :=
  { exVolumeC with BackendType := "loop", Backend := some ⟨"loop", 3⟩, LoopDev := 3 }

/-- Handle 1 is volume A, every other handle is volume L. -/
def exHeapL : Heap := fun p => if p = 1 then exVolumeA else exVolumeL

/-- A host on which every call of `TVolume::Build` succeeds; the loop and
rbd backends get the device 0. -/
def exBuildWorld : BuildWorld :=
  { BackendBuild := fun _ b =>
      (if b.Kind = "loop" ∨ b.Kind = "rbd" then { b with DeviceIndex := 0 } else b, .ok ())
    OpenDir := fun _ => .ok ()
    RealPath := fun name => name
    InnerPath := fun _ path => path
    BindRemount := fun _ _ => .ok ()
    Remount := fun _ => .ok ()
    CopyRecursive := fun _ _ => .ok ()
    SanitizeLayer := fun _ _ => .ok ()
    Chown := fun _ _ => .ok ()
    Chmod := fun _ _ => .ok () }

/-- The example build host never changes. -/
def exBuildHost : BuildHost := fun _ => exBuildWorld

/-- The example build host on which no owner can be changed. -/
def exChownFails : BuildHost := fun _ =>
  { exBuildWorld with Chown := fun _ _ => .error ⟨.Unknown, "chown: operation not permitted"⟩ }

/-- The example build host on which no mode can be changed. -/
def exChmodFails : BuildHost := fun _ =>
  { exBuildWorld with Chmod := fun _ _ => .error ⟨.Unknown, "chmod: operation not permitted"⟩ }

/-- The example build host on which no tree can be copied. -/
def exCopyFails : BuildHost := fun _ =>
  { exBuildWorld with CopyRecursive := fun _ _ => .error ⟨.Unknown, "copy: no space left"⟩ }

/-- The example host on which no record can be saved. -/
def exSaveFails : Host := fun _ =>
  { exWorld with KvSave := fun _ _ => .error ⟨.Unknown, "save: no space left"⟩ }

/-- Volume P while it is built: a plain volume with automatic path and
storage and the one layer `base`. -/
def exVolumeP : TVolume :=
  { exVolumeB 0 with
    Id := "3"
    Path := "/place/porto_volumes/3/volume"
    BackendType := "plain"
    Backend := some ⟨"plain", -1⟩
    Layers := ["base"]
    IsLayersSet := true }

/-- The calls of a trace that undo a step of `TVolume::Build`, oldest first:
the unmounts and the removals. -/
def undone (tr : Trace) : List Event :=
  tr.filter fun e =>
    match e with
    | .UmountAll _ => true
    | .RemoveAll _ => true
    | _ => false

/-- The example cgroup host when the file `tasks` begins with a line that is
no number. -/
def exCgHostGarbled : CgHost := fun _ =>
  { exCgHost [] with AsLines := fun _ => .ok ["tasks", "12"] }

/-- The mount of the freezer hierarchy of the examples. -/
def exCgMount : TMount := ⟨"cgroup", "/sys/fs/cgroup/freezer", "cgroup", ["freezer"]⟩

/-- The example cgroup host before the hierarchy is mounted, when the mount
of a hierarchy is refused. -/
def exCgHostNoMount : CgHost := fun _ =>
  { exCgHost [] with
    Mounts := .ok []
    Mount := fun m =>
      if m.vfstype = "cgroup" then .error ⟨.Unknown, "mount: permission denied"⟩ else .ok () }

/-- The example cgroup host on which no file can be written. -/
def exCgHostReadOnly : CgHost := fun _ =>
  { exCgHost [] with
    AppendString := fun _ _ => .error ⟨.Unknown, "write: read-only file system"⟩ }

/-- The daemon before any cgroup object is made. -/
def exSnapshotStart : SnapshotState :=
  { objects := { heap := fun _ => ⟨exCgRoot, none, []⟩, refs := fun _ => 0, brk := 0 }
    registry := []
    snapshot := ⟨[], []⟩
    trace := [] }

/-- A layer that holds a file and a whiteout with nothing behind the mark. -/
def exLayerMark : FsNode :=
  .dir false [("a", .file), (".wh.", .file)]

/-- A layer whose directory `d` holds a whiteout of dot-dot. -/
def exLayerUp : FsNode :=
  .dir false [("d", .dir false [(".wh...", .file)]), ("a", .file)]
/-! ## Theorems -/

/-! ## Registry lemmas -/

theorem mapFind_mapSet_self {α : Type} (m : List (String × α)) (path : String) (p : α) :
    mapFind (mapSet m path p) path = some p := by
  induction m with
  | nil => simp [mapSet, mapFind]
  | cons e rest ih =>
    obtain ⟨k, q⟩ := e
    by_cases hk : k = path
    · simp [mapSet, mapFind, hk]
    · by_cases hlt : strLt path.data k.data = true
      · simp [mapSet, mapFind, hk, hlt]
      · simp [mapSet, mapFind, hk, hlt, ih]

theorem mapFind_mapSet_ne {α : Type} (m : List (String × α)) (path q : String) (p : α)
    (hq : q ≠ path) : mapFind (mapSet m path p) q = mapFind m q := by
  induction m with
  | nil => simp [mapSet, mapFind, Ne.symm hq]
  | cons e rest ih =>
    obtain ⟨k, r⟩ := e
    by_cases hk : k = path
    · subst hk
      simp [mapSet, mapFind, Ne.symm hq]
    · by_cases hlt : strLt path.data k.data = true
      · simp [mapSet, mapFind, hk, hlt, Ne.symm hq]
      · by_cases hkq : k = q
        · subst hkq
          simp [mapSet, mapFind, hk, hlt]
        · simp [mapSet, mapFind, hk, hlt, hkq, ih]

theorem mapFind_mapErase_self {α : Type} (m : List (String × α)) (path : String) :
    mapFind (mapErase m path) path = none := by
  induction m with
  | nil => simp [mapErase, mapFind]
  | cons e rest ih =>
    obtain ⟨k, r⟩ := e
    by_cases hk : k = path
    · simp [mapErase, hk, ih]
    · simp [mapErase, mapFind, hk, ih]

theorem mapFind_mapErase_ne {α : Type} (m : List (String × α)) (path q : String)
    (hq : q ≠ path) : mapFind (mapErase m path) q = mapFind m q := by
  induction m with
  | nil => simp [mapErase, mapFind]
  | cons e rest ih =>
    obtain ⟨k, r⟩ := e
    by_cases hk : k = path
    · subst hk
      simp [mapErase, mapFind, Ne.symm hq, ih]
    · by_cases hkq : k = q
      · subst hkq
        simp [mapErase, mapFind, hk]
      · simp [mapErase, mapFind, hk, hkq, ih]

theorem Register_of_free (heap : Heap) (h : TVolumeHolder) (v : VolumePtr)
    (hp : h.Find (heap v).GetPath = none) :
    h.Register heap v =
      ({ h with Volumes := mapSet h.Volumes (heap v).GetPath v }, .ok ()) := by
  simp only [TVolumeHolder.Find] at hp
  simp [TVolumeHolder.Register, hp]

theorem Register_of_taken (heap : Heap) (h : TVolumeHolder) (v : VolumePtr)
    (hp : h.Find (heap v).GetPath ≠ none) :
    h.Register heap v = (h, .error ⟨.VolumeAlreadyExists, "Volume already exists"⟩) := by
  simp only [TVolumeHolder.Find] at hp
  simp [TVolumeHolder.Register, hp]

/-! ## Guarantee check and registry (C1, C2) -/

/-- C1 (code defect): in the guarantee rejection scenario (1 GiB available,
volume A registered with a guarantee of 800 MiB and zero usage) the claim's
inequality `avail + used + claimed < want + guaranteed`, taken with volume
A's own guarantee, holds for a request of 300 MiB, yet `CheckGuarantee`
returns success and so does `Configure` of a volume asking 300 MiB: the loop
adds the guarantee of the volume being checked instead of the guarantee of
the iterated volume. -/
theorem C1_checkGuarantee_accepts_overcommit :
    (1024 * MiB + 0 + min 0 exVolumeA.SpaceGuarantee <
        300 * MiB + exVolumeA.SpaceGuarantee) ∧
    (exVolumeB (300 * MiB)).CheckGuarantee exWorld (exHeap (300 * MiB)) exHolder 2
        (300 * MiB) 0 = .ok () ∧
    (TVolume.Configure exWorld (exHeap 0) exHolder { TVolume.fresh with Id := "2" } 2 ""
        ⟨0, 0⟩ exCreator [(V_SPACE_GUARANTEE, "314572800")]).2 = .ok () ∧
    (TVolume.Configure exWorld (exHeap 0) exHolder { TVolume.fresh with Id := "2" } 2 ""
        ⟨0, 0⟩ exCreator [(V_SPACE_GUARANTEE, "314572800")]).1.SpaceGuarantee =
      300 * MiB := by
  refine ⟨by decide, rfl, rfl, rfl⟩

/-- C2: `Register` succeeds and stores the volume under its path when the path
is free, leaving every other path as it was; when the path is taken it fails
with VolumeAlreadyExists and leaves the holder unchanged, so the earlier
volume is still the one found; a second `Register` always fails, and after
`Unregister` a further `Register` succeeds. -/
theorem C2_register_unregister (heap : Heap) (h : TVolumeHolder) (v : VolumePtr) :
    (h.Find (heap v).GetPath = none →
      (h.Register heap v).2 = .ok () ∧
      (h.Register heap v).1.Find (heap v).GetPath = some v ∧
      (h.Register heap v).1.NextId = h.NextId ∧
      ∀ q, q ≠ (heap v).GetPath → (h.Register heap v).1.Find q = h.Find q) ∧
    (∀ u, h.Find (heap v).GetPath = some u →
      (h.Register heap v).2 = .error ⟨.VolumeAlreadyExists, "Volume already exists"⟩ ∧
      (h.Register heap v).1 = h ∧
      (h.Register heap v).1.Find (heap v).GetPath = some u) ∧
    ((h.Register heap v).1.Register heap v).2 =
      .error ⟨.VolumeAlreadyExists, "Volume already exists"⟩ ∧
    (((h.Register heap v).1.Unregister heap v).Register heap v).2 = .ok () ∧
    (((h.Register heap v).1.Unregister heap v).Register heap v).1.Find (heap v).GetPath =
      some v := by
  have hfind : (h.Register heap v).1.Find (heap v).GetPath ≠ none := by
    by_cases hp : h.Find (heap v).GetPath = none
    · rw [Register_of_free heap h v hp]
      simp [TVolumeHolder.Find, mapFind_mapSet_self]
    · rw [Register_of_taken heap h v hp]
      exact hp
  have hun : ((h.Register heap v).1.Unregister heap v).Find (heap v).GetPath = none := by
    simp [TVolumeHolder.Unregister, TVolumeHolder.Find, mapFind_mapErase_self]
  refine ⟨?_, ?_, ?_, ?_, ?_⟩
  · intro hp
    rw [Register_of_free heap h v hp]
    refine ⟨rfl, ?_, rfl, ?_⟩
    · simp [TVolumeHolder.Find, mapFind_mapSet_self]
    · intro q hq
      simp [TVolumeHolder.Find, mapFind_mapSet_ne _ _ _ _ hq]
  · intro u hu
    have hne : h.Find (heap v).GetPath ≠ none := by simp [hu]
    rw [Register_of_taken heap h v hne]
    exact ⟨rfl, rfl, hu⟩
  · rw [Register_of_taken heap _ v hfind]
  · rw [Register_of_free heap _ v hun]
  · rw [Register_of_free heap _ v hun]
    simp [TVolumeHolder.Find, mapFind_mapSet_self]

/-- Witness for C2 on the example holder: volume B's path is free, volume A's
path is taken. -/
theorem C2_register_unregister_witness :
    (exHolder.Register (exHeap 0) 2).2 = .ok () ∧
    (exHolder.Register (exHeap 0) 1).2 =
      .error ⟨.VolumeAlreadyExists, "Volume already exists"⟩ ∧
    (exHolder.Register (exHeap 0) 1).1 = exHolder :=
  ⟨((C2_register_unregister (exHeap 0) exHolder 2).1 (by decide)).1,
   ((C2_register_unregister (exHeap 0) exHolder 1).2.1 1 (by decide)).1,
   ((C2_register_unregister (exHeap 0) exHolder 1).2.1 1 (by decide)).2.1⟩

/-! ## Decimal rendering and `stoull` -/

theorem digitChar_isDigit (k : Nat) (h : k < 10) :
    (Nat.digitChar k).isDigit = true ∧ (Nat.digitChar k).toNat - 48 = k := by
  interval_cases k <;> decide

theorem digitsValue_append (ds : List Char) (c : Char) :
    digitsValue (ds ++ [c]) = 10 * digitsValue ds + (c.toNat - 48) := by
  simp [digitsValue, List.foldl_append]

theorem toDigitsCore_decimal (k : Nat) : ∀ (n : Nat) (tail : List Char), n < k →
    ∃ run : List Char, (∀ c ∈ run, c.isDigit = true) ∧ digitsValue run = n ∧ run ≠ [] ∧
      Nat.toDigitsCore 10 k n tail = run ++ tail := by
  induction k with
  | zero => intro n tail h; omega
  | succ k ih =>
    intro n tail h
    have hd := digitChar_isDigit (n % 10) (Nat.mod_lt _ (by decide))
    by_cases hn : n / 10 = 0
    · refine ⟨[Nat.digitChar (n % 10)], ?_, ?_, by simp, ?_⟩
      · intro c hc
        simp only [List.mem_singleton] at hc
        rw [hc]; exact hd.1
      · have hlt : n < 10 := by omega
        have hmod : n % 10 = n := Nat.mod_eq_of_lt hlt
        simp only [digitsValue, List.foldl_cons, List.foldl_nil, Nat.mul_zero, Nat.zero_add]
        rw [hd.2, hmod]
      · simp [Nat.toDigitsCore, hn]
    · obtain ⟨run, h3, h4, h2, h1⟩ := ih (n / 10) (Nat.digitChar (n % 10) :: tail) (by omega)
      refine ⟨run ++ [Nat.digitChar (n % 10)], ?_, ?_, by simp, ?_⟩
      · intro c hc
        rcases List.mem_append.1 hc with hc | hc
        · exact h3 c hc
        · simp only [List.mem_singleton] at hc
          rw [hc]; exact hd.1
      · rw [digitsValue_append, h4, hd.2]
        omega
      · simp [Nat.toDigitsCore, hn, h1]

theorem to_string_nat_spec (n : Nat) :
    ∃ ds : List Char, (to_string (n : Int)).data = ds ∧ ds ≠ [] ∧
      (∀ c ∈ ds, c.isDigit = true) ∧ digitsValue ds = n := by
  obtain ⟨ds, h3, h4, h2, h1⟩ := toDigitsCore_decimal (n + 1) n [] (by omega)
  refine ⟨ds, ?_, h2, h3, h4⟩
  have hrepr : to_string (n : Int) = (Nat.toDigits 10 n).asString := rfl
  rw [hrepr]
  simp [Nat.toDigits, h1, List.asString]

theorem isDigit_not_space (c : Char) (h : c.isDigit = true) :
    isspace c = false ∧ c ≠ '-' ∧ c ≠ '+' := by
  simp only [Char.isDigit, Bool.and_eq_true, decide_eq_true_eq] at h
  refine ⟨?_, ?_, ?_⟩
  · simp only [isspace, Bool.or_eq_false_iff, decide_eq_false_iff_not]
    refine ⟨⟨⟨⟨⟨?_, ?_⟩, ?_⟩, ?_⟩, ?_⟩, ?_⟩ <;> (intro hc; rw [hc] at h; revert h; decide)
  · intro hc; rw [hc] at h; revert h; decide
  · intro hc; rw [hc] at h; revert h; decide

theorem takeWhile_all {α : Type} (p : α → Bool) (l : List α) (h : ∀ x ∈ l, p x = true) :
    l.takeWhile p = l := by
  induction l with
  | nil => rfl
  | cons x xs ih =>
    have hx := h x (by simp)
    simp [List.takeWhile, hx, ih (fun y hy => h y (by simp [hy]))]

theorem stoull_to_string (n : Nat) (h : n < 2 ^ 64) : stoull (to_string (n : Int)) = some n := by
  obtain ⟨ds, h1, h2, h3, h4⟩ := to_string_nat_spec n
  unfold stoull
  rw [h1]
  obtain ⟨c, rest, rfl⟩ := List.exists_cons_of_ne_nil h2
  have hc := isDigit_not_space c (h3 c (by simp))
  have hdw : (c :: rest).dropWhile isspace = c :: rest := by
    simp [List.dropWhile, hc.1]
  rw [hdw]
  have hsigned : (match c :: rest with
      | '-' :: rest => (true, rest)
      | '+' :: rest => (false, rest)
      | rest => (false, rest)) = (false, c :: rest) := by
    split
    · rename_i heq; cases heq; exact absurd rfl hc.2.1
    · rename_i heq; cases heq; exact absurd rfl hc.2.2
    · rfl
  simp only [hsigned, takeWhile_all _ _ h3, h4]
  have hlt : ¬ (2 ^ 64 ≤ n) := by omega
  rw [if_neg hlt]
  simp

theorem StringToUint64_to_string (n : Nat) (h : n < 2 ^ 64) :
    StringToUint64 (to_string (n : Int)) = .ok n := by
  simp [StringToUint64, stoull_to_string n h]

theorem stoull_lt (s : String) (n : Nat) (h : stoull s = some n) : n < 2 ^ 64 := by
  unfold stoull at h
  simp only at h
  split at h
  · cases h
  · split at h
    · cases h
    · rename_i h1 h2
      simp only [Option.some.injEq] at h
      rw [← h]
      split
      · exact Nat.mod_lt _ (by decide)
      · omega

/-! ## Recovery keeps ids below `NextId` -/

theorem Keeps.refl (s : Daemon) : Keeps s s :=
  ⟨rfl, rfl, fun _ h => h, fun _ => rfl⟩

theorem Keeps.trans {a b c : Daemon} (h1 : Keeps a b) (h2 : Keeps b c) : Keeps a c :=
  ⟨h2.1.trans h1.1, h2.2.1.trans h1.2.1, fun e he => h1.2.2.1 e (h2.2.2.1 e he),
    fun p => (h2.2.2.2 p).trans (h1.2.2.2 p)⟩

theorem Keeps.inv {s s1 : Daemon} (h : Keeps s s1) (hi : IdsBelowNext s) : IdsBelowNext s1 := by
  intro e he
  obtain ⟨h1, h2⟩ := hi e (h.2.2.1 e he)
  refine ⟨by rw [h.1]; exact h1, ?_⟩
  intro id hid
  rw [h.2.1]
  rw [h.2.2.2] at hid
  exact h2 id hid

theorem mem_mapErase {α : Type} (m : List (String × α)) (key : String) (e : String × α)
    (h : e ∈ mapErase m key) : e ∈ m := by
  induction m with
  | nil => simp [mapErase] at h
  | cons x rest ih =>
    obtain ⟨k, q⟩ := x
    by_cases hk : k = key
    · simp only [mapErase, hk, if_true] at h
      exact List.mem_cons_of_mem _ (ih h)
    · simp only [mapErase, hk, if_false] at h
      rcases List.mem_cons.1 h with h | h
      · rw [h]; exact List.mem_cons_self _ _
      · exact List.mem_cons_of_mem _ (ih h)

theorem mem_mapSet {α : Type} (m : List (String × α)) (key : String) (p : α) (e : String × α)
    (h : e ∈ mapSet m key p) : e = (key, p) ∨ e ∈ m := by
  induction m with
  | nil =>
    simp only [mapSet, List.mem_singleton] at h
    exact Or.inl h
  | cons x rest ih =>
    obtain ⟨k, q⟩ := x
    by_cases hk : k = key
    · simp only [mapSet, hk, if_true] at h
      rcases List.mem_cons.1 h with h | h
      · exact Or.inl h
      · exact Or.inr (List.mem_cons_of_mem _ h)
    · by_cases hlt : strLt key.data k.data = true
      · simp only [mapSet, hk, hlt, if_true, if_false] at h
        rcases List.mem_cons.1 h with h | h
        · exact Or.inl h
        · exact Or.inr h
      · simp only [mapSet, hk, hlt, if_false] at h
        rcases List.mem_cons.1 h with h | h
        · rw [h]; exact Or.inr (List.mem_cons_self _ _)
        · rcases ih h with h | h
          · exact Or.inl h
          · exact Or.inr (List.mem_cons_of_mem _ h)

theorem Destroy_Id (host : Host) (heap : Heap) (holder : TVolumeHolder) (v : TVolume)
    (tr : Trace) : (v.Destroy host heap holder tr).1.Id = v.Id := rfl

theorem UnlinkContainer_Id (host : Host) (v : TVolume) (name : String) (tr : Trace) :
    (v.UnlinkContainer host name tr).1.Id = v.Id := rfl

theorem update_Id (heap : Heap) (this : VolumePtr) (v : TVolume) (h : v.Id = (heap this).Id)
    (p : VolumePtr) : (Function.update heap this v p).Id = (heap p).Id := by
  by_cases hp : p = this
  · subst hp; simp [h]
  · simp [Function.update, hp]

theorem destroyUnregister_Keeps (host : Host) (s : Daemon) (this : VolumePtr) :
    Keeps s (RestoreFromStorage.destroyUnregister host s this) := by
  unfold RestoreFromStorage.destroyUnregister
  refine ⟨rfl, rfl, ?_, ?_⟩
  · intro e he
    exact mem_mapErase _ _ _ he
  · intro p
    exact update_Id s.heap this _ (Destroy_Id host s.heap s.holder (s.heap this) s.trace) p

theorem link_Keeps (host : Host) (this : VolumePtr) (s : Daemon) (name : String) :
    Keeps s (RestoreFromStorage.link host this s name) := by
  unfold RestoreFromStorage.link
  split
  · exact ⟨rfl, rfl, fun _ h => h, fun _ => rfl⟩
  · have h1 : Keeps s { s with
        heap := Function.update s.heap this
          ((s.heap this).UnlinkContainer host name s.trace).1
        trace := ((s.heap this).UnlinkContainer host name s.trace).2.1 } :=
      ⟨rfl, rfl, fun _ h => h,
        fun p => update_Id s.heap this _ (UnlinkContainer_Id host _ name s.trace) p⟩
    simp only
    split
    · exact h1.trans (destroyUnregister_Keeps host _ this)
    · exact h1

theorem foldl_link_Keeps (host : Host) (this : VolumePtr) (names : List String) :
    ∀ s : Daemon, Keeps s (names.foldl (RestoreFromStorage.link host this) s) := by
  induction names with
  | nil => intro s; exact Keeps.refl s
  | cons n rest ih =>
    intro s
    exact (link_Keeps host this s n).trans (ih _)


theorem StringToUint64_lt (s : String) (n : Nat) (h : StringToUint64 s = .ok n) : n < 2 ^ 64 := by
  unfold StringToUint64 at h
  cases hs : stoull s with
  | none => simp [hs] at h
  | some m =>
    simp only [hs, Except.ok.injEq] at h
    rw [← h]
    exact stoull_lt s m hs

theorem advance_ge (NextId : Nat) (Id : String)
    (hw : StringToUint64 Id ≠ .ok (2 ^ 64 - 1)) :
    NextId ≤ RestoreFromStorage.advance NextId Id := by
  unfold RestoreFromStorage.advance
  cases hp : StringToUint64 Id with
  | error e => exact Nat.le_refl _
  | ok id =>
    have hlt := StringToUint64_lt Id id hp
    have hne : id ≠ 2 ^ 64 - 1 := by
      intro h; rw [h] at hp; exact hw hp
    simp only
    split
    · rename_i hge
      have h64 : (2 : Nat) ^ 64 = 18446744073709551616 := by norm_num
      rw [h64] at hlt hne
      have hlt1 : id + 1 < 2 ^ 64 := by rw [h64]; omega
      rw [u64, Nat.mod_eq_of_lt hlt1]
      omega
    · exact Nat.le_refl _

theorem advance_gt (NextId : Nat) (Id : String) (id : Nat)
    (hw : StringToUint64 Id ≠ .ok (2 ^ 64 - 1)) (hp : StringToUint64 Id = .ok id) :
    id < RestoreFromStorage.advance NextId Id := by
  unfold RestoreFromStorage.advance
  have hlt := StringToUint64_lt Id id hp
  have hne : id ≠ 2 ^ 64 - 1 := by
    intro h; rw [h] at hp; exact hw hp
  simp only [hp]
  split
  · have h64 : (2 : Nat) ^ 64 = 18446744073709551616 := by norm_num
    rw [h64] at hlt hne
    have hlt1 : id + 1 < 2 ^ 64 := by rw [h64]; omega
    rw [u64, Nat.mod_eq_of_lt hlt1]
    omega
  · omega

theorem step_inv (host : Host) (s : Daemon) (node : String) (hi : IdsBelowNext s)
    (hw : NoWrap host) : IdsBelowNext (RestoreFromStorage.step host s node) := by
  unfold RestoreFromStorage.step
  cases hload : (host s.trace).KvLoad node with
  | error e =>
    exact Keeps.inv (s := s) ⟨rfl, rfl, fun _ h => h, fun _ => rfl⟩ hi
  | ok data =>
    have hw1 := hw s.trace node data hload
    simp only
    generalize hres : TVolume.fresh.Restore (host s.trace) data = res at hw1
    obtain ⟨v, r⟩ := res
    have hold : ∀ (v1 : TVolume) (e : String × VolumePtr), e ∈ s.holder.Volumes →
        e.2 < s.brk + 1 ∧ ∀ id, StringToUint64 (Function.update s.heap s.brk v1 e.2).Id = .ok id →
          id < RestoreFromStorage.advance s.holder.NextId v.Id := by
      intro v1 e he
      obtain ⟨h1, h2⟩ := hi e he
      have hne : e.2 ≠ s.brk := Nat.ne_of_lt h1
      refine ⟨Nat.lt_succ_of_lt h1, ?_⟩
      intro id hid
      simp only [Function.update, hne, dite_false] at hid
      exact Nat.lt_of_lt_of_le (h2 id hid) (advance_ge _ _ hw1)
    cases r with
    | error e =>
      simp only
      intro e he
      obtain ⟨h1, h2⟩ := hi e he
      have hne : e.2 ≠ s.brk := Nat.ne_of_lt h1
      refine ⟨Nat.lt_succ_of_lt h1, ?_⟩
      intro id hid
      simp only [Function.update, hne, dite_false] at hid
      exact h2 id hid
    | ok u =>
      simp only
      by_cases hfree : mapFind s.holder.Volumes (Function.update s.heap s.brk v s.brk).GetPath = none
      · simp only [TVolumeHolder.Register, hfree, if_true]
        have hs1 : IdsBelowNext
            { holder := { Volumes := mapSet s.holder.Volumes
                            (Function.update s.heap s.brk v s.brk).GetPath s.brk
                          NextId := RestoreFromStorage.advance s.holder.NextId v.Id }
              heap := Function.update s.heap s.brk v
              brk := s.brk + 1
              trace := s.trace } := by
          intro e he
          rcases mem_mapSet _ _ _ _ he with h | h
          · rw [h]
            refine ⟨Nat.lt_succ_self _, ?_⟩
            intro id hid
            simp only [Function.update, dite_true] at hid
            exact advance_gt _ _ _ hw1 hid
          · exact hold v e h
        have hs2 := Keeps.inv (foldl_link_Keeps host s.brk v.Containers _) hs1
        split
        · exact Keeps.inv (destroyUnregister_Keeps host _ s.brk)
            (Keeps.inv (s := _) ⟨rfl, rfl, fun _ h => h, fun _ => rfl⟩ hs2)
        · exact Keeps.inv (s := _) ⟨rfl, rfl, fun _ h => h, fun _ => rfl⟩ hs2
      · simp only [TVolumeHolder.Register, hfree, if_false]
        intro e he
        obtain ⟨h1, h2⟩ := hold v e he
        refine ⟨h1, ?_⟩
        intro id hid
        apply h2 id
        rw [← hid]
        have hne : e.2 ≠ s.brk := Nat.ne_of_lt (hi e he).1
        simp [Function.update, hne]

theorem foldl_step_inv (host : Host) (hw : NoWrap host) (nodes : List String) :
    ∀ s : Daemon, IdsBelowNext s →
      IdsBelowNext (nodes.foldl (RestoreFromStorage.step host) s) := by
  induction nodes with
  | nil => intro s hi; exact hi
  | cons n rest ih =>
    intro s hi
    exact ih _ (step_inv host s n hi hw)

theorem removeStale_Keeps (host : Host) (volumes : String) (s : Daemon) (dir_name : String) :
    Keeps s (RestoreFromStorage.removeStale host volumes s dir_name) := by
  unfold RestoreFromStorage.removeStale
  split
  · exact Keeps.refl s
  · exact ⟨rfl, rfl, fun _ h => h, fun _ => rfl⟩

theorem foldl_removeStale_Keeps (host : Host) (volumes : String) (dirs : List String) :
    ∀ s : Daemon, Keeps s (dirs.foldl (RestoreFromStorage.removeStale host volumes) s) := by
  induction dirs with
  | nil => intro s; exact Keeps.refl s
  | cons n rest ih =>
    intro s
    exact (removeStale_Keeps host volumes s n).trans (ih _)

theorem RestoreFromStorage_inv (host : Host) (s : Daemon) (hi : IdsBelowNext s)
    (hw : NoWrap host) : IdsBelowNext (TVolumeHolder.RestoreFromStorage host s).1 := by
  unfold TVolumeHolder.RestoreFromStorage
  simp only
  split
  · exact Keeps.inv (s := s) ⟨rfl, rfl, fun _ h => h, fun _ => rfl⟩ hi
  · have h0 : IdsBelowNext { s with trace := s.trace ++
        [Event.CheckPlace (host s.trace).default_place true] ++
        [Event.ClearDirectory (pathJoin (pathJoin (host s.trace).default_place
          (host (s.trace ++ [Event.CheckPlace (host s.trace).default_place true])).layers_dir)
          "_tmp_")] } :=
      Keeps.inv (s := s) ⟨rfl, rfl, fun _ h => h, fun _ => rfl⟩ hi
    exact Keeps.inv (foldl_removeStale_Keeps host _ _ _) (foldl_step_inv host hw _ _ h0)

/-! ## Volume ids (C3) -/

theorem Register_NextId (heap : Heap) (h : TVolumeHolder) (p : VolumePtr) :
    (h.Register heap p).1.NextId = h.NextId := by
  unfold TVolumeHolder.Register
  split <;> rfl

theorem Register_mem (heap : Heap) (h : TVolumeHolder) (p : VolumePtr)
    (e : String × VolumePtr) (he : e ∈ (h.Register heap p).1.Volumes) :
    e.2 = p ∨ e ∈ h.Volumes := by
  unfold TVolumeHolder.Register at he
  split at he
  · rcases mem_mapSet _ _ _ _ he with h1 | h1
    · exact Or.inl (by rw [h1])
    · exact Or.inr h1
  · exact Or.inr he

theorem Register_inv (s : Daemon) (p : VolumePtr) (hi : IdsBelowNext s) (hp : p < s.brk)
    (hid : ∀ id, StringToUint64 (s.heap p).Id = .ok id → id < s.holder.NextId) :
    IdsBelowNext { s with holder := (s.holder.Register s.heap p).1 } := by
  intro e he
  have hn : ({ s with holder := (s.holder.Register s.heap p).1 } : Daemon).holder.NextId =
      s.holder.NextId := Register_NextId s.heap s.holder p
  rw [hn]
  rcases Register_mem s.heap s.holder p e he with h | h
  · rw [h]
    exact ⟨hp, hid⟩
  · exact hi e h

theorem Create_inv (s : Daemon) (hi : IdsBelowNext s) (hn : s.holder.NextId + 1 < 2 ^ 64) :
    IdsBelowNext s.Create.1 ∧
    IdsBelowNext { s.Create.1 with
      holder := (s.Create.1.holder.Register s.Create.1.heap s.Create.2).1 } := by
  have hu : u64 (s.holder.NextId + 1) = s.holder.NextId + 1 := by
    rw [u64, Nat.mod_eq_of_lt hn]
  have h1 : IdsBelowNext s.Create.1 := by
    intro e he
    obtain ⟨h1, h2⟩ := hi e he
    have hne : e.2 ≠ s.brk := Nat.ne_of_lt h1
    refine ⟨Nat.lt_succ_of_lt h1, ?_⟩
    intro id hid
    simp only [Daemon.Create, Function.update, hne, dite_false] at hid
    have := h2 id hid
    simp only [Daemon.Create, TVolumeHolder.Create, hu]
    omega
  refine ⟨h1, Register_inv s.Create.1 s.Create.2 h1 (Nat.lt_succ_self _) ?_⟩
  intro id hid
  simp only [Daemon.Create, Function.update, dite_true, TVolumeHolder.Create] at hid
  rw [StringToUint64_to_string _ (by omega)] at hid
  simp only [Except.ok.injEq] at hid
  simp only [Daemon.Create, TVolumeHolder.Create, hu]
  omega

/-- C3: `Create` hands out the decimal rendering of `NextId` and increments
it, so two successive ids are `NextId` and `NextId + 1`; `RestoreFromStorage`
keeps every registered volume's numeric id below `NextId`, and so do `Create`
and the registration of the created volume; under that invariant the id
handed out by `Create` differs from the id of every registered volume.  All
of it absent 64-bit wrap-around. -/
theorem C3_volume_ids_unique (host : Host) (s : Daemon) :
    (s.holder.Create.2.Id = to_string s.holder.NextId ∧
      s.holder.Create.1.NextId = u64 (s.holder.NextId + 1)) ∧
    (s.holder.NextId + 1 < 2 ^ 64 →
      StringToUint64 s.holder.Create.2.Id = .ok s.holder.NextId ∧
      StringToUint64 s.holder.Create.1.Create.2.Id = .ok (s.holder.NextId + 1)) ∧
    (IdsBelowNext s → NoWrap host →
      IdsBelowNext (TVolumeHolder.RestoreFromStorage host s).1) ∧
    (IdsBelowNext s → s.holder.NextId + 1 < 2 ^ 64 →
      IdsBelowNext s.Create.1 ∧
      IdsBelowNext { s.Create.1 with
        holder := (s.Create.1.holder.Register s.Create.1.heap s.Create.2).1 }) ∧
    (IdsBelowNext s → s.holder.NextId < 2 ^ 64 →
      ∀ e ∈ s.holder.Volumes, (s.heap e.2).Id ≠ s.holder.Create.2.Id) := by
  refine ⟨⟨rfl, rfl⟩, ?_, RestoreFromStorage_inv host s, Create_inv s, ?_⟩
  · intro hn
    have hu : u64 (s.holder.NextId + 1) = s.holder.NextId + 1 := by
      rw [u64, Nat.mod_eq_of_lt hn]
    refine ⟨StringToUint64_to_string _ (by omega), ?_⟩
    simp only [TVolumeHolder.Create, hu]
    exact StringToUint64_to_string _ hn
  · intro hi hn e he heq
    have h2 := (hi e he).2 s.holder.NextId
    rw [heq] at h2
    exact Nat.lt_irrefl _ (h2 (StringToUint64_to_string _ hn))

theorem exRestoreHost_NoWrap : NoWrap exRestoreHost := by
  intro tr node data hload
  simp only [exRestoreHost] at hload
  split at hload
  · simp only [Except.ok.injEq] at hload
    subst hload
    have h7 : StringToUint64
        (TVolume.fresh.Restore (exRestoreHost tr)
          (exVolume7.SaveRecord exWorld)).1.Id = .ok 7 := rfl
    rw [h7]
    intro h
    simp only [Except.ok.injEq] at h
    omega
  · cases hload

/-- Witness for C3: recovery of one node with id 7 from a daemon whose
`NextId` is 1 registers the volume and leaves `NextId` at 8. -/
theorem C3_volume_ids_unique_witness :
    (TVolumeHolder.RestoreFromStorage exRestoreHost exDaemon).1.holder =
      ⟨[("/place/porto_volumes/7/volume", 0)], 8⟩ ∧
    IdsBelowNext (TVolumeHolder.RestoreFromStorage exRestoreHost exDaemon).1 ∧
    StringToUint64 exDaemon.holder.Create.2.Id = .ok 1 ∧
    StringToUint64 exDaemon.holder.Create.1.Create.2.Id = .ok 2 :=
  ⟨rfl,
   (C3_volume_ids_unique exRestoreHost exDaemon).2.2.1
      (fun e he => by simp [exDaemon] at he) exRestoreHost_NoWrap,
   ((C3_volume_ids_unique exRestoreHost exDaemon).2.1 (by decide)).1,
   ((C3_volume_ids_unique exRestoreHost exDaemon).2.1 (by decide)).2⟩

/-! ## The saved record -/

theorem mapSet_nil {α : Type} (key : String) (p : α) :
    mapSet ([] : List (String × α)) key p = [(key, p)] := rfl

theorem mapSet_cons_of_gt {α : Type} (k key : String) (q p : α) (rest : List (String × α))
    (h1 : k ≠ key) (h2 : strLt key.data k.data = false) :
    mapSet ((k, q) :: rest) key p = (k, q) :: mapSet rest key p := by
  simp [mapSet, h1, h2]

theorem mapSet_cons_of_lt {α : Type} (k key : String) (q p : α) (rest : List (String × α))
    (h1 : k ≠ key) (h2 : strLt key.data k.data = true) :
    mapSet ((k, q) :: rest) key p = (key, p) :: (k, q) :: rest := by
  simp [mapSet, h1, h2]

theorem SaveRecord_eq (w : World) (v : TVolume) :
    v.SaveRecord w =
      if v.CustomPlace then
        [(V_AUTO_PATH, boolString v.IsAutoPath), (V_BACKEND, v.BackendType),
         (V_CONTAINERS, w.MergeEscapeStrings v.Containers ';'), (V_CREATOR, v.Creator),
         (V_GROUP, w.Group v.VolumeOwner), (V_ID, v.Id),
         (V_INODE_GUARANTEE, to_string v.InodeGuarantee),
         (V_INODE_LIMIT, to_string v.InodeLimit),
         (V_LAYERS, w.MergeEscapeStrings v.Layers ';'), (V_LOOP_DEV, to_string v.LoopDev),
         (V_PATH, v.Path), (V_PERMISSIONS, w.FormatOct v.VolumePerms), (V_PLACE, v.Place),
         (V_PRIVATE, v.Private), (V_READ_ONLY, boolString v.IsReadOnly),
         (V_READY, boolString v.IsReady), (V_SPACE_GUARANTEE, to_string v.SpaceGuarantee),
         (V_SPACE_LIMIT, to_string v.SpaceLimit), (V_STORAGE, v.StoragePath),
         (V_USER, w.User v.VolumeOwner)]
      else
        [(V_AUTO_PATH, boolString v.IsAutoPath), (V_BACKEND, v.BackendType),
         (V_CONTAINERS, w.MergeEscapeStrings v.Containers ';'), (V_CREATOR, v.Creator),
         (V_GROUP, w.Group v.VolumeOwner), (V_ID, v.Id),
         (V_INODE_GUARANTEE, to_string v.InodeGuarantee),
         (V_INODE_LIMIT, to_string v.InodeLimit),
         (V_LAYERS, w.MergeEscapeStrings v.Layers ';'), (V_LOOP_DEV, to_string v.LoopDev),
         (V_PATH, v.Path), (V_PERMISSIONS, w.FormatOct v.VolumePerms),
         (V_PRIVATE, v.Private), (V_READ_ONLY, boolString v.IsReadOnly),
         (V_READY, boolString v.IsReady), (V_SPACE_GUARANTEE, to_string v.SpaceGuarantee),
         (V_SPACE_LIMIT, to_string v.SpaceLimit), (V_STORAGE, v.StoragePath),
         (V_USER, w.User v.VolumeOwner)] := by
  unfold TVolume.SaveRecord
  by_cases hc : v.CustomPlace = true
  · simp (disch := decide) only [hc, if_true, mapSet_nil, mapSet_cons_of_gt,
      mapSet_cons_of_lt]
  · simp (disch := decide) only [hc, mapSet_nil, mapSet_cons_of_gt,
      mapSet_cons_of_lt]

theorem step_bool_auto_path (w : World) (v : TVolume) (b : Bool) :
    TVolume.SetProperty.step w v (V_AUTO_PATH, boolString b) =
      ({ v with IsAutoPath := b }, .ok ()) := by
  cases b <;> rfl

theorem step_bool_ready (w : World) (v : TVolume) (b : Bool) :
    TVolume.SetProperty.step w v (V_READY, boolString b) =
      ({ v with IsReady := b }, .ok ()) := by
  cases b <;> rfl

theorem step_bool_read_only (w : World) (v : TVolume) (b : Bool) :
    TVolume.SetProperty.step w v (V_READ_ONLY, boolString b) =
      ({ v with IsReadOnly := b }, .ok ()) := by
  cases b <;> rfl

theorem SetProperty_cons_ok (w : World) (v v1 : TVolume) (prop : String × String)
    (rest : Props) (h : TVolume.SetProperty.step w v prop = (v1, .ok ())) :
    v.SetProperty w (prop :: rest) = v1.SetProperty w rest := by
  simp [TVolume.SetProperty, h]

theorem step_path (w : World) (v : TVolume) (s : String) :
    TVolume.SetProperty.step w v (V_PATH, s) = ({ v with Path := s }, .ok ()) := rfl
theorem step_storage (w : World) (v : TVolume) (s : String) :
    TVolume.SetProperty.step w v (V_STORAGE, s) = ({ v with StoragePath := s }, .ok ()) := rfl
theorem step_backend (w : World) (v : TVolume) (s : String) :
    TVolume.SetProperty.step w v (V_BACKEND, s) = ({ v with BackendType := s }, .ok ()) := rfl
theorem step_creator (w : World) (v : TVolume) (s : String) :
    TVolume.SetProperty.step w v (V_CREATOR, s) = ({ v with Creator := s }, .ok ()) := rfl
theorem step_id (w : World) (v : TVolume) (s : String) :
    TVolume.SetProperty.step w v (V_ID, s) = ({ v with Id := s }, .ok ()) := rfl
theorem step_private (w : World) (v : TVolume) (s : String) :
    TVolume.SetProperty.step w v (V_PRIVATE, s) = ({ v with Private := s }, .ok ()) := rfl
theorem step_place (w : World) (v : TVolume) (s : String) :
    TVolume.SetProperty.step w v (V_PLACE, s) =
      ({ v with Place := s, CustomPlace := true }, .ok ()) := rfl
theorem step_containers (w : World) (v : TVolume) (s : String) :
    TVolume.SetProperty.step w v (V_CONTAINERS, s) =
      ({ v with Containers := w.SplitEscapedString s v.Containers ';' }, .ok ()) := rfl
theorem step_layers (w : World) (v : TVolume) (s : String) :
    TVolume.SetProperty.step w v (V_LAYERS, s) =
      ({ v with Layers := w.SplitEscapedString s v.Layers ';', IsLayersSet := true },
        .ok ()) := rfl
theorem step_user (w : World) (v : TVolume) (s : String) (uid : Nat)
    (h : w.UserId s = .ok uid) :
    TVolume.SetProperty.step w v (V_USER, s) =
      ({ v with VolumeOwner := { v.VolumeOwner with Uid := uid } }, .ok ()) := by
  have e : TVolume.SetProperty.step w v (V_USER, s) =
      match w.UserId s with
      | .error e => (v, .error e)
      | .ok uid => ({ v with VolumeOwner := { v.VolumeOwner with Uid := uid } }, .ok ()) := rfl
  rw [e, h]
theorem step_group (w : World) (v : TVolume) (s : String) (gid : Nat)
    (h : w.GroupId s = .ok gid) :
    TVolume.SetProperty.step w v (V_GROUP, s) =
      ({ v with VolumeOwner := { v.VolumeOwner with Gid := gid } }, .ok ()) := by
  have e : TVolume.SetProperty.step w v (V_GROUP, s) =
      match w.GroupId s with
      | .error e => (v, .error e)
      | .ok gid => ({ v with VolumeOwner := { v.VolumeOwner with Gid := gid } }, .ok ()) := rfl
  rw [e, h]
theorem step_permissions (w : World) (v : TVolume) (s : String) (perms : Nat)
    (h : w.StringToOct s = .ok perms) :
    TVolume.SetProperty.step w v (V_PERMISSIONS, s) =
      ({ v with VolumePerms := perms }, .ok ()) := by
  have e : TVolume.SetProperty.step w v (V_PERMISSIONS, s) =
      match w.StringToOct s with
      | .error e => (v, .error e)
      | .ok perms => ({ v with VolumePerms := perms }, .ok ()) := rfl
  rw [e, h]
theorem step_loop_dev (w : World) (v : TVolume) (s : String) (dev : Int)
    (h : w.StringToInt s = .ok dev) :
    TVolume.SetProperty.step w v (V_LOOP_DEV, s) = ({ v with LoopDev := dev }, .ok ()) := by
  have e : TVolume.SetProperty.step w v (V_LOOP_DEV, s) =
      match w.StringToInt s with
      | .error e => (v, .error e)
      | .ok dev => ({ v with LoopDev := dev }, .ok ()) := rfl
  rw [e, h]
theorem step_space_limit (w : World) (v : TVolume) (s : String) (n : Nat)
    (h : w.StringToSize s = .ok n) :
    TVolume.SetProperty.step w v (V_SPACE_LIMIT, s) = ({ v with SpaceLimit := n }, .ok ()) := by
  have e : TVolume.SetProperty.step w v (V_SPACE_LIMIT, s) =
      match w.StringToSize s with
      | .error e => (v, .error e)
      | .ok n => ({ v with SpaceLimit := n }, .ok ()) := rfl
  rw [e, h]
theorem step_space_guarantee (w : World) (v : TVolume) (s : String) (n : Nat)
    (h : w.StringToSize s = .ok n) :
    TVolume.SetProperty.step w v (V_SPACE_GUARANTEE, s) =
      ({ v with SpaceGuarantee := n }, .ok ()) := by
  have e : TVolume.SetProperty.step w v (V_SPACE_GUARANTEE, s) =
      match w.StringToSize s with
      | .error e => (v, .error e)
      | .ok n => ({ v with SpaceGuarantee := n }, .ok ()) := rfl
  rw [e, h]
theorem step_inode_limit (w : World) (v : TVolume) (s : String) (n : Nat)
    (h : w.StringToSize s = .ok n) :
    TVolume.SetProperty.step w v (V_INODE_LIMIT, s) = ({ v with InodeLimit := n }, .ok ()) := by
  have e : TVolume.SetProperty.step w v (V_INODE_LIMIT, s) =
      match w.StringToSize s with
      | .error e => (v, .error e)
      | .ok n => ({ v with InodeLimit := n }, .ok ()) := rfl
  rw [e, h]
theorem step_inode_guarantee (w : World) (v : TVolume) (s : String) (n : Nat)
    (h : w.StringToSize s = .ok n) :
    TVolume.SetProperty.step w v (V_INODE_GUARANTEE, s) =
      ({ v with InodeGuarantee := n }, .ok ()) := by
  have e : TVolume.SetProperty.step w v (V_INODE_GUARANTEE, s) =
      match w.StringToSize s with
      | .error e => (v, .error e)
      | .ok n => ({ v with InodeGuarantee := n }, .ok ()) := rfl
  rw [e, h]
theorem SetProperty_nil (w : World) (v : TVolume) : v.SetProperty w [] = (v, .ok ()) := rfl

theorem SetProperty_SaveRecord (w : World) (v0 v : TVolume) (hc : CodecsInvert w v)
    (h1 : v0.Containers = []) (h2 : v0.Layers = []) :
    v0.SetProperty w (v.SaveRecord w) = (restoredFrom v0 v, .ok ()) := by
  obtain ⟨hu, hg, hp, hl, hsl, hsg, hil, hig, hcs, hls⟩ := hc
  rw [SaveRecord_eq]
  by_cases hcp : v.CustomPlace = true
  · simp only [hcp, if_true]
    rw [SetProperty_cons_ok w _ _ _ _ (step_bool_auto_path w _ _),
      SetProperty_cons_ok w _ _ _ _ (step_backend w _ _),
      SetProperty_cons_ok w _ _ _ _ (step_containers w _ _),
      SetProperty_cons_ok w _ _ _ _ (step_creator w _ _),
      SetProperty_cons_ok w _ _ _ _ (step_group w _ _ _ hg),
      SetProperty_cons_ok w _ _ _ _ (step_id w _ _),
      SetProperty_cons_ok w _ _ _ _ (step_inode_guarantee w _ _ _ hig),
      SetProperty_cons_ok w _ _ _ _ (step_inode_limit w _ _ _ hil),
      SetProperty_cons_ok w _ _ _ _ (step_layers w _ _),
      SetProperty_cons_ok w _ _ _ _ (step_loop_dev w _ _ _ hl),
      SetProperty_cons_ok w _ _ _ _ (step_path w _ _),
      SetProperty_cons_ok w _ _ _ _ (step_permissions w _ _ _ hp),
      SetProperty_cons_ok w _ _ _ _ (step_place w _ _),
      SetProperty_cons_ok w _ _ _ _ (step_private w _ _),
      SetProperty_cons_ok w _ _ _ _ (step_bool_read_only w _ _),
      SetProperty_cons_ok w _ _ _ _ (step_bool_ready w _ _),
      SetProperty_cons_ok w _ _ _ _ (step_space_guarantee w _ _ _ hsg),
      SetProperty_cons_ok w _ _ _ _ (step_space_limit w _ _ _ hsl),
      SetProperty_cons_ok w _ _ _ _ (step_storage w _ _),
      SetProperty_cons_ok w _ _ _ _ (step_user w _ _ _ hu),
      SetProperty_nil]
    simp [restoredFrom, h1, h2, hcs, hls, hcp]
  · rw [if_neg hcp]
    have hcp : v.CustomPlace = false := by simpa using hcp
    rw [SetProperty_cons_ok w _ _ _ _ (step_bool_auto_path w _ _),
      SetProperty_cons_ok w _ _ _ _ (step_backend w _ _),
      SetProperty_cons_ok w _ _ _ _ (step_containers w _ _),
      SetProperty_cons_ok w _ _ _ _ (step_creator w _ _),
      SetProperty_cons_ok w _ _ _ _ (step_group w _ _ _ hg),
      SetProperty_cons_ok w _ _ _ _ (step_id w _ _),
      SetProperty_cons_ok w _ _ _ _ (step_inode_guarantee w _ _ _ hig),
      SetProperty_cons_ok w _ _ _ _ (step_inode_limit w _ _ _ hil),
      SetProperty_cons_ok w _ _ _ _ (step_layers w _ _),
      SetProperty_cons_ok w _ _ _ _ (step_loop_dev w _ _ _ hl),
      SetProperty_cons_ok w _ _ _ _ (step_path w _ _),
      SetProperty_cons_ok w _ _ _ _ (step_permissions w _ _ _ hp),
      SetProperty_cons_ok w _ _ _ _ (step_private w _ _),
      SetProperty_cons_ok w _ _ _ _ (step_bool_read_only w _ _),
      SetProperty_cons_ok w _ _ _ _ (step_bool_ready w _ _),
      SetProperty_cons_ok w _ _ _ _ (step_space_guarantee w _ _ _ hsg),
      SetProperty_cons_ok w _ _ _ _ (step_space_limit w _ _ _ hsl),
      SetProperty_cons_ok w _ _ _ _ (step_storage w _ _),
      SetProperty_cons_ok w _ _ _ _ (step_user w _ _ _ hu),
      SetProperty_nil]
    simp [restoredFrom, h1, h2, hcs, hls, hcp]

/-! ## Save, restore, save (C4) -/

theorem SaveRecord_restoredFrom (w : World) (v0 v : TVolume) (h : v0.CustomPlace = false) :
    (restoredFrom v0 v).SaveRecord w = v.SaveRecord w := by
  rw [SaveRecord_eq, SaveRecord_eq]
  cases hc : v.CustomPlace <;> simp [restoredFrom, h, hc]

theorem SaveRecord_backend (w : World) (v : TVolume) (b : Option TVolumeBackend) :
    ({ v with Backend := b }).SaveRecord w = v.SaveRecord w := rfl

theorem SaveRecord_has_id (w : World) (v : TVolume) : mapCount (v.SaveRecord w) V_ID = true := by
  rw [SaveRecord_eq]
  cases v.CustomPlace <;> rfl

theorem SaveRecord_has_place (w : World) (v : TVolume) :
    mapCount (v.SaveRecord w) V_PLACE = v.CustomPlace := by
  rw [SaveRecord_eq]
  cases v.CustomPlace <;> rfl

theorem OpenBackend_SaveRecord (w : World) (v : TVolume) :
    v.OpenBackend.1.SaveRecord w = v.SaveRecord w := by
  unfold TVolume.OpenBackend
  split <;> rfl

theorem BackendRestore_SaveRecord (w : World) (v : TVolume) :
    v.BackendRestore.1.SaveRecord w = v.SaveRecord w := by
  unfold TVolume.BackendRestore
  split
  · rfl
  · split <;> rfl

theorem BackendRestore_ok (v : TVolume) : v.BackendRestore.2 = .ok () := by
  unfold TVolume.BackendRestore
  split
  · rfl
  · split <;> rfl

theorem Restore_SaveRecord (w : World) (v : TVolume) (hc : CodecsInvert w v) :
    (TVolume.fresh.Restore w (v.SaveRecord w)).1.SaveRecord w = v.SaveRecord w ∧
    (failed (TVolume.fresh.Restore w (v.SaveRecord w)).2 = false ↔
      v.IsReady = true ∧
      v.BackendType ∈ ["plain", "tmpfs", "quota", "native", "overlay", "loop", "rbd"]) := by
  have hset := SetProperty_SaveRecord w
    { TVolume.fresh with Place := w.default_place, CustomPlace := false } v hc rfl rfl
  have hsave := SaveRecord_restoredFrom w
    { TVolume.fresh with Place := w.default_place, CustomPlace := false } v rfl
  have hready : (restoredFrom
      { TVolume.fresh with Place := w.default_place, CustomPlace := false } v).IsReady =
      v.IsReady := rfl
  have hbt : (restoredFrom
      { TVolume.fresh with Place := w.default_place, CustomPlace := false } v).BackendType =
      v.BackendType := rfl
  unfold TVolume.Restore
  simp only [SaveRecord_has_id, Bool.not_true, Bool.false_eq_true, if_false, hset, hready]
  cases hr : v.IsReady
  · simp [hsave, failed]
  · simp only [Bool.not_true, Bool.false_eq_true, if_false, true_and]
    generalize hv1 : restoredFrom
      { TVolume.fresh with Place := w.default_place, CustomPlace := false } v = v1 at *
    by_cases hk : v1.BackendType = "plain" ∨ v1.BackendType = "tmpfs" ∨
        v1.BackendType = "quota" ∨ v1.BackendType = "native" ∨
        v1.BackendType = "overlay" ∨ v1.BackendType = "loop" ∨ v1.BackendType = "rbd"
    · have ho : v1.OpenBackend =
          ({ v1 with Backend := some ⟨v1.BackendType, -1⟩ }, .ok ()) := by
        simp [TVolume.OpenBackend, hk]
      rw [ho]
      simp only
      refine ⟨?_, ?_⟩
      · rw [BackendRestore_SaveRecord, SaveRecord_backend, hsave]
      · rw [BackendRestore_ok]
        simp only [failed, true_iff]
        rw [← hbt]
        simpa using hk
    · have ho : v1.OpenBackend =
          (v1, .error ⟨.InvalidValue, "Unknown volume backend: " ++ v1.BackendType⟩) := by
        simp [TVolume.OpenBackend, hk]
      rw [ho]
      simp only [failed]
      refine ⟨hsave, ?_⟩
      rw [← hbt]
      simpa using hk

/-- C4: when the string helpers of the host invert each other on the values
of a volume, the record written by `Save` is a fixed point: `SetProperty`
over all its keys succeeds on a fresh volume, and saving that volume gives
the same record; the volume left by `Restore` also saves to the same record,
and `Restore` succeeds exactly when the volume was ready and its backend type
is one of the seven; the record has the key `place` exactly when the place is
custom. -/
theorem C4_save_restore_fixed_point (w : World) (v : TVolume) (hc : CodecsInvert w v) :
    (TVolume.fresh.SetProperty w (v.SaveRecord w)).2 = .ok () ∧
    (TVolume.fresh.SetProperty w (v.SaveRecord w)).1.SaveRecord w = v.SaveRecord w ∧
    (TVolume.fresh.Restore w (v.SaveRecord w)).1.SaveRecord w = v.SaveRecord w ∧
    (failed (TVolume.fresh.Restore w (v.SaveRecord w)).2 = false ↔
      v.IsReady = true ∧
      v.BackendType ∈ ["plain", "tmpfs", "quota", "native", "overlay", "loop", "rbd"]) ∧
    mapCount (v.SaveRecord w) V_PLACE = v.CustomPlace ∧
    (v.SaveRecord w).map Prod.fst =
      [V_AUTO_PATH, V_BACKEND, V_CONTAINERS, V_CREATOR, V_GROUP, V_ID, V_INODE_GUARANTEE,
        V_INODE_LIMIT, V_LAYERS, V_LOOP_DEV, V_PATH, V_PERMISSIONS] ++
      (if v.CustomPlace then [V_PLACE] else []) ++
      [V_PRIVATE, V_READ_ONLY, V_READY, V_SPACE_GUARANTEE, V_SPACE_LIMIT, V_STORAGE,
        V_USER] := by
  have hset := SetProperty_SaveRecord w TVolume.fresh v hc rfl rfl
  refine ⟨?_, ?_, (Restore_SaveRecord w v hc).1, (Restore_SaveRecord w v hc).2,
    SaveRecord_has_place w v, ?_⟩
  · rw [hset]
  · rw [hset]
    exact SaveRecord_restoredFrom w TVolume.fresh v rfl
  · rw [SaveRecord_eq]
    cases v.CustomPlace <;> rfl

/-- Witness for C4: volume A on the example host, whose helpers are decimal
and octal renderings and a split at the separator. -/
theorem C4_save_restore_fixed_point_witness :
    (TVolume.fresh.SetProperty exWorld (exVolumeA.SaveRecord exWorld)).2 = .ok () ∧
    (TVolume.fresh.SetProperty exWorld (exVolumeA.SaveRecord exWorld)).1.SaveRecord exWorld =
      exVolumeA.SaveRecord exWorld :=
  ⟨(C4_save_restore_fixed_point exWorld exVolumeA
      ⟨rfl, rfl, rfl, rfl, rfl, rfl, rfl, rfl, rfl, rfl⟩).1,
   (C4_save_restore_fixed_point exWorld exVolumeA
      ⟨rfl, rfl, rfl, rfl, rfl, rfl, rfl, rfl, rfl, rfl⟩).2.1⟩

/-! ## Configure and Tune (C5 to C9) -/

/-- C5 (code defect): the row of `read_only` in the property table carries
the read-only flag, so the property-name check of `Configure` rejects a
`read_only` property, with value true or false, with InvalidProperty and the
volume's `IsReadOnly` is never set from it. -/
theorem C5_configure_rejects_read_only :
    (VolumeProperties.find? (fun p => p.Name = V_READ_ONLY)).map (·.ReadOnly) = some true ∧
    Configure.verifyProperties [(V_READ_ONLY, "true")] =
      .error ⟨.InvalidProperty, "Read-only: read_only"⟩ ∧
    Configure.verifyProperties [(V_READ_ONLY, "false")] =
      .error ⟨.InvalidProperty, "Read-only: read_only"⟩ ∧
    TVolume.Configure exWorld (exHeap 0) exHolder { TVolume.fresh with Id := "2" } 2 ""
        ⟨0, 0⟩ exCreator [(V_READ_ONLY, "true")] =
      ({ TVolume.fresh with Id := "2" },
        .error ⟨.InvalidProperty, "Read-only: read_only"⟩) := by
  refine ⟨rfl, rfl, rfl, rfl⟩

/-- C6 (code defect): the cross-check of `Configure` compares the limit with
the guarantee whenever both properties are given, so a limit of zero given
together with a guarantee of one is rejected with InvalidValue, for space and
for inodes, while the same guarantee without a limit property passes. -/
theorem C6_configure_rejects_zero_limit :
    Configure.verifyGuarantees { TVolume.fresh with SpaceLimit := 0, SpaceGuarantee := 1 }
        [(V_SPACE_GUARANTEE, "1"), (V_SPACE_LIMIT, "0")] =
      ({ TVolume.fresh with SpaceLimit := 0, SpaceGuarantee := 1 },
        .error ⟨.InvalidValue, "Space guarantree bigger than limit"⟩) ∧
    (TVolume.Configure exWorld (exHeap 0) exHolder { TVolume.fresh with Id := "2" } 2 ""
        ⟨0, 0⟩ exCreator [(V_SPACE_GUARANTEE, "1"), (V_SPACE_LIMIT, "0")]).2 =
      .error ⟨.InvalidValue, "Space guarantree bigger than limit"⟩ ∧
    (TVolume.Configure exWorld (exHeap 0) exHolder { TVolume.fresh with Id := "2" } 2 ""
        ⟨0, 0⟩ exCreator [(V_INODE_GUARANTEE, "1"), (V_INODE_LIMIT, "0")]).2 =
      .error ⟨.InvalidValue, "Inode guarantree bigger than limit"⟩ ∧
    (TVolume.Configure exWorld (exHeap 0) exHolder { TVolume.fresh with Id := "2" } 2 ""
        ⟨0, 0⟩ exCreator [(V_SPACE_GUARANTEE, "1")]).2 = .ok () := by
  refine ⟨rfl, rfl, rfl, rfl⟩


/-- C7 (code defect): the registered volume C, with a space limit of 5 MiB
and no guarantee, satisfies the invariant; `Tune` with a space guarantee of
10 MiB succeeds and leaves a guarantee above the non-zero limit, since
`Tune` has no cross-check of limit against guarantee. -/
theorem C7_tune_breaks_invariant :
    (exVolumeC.SpaceGuarantee > 0 →
      exVolumeC.SpaceLimit = 0 ∨ exVolumeC.SpaceLimit ≥ exVolumeC.SpaceGuarantee) ∧
    exHolderC.Find exVolumeC.GetPath = some 2 ∧ exHeapC 2 = exVolumeC ∧
    (exVolumeC.Tune exHost exHeapC exHolderC 2 [(V_SPACE_GUARANTEE, "10485760")] []).2.2 =
      .ok () ∧
    (exVolumeC.Tune exHost exHeapC exHolderC 2
      [(V_SPACE_GUARANTEE, "10485760")] []).1.SpaceGuarantee = 10 * MiB ∧
    (exVolumeC.Tune exHost exHeapC exHolderC 2
      [(V_SPACE_GUARANTEE, "10485760")] []).1.SpaceLimit = 5 * MiB ∧
    ¬ (10 * MiB > 0 → 5 * MiB = 0 ∨ 5 * MiB ≥ 10 * MiB) := by
  refine ⟨by decide, rfl, rfl, rfl, rfl, rfl, by decide⟩

/-- C8: when the property map has a key other than the four limits and
guarantees, `Tune` returns InvalidProperty naming such a key, with the fields
of the volume and the trace of calls unchanged: no resize, no guarantee
check, no save. -/
theorem C8_tune_rejects_other_keys (host : Host) (heap : Heap) (holder : TVolumeHolder)
    (self : TVolume) (this : VolumePtr) (properties : Props) (tr : Trace)
    (h : ∃ p ∈ properties, p.1 ≠ V_SPACE_LIMIT ∧ p.1 ≠ V_SPACE_GUARANTEE ∧
      p.1 ≠ V_INODE_LIMIT ∧ p.1 ≠ V_INODE_GUARANTEE) :
    ∃ p ∈ properties,
      (p.1 ≠ V_SPACE_LIMIT ∧ p.1 ≠ V_SPACE_GUARANTEE ∧
        p.1 ≠ V_INODE_LIMIT ∧ p.1 ≠ V_INODE_GUARANTEE) ∧
      self.Tune host heap holder this properties tr =
        (self, tr, .error ⟨.InvalidProperty,
          "Volume property " ++ p.1 ++ " cannot be changed"⟩) := by
  cases hf : properties.find? Tune.cannotChange with
  | none =>
    exfalso
    obtain ⟨p, hp, h1, h2, h3, h4⟩ := h
    have := List.find?_eq_none.1 hf p hp
    simp [Tune.cannotChange, h1, h2, h3, h4] at this
  | some p =>
    have hmem : p ∈ properties := List.mem_of_find?_eq_some hf
    have hp := List.find?_some hf
    simp only [Tune.cannotChange, decide_eq_true_eq] at hp
    refine ⟨p, hmem, ⟨hp.2.2.1, hp.2.2.2, hp.1, hp.2.1⟩, ?_⟩
    simp [TVolume.Tune, hf]

/-- Witness for C8: a map with `private` next to a valid `space_limit`. -/
theorem C8_tune_rejects_other_keys_witness :
    ∃ p ∈ [(V_PRIVATE, "x"), (V_SPACE_LIMIT, "1024")],
      (p.1 ≠ V_SPACE_LIMIT ∧ p.1 ≠ V_SPACE_GUARANTEE ∧
        p.1 ≠ V_INODE_LIMIT ∧ p.1 ≠ V_INODE_GUARANTEE) ∧
      exVolumeC.Tune exHost exHeapC exHolderC 2
          [(V_PRIVATE, "x"), (V_SPACE_LIMIT, "1024")] [] =
        (exVolumeC, [], .error ⟨.InvalidProperty,
          "Volume property " ++ p.1 ++ " cannot be changed"⟩) :=
  C8_tune_rejects_other_keys exHost exHeapC exHolderC exVolumeC 2
    [(V_PRIVATE, "x"), (V_SPACE_LIMIT, "1024")] []
    ⟨(V_PRIVATE, "x"), by simp, by decide⟩

theorem backendTable_mem (q l n o : Bool) :
    backendTable q l n o ∈ ["loop", "overlay", "native", "plain"] := by
  cases q <;> cases l <;> cases n <;> cases o <;> simp [backendTable]

theorem autodetect_eq_table (w : World) (v : TVolume) (properties : Props)
    (h : mapCount properties V_BACKEND = false) :
    Configure.autodetect w v properties =
      { v with BackendType := (backendTable (w.HaveQuota v) v.IsLayersSet
          (TVolumeNativeBackend.Supported w) (TVolumeOverlayBackend.Supported w)) } := by
  simp only [Configure.autodetect, backendTable, h]
  cases w.HaveQuota v <;> cases TVolumeNativeBackend.Supported w <;>
    cases v.IsLayersSet <;> cases TVolumeOverlayBackend.Supported w <;> simp

theorem andThen_ok (r : TVolume × Except TError Unit)
    (k : TVolume → TVolume × Except TError Unit) (h : (andThen r k).2 = .ok ()) :
    ∃ v, r = (v, .ok ()) ∧ andThen r k = k v := by
  obtain ⟨v, res⟩ := r
  cases res with
  | error e => simp [andThen] at h
  | ok u => exact ⟨v, rfl, rfl⟩

theorem OpenBackend_BackendType (v : TVolume) : v.OpenBackend.1.BackendType = v.BackendType := by
  unfold TVolume.OpenBackend
  split <;> rfl

theorem Configure_autodetects (w : World) (heap : Heap) (holder : TVolumeHolder)
    (self : TVolume) (this : VolumePtr) (path : String) (creator_cred : TCred)
    (creator_container : TContainer) (properties : Props)
    (h : mapCount properties V_BACKEND = false)
    (hok : (self.Configure w heap holder this path creator_cred creator_container
      properties).2 = .ok ()) :
    ∃ v : TVolume,
      (self.Configure w heap holder this path creator_cred creator_container
        properties).1.BackendType =
      backendTable (w.HaveQuota v) v.IsLayersSet (TVolumeNativeBackend.Supported w)
        (TVolumeOverlayBackend.Supported w) := by
  unfold TVolume.Configure at hok ⊢
  simp only at hok ⊢
  cases hv : Configure.verifyProperties properties with
  | error e => simp [hv] at hok
  | ok u =>
    simp only [hv] at hok ⊢
    obtain ⟨v1, -, e1⟩ := andThen_ok _ _ hok
    rw [e1] at hok ⊢
    obtain ⟨v2, -, e2⟩ := andThen_ok _ _ hok
    rw [e2] at hok ⊢
    obtain ⟨v3, -, e3⟩ := andThen_ok _ _ hok
    rw [e3] at hok ⊢
    obtain ⟨v4, -, e4⟩ := andThen_ok _ _ hok
    rw [e4] at hok ⊢
    obtain ⟨v5, -, e5⟩ := andThen_ok _ _ hok
    rw [e5] at hok ⊢
    obtain ⟨v6, -, e6⟩ := andThen_ok _ _ hok
    rw [e6] at hok ⊢
    obtain ⟨v7, -, e7⟩ := andThen_ok _ _ hok
    rw [e7] at hok ⊢
    obtain ⟨v8, h8, e8⟩ := andThen_ok _ _ hok
    rw [e8] at hok ⊢
    refine ⟨v7, ?_⟩
    have hb : v8.BackendType = (Configure.autodetect w v7 properties).BackendType := by
      have := OpenBackend_BackendType (Configure.autodetect w v7 properties)
      rw [h8] at this
      exact this
    have ha : (Configure.autodetect w v7 properties).BackendType =
        backendTable (w.HaveQuota v7) v7.IsLayersSet (TVolumeNativeBackend.Supported w)
          (TVolumeOverlayBackend.Supported w) := by
      simp only [Configure.autodetect, backendTable, h]
      cases w.HaveQuota v7 <;> cases TVolumeNativeBackend.Supported w <;>
        cases v7.IsLayersSet <;> cases TVolumeOverlayBackend.Supported w <;> simp
    rw [← ha, ← hb]
    split <;> rfl


/-- C9: without a `backend` property the autodetection block of `Configure`
sets the backend type to the value of the decision table on (have quota,
layers set, native supported, overlay supported) and changes nothing else;
the value is one of loop, overlay, native, plain; and when `Configure`
succeeds the configured volume has the backend type that the table gives for
the volume as it stood before the block. -/
theorem C9_autodetect_table (w : World) (heap : Heap) (holder : TVolumeHolder)
    (self : TVolume) (this : VolumePtr) (path : String) (creator_cred : TCred)
    (creator_container : TContainer) (properties : Props)
    (h : mapCount properties V_BACKEND = false) :
    (∀ v : TVolume,
      Configure.autodetect w v properties =
        { v with BackendType := (backendTable (w.HaveQuota v) v.IsLayersSet
            (TVolumeNativeBackend.Supported w) (TVolumeOverlayBackend.Supported w)) } ∧
      (Configure.autodetect w v properties).BackendType ∈
        ["loop", "overlay", "native", "plain"]) ∧
    ((self.Configure w heap holder this path creator_cred creator_container
        properties).2 = .ok () →
      (∃ v : TVolume,
        (self.Configure w heap holder this path creator_cred creator_container
          properties).1.BackendType =
        backendTable (w.HaveQuota v) v.IsLayersSet (TVolumeNativeBackend.Supported w)
          (TVolumeOverlayBackend.Supported w)) ∧
      (self.Configure w heap holder this path creator_cred creator_container
        properties).1.BackendType ∈ ["loop", "overlay", "native", "plain"]) := by
  refine ⟨?_, ?_⟩
  · intro v
    have h1 := autodetect_eq_table w v properties h
    refine ⟨h1, ?_⟩
    rw [h1]
    exact backendTable_mem _ _ _ _
  · intro hok
    obtain ⟨v, hv⟩ := Configure_autodetects w heap holder self this path creator_cred
      creator_container properties h hok
    refine ⟨⟨v, hv⟩, ?_⟩
    rw [hv]
    exact backendTable_mem _ _ _ _

/-- Witness for C9: on the example host, where native is supported,
`Configure` with a space limit and no backend property succeeds with the
native backend. -/
theorem C9_autodetect_table_witness :
    Configure.autodetect exWorld { TVolume.fresh with SpaceLimit := 1 } [] =
      { TVolume.fresh with SpaceLimit := 1, BackendType := "native" } ∧
    (TVolume.Configure exWorld (exHeap 0) exHolder { TVolume.fresh with Id := "2" } 2 ""
      ⟨0, 0⟩ exCreator [(V_SPACE_LIMIT, "1")]).1.BackendType ∈
        ["loop", "overlay", "native", "plain"] :=
  ⟨((C9_autodetect_table exWorld (exHeap 0) exHolder { TVolume.fresh with Id := "2" } 2 ""
      ⟨0, 0⟩ exCreator [] rfl).1 { TVolume.fresh with SpaceLimit := 1 }).1,
   ((C9_autodetect_table exWorld (exHeap 0) exHolder { TVolume.fresh with Id := "2" } 2 ""
      ⟨0, 0⟩ exCreator [(V_SPACE_LIMIT, "1")] rfl).2 rfl).2⟩

/-! ## Layer names (C10) -/

theorem find_first_not_of_eq_none (name chars : List Char) :
    find_first_not_of name chars = none ↔ ∀ c ∈ name, c ∈ chars := by
  induction name with
  | nil => simp [find_first_not_of]
  | cons c rest ih =>
    by_cases hc : c ∈ chars
    · simp [find_first_not_of, hc, ih]
    · simp [find_first_not_of, hc]

theorem find_first_not_of_first (pre : List Char) (c : Char) (post chars : List Char)
    (hpre : ∀ x ∈ pre, x ∈ chars) (hc : c ∉ chars) :
    find_first_not_of (pre ++ c :: post) chars = some pre.length := by
  induction pre with
  | nil => simp [find_first_not_of, hc]
  | cons x rest ih =>
    have hx : x ∈ chars := hpre x (by simp)
    have hrest : ∀ y ∈ rest, y ∈ chars := fun y hy => hpre y (by simp [hy])
    simp [find_first_not_of, hx, ih hrest]

theorem substr_first (name : String) (pre : List Char) (c : Char) (post : List Char)
    (h : name.data = pre ++ c :: post) : substr name pre.length 1 = String.singleton c := by
  simp [substr, h, String.singleton]
  rfl

/-- C10: `ValidateLayerName` succeeds exactly when every character of the
name is in the allowed set and the name is none of `.`, `..`, `_tmp_`; every
failure is InvalidValue; and when the name has a forbidden character the
message reports the first one. -/
theorem C10_validateLayerName (w : World) (name : String) :
    (ValidateLayerName w name = .ok () ↔
      (∀ c ∈ name.data, c ∈ w.PORTO_NAME_CHARS.data) ∧
        name ≠ "." ∧ name ≠ ".." ∧ name ≠ "_tmp_") ∧
    (∀ e, ValidateLayerName w name = .error e → e.Error = .InvalidValue) ∧
    (∀ pre c post, name.data = pre ++ c :: post →
      (∀ x ∈ pre, x ∈ w.PORTO_NAME_CHARS.data) → c ∉ w.PORTO_NAME_CHARS.data →
      ValidateLayerName w name = .error ⟨.InvalidValue,
        "forbidden character '" ++ String.singleton c ++ "' in layer name"⟩) := by
  refine ⟨?_, ?_, ?_⟩
  · unfold ValidateLayerName
    cases hf : find_first_not_of name.data w.PORTO_NAME_CHARS.data with
    | some pos =>
      have hne : ¬ ∀ c ∈ name.data, c ∈ w.PORTO_NAME_CHARS.data := by
        rw [← find_first_not_of_eq_none, hf]; simp
      simp [hne]
    | none =>
      have hall := (find_first_not_of_eq_none _ _).1 hf
      by_cases hn : name = "." ∨ name = ".." ∨ name = "_tmp_"
      · simp only [hn, if_true]
        constructor
        · intro h; cases h
        · rintro ⟨-, h1, h2, h3⟩
          rcases hn with h | h | h
          · exact absurd h h1
          · exact absurd h h2
          · exact absurd h h3
      · simp only [hn, if_false, true_iff]
        push_neg at hn
        exact ⟨hall, hn⟩
  · intro e he
    unfold ValidateLayerName at he
    cases hf : find_first_not_of name.data w.PORTO_NAME_CHARS.data with
    | some pos =>
      simp only [hf] at he
      cases he
      rfl
    | none =>
      simp only [hf] at he
      by_cases hn : name = "." ∨ name = ".." ∨ name = "_tmp_"
      · simp only [hn, if_true] at he
        cases he
        rfl
      · simp only [hn, if_false] at he
        cases he
  · intro pre c post hname hpre hc
    unfold ValidateLayerName
    rw [hname, find_first_not_of_first pre c post _ hpre hc]
    simp only
    rw [substr_first name pre c post hname]


/-- Witness for C10: in `a b` the first forbidden character is the blank. -/
theorem C10_validateLayerName_witness :
    ValidateLayerName exWorld "a b" = .error ⟨.InvalidValue,
      "forbidden character '" ++ String.singleton ' ' ++ "' in layer name"⟩ :=
  (C10_validateLayerName exWorld "a b").2.2 ['a'] ' ' ['b'] rfl (by decide) (by decide)

/-! ## Layers in use and container links (C11, C12) -/

theorem LayerInUse_iff (heap : Heap) (h : TVolumeHolder) (name place : String) :
    h.LayerInUse heap name place = true ↔
      ∃ e ∈ h.Volumes, (heap e.2).Place = place ∧ name ∈ (heap e.2).Layers := by
  simp [TVolumeHolder.LayerInUse, List.any_eq_true]

/-- C11: for a layer that exists in the place, `RemoveLayer` takes the holder
lock and then, when a registered volume of that place has the name in its
layers, returns Busy with no rename and no removal; when no such volume
exists it renames the layer to `<layers_dir>/_tmp_/<name>` and, if the rename
succeeded, removes it there and returns the result of the removal (a failed
rename is returned as it is).  A holder whose volumes all have another place
never makes the layer busy. -/
theorem C11_removeLayer_busy (host : Host) (heap : Heap) (h : TVolumeHolder)
    (name place : String) (tr : Trace)
    (hex : (host tr).Exists (pathJoin (pathJoin place (host tr).layers_dir) name) = true) :
    ((∃ e ∈ h.Volumes, (heap e.2).Place = place ∧ name ∈ (heap e.2).Layers) →
      h.RemoveLayer host heap name place tr =
        (tr ++ [Event.ScopedLock], .error ⟨.Busy, "Layer " ++ name ++ "in use"⟩)) ∧
    ((¬ ∃ e ∈ h.Volumes, (heap e.2).Place = place ∧ name ∈ (heap e.2).Layers) →
      h.RemoveLayer host heap name place tr =
        match (host (tr ++ [Event.ScopedLock])).Rename
            (pathJoin (pathJoin place (host tr).layers_dir) name)
            (pathJoin (pathJoin (pathJoin place (host tr).layers_dir) "_tmp_") name) with
        | .error e =>
          (tr ++ [Event.ScopedLock] ++
            [Event.Rename (pathJoin (pathJoin place (host tr).layers_dir) name)
              (pathJoin (pathJoin (pathJoin place (host tr).layers_dir) "_tmp_") name)],
            .error e)
        | .ok _ =>
          (tr ++ [Event.ScopedLock] ++
            [Event.Rename (pathJoin (pathJoin place (host tr).layers_dir) name)
              (pathJoin (pathJoin (pathJoin place (host tr).layers_dir) "_tmp_") name)] ++
            [Event.RemoveAll
              (pathJoin (pathJoin (pathJoin place (host tr).layers_dir) "_tmp_") name)],
            (host (tr ++ [Event.ScopedLock] ++
              [Event.Rename (pathJoin (pathJoin place (host tr).layers_dir) name)
                (pathJoin (pathJoin (pathJoin place (host tr).layers_dir) "_tmp_")
                  name)])).RemoveAll
              (pathJoin (pathJoin (pathJoin place (host tr).layers_dir) "_tmp_") name))) ∧
    ((∀ e ∈ h.Volumes, (heap e.2).Place ≠ place) →
      h.LayerInUse heap name place = false) := by
  refine ⟨?_, ?_, ?_⟩
  · intro hin
    have hu := (LayerInUse_iff heap h name place).2 hin
    simp [TVolumeHolder.RemoveLayer, hex, hu]
  · intro hnot
    have hu : h.LayerInUse heap name place = false := by
      cases hl : h.LayerInUse heap name place with
      | false => rfl
      | true => exact absurd ((LayerInUse_iff heap h name place).1 hl) hnot
    simp only [TVolumeHolder.RemoveLayer, hex, hu, Bool.not_true, Bool.false_eq_true,
      if_false]
    cases (host (tr ++ [Event.ScopedLock])).Rename
        (pathJoin (pathJoin place (host tr).layers_dir) name)
        (pathJoin (pathJoin (pathJoin place (host tr).layers_dir) "_tmp_") name) <;> rfl
  · intro hplace
    cases hl : h.LayerInUse heap name place with
    | false => rfl
    | true =>
      obtain ⟨e, he, hp, -⟩ := (LayerInUse_iff heap h name place).1 hl
      exact absurd hp (hplace e he)

/-- Witness for C11: on the example host the layer `base` exists; a holder
whose volume A lists it is busy, the empty holder renames and removes. -/
theorem C11_removeLayer_busy_witness :
    TVolumeHolder.RemoveLayer exHost (fun _ => { exVolumeA with Layers := ["base"] })
        exHolder "base" "/place" [] =
      ([Event.ScopedLock], .error ⟨.Busy, "Layer basein use"⟩) ∧
    TVolumeHolder.RemoveLayer exHost (exHeap 0) ⟨[], 1⟩ "base" "/place" [] =
      ([Event.ScopedLock,
        Event.Rename "/place/porto_layers/base" "/place/porto_layers/_tmp_/base",
        Event.RemoveAll "/place/porto_layers/_tmp_/base"], .ok ()) :=
  ⟨(C11_removeLayer_busy exHost (fun _ => { exVolumeA with Layers := ["base"] })
      exHolder "base" "/place" [] rfl).1
      ⟨("/place/porto_volumes/1/volume", 1), by simp [exHolder], rfl, by simp⟩,
   (C11_removeLayer_busy exHost (exHeap 0) ⟨[], 1⟩ "base" "/place" [] rfl).2.1
      (by simp)⟩

/-- C12: `UnlinkContainer` leaves the containers without the name (every
occurrence removed, the other names kept in their order and number), saves,
and returns true exactly when the list left is empty; `LinkContainer` puts
the name at the end of the list and saves. -/
theorem C12_link_unlink (host : Host) (v : TVolume) (name : String) (tr : Trace) :
    (v.UnlinkContainer host name tr).1.Containers = v.Containers.filter (· ≠ name) ∧
    name ∉ (v.UnlinkContainer host name tr).1.Containers ∧
    List.Sublist (v.UnlinkContainer host name tr).1.Containers v.Containers ∧
    (∀ other, other ≠ name →
      (v.UnlinkContainer host name tr).1.Containers.count other =
        v.Containers.count other) ∧
    ((v.UnlinkContainer host name tr).2.2 = true ↔
      (v.UnlinkContainer host name tr).1.Containers = []) ∧
    (v.UnlinkContainer host name tr).2.1 =
      tr ++ [Event.KvSave v.Id ((v.UnlinkContainer host name tr).1.SaveRecord (host tr))] ∧
    (v.LinkContainer host name tr).1.Containers = v.Containers ++ [name] ∧
    (v.LinkContainer host name tr).2.1 =
      tr ++ [Event.KvSave v.Id ((v.LinkContainer host name tr).1.SaveRecord (host tr))] := by
  refine ⟨rfl, ?_, ?_, ?_, ?_, rfl, rfl, rfl⟩
  · simp [TVolume.UnlinkContainer, List.mem_filter]
  · exact List.filter_sublist _
  · intro other ho
    simp only [TVolume.UnlinkContainer]
    rw [List.count_filter]
    simpa using ho
  · simp [TVolume.UnlinkContainer, List.isEmpty_iff]

/-- Witness for C12: unlinking `a` from the containers a, b, a, c keeps b
once. -/
theorem C12_link_unlink_witness :
    (({ exVolumeA with Containers := ["a", "b", "a", "c"] }).UnlinkContainer exHost "a"
        []).1.Containers.count "b" =
      (["a", "b", "a", "c"] : List String).count "b" ∧
    "a" ∉ (({ exVolumeA with Containers := ["a", "b", "a", "c"] }).UnlinkContainer exHost "a"
        []).1.Containers :=
  ⟨(C12_link_unlink exHost { exVolumeA with Containers := ["a", "b", "a", "c"] } "a"
      []).2.2.2.1 "b" (by decide),
   (C12_link_unlink exHost { exVolumeA with Containers := ["a", "b", "a", "c"] } "a" []).2.1⟩

/-! ## Restore of a volume that is not ready (C13) -/

theorem step_Backend (w : World) (v : TVolume) (prop : String × String) :
    (TVolume.SetProperty.step w v prop).1.Backend = v.Backend := by
  unfold TVolume.SetProperty.step
  by_cases h0 : prop.1 = V_PATH
  · rw [if_pos h0]
  rw [if_neg h0]
  by_cases h1 : prop.1 = V_AUTO_PATH
  · rw [if_pos h1]
    split_ifs <;> rfl
  rw [if_neg h1]
  by_cases h2 : prop.1 = V_STORAGE
  · rw [if_pos h2]
  rw [if_neg h2]
  by_cases h3 : prop.1 = V_BACKEND
  · rw [if_pos h3]
  rw [if_neg h3]
  by_cases h4 : prop.1 = V_USER
  · rw [if_pos h4]
    split <;> rfl
  rw [if_neg h4]
  by_cases h5 : prop.1 = V_GROUP
  · rw [if_pos h5]
    split <;> rfl
  rw [if_neg h5]
  by_cases h6 : prop.1 = V_PERMISSIONS
  · rw [if_pos h6]
    split <;> rfl
  rw [if_neg h6]
  by_cases h7 : prop.1 = V_CREATOR
  · rw [if_pos h7]
  rw [if_neg h7]
  by_cases h8 : prop.1 = V_ID
  · rw [if_pos h8]
  rw [if_neg h8]
  by_cases h9 : prop.1 = V_READY
  · rw [if_pos h9]
    split_ifs <;> rfl
  rw [if_neg h9]
  by_cases h10 : prop.1 = V_PRIVATE
  · rw [if_pos h10]
  rw [if_neg h10]
  by_cases h11 : prop.1 = V_CONTAINERS
  · rw [if_pos h11]
  rw [if_neg h11]
  by_cases h12 : prop.1 = V_LOOP_DEV
  · rw [if_pos h12]
    split <;> rfl
  rw [if_neg h12]
  by_cases h13 : prop.1 = V_READ_ONLY
  · rw [if_pos h13]
    split_ifs <;> rfl
  rw [if_neg h13]
  by_cases h14 : prop.1 = V_LAYERS
  · rw [if_pos h14]
  rw [if_neg h14]
  by_cases h15 : prop.1 = V_SPACE_LIMIT
  · rw [if_pos h15]
    split <;> rfl
  rw [if_neg h15]
  by_cases h16 : prop.1 = V_SPACE_GUARANTEE
  · rw [if_pos h16]
    split <;> rfl
  rw [if_neg h16]
  by_cases h17 : prop.1 = V_INODE_LIMIT
  · rw [if_pos h17]
    split <;> rfl
  rw [if_neg h17]
  by_cases h18 : prop.1 = V_INODE_GUARANTEE
  · rw [if_pos h18]
    split <;> rfl
  rw [if_neg h18]
  by_cases h19 : prop.1 = V_PLACE
  · rw [if_pos h19]
  rw [if_neg h19]

theorem step_IsReady (w : World) (v : TVolume) (prop : String × String)
    (hp : prop ≠ (V_READY, "true")) (hr : v.IsReady = false) :
    (TVolume.SetProperty.step w v prop).1.IsReady = false := by
  unfold TVolume.SetProperty.step
  by_cases h0 : prop.1 = V_PATH
  · rw [if_pos h0]
    exact hr
  rw [if_neg h0]
  by_cases h1 : prop.1 = V_AUTO_PATH
  · rw [if_pos h1]
    split_ifs <;> exact hr
  rw [if_neg h1]
  by_cases h2 : prop.1 = V_STORAGE
  · rw [if_pos h2]
    exact hr
  rw [if_neg h2]
  by_cases h3 : prop.1 = V_BACKEND
  · rw [if_pos h3]
    exact hr
  rw [if_neg h3]
  by_cases h4 : prop.1 = V_USER
  · rw [if_pos h4]
    split <;> exact hr
  rw [if_neg h4]
  by_cases h5 : prop.1 = V_GROUP
  · rw [if_pos h5]
    split <;> exact hr
  rw [if_neg h5]
  by_cases h6 : prop.1 = V_PERMISSIONS
  · rw [if_pos h6]
    split <;> exact hr
  rw [if_neg h6]
  by_cases h7 : prop.1 = V_CREATOR
  · rw [if_pos h7]
    exact hr
  rw [if_neg h7]
  by_cases h8 : prop.1 = V_ID
  · rw [if_pos h8]
    exact hr
  rw [if_neg h8]
  by_cases h9 : prop.1 = V_READY
  · rw [if_pos h9]
    by_cases ht : prop.2 = "true"
    · exact absurd (Prod.ext h9 ht) hp
    · rw [if_neg ht]
      split_ifs
      · rfl
      · exact hr
  rw [if_neg h9]
  by_cases h10 : prop.1 = V_PRIVATE
  · rw [if_pos h10]
    exact hr
  rw [if_neg h10]
  by_cases h11 : prop.1 = V_CONTAINERS
  · rw [if_pos h11]
    exact hr
  rw [if_neg h11]
  by_cases h12 : prop.1 = V_LOOP_DEV
  · rw [if_pos h12]
    split <;> exact hr
  rw [if_neg h12]
  by_cases h13 : prop.1 = V_READ_ONLY
  · rw [if_pos h13]
    split_ifs <;> exact hr
  rw [if_neg h13]
  by_cases h14 : prop.1 = V_LAYERS
  · rw [if_pos h14]
    exact hr
  rw [if_neg h14]
  by_cases h15 : prop.1 = V_SPACE_LIMIT
  · rw [if_pos h15]
    split <;> exact hr
  rw [if_neg h15]
  by_cases h16 : prop.1 = V_SPACE_GUARANTEE
  · rw [if_pos h16]
    split <;> exact hr
  rw [if_neg h16]
  by_cases h17 : prop.1 = V_INODE_LIMIT
  · rw [if_pos h17]
    split <;> exact hr
  rw [if_neg h17]
  by_cases h18 : prop.1 = V_INODE_GUARANTEE
  · rw [if_pos h18]
    split <;> exact hr
  rw [if_neg h18]
  by_cases h19 : prop.1 = V_PLACE
  · rw [if_pos h19]
    exact hr
  rw [if_neg h19]
  exact hr

theorem SetProperty_Backend (w : World) (properties : Props) :
    ∀ v : TVolume, (v.SetProperty w properties).1.Backend = v.Backend := by
  induction properties with
  | nil => intro v; rfl
  | cons prop rest ih =>
    intro v
    have hb := step_Backend w v prop
    unfold TVolume.SetProperty
    generalize TVolume.SetProperty.step w v prop = r at hb
    obtain ⟨v1, res⟩ := r
    cases res with
    | error e => exact hb
    | ok u => exact (ih v1).trans hb

theorem SetProperty_IsReady (w : World) (properties : Props)
    (hp : ∀ e ∈ properties, e ≠ (V_READY, "true")) :
    ∀ v : TVolume, v.IsReady = false → (v.SetProperty w properties).1.IsReady = false := by
  induction properties with
  | nil => intro v hr; exact hr
  | cons prop rest ih =>
    intro v hr
    have hb := step_IsReady w v prop (hp prop (List.mem_cons_self _ _)) hr
    unfold TVolume.SetProperty
    generalize TVolume.SetProperty.step w v prop = r at hb
    obtain ⟨v1, res⟩ := r
    cases res with
    | error e => exact hb
    | ok u => exact ih (fun e he => hp e (List.mem_cons_of_mem _ he)) v1 hb


/-- C13 (as stated, refuted): the record with id 1, `ready` false and a key
`zzz` has an id and is not ready, yet `Restore` fails with InvalidValue from
`SetProperty`, not with Busy. -/
theorem C13_restore_not_busy :
    mapCount [(V_ID, "1"), (V_READY, "false"), ("zzz", "x")] V_ID = true ∧
    mapFind [(V_ID, "1"), (V_READY, "false"), ("zzz", "x")] V_READY = some "false" ∧
    (TVolume.fresh.Restore exWorld [(V_ID, "1"), (V_READY, "false"), ("zzz", "x")]).2 =
      .error ⟨.InvalidValue, "Invalid value name: zzz"⟩ := by
  refine ⟨rfl, rfl, rfl⟩

/-- C13 (amended): a record without an id fails with InvalidValue; for a
record with an id and no `ready` value true, `Restore` of a volume that is
not ready fails without opening a backend, with the error of `SetProperty`
when that fails and with Busy otherwise; and when `Restore` fails on a loaded
node, `RestoreFromStorage` destroys the volume and leaves the holder as it
was. -/
theorem C13_restore_requires_ready (host : Host) (s : Daemon) (node : String) (w : World)
    (v : TVolume) (data : Props) :
    (mapCount data V_ID = false →
      v.Restore w data = (v, .error ⟨.InvalidValue, "No volume id stored"⟩)) ∧
    (mapCount data V_ID = true → (∀ e ∈ data, e ≠ (V_READY, "true")) → v.IsReady = false →
      failed (v.Restore w data).2 = true ∧
      (v.Restore w data).1.Backend = v.Backend ∧
      (∀ e, ({ v with Place := w.default_place, CustomPlace := false }.SetProperty w
          data).2 = .error e → (v.Restore w data).2 = .error e) ∧
      (({ v with Place := w.default_place, CustomPlace := false }.SetProperty w
          data).2 = .ok () →
        (v.Restore w data).2 = .error ⟨.Busy, "Volume not ready"⟩)) ∧
    ((host s.trace).KvLoad node = .ok data →
      failed (TVolume.fresh.Restore (host s.trace) data).2 = true →
      (RestoreFromStorage.step host s node).holder = s.holder ∧
      (RestoreFromStorage.step host s node).brk = s.brk + 1 ∧
      (RestoreFromStorage.step host s node).trace =
        ((TVolume.fresh.Restore (host s.trace) data).1.Destroy host
          (Function.update s.heap s.brk (TVolume.fresh.Restore (host s.trace) data).1)
          s.holder s.trace).2.1 ∧
      (RestoreFromStorage.step host s node).heap =
        Function.update s.heap s.brk
          ((TVolume.fresh.Restore (host s.trace) data).1.Destroy host
            (Function.update s.heap s.brk (TVolume.fresh.Restore (host s.trace) data).1)
            s.holder s.trace).1) := by
  refine ⟨?_, ?_, ?_⟩
  · intro hid
    simp [TVolume.Restore, hid]
  · intro hid hnot hr
    have hsr := SetProperty_IsReady w data hnot
      { v with Place := w.default_place, CustomPlace := false } hr
    have hsb := SetProperty_Backend w data
      { v with Place := w.default_place, CustomPlace := false }
    unfold TVolume.Restore
    simp only [hid, Bool.not_true, Bool.false_eq_true, if_false]
    generalize ({ v with Place := w.default_place, CustomPlace := false } : TVolume).SetProperty
      w data = r at hsr hsb
    obtain ⟨v1, res⟩ := r
    cases res with
    | error e =>
      refine ⟨rfl, hsb, ?_, ?_⟩
      · intro e1 he
        exact he
      · intro he
        cases he
    | ok u =>
      simp only at hsr hsb
      simp only [hsr, Bool.not_false, if_true]
      refine ⟨rfl, hsb, ?_, ?_⟩
      · intro e1 he
        cases he
      · intro _
        trivial
  · intro hload hfail
    unfold RestoreFromStorage.step
    simp only [hload]
    generalize TVolume.fresh.Restore (host s.trace) data = r at hfail
    obtain ⟨v1, res⟩ := r
    cases res with
    | error e => exact ⟨rfl, rfl, rfl, by simp⟩
    | ok u => simp [failed] at hfail

/-- Witness for C13: the record with id 1 and `ready` false on the example
host fails with Busy. -/
theorem C13_restore_requires_ready_witness :
    (TVolume.fresh.Restore exWorld [(V_ID, "1"), (V_READY, "false")]).2 =
      .error ⟨.Busy, "Volume not ready"⟩ ∧
    TVolume.fresh.Restore exWorld [(V_READY, "true")] =
      (TVolume.fresh, .error ⟨.InvalidValue, "No volume id stored"⟩) :=
  ⟨((C13_restore_requires_ready exHost exDaemon "n" exWorld TVolume.fresh
      [(V_ID, "1"), (V_READY, "false")]).2.1 rfl (by decide) rfl).2.2.2 rfl,
   (C13_restore_requires_ready exHost exDaemon "n" exWorld TVolume.fresh
      [(V_READY, "true")]).1 rfl⟩

/-! ## Destroy and the loop image (C14, C15, C16) -/

/-- C14 (code defect): volume C has the native backend and a quota.  On a
host where the unmount fails and every other call succeeds, `Destroy`
attempts every step, the unmount first, and returns success: the native
backend overwrites the unmount error with the result of the quota removal.
The same volume without a quota returns the unmount error. -/
theorem C14_destroy_hides_umount_error :
    (exHostBusy []).UmountAll exVolumeC.GetPath =
      .error ⟨.Unknown, "umount: device is busy"⟩ ∧
    (exVolumeC.Destroy exHostBusy exHeapC exHolderC []).2.1 =
      [Event.UmountAll "/place/porto_volumes/2/volume",
       Event.QuotaDestroy "/place/porto_volumes/2/native",
       Event.RemoveAll "/place/porto_volumes/2/native",
       Event.RemoveAll "/place/porto_volumes/2/volume",
       Event.RemoveAll "/place/porto_volumes/2/",
       Event.Unlink "/run/porto/kvs/2"] ∧
    (exVolumeC.Destroy exHostBusy exHeapC exHolderC []).2.2 = .ok () ∧
    (({ exVolumeC with SpaceLimit := 0 }).Destroy exHostBusy exHeapC exHolderC []).2.2 =
      .error ⟨.Unknown, "umount: device is busy"⟩ := by
  refine ⟨rfl, rfl, rfl, rfl⟩

/-- C15: for the loop and rbd backends, `Destroy` with device index -1
returns success and makes no call; after `Destroy` of a backend holding a
device the index is -1; the index is negative after every `Destroy`, so a
further `Destroy` returns success and makes no call. -/
theorem C15_device_destroy_idempotent (host : Host) (v : TVolume) (b : TVolumeBackend)
    (tr : Trace) (hk : b.Kind = "loop" ∨ b.Kind = "rbd") :
    (b.DeviceIndex = -1 → v.BackendDestroy host b tr = (b, tr, .ok ())) ∧
    (0 ≤ b.DeviceIndex → (v.BackendDestroy host b tr).1.DeviceIndex = -1) ∧
    (v.BackendDestroy host b tr).1.DeviceIndex < 0 ∧
    (v.BackendDestroy host b tr).1.Kind = b.Kind ∧
    ∀ (v2 : TVolume) (tr2 : Trace),
      v2.BackendDestroy host (v.BackendDestroy host b tr).1 tr2 =
        ((v.BackendDestroy host b tr).1, tr2, .ok ()) := by
  obtain ⟨kind, idx⟩ := b
  simp only at hk
  have hnoop : ∀ (v2 : TVolume) (b2 : TVolumeBackend) (tr2 : Trace),
      (b2.Kind = "loop" ∨ b2.Kind = "rbd") → b2.DeviceIndex < 0 →
      v2.BackendDestroy host b2 tr2 = (b2, tr2, .ok ()) := by
    intro v2 b2 tr2 hk2 hneg
    obtain ⟨kind2, idx2⟩ := b2
    simp only at hk2 hneg
    rcases hk2 with rfl | rfl <;> simp [TVolume.BackendDestroy, hneg]
  have hafter : (v.BackendDestroy host ⟨kind, idx⟩ tr).1.Kind = kind ∧
      (v.BackendDestroy host ⟨kind, idx⟩ tr).1.DeviceIndex < 0 ∧
      (0 ≤ idx → (v.BackendDestroy host ⟨kind, idx⟩ tr).1.DeviceIndex = -1) := by
    by_cases hneg : idx < 0
    · rw [hnoop v ⟨kind, idx⟩ tr hk hneg]
      exact ⟨rfl, hneg, fun h => absurd hneg (by omega)⟩
    · rcases hk with rfl | rfl <;> simp [TVolume.BackendDestroy, hneg]
  refine ⟨?_, hafter.2.2, hafter.2.1, hafter.1, ?_⟩
  · intro hidx
    simp only at hidx
    have hneg : idx < 0 := by omega
    exact hnoop v ⟨kind, idx⟩ tr hk hneg
  · intro v2 tr2
    exact hnoop v2 _ tr2 (by rw [hafter.1]; exact hk) hafter.2.1

/-- Witness for C15: a loop backend holding device 3 on the example host. -/
theorem C15_device_destroy_idempotent_witness :
    (exVolumeA.BackendDestroy exHost ⟨"loop", 3⟩ []).1.DeviceIndex = -1 ∧
    exVolumeA.BackendDestroy exHost ⟨"rbd", -1⟩ [] = (⟨"rbd", -1⟩, [], .ok ()) :=
  ⟨(C15_device_destroy_idempotent exHost exVolumeA ⟨"loop", 3⟩ [] (Or.inl rfl)).2.1
      (by decide),
   (C15_device_destroy_idempotent exHost exVolumeA ⟨"rbd", -1⟩ [] (Or.inr rfl)).1 rfl⟩

/-- C16 (as stated, refuted): for the loop volume with id 2 and automatic
storage in `/place`, the image is not `/place/porto_volumes/2/loop.img`: it
lies in the storage directory `loop` next to it. -/
theorem C16_loop_image_not_in_volume_dir :
    ({ exVolumeB 0 with BackendType := "loop" }).IsAutoStorage = true ∧
    ({ exVolumeB 0 with BackendType := "loop" }).GetLoopImage exWorld ≠
      pathJoin (pathJoin (pathJoin "/place" exWorld.volume_dir) "2") "loop.img" ∧
    ({ exVolumeB 0 with BackendType := "loop" }).GetLoopImage exWorld =
      "/place/porto_volumes/2/loop/loop.img" := by
  refine ⟨rfl, by decide, rfl⟩

/-- C16 (amended): for a loop volume with automatic storage the image file
is `loop.img` in the storage directory, that is
`<place>/<volumes_dir>/<id>/loop/loop.img`. -/
theorem C16_loop_image_in_storage (w : World) (v : TVolume) (ha : v.IsAutoStorage = true)
    (hb : v.BackendType = "loop") :
    v.GetLoopImage w = pathJoin (v.GetStorage w) "loop.img" ∧
    v.GetStorage w = pathJoin (pathJoin (pathJoin v.Place w.volume_dir) v.Id) "loop" ∧
    v.GetLoopImage w =
      v.Place ++ "/" ++ w.volume_dir ++ "/" ++ v.Id ++ "/" ++ "loop" ++ "/" ++ "loop.img" := by
  have hs : v.GetStorage w =
      pathJoin (pathJoin (pathJoin v.Place w.volume_dir) v.Id) "loop" := by
    simp [TVolume.GetStorage, TVolume.GetInternal, ha, hb]
  refine ⟨rfl, hs, ?_⟩
  rw [TVolume.GetLoopImage, hs]
  simp [pathJoin, String.append_assoc]

/-- Witness for C16: the loop volume with id 2 in `/place`. -/
theorem C16_loop_image_in_storage_witness :
    ({ exVolumeB 0 with BackendType := "loop" }).GetLoopImage exWorld =
      "/place" ++ "/" ++ "porto_volumes" ++ "/" ++ "2" ++ "/" ++ "loop" ++ "/" ++ "loop.img" :=
  (C16_loop_image_in_storage exWorld { exVolumeB 0 with BackendType := "loop" } rfl rfl).2.2

/-! ## Cgroup children (`TCgroup::GetChild`) -/

/-- What the lookup does when it finds a live child with the name. -/
theorem GetChild.lookup_some (s : Cgroups) (name : String) :
    ∀ (l l' : List CgroupPtr) (c : CgroupPtr), GetChild.lookup s name l = (l', some c) →
      ∃ pre post, l = pre ++ c :: post ∧ l' = pre.filter s.alive ++ c :: post ∧
        s.alive c = true ∧ (s.heap c).node.name = name ∧
        ∀ x ∈ pre, s.alive x = true → (s.heap x).node.name ≠ name := by
  intro l
  induction l with
  | nil => intro l' c h; simp [GetChild.lookup] at h
  | cons a rest ih =>
    intro l' c h
    unfold GetChild.lookup at h
    by_cases ha : s.alive a = true
    · rw [if_pos ha] at h
      by_cases hn : (s.heap a).node.name = name
      · rw [if_pos hn] at h
        simp only [Prod.mk.injEq, Option.some.injEq] at h
        obtain ⟨h1, h2⟩ := h
        subst h2
        exact ⟨[], rest, rfl, by simp [← h1], ha, hn, by simp⟩
      · rw [if_neg hn] at h
        simp only [Prod.mk.injEq] at h
        obtain ⟨h1, h2⟩ := h
        obtain ⟨pre, post, e1, e2, e3, e4, e5⟩ :=
          ih (GetChild.lookup s name rest).1 c (Prod.ext rfl h2)
        refine ⟨a :: pre, post, by simp [e1], ?_, e3, e4, ?_⟩
        · rw [← h1, e2]; simp [List.filter_cons, ha]
        · intro x hx hax
          rcases List.mem_cons.1 hx with rfl | hx
          · exact hn
          · exact e5 x hx hax
    · rw [if_neg ha] at h
      obtain ⟨pre, post, e1, e2, e3, e4, e5⟩ := ih l' c h
      refine ⟨a :: pre, post, by simp [e1], ?_, e3, e4, ?_⟩
      · rw [e2]; simp [List.filter_cons, ha]
      · intro x hx hax
        rcases List.mem_cons.1 hx with rfl | hx
        · exact absurd hax ha
        · exact e5 x hx hax

/-- What the lookup does when it finds no live child with the name. -/
theorem GetChild.lookup_none (s : Cgroups) (name : String) :
    ∀ (l l' : List CgroupPtr), GetChild.lookup s name l = (l', none) →
      l' = l.filter s.alive ∧
        ∀ x ∈ l, s.alive x = true → (s.heap x).node.name ≠ name := by
  intro l
  induction l with
  | nil => intro l' h; simp [GetChild.lookup] at h; simp [h]
  | cons a rest ih =>
    intro l' h
    unfold GetChild.lookup at h
    by_cases ha : s.alive a = true
    · rw [if_pos ha] at h
      by_cases hn : (s.heap a).node.name = name
      · rw [if_pos hn] at h
        simp at h
      · rw [if_neg hn] at h
        simp only [Prod.mk.injEq] at h
        obtain ⟨h1, h2⟩ := h
        obtain ⟨e1, e2⟩ := ih (GetChild.lookup s name rest).1 (Prod.ext rfl h2)
        refine ⟨?_, ?_⟩
        · rw [← h1, e1]; simp [List.filter_cons, ha]
        · intro x hx hax
          rcases List.mem_cons.1 hx with rfl | hx
          · exact hn
          · exact e2 x hx hax
    · rw [if_neg ha] at h
      obtain ⟨e1, e2⟩ := ih l' h
      refine ⟨?_, ?_⟩
      · rw [e1]; simp [List.filter_cons, ha]
      · intro x hx hax
        rcases List.mem_cons.1 hx with rfl | hx
        · exact absurd hax ha
        · exact e2 x hx hax

/-- Result of `GetChild` when the lookup finds a child. -/
theorem GetChild_found (s : Cgroups) (this : CgroupPtr) (name : String)
    (l' : List CgroupPtr) (c : CgroupPtr)
    (h : GetChild.lookup s name (s.heap this).children = (l', some c)) :
    TCgroup.GetChild s this name =
      ({ s with
         heap := Function.update s.heap this { s.heap this with children := l' }
         refs := Function.update s.refs c (s.refs c + 1) }, c) := by
  simp only [TCgroup.GetChild, h]

/-- Result of `GetChild` when the lookup finds no child. -/
theorem GetChild_new (s : Cgroups) (this : CgroupPtr) (name : String)
    (l' : List CgroupPtr)
    (h : GetChild.lookup s name (s.heap this).children = (l', none)) :
    TCgroup.GetChild s this name =
      ({ heap := Function.update
           (Function.update s.heap this { s.heap this with children := l' ++ [s.brk] })
           s.brk ⟨.child name (s.heap this).node, some this, []⟩
         refs := Function.update (Function.update s.refs this (s.refs this + 1)) s.brk 1
         brk := s.brk + 1 }, s.brk) := by
  simp only [TCgroup.GetChild, h]

/-- Either the lookup finds a child or it does not. -/
theorem GetChild.lookup_cases (s : Cgroups) (name : String) (l : List CgroupPtr) :
    (∃ l' c, GetChild.lookup s name l = (l', some c)) ∨
      (∃ l', GetChild.lookup s name l = (l', none)) := by
  rcases h : GetChild.lookup s name l with ⟨l', _ | c⟩
  · exact Or.inr ⟨l', rfl⟩
  · exact Or.inl ⟨l', c, rfl⟩

/-- The lookup reads only the liveness and the names of the entries. -/
theorem GetChild.lookup_congr (s t : Cgroups) (name : String) :
    ∀ l : List CgroupPtr,
      (∀ x ∈ l, t.alive x = s.alive x ∧ (t.heap x).node.name = (s.heap x).node.name) →
      GetChild.lookup t name l = GetChild.lookup s name l := by
  intro l
  induction l with
  | nil => intro _; rfl
  | cons a rest ih =>
    intro h
    have ha := h a (List.mem_cons_self a rest)
    have hr := ih fun x hx => h x (List.mem_cons_of_mem a hx)
    simp only [GetChild.lookup, ha.1, ha.2, hr]

/-- Live entries with other names are stepped over. -/
theorem GetChild.lookup_skip (s : Cgroups) (name : String) (c : CgroupPtr)
    (post : List CgroupPtr) (hc : s.alive c = true) (hn : (s.heap c).node.name = name) :
    ∀ pre : List CgroupPtr,
      (∀ x ∈ pre, s.alive x = true ∧ (s.heap x).node.name ≠ name) →
      GetChild.lookup s name (pre ++ c :: post) = (pre ++ c :: post, some c) := by
  intro pre
  induction pre with
  | nil => intro _; simp [GetChild.lookup, hc, hn]
  | cons a rest ih =>
    intro h
    have ha := h a (List.mem_cons_self a rest)
    have hr := ih fun x hx => h x (List.mem_cons_of_mem a hx)
    show GetChild.lookup s name (a :: (rest ++ c :: post)) = _
    simp only [GetChild.lookup, ha.1, if_true, if_neg ha.2, hr]
    rfl

/-- State after `GetChild` found a live child. -/
theorem GetChild_found_state (s : Cgroups) (this : CgroupPtr) (name : String)
    (l' : List CgroupPtr) (c : CgroupPtr)
    (h : GetChild.lookup s name (s.heap this).children = (l', some c)) :
    (TCgroup.GetChild s this name).2 = c ∧
    (TCgroup.GetChild s this name).1.brk = s.brk ∧
    ((TCgroup.GetChild s this name).1.heap this).children = l' ∧
    (∀ x, ((TCgroup.GetChild s this name).1.heap x).node = (s.heap x).node) ∧
    (∀ x, x ≠ this → (TCgroup.GetChild s this name).1.heap x = s.heap x) ∧
    (∀ x, (TCgroup.GetChild s this name).1.alive x = s.alive x) := by
  obtain ⟨pre, post, e1, e2, e3, e4, e5⟩ := GetChild.lookup_some s name _ _ _ h
  rw [GetChild_found s this name l' c h]
  refine ⟨rfl, rfl, by simp, ?_, ?_, ?_⟩
  · intro x
    by_cases hx : x = this
    · subst hx; simp
    · simp [Function.update_noteq hx]
  · intro x hx
    simp [Function.update_noteq hx]
  · intro x
    by_cases hx : x = c
    · subst hx
      simp only [Cgroups.alive, Function.update_same] at e3 ⊢
      simp
      simpa using e3
    · simp [Cgroups.alive, Function.update_noteq hx]

/-- State after `GetChild` made a new child. -/
theorem GetChild_new_state (s : Cgroups) (this : CgroupPtr) (name : String)
    (l' : List CgroupPtr)
    (h : GetChild.lookup s name (s.heap this).children = (l', none))
    (hheld : s.alive this = true) (hthis : this < s.brk) :
    (TCgroup.GetChild s this name).2 = s.brk ∧
    (TCgroup.GetChild s this name).1.brk = s.brk + 1 ∧
    ((TCgroup.GetChild s this name).1.heap this).children = l' ++ [s.brk] ∧
    (TCgroup.GetChild s this name).1.heap s.brk =
      ⟨.child name (s.heap this).node, some this, []⟩ ∧
    (∀ x, x ≠ s.brk → ((TCgroup.GetChild s this name).1.heap x).node = (s.heap x).node) ∧
    (∀ x, x ≠ s.brk → x ≠ this → (TCgroup.GetChild s this name).1.heap x = s.heap x) ∧
    (∀ x, x ≠ s.brk → (TCgroup.GetChild s this name).1.alive x = s.alive x) ∧
    (TCgroup.GetChild s this name).1.alive s.brk = true := by
  have hne : this ≠ s.brk := Nat.ne_of_lt hthis
  rw [GetChild_new s this name l' h]
  refine ⟨rfl, rfl, ?_, by simp, ?_, ?_, ?_, ?_⟩
  · simp [Function.update_noteq hne]
  · intro x hx
    by_cases hxt : x = this
    · subst hxt; simp [Function.update_noteq hx]
    · simp [Function.update_noteq hx, Function.update_noteq hxt]
  · intro x hx hxt
    simp [Function.update_noteq hx, Function.update_noteq hxt]
  · intro x hx
    by_cases hxt : x = this
    · subst hxt
      simp only [Cgroups.alive, Function.update_noteq hx, Function.update_same] at hheld ⊢
      simp
      simpa using hheld
    · simp [Cgroups.alive, Function.update_noteq hx, Function.update_noteq hxt]
  · simp [Cgroups.alive]

/-- C18: `GetChild` on a held node. The handle returned is a live child with
the name. While a live child with the name exists, that child is returned
(the only one, when live names are distinct), no node is made and the children
list only loses expired entries that stand before it. A node is made only
when no live child has the name: it is new, has this node as parent, and
is appended after the live entries. Only expired entries are dropped, live
names stay distinct, and a second call returns the same node and leaves the
list as it is. -/
theorem C18_getChild_idempotent (s s' : Cgroups) (this child : CgroupPtr) (name : String)
    (hheld : s.alive this = true) (hthis : this < s.brk)
    (hfresh : ∀ c ∈ (s.heap this).children, c < s.brk)
    (h : TCgroup.GetChild s this name = (s', child)) :
    (s'.alive child = true ∧ (s'.heap child).node.name = name ∧
      child ∈ (s'.heap this).children) ∧
    (∀ c ∈ (s.heap this).children, s.alive c = true → (s.heap c).node.name = name →
      s.alive child = true ∧ (s.heap child).node.name = name ∧
      ((s.liveNames this).Nodup → child = c) ∧ s'.brk = s.brk ∧
      ∃ pre post, (s.heap this).children = pre ++ child :: post ∧
        (s'.heap this).children = pre.filter s.alive ++ child :: post) ∧
    ((∀ c ∈ (s.heap this).children, s.alive c = true → (s.heap c).node.name ≠ name) →
      child = s.brk ∧ s'.brk = s.brk + 1 ∧
      s'.heap child = ⟨.child name (s.heap this).node, some this, []⟩ ∧
      (s'.heap this).children = (s.heap this).children.filter s.alive ++ [child]) ∧
    (s'.brk ≠ s.brk →
      ∀ c ∈ (s.heap this).children, s.alive c = true → (s.heap c).node.name ≠ name) ∧
    (∀ c ∈ (s.heap this).children, c ∉ (s'.heap this).children → s.alive c = false) ∧
    ((s.liveNames this).Nodup → (s'.liveNames this).Nodup) ∧
    ((TCgroup.GetChild s' this name).2 = child ∧
      (TCgroup.GetChild s' this name).1.brk = s'.brk ∧
      ((TCgroup.GetChild s' this name).1.heap this).children = (s'.heap this).children) := by
  have hs' : s' = (TCgroup.GetChild s this name).1 := by rw [h]
  have hc' : child = (TCgroup.GetChild s this name).2 := by rw [h]
  rcases GetChild.lookup_cases s name (s.heap this).children with ⟨l', c0, hl⟩ | ⟨l', hl⟩
  · -- a live child with the name is met
    obtain ⟨pre, post, e1, e2, e3, e4, e5⟩ := GetChild.lookup_some s name _ _ _ hl
    obtain ⟨g1, g2, g3, g4, g5, g6⟩ := GetChild_found_state s this name l' c0 hl
    rw [← hs'] at g2 g3 g4 g5 g6
    rw [← hc'] at g1
    subst g1
    have hlook : GetChild.lookup s' name (s'.heap this).children = (l', some child) := by
      rw [g3, GetChild.lookup_congr s s' name l' (fun x _ => ⟨g6 x, by rw [g4 x]⟩), e2]
      exact GetChild.lookup_skip s name child post e3 e4 _ (fun x hx => by
        obtain ⟨hx1, hx2⟩ := List.mem_filter.1 hx
        exact ⟨hx2, e5 x hx1 hx2⟩)
    obtain ⟨k1, k2, k3, _, _, _⟩ := GetChild_found_state s' this name l' child hlook
    refine ⟨⟨by rw [g6]; exact e3, by rw [g4]; exact e4, by rw [g3, e2]; simp⟩, ?_, ?_, ?_,
      ?_, ?_, ⟨k1, k2, by rw [k3, g3]⟩⟩
    · intro c hc hca hcn
      refine ⟨e3, e4, ?_, g2, pre, post, e1, by rw [g3, e2]⟩
      intro hnd
      rw [e1] at hc
      rcases List.mem_append.1 hc with hc | hc
      · exact absurd hcn (e5 c hc hca)
      · rcases List.mem_cons.1 hc with hc | hc
        · exact hc.symm
        · exfalso
          have hsplit : s.liveNames this =
              (pre.filter s.alive).map (fun c => (s.heap c).node.name) ++
                (name :: (post.filter s.alive).map (fun c => (s.heap c).node.name)) := by
            simp [Cgroups.liveNames, e1, List.filter_append, List.filter_cons, e3, e4]
          rw [hsplit] at hnd
          have h2 := (List.nodup_cons.1 (List.nodup_append.1 hnd).2.1).1
          exact h2 (List.mem_map.2 ⟨c, List.mem_filter.2 ⟨hc, hca⟩, hcn⟩)
    · intro hno
      exact absurd e4 (hno child (by rw [e1]; simp) e3)
    · intro hbrk
      exact absurd g2 hbrk
    · intro c hc hcn
      by_contra hca
      have hca : s.alive c = true := by simpa using hca
      apply hcn
      rw [g3, e2]
      rw [e1] at hc
      rcases List.mem_append.1 hc with hc | hc
      · exact List.mem_append_left _ (List.mem_filter.2 ⟨hc, hca⟩)
      · exact List.mem_append_right _ hc
    · intro hnd
      have : s'.liveNames this = s.liveNames this := by
        have ha : s'.alive = s.alive := funext g6
        have hn : (fun c => (s'.heap c).node.name) = fun c => (s.heap c).node.name :=
          funext fun x => by rw [g4 x]
        simp only [Cgroups.liveNames, g3, e2, e1, ha, hn, List.filter_append,
          List.filter_filter, Bool.and_self]
      rw [this]; exact hnd
  · -- no live child has the name
    obtain ⟨e1, e2⟩ := GetChild.lookup_none s name _ _ hl
    obtain ⟨g1, g2, g3, g4, g5, g6, g7, g8⟩ :=
      GetChild_new_state s this name l' hl hheld hthis
    rw [← hs'] at g2 g3 g4 g5 g6 g7 g8
    rw [← hc'] at g1
    subst g1
    have hne : ∀ x ∈ (s.heap this).children, x ≠ s.brk := fun x hx => Nat.ne_of_lt (hfresh x hx)
    have hpre : ∀ x ∈ l', s'.alive x = true ∧ (s'.heap x).node.name ≠ name := by
      intro x hx
      rw [e1] at hx
      obtain ⟨hx1, hx2⟩ := List.mem_filter.1 hx
      rw [g7 x (hne x hx1), g5 x (hne x hx1)]
      exact ⟨hx2, e2 x hx1 hx2⟩
    have hnew : (s'.heap s.brk).node.name = name := by rw [g4]; rfl
    have hlook : GetChild.lookup s' name (s'.heap this).children =
        (l' ++ [s.brk], some s.brk) := by
      rw [g3]
      exact GetChild.lookup_skip s' name s.brk [] g8 hnew l' hpre
    obtain ⟨k1, k2, k3, _, _, _⟩ := GetChild_found_state s' this name _ s.brk hlook
    refine ⟨⟨g8, hnew, by rw [g3]; simp⟩, ?_, ?_, ?_, ?_, ?_, ⟨k1, k2, by rw [k3, g3]⟩⟩
    · intro c hc hca hcn
      exact absurd hcn (e2 c hc hca)
    · intro _
      exact ⟨rfl, g2, g4, by rw [g3, e1]⟩
    · intro _
      exact e2
    · intro c hc hcn
      by_contra hca
      have hca : s.alive c = true := by simpa using hca
      apply hcn
      rw [g3, e1]
      exact List.mem_append_left _ (List.mem_filter.2 ⟨hc, hca⟩)
    · intro hnd
      have hf : l'.filter s'.alive = l' :=
        List.filter_eq_self.2 fun x hx => (hpre x hx).1
      have hm : l'.map (fun c => (s'.heap c).node.name) =
          l'.map (fun c => (s.heap c).node.name) := by
        apply List.map_congr_left
        intro x hx
        rw [e1] at hx
        rw [g5 x (hne x (List.mem_filter.1 hx).1)]
      have : s'.liveNames this = s.liveNames this ++ [name] := by
        simp only [Cgroups.liveNames, g3, List.filter_append, hf, List.map_append, hm]
        rw [e1]
        simp [List.filter_cons, g8, hnew]
      rw [this]
      refine List.nodup_append.2 ⟨hnd, List.nodup_singleton _, ?_⟩
      intro a ha hb
      rw [List.mem_singleton] at hb
      subst hb
      simp only [Cgroups.liveNames, List.mem_map, List.mem_filter] at ha
      obtain ⟨x, ⟨hx1, hx2⟩, hx3⟩ := ha
      exact e2 x hx1 hx2 hx3

/-- Witness for C18: on the example objects the live child named `porto` is
returned twice, and the expired entry before it is dropped. -/
theorem C18_getChild_idempotent_witness :
    exCgroups.alive 0 = true ∧
    (TCgroup.GetChild exCgroups 0 "porto").2 = 1 ∧
    ((TCgroup.GetChild exCgroups 0 "porto").1.heap 0).children = [1] ∧
    (TCgroup.GetChild (TCgroup.GetChild exCgroups 0 "porto").1 0 "porto").2 = 1 :=
  ⟨rfl, rfl, rfl,
   (C18_getChild_idempotent exCgroups (TCgroup.GetChild exCgroups 0 "porto").1 0 1 "porto"
      rfl (by decide) (by decide) rfl).2.2.2.2.2.2.1⟩

/-! ## Cgroup removal (`TCgroup::Remove`) -/

/-- The kill loop returns when no task id is zero. -/
theorem Kill.each_returns (signal : Int) :
    ∀ (tasks : List Int) (tr : CgTrace), (0 : Int) ∉ tasks →
      (Kill.each signal tasks tr).2 = .ok () := by
  intro tasks
  induction tasks with
  | nil => intro tr _; rfl
  | cons pid rest ih =>
    intro tr h
    have hp : pid ≠ 0 := fun e => h (by simp [e])
    have hr : (0 : Int) ∉ rest := fun e => h (List.mem_cons_of_mem _ e)
    simp only [Kill.each, TTask.Kill, TTask.ofPid, if_neg hp]
    exact ih _ hr

/-- Member `Kill` returns when no task id read in full is zero. -/
theorem TCgroup.Kill_returns (host : CgHost) (node : CgNode) (signal : Int) (tr : CgTrace)
    (hpid : ∀ tr', (TCgroup.GetTasks (host tr') node).2 = .ok () →
      (0 : Int) ∉ (TCgroup.GetTasks (host tr') node).1) :
    (TCgroup.Kill host node signal tr).2 = .ok () := by
  unfold TCgroup.Kill
  split
  · have h := hpid tr
    rcases hg : TCgroup.GetTasks (host tr) node with ⟨tasks, _ | _⟩
    · rfl
    · rw [hg] at h
      exact Kill.each_returns signal tasks tr (h rfl)
  · rfl

/-- The handler of `Remove` returns when `Kill` does. -/
theorem Remove.handler_returns (host : CgHost) (node : CgNode) (tr : CgTrace)
    (hpid : ∀ tr', (TCgroup.GetTasks (host tr') node).2 = .ok () →
      (0 : Int) ∉ (TCgroup.GetTasks (host tr') node).1) :
    ∃ b, (Remove.handler host node tr).2 = .ok b := by
  have h := TCgroup.Kill_returns host node (host tr).SIGKILL tr hpid
  unfold Remove.handler
  rcases hk : TCgroup.Kill host node (host tr).SIGKILL tr with ⟨tr1, _ | _⟩
  · rw [hk] at h; cases h
  · exact ⟨_, rfl⟩

/-- The retry loop returns when every try does. -/
theorem RetryFailed_returns (handler : CgTrace → CgTrace × Except String Bool)
    (hh : ∀ tr, ∃ b, (handler tr).2 = .ok b) :
    ∀ (times : Nat) (tr : CgTrace), ∃ b, (RetryFailed handler times tr).2 = .ok b := by
  intro times
  induction times with
  | zero => intro tr; exact ⟨false, rfl⟩
  | succ n ih =>
    intro tr
    obtain ⟨b, hb⟩ := hh tr
    unfold RetryFailed
    rcases hk : handler tr with ⟨tr1, _ | b'⟩
    · rw [hk] at hb; cases hb
    · cases b'
      · exact ⟨false, rfl⟩
      · by_cases hn : n = 0
        · simp only [hn, if_true]; exact ⟨true, rfl⟩
        · simp only [if_neg hn]; exact ih tr1

/-- C19 as stated fails: when the tasks knob lists the task id 0, `Remove` on
a non-root cgroup is left by the exception of `TTask::Kill`; it does not
return success and no rmdir is attempted. -/
theorem C19_remove_throws_on_pid_zero :
    TCgroup.Remove exCgHostZero (.child "porto" exCgRoot) [] =
      ([], .error "Tried to kill invalid process!") ∧
    CgEvent.Rmdir "/sys/fs/cgroup/freezer/porto" ∉
      (TCgroup.Remove exCgHostZero (.child "porto" exCgRoot) []).1 ∧
    (TCgroup.Remove exCgHostZero (.child "porto" exCgRoot) []).2 ≠ .ok (.ok ()) := by
  have h : TCgroup.Remove exCgHostZero (.child "porto" exCgRoot) [] =
      ([], .error "Tried to kill invalid process!") := rfl
  refine ⟨h, ?_, ?_⟩
  · rw [h]; simp
  · rw [h]; intro e; cases e

/-- C19, amended: on a non-root cgroup whose tasks knob never yields the task
id 0 when it is read in full, `Remove` returns success and its last call is
the rmdir of the directory, after the retry loop, whatever the loop reports
and whatever the rmdir does. On a root a failed umount is returned and
nothing follows it; after a successful umount the directory is removed. -/
theorem C19_remove_failure_semantics (host : CgHost) (tr : CgTrace) :
    (∀ name parent,
      (∀ tr', (TCgroup.GetTasks (host tr') (.child name parent)).2 = .ok () →
        (0 : Int) ∉ (TCgroup.GetTasks (host tr') (.child name parent)).1) →
      (TCgroup.Remove host (.child name parent) tr).2 = .ok (.ok ()) ∧
      (TCgroup.Remove host (.child name parent) tr).1 =
        (RetryFailed (Remove.handler host (.child name parent))
          ((host tr).CGROUP_REMOVE_TIMEOUT_S * 10).toNat tr).1 ++
          [.Rmdir (CgNode.child name parent).Path]) ∧
    (∀ mountpoint subsystems error, (host tr).Umount mountpoint = .error error →
      TCgroup.Remove host (.root mountpoint subsystems) tr =
        (tr ++ [.Umount mountpoint], .ok (.error error))) ∧
    (∀ mountpoint subsystems, (host tr).Umount mountpoint = .ok () →
      TCgroup.Remove host (.root mountpoint subsystems) tr =
        (tr ++ [.Umount mountpoint, .Rmdir mountpoint], .ok (.ok ()))) := by
  refine ⟨?_, ?_, ?_⟩
  · intro name parent hpid
    obtain ⟨b, hb⟩ := RetryFailed_returns (Remove.handler host (.child name parent))
      (fun tr' => Remove.handler_returns host _ tr' hpid)
      ((host tr).CGROUP_REMOVE_TIMEOUT_S * 10).toNat tr
    unfold TCgroup.Remove
    rcases hk : RetryFailed (Remove.handler host (.child name parent))
      ((host tr).CGROUP_REMOVE_TIMEOUT_S * 10).toNat tr with ⟨tr1, _ | _⟩
    · rw [hk] at hb; cases hb
    · exact ⟨rfl, rfl⟩
  · intro mountpoint subsystems error h
    simp only [TCgroup.Remove, h]
  · intro mountpoint subsystems h
    simp only [TCgroup.Remove, h, CgNode.Path]

/-- Witness for C19: on the example host the tasks 12 and 13 never leave, the
ten tries time out, and `Remove` still ends with the rmdir and success;
the root is not removed because the umount fails. -/
theorem C19_remove_failure_semantics_witness :
    (RetryFailed (Remove.handler exCgHost (.child "porto" exCgRoot)) 10 []).2 = .ok true ∧
    (TCgroup.Remove exCgHost (.child "porto" exCgRoot) []).2 = .ok (.ok ()) ∧
    TCgroup.Remove exCgHost exCgRoot [] =
      ([.Umount "/sys/fs/cgroup/freezer"],
        .ok (.error ⟨.Unknown, "umount: target is busy"⟩)) :=
  ⟨rfl,
   ((C19_remove_failure_semantics exCgHost []).1 "porto" exCgRoot
      (fun _ _ => show (0 : Int) ∉ [12, 13] by decide)).1,
   (C19_remove_failure_semantics exCgHost []).2.1 "/sys/fs/cgroup/freezer" ["freezer"]
      ⟨.Unknown, "umount: target is busy"⟩ rfl⟩

/-! ## Cgroup discovery (`TCgroup::FindChildren`) -/

/-- Paths listed in a trace made of two parts. -/
theorem listed_append (a b : CgTrace) : listed (a ++ b) = listed a ++ listed b := by
  simp [listed, List.filterMap_append]

/-- The kill loop lists no directory. -/
theorem Kill.each_listed (signal : Int) :
    ∀ (tasks : List Int) (tr : CgTrace), listed (Kill.each signal tasks tr).1 = listed tr := by
  intro tasks
  induction tasks with
  | nil => intro tr; rfl
  | cons pid rest ih =>
    intro tr
    by_cases hp : pid = 0
    · simp [Kill.each, TTask.Kill, TTask.ofPid, hp]
    · simp only [Kill.each, TTask.Kill, TTask.ofPid, if_neg hp]
      rw [ih, listed_append]
      simp [listed]

/-- Member `Kill` lists no directory. -/
theorem TCgroup.Kill_listed (host : CgHost) (node : CgNode) (signal : Int) (tr : CgTrace) :
    listed (TCgroup.Kill host node signal tr).1 = listed tr := by
  unfold TCgroup.Kill
  split
  · rcases hg : TCgroup.GetTasks (host tr) node with ⟨tasks, _ | _⟩
    · rfl
    · exact Kill.each_listed signal tasks tr
  · rfl

/-- The handler of `Remove` lists no directory. -/
theorem Remove.handler_listed (host : CgHost) (node : CgNode) (tr : CgTrace) :
    listed (Remove.handler host node tr).1 = listed tr := by
  have h := TCgroup.Kill_listed host node (host tr).SIGKILL tr
  unfold Remove.handler
  rcases hk : TCgroup.Kill host node (host tr).SIGKILL tr with ⟨tr1, _ | _⟩
  · rw [hk] at h; exact h
  · rw [hk] at h
    show listed (if _ then _ else _) = _
    split
    · rw [listed_append, h]; simp [listed]
    · exact h

/-- The retry loop lists no directory when the handler lists none. -/
theorem RetryFailed_listed (handler : CgTrace → CgTrace × Except String Bool)
    (hh : ∀ tr, listed (handler tr).1 = listed tr) :
    ∀ (times : Nat) (tr : CgTrace), listed (RetryFailed handler times tr).1 = listed tr := by
  intro times
  induction times with
  | zero => intro tr; rfl
  | succ n ih =>
    intro tr
    have h := hh tr
    unfold RetryFailed
    rcases hk : handler tr with ⟨tr1, _ | b⟩
    · rw [hk] at h; exact h
    · rw [hk] at h
      cases b
      · exact h
      · by_cases hn : n = 0
        · simp only [hn, if_true]; exact h
        · simp only [if_neg hn]; rw [ih tr1, h]

/-- Member `Remove` lists no directory. -/
theorem TCgroup.Remove_listed (host : CgHost) (node : CgNode) (tr : CgTrace) :
    listed (TCgroup.Remove host node tr).1 = listed tr := by
  cases node with
  | root m subs =>
    unfold TCgroup.Remove
    rcases hu : (host tr).Umount m with _ | _ <;> simp only [hu] <;>
      rw [listed_append] <;> simp [listed]
  | child name parent =>
    have h := RetryFailed_listed (Remove.handler host (.child name parent))
      (Remove.handler_listed host _) ((host tr).CGROUP_REMOVE_TIMEOUT_S * 10).toNat tr
    unfold TCgroup.Remove
    rcases hk : RetryFailed (Remove.handler host (.child name parent))
      ((host tr).CGROUP_REMOVE_TIMEOUT_S * 10).toNat tr with ⟨tr1, _ | _⟩
    · rw [hk] at h; exact h
    · rw [hk] at h
      show listed (tr1 ++ _) = _
      rw [listed_append, h]; simp [listed]

/-- The destructor lists no directory, and returns when nothing is to be
cleaned up. -/
theorem TCgroup.destruct_listed (host : CgHost) (node : CgNode) (tr : CgTrace) :
    listed (TCgroup.destruct host node tr).1 = listed tr ∧
    ((∀ tr', (host tr').need_cleanup = false) → (TCgroup.destruct host node tr).2 = .ok ()) := by
  have h := TCgroup.Remove_listed host node tr
  unfold TCgroup.destruct
  by_cases hn : (host tr).need_cleanup = true
  · rw [if_pos hn]
    rcases hk : TCgroup.Remove host node tr with ⟨tr1, _ | _⟩
    · rw [hk] at h
      exact ⟨h, fun hc => by rw [hc tr] at hn; cases hn⟩
    · rw [hk] at h
      exact ⟨h, fun _ => rfl⟩
  · rw [if_neg hn]
    exact ⟨rfl, fun _ => rfl⟩

/-- Releasing a handle changes only the counts, lists no directory, and
returns when nothing is to be cleaned up. -/
theorem Cgroups.release_spec (host : CgHost) :
    ∀ (node : CgNode) (c : CgroupPtr) (s : Cgroups) (tr : CgTrace),
      (Cgroups.release host node c s tr).1.heap = s.heap ∧
      (Cgroups.release host node c s tr).1.brk = s.brk ∧
      listed (Cgroups.release host node c s tr).2.1 = listed tr ∧
      ((∀ tr', (host tr').need_cleanup = false) →
        (Cgroups.release host node c s tr).2.2 = .ok ()) := by
  intro node
  induction node with
  | root m subs =>
    intro c s tr
    have h := TCgroup.destruct_listed host (.root m subs) tr
    unfold Cgroups.release
    simp only
    split
    · exact ⟨rfl, rfl, h.1, h.2⟩
    · exact ⟨rfl, rfl, rfl, fun _ => rfl⟩
  | child name parent ih =>
    intro c s tr
    have h := TCgroup.destruct_listed host (.child name parent) tr
    unfold Cgroups.release
    simp only
    split
    · rcases hk : TCgroup.destruct host (.child name parent) tr with ⟨tr1, _ | _⟩
      · rw [hk] at h
        exact ⟨rfl, rfl, h.1, fun hc => by have := h.2 hc; cases this⟩
      · rw [hk] at h
        simp only
        rcases hp : (s.heap c).parent with _ | p
        · exact ⟨rfl, rfl, h.1, fun _ => rfl⟩
        · simp only
          obtain ⟨i1, i2, i3, i4⟩ := ih p
            { s with refs := Function.update s.refs c (s.refs c - 1) } tr1
          exact ⟨i1, i2, by rw [i3]; exact h.1, i4⟩
    · exact ⟨rfl, rfl, rfl, fun _ => rfl⟩

/-- The entries that the lookup leaves were entries before. -/
theorem GetChild.lookup_subset (s : Cgroups) (name : String) :
    ∀ (l : List CgroupPtr) (x : CgroupPtr), x ∈ (GetChild.lookup s name l).1 → x ∈ l := by
  intro l
  induction l with
  | nil => intro x h; simp [GetChild.lookup] at h
  | cons a rest ih =>
    intro x h
    unfold GetChild.lookup at h
    by_cases ha : s.alive a = true
    · rw [if_pos ha] at h
      by_cases hn : (s.heap a).node.name = name
      · rw [if_pos hn] at h; exact h
      · rw [if_neg hn] at h
        rcases List.mem_cons.1 h with h | h
        · rw [h]; exact List.mem_cons_self _ _
        · exact List.mem_cons_of_mem _ (ih x h)
    · rw [if_neg ha] at h
      exact List.mem_cons_of_mem _ (ih x h)

/-- Member `GetChild` keeps the objects well formed; the node it returns is a
handle in use whose fixed members are the name and this node, and the fixed
members of the objects that existed stay. -/
theorem GetChild_wf (s : Cgroups) (this : CgroupPtr) (name : String)
    (hwf : s.WF) (hlt : this < s.brk) :
    (TCgroup.GetChild s this name).1.WF ∧
    s.brk ≤ (TCgroup.GetChild s this name).1.brk ∧
    (TCgroup.GetChild s this name).2 < (TCgroup.GetChild s this name).1.brk ∧
    ((TCgroup.GetChild s this name).1.heap (TCgroup.GetChild s this name).2).node =
      .child name (s.heap this).node ∧
    ∀ x, x < s.brk → ((TCgroup.GetChild s this name).1.heap x).node = (s.heap x).node := by
  rcases GetChild.lookup_cases s name (s.heap this).children with ⟨l', c0, hl⟩ | ⟨l', hl⟩
  · obtain ⟨pre, post, e1, e2, e3, e4, e5⟩ := GetChild.lookup_some s name _ _ _ hl
    obtain ⟨g1, g2, g3, g4, g5, g6⟩ := GetChild_found_state s this name l' c0 hl
    have hsub : ∀ x ∈ l', x ∈ (s.heap this).children := by
      intro x hx
      have := GetChild.lookup_subset s name (s.heap this).children x
      rw [hl] at this
      exact this hx
    have hc0 : c0 ∈ (s.heap this).children := by rw [e1]; simp
    refine ⟨?_, by rw [g2], by rw [g1, g2]; exact (hwf this c0 hc0).1, ?_, fun x _ => g4 x⟩
    · intro p c hc
      rw [g2, g4 c, g4 p]
      by_cases hp : p = this
      · subst hp
        rw [g3] at hc
        exact hwf p c (hsub c hc)
      · rw [g5 p hp] at hc
        exact hwf p c hc
    · rw [g1, g4 c0]
      obtain ⟨n, hn⟩ := (hwf this c0 hc0).2
      rw [hn] at e4
      rw [hn]
      simp only [CgNode.name] at e4
      rw [e4]
  · obtain ⟨e1, e2⟩ := GetChild.lookup_none s name _ _ hl
    have hne : this ≠ s.brk := Nat.ne_of_lt hlt
    rw [GetChild_new s this name l' hl]
    have hnode : ∀ x, x ≠ s.brk →
        ((Function.update (Function.update s.heap this
          { s.heap this with children := l' ++ [s.brk] }) s.brk
          (⟨.child name (s.heap this).node, some this, []⟩ : TCgroup)) x).node =
          (s.heap x).node := by
      intro x hx
      by_cases hxt : x = this
      · subst hxt; simp [Function.update_noteq hx]
      · simp [Function.update_noteq hx, Function.update_noteq hxt]
    refine ⟨?_, Nat.le_succ _, Nat.lt_succ_self _, by simp, fun x hx => hnode x (Nat.ne_of_lt hx)⟩
    intro p c hc
    simp only at hc ⊢
    by_cases hpb : p = s.brk
    · subst hpb
      simp at hc
    · rw [hnode p hpb]
      by_cases hp : p = this
      · subst hp
        simp only [Function.update_noteq hpb, Function.update_same] at hc
        rcases List.mem_append.1 hc with hc | hc
        · rw [e1] at hc
          have hw := hwf p c (List.mem_filter.1 hc).1
          rw [hnode c (Nat.ne_of_lt hw.1)]
          exact ⟨Nat.lt_succ_of_lt hw.1, hw.2⟩
        · rw [List.mem_singleton] at hc
          subst hc
          exact ⟨Nat.lt_succ_self _, name, by simp⟩
      · simp only [Function.update_noteq hpb, Function.update_noteq hp] at hc
        have hw := hwf p c hc
        rw [hnode c (Nat.ne_of_lt hw.1)]
        exact ⟨Nat.lt_succ_of_lt hw.1, hw.2⟩

/-- A child of a node that is not a root is never skipped. -/
theorem FindChildren.ignored_deep (w : CgWorld) (name : String) (node : CgNode)
    (h : node.IsRoot = false) : FindChildren.ignored w (.child name node) = false := by
  simp [FindChildren.ignored, h]

mutual
/-- Walk of a node that is not skipped and not a root: the objects stay well
formed, and the directories listed are a beginning of the paths in and beneath
the node, all of them when the walk returns success. -/
theorem FindChildren_deep (host : CgHost) :
    ∀ (f : Folder) (this : CgroupPtr) (cglist : List CgroupPtr) (s : Cgroups) (tr : CgTrace),
      s.WF → this < s.brk → (s.heap this).node.IsRoot = false →
      FindChildren.ignored (host tr) (s.heap this).node = false →
      (TCgroup.FindChildren host f this cglist s tr).1.WF ∧
      s.brk ≤ (TCgroup.FindChildren host f this cglist s tr).1.brk ∧
      (∀ x, x < s.brk →
        ((TCgroup.FindChildren host f this cglist s tr).1.heap x).node = (s.heap x).node) ∧
      ∃ X, listed (TCgroup.FindChildren host f this cglist s tr).2.1 = listed tr ++ X ∧
        X <+: Folder.paths (s.heap this).node.Path f ∧
        ((TCgroup.FindChildren host f this cglist s tr).2.2 = .ok (.ok ()) →
          X = Folder.paths (s.heap this).node.Path f)
  | .mk nm err subs, this, cglist, s, tr, hwf, hlt, hnr, hni => by
    unfold TCgroup.FindChildren
    rw [hni]
    simp only [Bool.false_eq_true, if_false]
    cases err with
    | some e =>
      refine ⟨hwf, Nat.le_refl _, fun _ _ => rfl, [(s.heap this).node.Path], ?_, ?_, ?_⟩
      · rw [listed_append]; rfl
      · simp [Folder.paths]
      · intro h; cases h
    | none =>
      simp only
      obtain ⟨h1, h2, h3, X, h4, h5, h6⟩ := FindChildren_loop_deep host subs this cglist s
        (tr ++ [.Subfolders (s.heap this).node.Path]) hwf hlt hnr
      refine ⟨h1, h2, h3, (s.heap this).node.Path :: X, ?_, ?_, ?_⟩
      · rw [h4, listed_append]; simp [listed]
      · simp only [Folder.paths]
        exact (List.prefix_cons_inj _).2 h5
      · intro h
        simp only [Folder.paths]
        rw [h6 h]
/-- Loop of the walk at a node that is not a root. -/
theorem FindChildren_loop_deep (host : CgHost) :
    ∀ (list : List Folder) (this : CgroupPtr) (cglist : List CgroupPtr) (s : Cgroups)
      (tr : CgTrace),
      s.WF → this < s.brk → (s.heap this).node.IsRoot = false →
      (FindChildren.loop host list this cglist s tr).1.WF ∧
      s.brk ≤ (FindChildren.loop host list this cglist s tr).1.brk ∧
      (∀ x, x < s.brk →
        ((FindChildren.loop host list this cglist s tr).1.heap x).node = (s.heap x).node) ∧
      ∃ X, listed (FindChildren.loop host list this cglist s tr).2.1 = listed tr ++ X ∧
        X <+: Folder.pathsList (s.heap this).node.Path list ∧
        ((FindChildren.loop host list this cglist s tr).2.2 = .ok (.ok ()) →
          X = Folder.pathsList (s.heap this).node.Path list)
  | [], this, cglist, s, tr, hwf, hlt, hnr => by
    unfold FindChildren.loop
    exact ⟨hwf, Nat.le_refl _, fun _ _ => rfl, [], by simp, by simp [Folder.pathsList],
      fun _ => by simp [Folder.pathsList]⟩
  | f :: list, this, cglist, s, tr, hwf, hlt, hnr => by
    obtain ⟨w1, w2, w3, w4, w5⟩ := GetChild_wf s this f.name hwf hlt
    unfold FindChildren.loop
    rcases hg : TCgroup.GetChild s this f.name with ⟨s1, cg⟩
    rw [hg] at w1 w2 w3 w4 w5
    simp only at w1 w2 w3 w4 w5 ⊢
    have hcgnr : (s1.heap cg).node.IsRoot = false := by rw [w4]; rfl
    have hcgni : FindChildren.ignored (host tr) (s1.heap cg).node = false := by
      rw [w4]; exact FindChildren.ignored_deep _ _ _ hnr
    obtain ⟨a1, a2, a3, X1, a4, a5, a6⟩ :=
      FindChildren_deep host f cg cglist s1 tr w1 w3 hcgnr hcgni
    have hpath : (s1.heap cg).node.Path = (s.heap this).node.Path ++ "/" ++ f.name := by
      rw [w4]; rfl
    rw [hpath] at a5 a6
    rcases hf : TCgroup.FindChildren host f cg cglist s1 tr with ⟨s2, tr2, _ | res⟩
    · rw [hf] at a1 a2 a3 a4
      simp only at a1 a2 a3 a4 ⊢
      refine ⟨a1, Nat.le_trans w2 a2, ?_, X1, a4, ?_, ?_⟩
      · intro x hx; rw [a3 x (Nat.lt_of_lt_of_le hx w2), w5 x hx]
      · simp only [Folder.pathsList]
        exact a5.trans (List.prefix_append _ _)
      · intro h; cases h
    · rw [hf] at a1 a2 a3 a4 a6
      simp only at a1 a2 a3 a4 a6 ⊢
      obtain ⟨r1, r2, r3, _⟩ := Cgroups.release_spec host (s2.heap cg).node cg s2 tr2
      rcases hr : Cgroups.release host (s2.heap cg).node cg s2 tr2 with ⟨s3, tr3, _ | _⟩
      · rw [hr] at r1 r2 r3
        simp only at r1 r2 r3 ⊢
        refine ⟨?_, ?_, ?_, X1, by rw [r3, a4], ?_, ?_⟩
        · intro p c hc; rw [r1] at hc ⊢; rw [r2]; exact a1 p c hc
        · rw [r2]; exact Nat.le_trans w2 a2
        · intro x hx; rw [r1, a3 x (Nat.lt_of_lt_of_le hx w2), w5 x hx]
        · simp only [Folder.pathsList]
          exact a5.trans (List.prefix_append _ _)
        · intro h; cases h
      · rw [hr] at r1 r2 r3
        simp only at r1 r2 r3 ⊢
        have hwf3 : s3.WF := by
          intro p c hc; rw [r1] at hc ⊢; rw [r2]; exact a1 p c hc
        have hbrk3 : s.brk ≤ s3.brk := by rw [r2]; exact Nat.le_trans w2 a2
        have hnode3 : ∀ x, x < s.brk → (s3.heap x).node = (s.heap x).node := by
          intro x hx; rw [r1, a3 x (Nat.lt_of_lt_of_le hx w2), w5 x hx]
        cases res with
        | error e =>
          simp only
          refine ⟨hwf3, hbrk3, hnode3, X1, by rw [r3, a4], ?_, ?_⟩
          · simp only [Folder.pathsList]
            exact a5.trans (List.prefix_append _ _)
          · intro h; cases h
        | ok u =>
          simp only
          have hX1 := a6 rfl
          have hthis3 : (s3.heap this).node = (s.heap this).node := hnode3 this hlt
          obtain ⟨b1, b2, b3, X2, b4, b5, b6⟩ := FindChildren_loop_deep host list this cglist
            s3 tr3 hwf3 (Nat.lt_of_lt_of_le hlt hbrk3) (by rw [hthis3]; exact hnr)
          rw [hthis3] at b5 b6
          refine ⟨b1, Nat.le_trans hbrk3 b2, ?_, X1 ++ X2, ?_, ?_, ?_⟩
          · intro x hx; rw [b3 x (Nat.lt_of_lt_of_le hx hbrk3), hnode3 x hx]
          · rw [b4, r3, a4, List.append_assoc]
          · simp only [Folder.pathsList]
            rw [hX1]
            exact (List.prefix_append_right_inj _).2 b5
          · intro h
            simp only [Folder.pathsList]
            rw [hX1, b6 h]
end

mutual
/-- Walk of a node that is not skipped and not a root, when no listing fails
in or beneath its directory and no destructor cleans up: it returns success. -/
theorem FindChildren_deep_ok (host : CgHost) (hnc : ∀ tr, (host tr).need_cleanup = false) :
    ∀ (f : Folder) (this : CgroupPtr) (cglist : List CgroupPtr) (s : Cgroups) (tr : CgTrace),
      s.WF → this < s.brk → (s.heap this).node.IsRoot = false →
      FindChildren.ignored (host tr) (s.heap this).node = false → f.Readable = true →
      (TCgroup.FindChildren host f this cglist s tr).2.2 = .ok (.ok ())
  | .mk nm err subs, this, cglist, s, tr, hwf, hlt, hnr, hni, hrd => by
    unfold TCgroup.FindChildren
    rw [hni]
    simp only [Bool.false_eq_true, if_false]
    simp only [Folder.Readable, Bool.and_eq_true] at hrd
    cases err with
    | some e => simp at hrd
    | none =>
      simp only
      exact FindChildren_loop_deep_ok host hnc subs this cglist s _ hwf hlt hnr hrd.2
/-- Loop of the walk at a node that is not a root, when no listing fails. -/
theorem FindChildren_loop_deep_ok (host : CgHost)
    (hnc : ∀ tr, (host tr).need_cleanup = false) :
    ∀ (list : List Folder) (this : CgroupPtr) (cglist : List CgroupPtr) (s : Cgroups)
      (tr : CgTrace),
      s.WF → this < s.brk → (s.heap this).node.IsRoot = false →
      Folder.ReadableList list = true →
      (FindChildren.loop host list this cglist s tr).2.2 = .ok (.ok ())
  | [], this, cglist, s, tr, hwf, hlt, hnr, hrd => by
    unfold FindChildren.loop
    rfl
  | f :: list, this, cglist, s, tr, hwf, hlt, hnr, hrd => by
    simp only [Folder.ReadableList, Bool.and_eq_true] at hrd
    obtain ⟨w1, w2, w3, w4, w5⟩ := GetChild_wf s this f.name hwf hlt
    unfold FindChildren.loop
    rcases hg : TCgroup.GetChild s this f.name with ⟨s1, cg⟩
    rw [hg] at w1 w2 w3 w4 w5
    simp only at w1 w2 w3 w4 w5 ⊢
    have hcgnr : (s1.heap cg).node.IsRoot = false := by rw [w4]; rfl
    have hcgni : FindChildren.ignored (host tr) (s1.heap cg).node = false := by
      rw [w4]; exact FindChildren.ignored_deep _ _ _ hnr
    obtain ⟨a1, a2, a3, _⟩ :=
      FindChildren_deep host f cg cglist s1 tr w1 w3 hcgnr hcgni
    have hok := FindChildren_deep_ok host hnc f cg cglist s1 tr w1 w3 hcgnr hcgni hrd.1
    rcases hf : TCgroup.FindChildren host f cg cglist s1 tr with ⟨s2, tr2, res⟩
    rw [hf] at a1 a2 a3 hok
    simp only at a1 a2 a3 hok
    subst hok
    simp only
    obtain ⟨r1, r2, _, r4⟩ := Cgroups.release_spec host (s2.heap cg).node cg s2 tr2
    have r4 := r4 hnc
    rcases hr : Cgroups.release host (s2.heap cg).node cg s2 tr2 with ⟨s3, tr3, rr⟩
    rw [hr] at r1 r2 r4
    simp only at r1 r2 r4
    subst r4
    simp only
    have hwf3 : s3.WF := by
      intro p c hc; rw [r1] at hc ⊢; rw [r2]; exact a1 p c hc
    have hbrk3 : s.brk ≤ s3.brk := by rw [r2]; exact Nat.le_trans w2 a2
    have hthis3 : (s3.heap this).node = (s.heap this).node := by
      rw [r1, a3 this (Nat.lt_of_lt_of_le hlt w2), w5 this hlt]
    exact FindChildren_loop_deep_ok host hnc list this cglist s3 tr3 hwf3
      (Nat.lt_of_lt_of_le hlt hbrk3) (by rw [hthis3]; exact hnr) hrd.2
end

/-- Walk of a top-level child whose name is not the porto root cgroup name:
nothing is listed and nothing changes. -/
theorem FindChildren_foreign (host : CgHost) (f : Folder) (this : CgroupPtr)
    (cglist : List CgroupPtr) (s : Cgroups) (tr : CgTrace) (name mp : String)
    (subs : List String) (hnode : (s.heap this).node = .child name (.root mp subs))
    (hname : name ≠ (host tr).PORTO_ROOT_CGROUP) :
    TCgroup.FindChildren host f this cglist s tr = (s, tr, .ok (.ok ())) := by
  cases f with
  | mk nm err list =>
    unfold TCgroup.FindChildren
    have : FindChildren.ignored (host tr) (s.heap this).node = true := by
      rw [hnode]; simp [FindChildren.ignored, CgNode.IsRoot, hname]
    rw [if_pos this]

/-- Walk of a top-level child: what is listed is a beginning of the paths in
and beneath it when it has the porto root cgroup name, and nothing
otherwise. -/
theorem FindChildren_top (host : CgHost) (porto : String)
    (hporto : ∀ tr, (host tr).PORTO_ROOT_CGROUP = porto)
    (f : Folder) (this : CgroupPtr) (cglist : List CgroupPtr) (s : Cgroups) (tr : CgTrace)
    (name mp : String) (subs : List String) (hwf : s.WF) (hlt : this < s.brk)
    (hnode : (s.heap this).node = .child name (.root mp subs)) :
    (TCgroup.FindChildren host f this cglist s tr).1.WF ∧
    s.brk ≤ (TCgroup.FindChildren host f this cglist s tr).1.brk ∧
    (∀ x, x < s.brk →
      ((TCgroup.FindChildren host f this cglist s tr).1.heap x).node = (s.heap x).node) ∧
    (∃ X, listed (TCgroup.FindChildren host f this cglist s tr).2.1 = listed tr ++ X ∧
      X <+: (if name = porto then Folder.paths (mp ++ "/" ++ name) f else []) ∧
      ((TCgroup.FindChildren host f this cglist s tr).2.2 = .ok (.ok ()) →
        X = if name = porto then Folder.paths (mp ++ "/" ++ name) f else [])) ∧
    ((∀ tr, (host tr).need_cleanup = false) → (name != porto || f.Readable) = true →
      (TCgroup.FindChildren host f this cglist s tr).2.2 = .ok (.ok ())) := by
  by_cases hn : name = porto
  · have hnr : (s.heap this).node.IsRoot = false := by rw [hnode]; rfl
    have hni : FindChildren.ignored (host tr) (s.heap this).node = false := by
      rw [hnode]; simp [FindChildren.ignored, hporto, hn]
    have hpath : (s.heap this).node.Path = mp ++ "/" ++ name := by rw [hnode]; rfl
    obtain ⟨a1, a2, a3, X, a4, a5, a6⟩ := FindChildren_deep host f this cglist s tr hwf hlt hnr hni
    rw [hpath] at a5 a6
    refine ⟨a1, a2, a3, ⟨X, a4, by rw [if_pos hn]; exact a5, by rw [if_pos hn]; exact a6⟩, ?_⟩
    intro hnc hrd
    have hrd : f.Readable = true := by simpa [hn] using hrd
    exact FindChildren_deep_ok host hnc f this cglist s tr hwf hlt hnr hni hrd
  · have h := FindChildren_foreign host f this cglist s tr name mp subs hnode
      (by rw [hporto]; exact hn)
    rw [h]
    exact ⟨hwf, Nat.le_refl _, fun _ _ => rfl, ⟨[], by simp, by simp [hn], fun _ => by simp [hn]⟩,
      fun _ _ => rfl⟩

/-- Loop of the walk at a hierarchy root. -/
theorem FindChildren_loop_root (host : CgHost) (porto : String)
    (hporto : ∀ tr, (host tr).PORTO_ROOT_CGROUP = porto) (this : CgroupPtr)
    (cglist : List CgroupPtr) (mp : String) (subs : List String) :
    ∀ (list : List Folder) (s : Cgroups) (tr : CgTrace),
      s.WF → this < s.brk → (s.heap this).node = .root mp subs →
      (∃ X, listed (FindChildren.loop host list this cglist s tr).2.1 = listed tr ++ X ∧
        X <+: Folder.portoPaths porto mp list ∧
        ((FindChildren.loop host list this cglist s tr).2.2 = .ok (.ok ()) →
          X = Folder.portoPaths porto mp list)) ∧
      ((∀ tr, (host tr).need_cleanup = false) → Folder.portoReadable porto list = true →
        (FindChildren.loop host list this cglist s tr).2.2 = .ok (.ok ())) := by
  intro list
  induction list with
  | nil =>
    intro s tr _ _ _
    unfold FindChildren.loop
    exact ⟨⟨[], by simp, by simp [Folder.portoPaths], fun _ => by simp [Folder.portoPaths]⟩,
      fun _ _ => rfl⟩
  | cons f list ih =>
    intro s tr hwf hlt hroot
    obtain ⟨w1, w2, w3, w4, w5⟩ := GetChild_wf s this f.name hwf hlt
    unfold FindChildren.loop
    rcases hg : TCgroup.GetChild s this f.name with ⟨s1, cg⟩
    rw [hg] at w1 w2 w3 w4 w5
    simp only at w1 w2 w3 w4 w5 ⊢
    rw [hroot] at w4
    obtain ⟨a1, a2, a3, ⟨X1, a4, a5, a6⟩, a7⟩ :=
      FindChildren_top host porto hporto f cg cglist s1 tr f.name mp subs w1 w3 w4
    rcases hf : TCgroup.FindChildren host f cg cglist s1 tr with ⟨s2, tr2, _ | res⟩
    · rw [hf] at a1 a2 a3 a4 a7
      simp only at a1 a2 a3 a4 a7 ⊢
      refine ⟨⟨X1, a4, ?_, ?_⟩, ?_⟩
      · simp only [Folder.portoPaths]
        exact a5.trans (List.prefix_append _ _)
      · intro h; cases h
      · intro hnc hrd
        simp only [Folder.portoReadable, Bool.and_eq_true] at hrd
        have := a7 hnc hrd.1
        cases this
    · rw [hf] at a1 a2 a3 a4 a6 a7
      simp only at a1 a2 a3 a4 a6 a7 ⊢
      obtain ⟨r1, r2, r3, r4⟩ := Cgroups.release_spec host (s2.heap cg).node cg s2 tr2
      rcases hr : Cgroups.release host (s2.heap cg).node cg s2 tr2 with ⟨s3, tr3, _ | _⟩
      · rw [hr] at r1 r2 r3 r4
        simp only at r1 r2 r3 r4 ⊢
        refine ⟨⟨X1, by rw [r3, a4], ?_, ?_⟩, ?_⟩
        · simp only [Folder.portoPaths]
          exact a5.trans (List.prefix_append _ _)
        · intro h; cases h
        · intro hnc _
          have := r4 hnc
          cases this
      · rw [hr] at r1 r2 r3
        simp only at r1 r2 r3 ⊢
        have hwf3 : s3.WF := by
          intro p c hc; rw [r1] at hc ⊢; rw [r2]; exact a1 p c hc
        have hbrk3 : s.brk ≤ s3.brk := by rw [r2]; exact Nat.le_trans w2 a2
        have hthis3 : (s3.heap this).node = .root mp subs := by
          rw [r1, a3 this (Nat.lt_of_lt_of_le hlt w2), w5 this hlt, hroot]
        cases res with
        | error e =>
          simp only
          refine ⟨⟨X1, by rw [r3, a4], ?_, ?_⟩, ?_⟩
          · simp only [Folder.portoPaths]
            exact a5.trans (List.prefix_append _ _)
          · intro h; cases h
          · intro hnc hrd
            simp only [Folder.portoReadable, Bool.and_eq_true] at hrd
            have := a7 hnc hrd.1
            cases this
        | ok u =>
          simp only
          have hX1 := a6 rfl
          obtain ⟨⟨X2, b4, b5, b6⟩, b7⟩ := ih s3 tr3 hwf3 (Nat.lt_of_lt_of_le hlt hbrk3) hthis3
          refine ⟨⟨X1 ++ X2, ?_, ?_, ?_⟩, ?_⟩
          · rw [b4, r3, a4, List.append_assoc]
          · simp only [Folder.portoPaths]
            rw [hX1]
            exact (List.prefix_append_right_inj _).2 b5
          · intro h
            simp only [Folder.portoPaths]
            rw [hX1, b6 h]
          · intro hnc hrd
            simp only [Folder.portoReadable, Bool.and_eq_true] at hrd
            exact b7 hnc hrd.2

/-- C20: the discovery walk of a hierarchy. Called on a top-level child whose
name is not the porto root cgroup name, `FindChildren` lists nothing and
leaves the objects as they are. Started at the root, the directories it lists
are, in order, a beginning of: the mount point, then every directory in and
beneath the top-level directories that have the porto root cgroup name; they
are all listed when the walk returns success, which it does when no listing
among them fails and no destructor cleans up. -/
theorem C20_walk_skips_foreign (host : CgHost) (porto : String)
    (hporto : ∀ tr, (host tr).PORTO_ROOT_CGROUP = porto)
    (dir : Folder) (this : CgroupPtr) (cglist : List CgroupPtr) (s : Cgroups) (tr : CgTrace)
    (mp : String) (subs : List String)
    (hwf : s.WF) (hlt : this < s.brk) (hroot : (s.heap this).node = .root mp subs) :
    (∀ (f : Folder) (cg : CgroupPtr) (cglist' : List CgroupPtr) (s' : Cgroups)
        (tr' : CgTrace) (name : String),
      (s'.heap cg).node = .child name (.root mp subs) → name ≠ porto →
      TCgroup.FindChildren host f cg cglist' s' tr' = (s', tr', .ok (.ok ()))) ∧
    (∃ X, listed (TCgroup.FindChildren host dir this cglist s tr).2.1 = listed tr ++ X ∧
      X <+: mp :: Folder.portoPaths porto mp dir.subs ∧
      ((TCgroup.FindChildren host dir this cglist s tr).2.2 = .ok (.ok ()) →
        X = mp :: Folder.portoPaths porto mp dir.subs)) ∧
    ((∀ tr, (host tr).need_cleanup = false) → dir.error = none →
      Folder.portoReadable porto dir.subs = true →
      (TCgroup.FindChildren host dir this cglist s tr).2.2 = .ok (.ok ())) := by
  refine ⟨?_, ?_, ?_⟩
  · intro f cg cglist' s' tr' name hnode hname
    exact FindChildren_foreign host f cg cglist' s' tr' name mp subs hnode
      (by rw [hporto]; exact hname)
  · cases dir with
    | mk nm err list =>
      unfold TCgroup.FindChildren
      have hni : FindChildren.ignored (host tr) (s.heap this).node = false := by
        rw [hroot]; rfl
      rw [hni]
      simp only [Bool.false_eq_true, if_false, Folder.subs]
      have hpath : (s.heap this).node.Path = mp := by rw [hroot]; rfl
      rw [hpath]
      cases err with
      | some e =>
        refine ⟨[mp], ?_, ?_, ?_⟩
        · rw [listed_append]; rfl
        · simp
        · intro h; cases h
      | none =>
        simp only
        obtain ⟨⟨X, h4, h5, h6⟩, _⟩ := FindChildren_loop_root host porto hporto this cglist mp
          subs list s (tr ++ [.Subfolders mp]) hwf hlt hroot
        refine ⟨mp :: X, ?_, ?_, ?_⟩
        · rw [h4, listed_append]; simp [listed]
        · exact (List.prefix_cons_inj _).2 h5
        · intro h
          rw [h6 h]
  · intro hnc herr hrd
    cases dir with
    | mk nm err list =>
      simp only [Folder.error] at herr
      subst herr
      unfold TCgroup.FindChildren
      have hni : FindChildren.ignored (host tr) (s.heap this).node = false := by
        rw [hroot]; rfl
      rw [hni]
      simp only [Bool.false_eq_true, if_false]
      exact (FindChildren_loop_root host porto hporto this cglist mp subs list s _ hwf hlt
        hroot).2 hnc hrd

/-- Witness for C20: on the example hierarchy the walk from the root returns
success; it lists the mount point, the porto directory and what is beneath
it, and nothing of the other top-level directory. -/
theorem C20_walk_skips_foreign_witness :
    (TCgroup.FindChildren exCgHost exCgTree 0 [] exCgFresh []).2.2 = .ok (.ok ()) ∧
    listed (TCgroup.FindChildren exCgHost exCgTree 0 [] exCgFresh []).2.1 =
      ["/sys/fs/cgroup/freezer", "/sys/fs/cgroup/freezer/porto",
       "/sys/fs/cgroup/freezer/porto/c1", "/sys/fs/cgroup/freezer/porto/c1/hook",
       "/sys/fs/cgroup/freezer/porto/c2"] := by
  have h := C20_walk_skips_foreign exCgHost "porto" (fun _ => rfl) exCgTree 0 [] exCgFresh []
    "/sys/fs/cgroup/freezer" ["freezer"] (fun _ _ hc => nomatch hc) (by decide) rfl
  have hok := h.2.2 (fun _ => rfl) rfl rfl
  obtain ⟨X, h1, _, h3⟩ := h.2.1
  refine ⟨hok, ?_⟩
  rw [h1, h3 hok]
  decide

/-! ## Layer sanitization (`SanitizeLayer`) -/

/-- Cleanness of entries, entry by entry. -/
theorem FsNode.CleanList_iff : ∀ es : List (String × FsNode),
    FsNode.CleanList es = true ↔
      ∀ e ∈ es, compareEq e.1 4 ".wh." = false ∧ e.2.Clean = true
  | [] => by simp [FsNode.CleanList]
  | (name, node) :: rest => by
    simp only [FsNode.CleanList, Bool.and_eq_true, Bool.not_eq_true', List.mem_cons,
      forall_eq_or_imp, FsNode.CleanList_iff rest, and_assoc]

/-- Bound on the nesting of entries, entry by entry. -/
theorem FsNode.depthList_le_iff (n : Nat) : ∀ es : List (String × FsNode),
    FsNode.depthList es ≤ n ↔ ∀ e ∈ es, e.2.depth ≤ n
  | [] => by simp [FsNode.depthList]
  | (name, node) :: rest => by
    simp only [FsNode.depthList, Nat.max_le, List.mem_cons, forall_eq_or_imp,
      FsNode.depthList_le_iff n rest]

/-- Well-formedness of entries, entry by entry. -/
theorem FsNode.WellFormedList_iff : ∀ es : List (String × FsNode),
    FsNode.WellFormedList es ↔ ∀ e ∈ es, entryName e.1 = true ∧ e.2.WellFormed
  | [] => by simp [FsNode.WellFormedList]
  | (name, node) :: rest => by
    simp only [FsNode.WellFormedList, List.mem_cons, forall_eq_or_imp,
      FsNode.WellFormedList_iff rest, and_assoc]

/-- An entry that is found is in the directory, under the name. -/
theorem findEntry_some_mem : ∀ (es : List (String × FsNode)) (n : String) (node : FsNode),
    findEntry es n = some node → (n, node) ∈ es := by
  intro es
  induction es with
  | nil => intro n node h; simp [findEntry] at h
  | cons a rest ih =>
    intro n node h
    by_cases ha : a.1 = n
    · have : findEntry (a :: rest) n = some a.2 := by simp [findEntry, List.find?, ha]
      rw [this] at h
      cases h
      rw [← ha]
      exact List.mem_cons_self _ _
    · have : findEntry (a :: rest) n = findEntry rest n := by
        simp [findEntry, List.find?, ha]
      rw [this] at h
      exact List.mem_cons_of_mem _ (ih n node h)

/-- When no entry is found, no entry has the name. -/
theorem findEntry_none : ∀ (es : List (String × FsNode)) (n : String),
    findEntry es n = none → ∀ e ∈ es, e.1 ≠ n := by
  intro es
  induction es with
  | nil => intro n _ e he; cases he
  | cons a rest ih =>
    intro n h e he
    by_cases ha : a.1 = n
    · have : findEntry (a :: rest) n = some a.2 := by simp [findEntry, List.find?, ha]
      rw [this] at h
      cases h
    · have : findEntry (a :: rest) n = findEntry rest n := by
        simp [findEntry, List.find?, ha]
      rw [this] at h
      rcases List.mem_cons.1 he with rfl | he
      · exact ha
      · exact ih n h e he

/-- With distinct names, the entry found under a name is the entry there. -/
theorem findEntry_of_mem : ∀ (es : List (String × FsNode)) (n : String) (node : FsNode),
    (es.map fun e => e.1).Nodup → (n, node) ∈ es → findEntry es n = some node := by
  intro es
  induction es with
  | nil => intro n node _ h; cases h
  | cons a rest ih =>
    intro n node hnd h
    simp only [List.map_cons, List.nodup_cons] at hnd
    by_cases ha : a.1 = n
    · have hf : findEntry (a :: rest) n = some a.2 := by simp [findEntry, List.find?, ha]
      rw [hf]
      rcases List.mem_cons.1 h with h | h
      · rw [← h]
      · exfalso
        apply hnd.1
        rw [ha]
        exact List.mem_map.2 ⟨(n, node), h, rfl⟩
    · have hf : findEntry (a :: rest) n = findEntry rest n := by
        simp [findEntry, List.find?, ha]
      rw [hf]
      rcases List.mem_cons.1 h with h | h
      · exact absurd (by rw [← h]) ha
      · exact ih n node hnd.2 h

/-- Putting back the node that is there changes nothing. -/
theorem replaceEntry_self : ∀ (es : List (String × FsNode)) (n : String) (node : FsNode),
    findEntry es n = some node → replaceEntry es n node = es := by
  intro es
  induction es with
  | nil => intro n node _; rfl
  | cons a rest ih =>
    intro n node h
    by_cases ha : a.1 = n
    · have hf : findEntry (a :: rest) n = some a.2 := by simp [findEntry, List.find?, ha]
      rw [hf] at h
      cases h
      simp only [replaceEntry, if_pos ha]
      rw [← ha]
    · have hf : findEntry (a :: rest) n = findEntry rest n := by
        simp [findEntry, List.find?, ha]
      rw [hf] at h
      simp only [replaceEntry, if_neg ha, ih n node h]

/-- Replacing a node keeps the names. -/
theorem replaceEntry_names : ∀ (es : List (String × FsNode)) (n : String) (node : FsNode),
    (replaceEntry es n node).map (fun e => e.1) = es.map fun e => e.1 := by
  intro es
  induction es with
  | nil => intro n node; rfl
  | cons a rest ih =>
    intro n node
    by_cases ha : a.1 = n
    · rw [replaceEntry, if_pos ha]
      simp only [List.map_cons, ha]
    · rw [replaceEntry, if_neg ha]
      simp only [List.map_cons, ih n node]

/-- With distinct names, the entries after a replacement are the new one and
the old ones under other names. -/
theorem mem_replaceEntry : ∀ (es : List (String × FsNode)) (n : String) (node : FsNode),
    (es.map fun e => e.1).Nodup → ∀ e ∈ replaceEntry es n node,
      e = (n, node) ∨ (e ∈ es ∧ e.1 ≠ n) := by
  intro es
  induction es with
  | nil => intro n node _ e he; cases he
  | cons a rest ih =>
    intro n node hnd e he
    simp only [List.map_cons, List.nodup_cons] at hnd
    by_cases ha : a.1 = n
    · simp only [replaceEntry, if_pos ha] at he
      rcases List.mem_cons.1 he with he | he
      · exact Or.inl he
      · refine Or.inr ⟨List.mem_cons_of_mem _ he, ?_⟩
        intro hen
        apply hnd.1
        rw [ha, ← hen]
        exact List.mem_map.2 ⟨e, he, rfl⟩
    · simp only [replaceEntry, if_neg ha] at he
      rcases List.mem_cons.1 he with he | he
      · exact Or.inr ⟨by rw [he]; exact List.mem_cons_self _ _, by rw [he]; exact ha⟩
      · rcases ih n node hnd.2 e he with h | h
        · exact Or.inl h
        · exact Or.inr ⟨List.mem_cons_of_mem _ h.1, h.2⟩

/-- Entries left after a removal. -/
theorem mem_removeEntry (es : List (String × FsNode)) (n : String) (e : String × FsNode) :
    e ∈ removeEntry es n ↔ e ∈ es ∧ e.1 ≠ n := by
  simp [removeEntry, List.mem_filter]

/-- A removal keeps the names distinct. -/
theorem removeEntry_nodup (es : List (String × FsNode)) (n : String)
    (h : (es.map fun e => e.1).Nodup) : ((removeEntry es n).map fun e => e.1).Nodup := by
  unfold removeEntry
  exact List.Nodup.sublist (List.Sublist.map _ (List.filter_sublist _)) h

/-- The name behind a whiteout mark does not begin with the mark, unless the
whiteout is metadata. -/
theorem compareEq_target (entry : String) (h4 : compareEq entry 4 ".wh." = true)
    (h8 : compareEq entry 8 ".wh..wh." = false) :
    compareEq (substr entry 4 entry.length) 4 ".wh." = false := by
  have h4 : substr entry 0 4 = ".wh." := of_decide_eq_true h4
  have h8 : ¬ substr entry 0 8 = ".wh..wh." := of_decide_eq_false h8
  apply decide_eq_false
  intro h
  apply h8
  have e4 : entry.data.take 4 = ['.', 'w', 'h', '.'] := congrArg String.data h4
  have e5 : ((entry.data.drop 4).take entry.length).take 4 = ['.', 'w', 'h', '.'] :=
    congrArg String.data h
  have hlen : (entry.data.drop 4).take entry.length = entry.data.drop 4 := by
    apply List.take_of_length_le
    rw [List.length_drop]
    exact Nat.sub_le _ _
  rw [hlen] at e5
  have h48 : entry.data.take (4 + 4) = entry.data.take 4 ++ (entry.data.drop 4).take 4 :=
    List.take_add _ _ _
  rw [e4, e5] at h48
  show String.mk (entry.data.take 8) = _
  rw [show (8 : Nat) = 4 + 4 from rfl, h48]
  rfl

/-- The part of a round after a whiteout that is no metadata, when it
succeeds: an entry behind the whiteout is removed and, when not merging,
replaced by a device; when the name behind the whiteout names the directory
itself or the one that holds it, the directory is removed. -/
theorem SanitizeLayer.whiteout_rule (host : FsHost) (layer : String) (merge : Bool)
    (name : String) (opq : Bool) (entries : List (String × FsNode)) (tr : FsTrace)
    (dir1 : Dir) (up1 : Bool) (tr1 : FsTrace)
    (h : SanitizeLayer.whiteout host layer merge name opq entries tr =
      (dir1, up1, tr1, .ok ())) :
    (target name = .child name ∧ up1 = false ∧
      dir1 = some (opq, removeEntry entries name ++
        if merge then [] else [(name, FsNode.chardev)])) ∨
    (target name = .self ∧ up1 = false ∧ dir1 = none) ∨
    (target name = .parent ∧ up1 = true ∧ dir1 = none) := by
  unfold SanitizeLayer.whiteout at h
  by_cases hs : name = "" ∨ name = "."
  · have ht : target name = .self := by unfold target; rw [if_pos hs]
    refine Or.inr (Or.inl ⟨ht, ?_⟩)
    rw [ht] at h
    simp only at h
    rcases hr : (host tr).RemoveAll (pathJoin layer name) with _ | error
    · rw [hr] at h
      simp only at h
      cases merge with
      | true =>
        simp only [Bool.not_true, Bool.false_eq_true, if_false, Prod.mk.injEq] at h
        exact ⟨h.2.1.symm, h.1.symm⟩
      | false =>
        simp only [Bool.not_false, if_true] at h
        rcases hk : (host (tr ++ [.RemoveAll (pathJoin layer name)])).Mknod
            (pathJoin layer name) with _ | error
        · rw [hk] at h
          simp only [Prod.mk.injEq] at h
          exact ⟨h.2.1.symm, h.1.symm⟩
        · rw [hk] at h
          simp at h
    · rw [hr] at h
      simp at h
  · by_cases hp : name = ".."
    · have ht : target name = .parent := by unfold target; rw [if_neg hs, if_pos hp]
      refine Or.inr (Or.inr ⟨ht, ?_⟩)
      rw [ht] at h
      simp only at h
      rcases hr : (host tr).RemoveAll (pathJoin layer name) with _ | error
      · rw [hr] at h
        simp only at h
        cases merge with
        | true =>
          simp only [Bool.not_true, Bool.false_eq_true, if_false, Prod.mk.injEq] at h
          exact ⟨h.2.1.symm, h.1.symm⟩
        | false =>
          simp only [Bool.not_false, if_true] at h
          rcases hk : (host (tr ++ [.RemoveAll (pathJoin layer name)])).Mknod
              (pathJoin layer name) with _ | error
          · rw [hk] at h
            simp only [Prod.mk.injEq] at h
            exact ⟨h.2.1.symm, h.1.symm⟩
          · rw [hk] at h
            simp at h
      · rw [hr] at h
        simp at h
    · have ht : target name = .child name := by unfold target; rw [if_neg hs, if_neg hp]
      refine Or.inl ⟨ht, ?_⟩
      rw [ht] at h
      simp only at h
      by_cases hex : (findEntry entries name).isSome = true
      · rw [if_pos hex] at h
        rcases hr : (host tr).RemoveAll (pathJoin layer name) with _ | error
        · rw [hr] at h
          simp only at h
          cases merge with
          | true =>
            simp only [Bool.not_true, Bool.false_eq_true, if_false, Prod.mk.injEq] at h
            exact ⟨h.2.1.symm, by rw [← h.1]; simp⟩
          | false =>
            simp only [Bool.not_false, if_true] at h
            rcases hk : (host (tr ++ [.RemoveAll (pathJoin layer name)])).Mknod
                (pathJoin layer name) with _ | error
            · rw [hk] at h
              simp only [Prod.mk.injEq] at h
              exact ⟨h.2.1.symm, by rw [← h.1]; simp⟩
            · rw [hk] at h
              simp at h
        · rw [hr] at h
          simp at h
      · rw [if_neg hex] at h
        simp only at h
        have hno : removeEntry entries name = entries := by
          have hn : findEntry entries name = none := by simpa using hex
          unfold removeEntry
          rw [List.filter_eq_self]
          intro e he
          have := findEntry_none _ _ hn e he
          simpa using this
        cases merge with
        | true =>
          simp only [Bool.not_true, Bool.false_eq_true, if_false, Prod.mk.injEq] at h
          exact ⟨h.2.1.symm, by rw [← h.1, hno]; simp⟩
        | false =>
          simp only [Bool.not_false, if_true] at h
          rcases hk : (host tr).Mknod (pathJoin layer name) with _ | error
          · rw [hk] at h
            simp only [Prod.mk.injEq] at h
            exact ⟨h.2.1.symm, by rw [← h.1, hno]; simp⟩
          · rw [hk] at h
            simp at h

/-- One successful round of the loop of `SanitizeLayer` in a directory that
is there, rule by rule: metadata is removed and `.wh..wh..opq` marks the
directory; another whiteout is removed with what is behind it; a directory
without the mark is handed to the recursive call, and any other entry is
passed over. -/
theorem SanitizeLayer.step_rule (sub : String → FsNode → FsTrace → Sanitized)
    (host : FsHost) (layer : String) (merge : Bool) (entry : String) (opq : Bool)
    (entries : List (String × FsNode)) (tr : FsTrace)
    (dir1 : Dir) (up1 : Bool) (tr1 : FsTrace)
    (h : SanitizeLayer.step sub host layer merge entry opq entries tr =
      some (dir1, up1, tr1, .ok ())) :
    (compareEq entry 4 ".wh." = true ∧ compareEq entry 8 ".wh..wh." = true ∧ up1 = false ∧
      dir1 = some (opq || decide (entry = ".wh..wh..opq"), removeEntry entries entry)) ∨
    (compareEq entry 4 ".wh." = true ∧ compareEq entry 8 ".wh..wh." = false ∧
      ((target (substr entry 4 entry.length) = .child (substr entry 4 entry.length) ∧
          up1 = false ∧
          dir1 = some (opq,
            removeEntry (removeEntry entries entry) (substr entry 4 entry.length) ++
              if merge then [] else [(substr entry 4 entry.length, FsNode.chardev)])) ∨
        (target (substr entry 4 entry.length) = .self ∧ up1 = false ∧ dir1 = none) ∨
        (target (substr entry 4 entry.length) = .parent ∧ up1 = true ∧ dir1 = none))) ∨
    (compareEq entry 4 ".wh." = false ∧ up1 = false ∧
      ((∃ o es slot up, findEntry entries entry = some (.dir o es) ∧
          sub (pathJoin layer entry) (.dir o es) tr = some (slot, up, tr1, .ok ()) ∧
          dir1 = if up then none
            else some (opq, match slot with
              | some node => replaceEntry entries entry node
              | none => removeEntry entries entry)) ∨
        ((∀ o es, findEntry entries entry ≠ some (.dir o es)) ∧ dir1 = some (opq, entries)))) := by
  unfold SanitizeLayer.step at h
  by_cases hw : compareEq entry 4 ".wh." = true
  · rw [if_pos hw] at h
    rcases hr : (host tr).RemoveAll (pathJoin layer entry) with _ | error
    · rw [hr] at h
      simp only at h
      by_cases hopq : entry = ".wh..wh..opq"
      · rw [if_pos hopq] at h
        rcases hx : (host (tr ++ [.RemoveAll (pathJoin layer entry)])).SetXAttr layer
            "trusted.overlay.opaque" "y" with _ | error
        · rw [hx] at h
          simp only [Option.some.injEq, Prod.mk.injEq] at h
          refine Or.inl ⟨hw, ?_, h.2.1.symm, ?_⟩
          · subst hopq; rfl
          · rw [← h.1]; simp [hopq]
        · rw [hx] at h
          simp at h
      · rw [if_neg hopq] at h
        by_cases hm : compareEq entry 8 ".wh..wh." = true
        · rw [if_pos hm] at h
          simp only [Option.some.injEq, Prod.mk.injEq] at h
          refine Or.inl ⟨hw, hm, h.2.1.symm, ?_⟩
          rw [← h.1]; simp [hopq]
        · rw [if_neg hm] at h
          have hmf : compareEq entry 8 ".wh..wh." = false := by simpa using hm
          simp only [Option.some.injEq] at h
          exact Or.inr (Or.inl ⟨hw, hmf,
            SanitizeLayer.whiteout_rule host layer merge _ opq _ _ dir1 up1 tr1 h⟩)
    · rw [hr] at h
      simp at h
  · rw [if_neg hw] at h
    have hwf : compareEq entry 4 ".wh." = false := by simpa using hw
    rcases hf : findEntry entries entry with _ | node
    · rw [hf] at h
      simp only [Option.some.injEq, Prod.mk.injEq] at h
      exact Or.inr (Or.inr ⟨hwf, h.2.1.symm, Or.inr ⟨(fun o es hc => nomatch hc), h.1.symm⟩⟩)
    · cases node with
      | file =>
        rw [hf] at h
        simp only [Option.some.injEq, Prod.mk.injEq] at h
        exact Or.inr (Or.inr ⟨hwf, h.2.1.symm, Or.inr ⟨(fun o es hc => nomatch hc), h.1.symm⟩⟩)
      | chardev =>
        rw [hf] at h
        simp only [Option.some.injEq, Prod.mk.injEq] at h
        exact Or.inr (Or.inr ⟨hwf, h.2.1.symm, Or.inr ⟨(fun o es hc => nomatch hc), h.1.symm⟩⟩)
      | dir o es =>
        rw [hf] at h
        simp only at h
        rcases hs : sub (pathJoin layer entry) (.dir o es) tr with _ | ⟨slot, up, tr2, r⟩
        · rw [hs] at h
          simp at h
        · rw [hs] at h
          cases up with
          | true =>
            simp only [Option.some.injEq, Prod.mk.injEq] at h
            obtain ⟨h1, h2, h3, h4⟩ := h
            subst h3 h4
            exact Or.inr (Or.inr ⟨hwf, h2.symm, Or.inl ⟨o, es, slot, true, rfl, hs, by
              rw [← h1]; rfl⟩⟩)
          | false =>
            cases slot with
            | none =>
              simp only [Option.some.injEq, Prod.mk.injEq] at h
              obtain ⟨h1, h2, h3, h4⟩ := h
              subst h3 h4
              exact Or.inr (Or.inr ⟨hwf, h2.symm, Or.inl ⟨o, es, none, false, rfl, hs, by
                rw [← h1]; rfl⟩⟩)
            | some node =>
              simp only [Option.some.injEq, Prod.mk.injEq] at h
              obtain ⟨h1, h2, h3, h4⟩ := h
              subst h3 h4
              exact Or.inr (Or.inr ⟨hwf, h2.symm, Or.inl ⟨o, es, some node, false, rfl, hs, by
                rw [← h1]; rfl⟩⟩)

/-- One round on a name without the whiteout mark, in a directory whose
entries are clean: nothing changes, when the recursive call changes nothing. -/
theorem SanitizeLayer.step_clean (sub : String → FsNode → FsTrace → Sanitized)
    (host : FsHost) (layer : String) (merge : Bool) (entry : String) (opq : Bool)
    (entries : List (String × FsNode)) (tr : FsTrace) (fuel : Nat) (R : Prop)
    (hsub : ∀ layer o es tr, (FsNode.dir o es).Clean = true → (FsNode.dir o es).depth ≤ fuel →
      ∃ r, sub layer (.dir o es) tr = some (some (.dir o es), false, tr, r) ∧ (R → r = .ok ()))
    (hname : compareEq entry 4 ".wh." = false)
    (hes : ∀ e ∈ entries, e.2.Clean = true ∧ e.2.depth ≤ fuel) :
    ∃ r, SanitizeLayer.step sub host layer merge entry opq entries tr =
        some (some (opq, entries), false, tr, r) ∧ (R → r = .ok ()) := by
  unfold SanitizeLayer.step
  rw [hname]
  simp only [Bool.false_eq_true, if_false]
  rcases hf : findEntry entries entry with _ | node
  · exact ⟨.ok (), rfl, fun _ => rfl⟩
  · cases node with
    | file => exact ⟨.ok (), rfl, fun _ => rfl⟩
    | chardev => exact ⟨.ok (), rfl, fun _ => rfl⟩
    | dir o es =>
      have hmem := findEntry_some_mem entries entry _ hf
      obtain ⟨r, hr, hR⟩ := hsub (pathJoin layer entry) o es tr (hes _ hmem).1 (hes _ hmem).2
      simp only [hr, replaceEntry_self entries entry _ hf]
      exact ⟨r, rfl, hR⟩

/-- The loop over names without the whiteout mark, in a directory whose
entries are clean, changes nothing. -/
theorem SanitizeLayer.loop_clean (sub : String → FsNode → FsTrace → Sanitized)
    (host : FsHost) (layer : String) (merge : Bool) (opq : Bool)
    (entries : List (String × FsNode)) (tr : FsTrace) (fuel : Nat) (R : Prop)
    (hsub : ∀ layer o es tr, (FsNode.dir o es).Clean = true → (FsNode.dir o es).depth ≤ fuel →
      ∃ r, sub layer (.dir o es) tr = some (some (.dir o es), false, tr, r) ∧ (R → r = .ok ()))
    (hes : ∀ e ∈ entries, e.2.Clean = true ∧ e.2.depth ≤ fuel) :
    ∀ content : List String, (∀ n ∈ content, compareEq n 4 ".wh." = false) →
      ∃ r, SanitizeLayer.loop sub host layer merge content (some (opq, entries)) false tr =
        some (some (.dir opq entries), false, tr, r) ∧ (R → r = .ok ()) := by
  intro content
  induction content with
  | nil => intro _; exact ⟨.ok (), rfl, fun _ => rfl⟩
  | cons entry rest ih =>
    intro hc
    obtain ⟨r, hr, hR⟩ := SanitizeLayer.step_clean sub host layer merge entry opq entries tr
      fuel R hsub (hc entry (List.mem_cons_self _ _)) hes
    unfold SanitizeLayer.loop
    rw [hr]
    cases r with
    | error e => exact ⟨.error e, rfl, hR⟩
    | ok u => exact ih fun n hn => hc n (List.mem_cons_of_mem _ hn)

/-- On a clean directory with enough fuel, `SanitizeLayer` returns, changes
nothing and makes no call that changes the tree; it fails only when a
directory cannot be read. -/
theorem SanitizeLayer_clean (host : FsHost) (merge : Bool) :
    ∀ (fuel : Nat) (layer : String) (o : Bool) (es : List (String × FsNode)) (tr : FsTrace),
      (FsNode.dir o es).Clean = true → (FsNode.dir o es).depth ≤ fuel →
      ∃ r, SanitizeLayer host merge fuel layer (.dir o es) tr =
          some (some (.dir o es), false, tr, r) ∧
        ((∀ tr p, (host tr).ReadDirectory p = none) → r = .ok ()) := by
  intro fuel
  induction fuel with
  | zero =>
    intro layer o es tr _ hd
    simp [FsNode.depth] at hd
  | succ n ih =>
    intro layer o es tr hc hd
    unfold SanitizeLayer
    simp only
    rcases hrd : (host tr).ReadDirectory layer with _ | error
    · simp only
      simp only [FsNode.Clean] at hc
      simp only [FsNode.depth, Nat.add_le_add_iff_right] at hd
      have hc' := (FsNode.CleanList_iff es).1 hc
      have hd' := (FsNode.depthList_le_iff n es).1 hd
      exact SanitizeLayer.loop_clean (SanitizeLayer host merge n) host layer merge o es tr n _
        (fun layer o es tr h1 h2 => ih layer o es tr h1 h2)
        (fun e he => ⟨(hc' e he).2, hd' e he⟩) _
        (fun name hn => by
          obtain ⟨e, he, rfl⟩ := List.mem_map.1 hn
          exact (hc' e he).1)
    · exact ⟨.error error, rfl, fun h => by rw [h] at hrd; cases hrd⟩

/-- The invariant passes to the next round when the entries left are old ones
under other names, or clean ones. -/
theorem SanitizeLayer.Inv_next (U : FsNode → Prop) (fuel : Nat) (entry : String)
    (content : List String) (entries entries1 : List (String × FsNode))
    (hinv : SanitizeLayer.Inv U fuel (entry :: content) entries)
    (hnd : (entries1.map fun e => e.1).Nodup)
    (h : ∀ e ∈ entries1, (e ∈ entries ∧ e.1 ≠ entry) ∨
      (compareEq e.1 4 ".wh." = false ∧ e.2.Clean = true ∧ e.2.depth ≤ fuel)) :
    SanitizeLayer.Inv U fuel content entries1 := by
  refine ⟨hnd, ?_⟩
  intro e he
  rcases h e he with ⟨h1, h2⟩ | h
  · rcases hinv.2 e h1 with ⟨h3, h4⟩ | h3
    · rcases List.mem_cons.1 h3 with h3 | h3
      · exact absurd h3 h2
      · exact Or.inl ⟨h3, h4⟩
    · exact Or.inr h3
  · exact Or.inr h

/-- A round that succeeds and leaves the directory there keeps the invariant
of the loop. -/
theorem SanitizeLayer.step_keeps (U : FsNode → Prop)
    (sub : String → FsNode → FsTrace → Sanitized) (host : FsHost) (layer : String)
    (merge : Bool) (entry : String) (opq : Bool) (entries : List (String × FsNode))
    (tr : FsTrace) (fuel : Nat) (content : List String)
    (hU : ∀ layer o es tr node up tr1, U (.dir o es) →
      sub layer (.dir o es) tr = some (some node, up, tr1, .ok ()) →
      node.Clean = true ∧ node.depth ≤ fuel)
    (hclean : ∀ layer o es tr, (FsNode.dir o es).Clean = true →
      (FsNode.dir o es).depth ≤ fuel →
      ∃ r, sub layer (.dir o es) tr = some (some (.dir o es), false, tr, r))
    (hinv : SanitizeLayer.Inv U fuel (entry :: content) entries)
    (opq1 : Bool) (entries1 : List (String × FsNode)) (up1 : Bool) (tr1 : FsTrace)
    (h : SanitizeLayer.step sub host layer merge entry opq entries tr =
      some (some (opq1, entries1), up1, tr1, .ok ())) :
    SanitizeLayer.Inv U fuel content entries1 := by
  have hrem : ∀ e ∈ removeEntry entries entry, e ∈ entries ∧ e.1 ≠ entry :=
    fun e he => (mem_removeEntry entries entry e).1 he
  rcases SanitizeLayer.step_rule sub host layer merge entry opq entries tr _ up1 tr1 h with
    ⟨_, _, _, hd⟩ | ⟨hw, hm, hcase⟩ | ⟨hw, _, hcase⟩
  · -- metadata
    simp only [Option.some.injEq, Prod.mk.injEq] at hd
    rw [hd.2]
    exact SanitizeLayer.Inv_next U fuel entry content entries _ hinv
      (removeEntry_nodup entries entry hinv.1) (fun e he => Or.inl (hrem e he))
  · -- whiteout of a name
    rcases hcase with ⟨_, _, hd⟩ | ⟨_, _, hd⟩ | ⟨_, _, hd⟩
    · simp only [Option.some.injEq, Prod.mk.injEq] at hd
      rw [hd.2]
      have htarget := compareEq_target entry hw hm
      have hnd2 := removeEntry_nodup _ (substr entry 4 entry.length)
        (removeEntry_nodup entries entry hinv.1)
      have hsub2 : ∀ e ∈ removeEntry (removeEntry entries entry) (substr entry 4 entry.length),
          e ∈ entries ∧ e.1 ≠ entry :=
        fun e he => hrem e ((mem_removeEntry _ _ e).1 he).1
      cases merge with
      | true =>
        simp only [if_true, List.append_nil]
        exact SanitizeLayer.Inv_next U fuel entry content entries _ hinv hnd2
          (fun e he => Or.inl (hsub2 e he))
      | false =>
        simp only [Bool.false_eq_true, if_false]
        refine SanitizeLayer.Inv_next U fuel entry content entries _ hinv ?_ ?_
        · rw [List.map_append]
          refine List.nodup_append.2 ⟨hnd2, by simp, ?_⟩
          intro a ha hb
          simp only [List.map_cons, List.map_nil, List.mem_singleton] at hb
          obtain ⟨e, he, rfl⟩ := List.mem_map.1 ha
          exact ((mem_removeEntry _ _ e).1 he).2 hb
        · intro e he
          rcases List.mem_append.1 he with he | he
          · exact Or.inl (hsub2 e he)
          · rw [List.mem_singleton] at he
            subst he
            exact Or.inr ⟨htarget, rfl, Nat.zero_le _⟩
    · cases hd
    · cases hd
  · -- no whiteout
    rcases hcase with ⟨o, es, slot, up, hf, hs, hd⟩ | ⟨hnodir, hd⟩
    · have hmem := findEntry_some_mem entries entry _ hf
      cases up with
      | true => simp at hd
      | false =>
        simp only [Bool.false_eq_true, if_false, Option.some.injEq, Prod.mk.injEq] at hd
        rw [hd.2]
        cases slot with
        | none =>
          simp only
          exact SanitizeLayer.Inv_next U fuel entry content entries _ hinv
            (removeEntry_nodup entries entry hinv.1) (fun e he => Or.inl (hrem e he))
        | some node =>
          simp only
          have hnode : node.Clean = true ∧ node.depth ≤ fuel := by
            rcases hinv.2 _ hmem with ⟨_, hu⟩ | ⟨_, hc, hd⟩
            · exact hU _ o es tr node false tr1 hu hs
            · obtain ⟨r, hr⟩ := hclean (pathJoin layer entry) o es tr hc hd
              rw [hr] at hs
              simp only [Option.some.injEq, Prod.mk.injEq] at hs
              rw [← hs.1]
              exact ⟨hc, hd⟩
          refine SanitizeLayer.Inv_next U fuel entry content entries _ hinv ?_ ?_
          · rw [replaceEntry_names]; exact hinv.1
          · intro e he
            rcases mem_replaceEntry entries entry node hinv.1 e he with h1 | h1
            · rw [h1]
              exact Or.inr ⟨hw, hnode.1, hnode.2⟩
            · exact Or.inl h1
    · simp only [Option.some.injEq, Prod.mk.injEq] at hd
      rw [hd.2]
      refine SanitizeLayer.Inv_next U fuel entry content entries entries hinv hinv.1 ?_
      intro e he
      by_cases hen : e.1 = entry
      · right
        have hfe : findEntry entries entry = some e.2 :=
          findEntry_of_mem entries entry e.2 hinv.1 (by rw [← hen]; exact he)
        rw [hen]
        refine ⟨hw, ?_, ?_⟩
        · cases h2 : e.2 with
          | dir o es => rw [h2] at hfe; exact absurd hfe (hnodir o es)
          | file => rfl
          | chardev => rfl
        · cases h2 : e.2 with
          | dir o es => rw [h2] at hfe; exact absurd hfe (hnodir o es)
          | file => exact Nat.zero_le _
          | chardev => exact Nat.zero_le _
      · exact Or.inl ⟨he, hen⟩

/-- Once the directory has been removed the loop returns and nothing is at
the path at the end. -/
theorem SanitizeLayer.loop_gone (sub : String → FsNode → FsTrace → Sanitized)
    (host : FsHost) (layer : String) (merge : Bool) :
    ∀ (content : List String) (up : Bool) (tr : FsTrace),
      ∃ tr1 r, SanitizeLayer.loop sub host layer merge content none up tr =
        some (none, up, tr1, r) := by
  intro content
  induction content with
  | nil => intro up tr; exact ⟨tr, .ok (), rfl⟩
  | cons entry rest ih =>
    intro up tr
    unfold SanitizeLayer.loop
    rcases SanitizeLayer.absent host layer merge entry tr with ⟨tr1, r⟩
    cases r with
    | error e => exact ⟨tr1, .error e, rfl⟩
    | ok u => exact ih up tr1

/-- A loop that succeeds and leaves the directory there ends on entries that
satisfy the invariant with no name to come. -/
theorem SanitizeLayer.loop_inv (U : FsNode → Prop)
    (sub : String → FsNode → FsTrace → Sanitized) (host : FsHost) (layer : String)
    (merge : Bool) (fuel : Nat)
    (hU : ∀ layer o es tr node up tr1, U (.dir o es) →
      sub layer (.dir o es) tr = some (some node, up, tr1, .ok ()) →
      node.Clean = true ∧ node.depth ≤ fuel)
    (hclean : ∀ layer o es tr, (FsNode.dir o es).Clean = true →
      (FsNode.dir o es).depth ≤ fuel →
      ∃ r, sub layer (.dir o es) tr = some (some (.dir o es), false, tr, r)) :
    ∀ (content : List String) (opq : Bool) (entries : List (String × FsNode)) (up : Bool)
      (tr : FsTrace) (node : FsNode) (up1 : Bool) (tr1 : FsTrace),
      SanitizeLayer.Inv U fuel content entries →
      SanitizeLayer.loop sub host layer merge content (some (opq, entries)) up tr =
        some (some node, up1, tr1, .ok ()) →
      ∃ o es, node = .dir o es ∧ SanitizeLayer.Inv U fuel [] es := by
  intro content
  induction content with
  | nil =>
    intro opq entries up tr node up1 tr1 hinv h
    simp only [SanitizeLayer.loop, Dir.node, Option.map_some', Option.some.injEq,
      Prod.mk.injEq] at h
    exact ⟨opq, entries, h.1.symm, hinv⟩
  | cons entry rest ih =>
    intro opq entries up tr node up1 tr1 hinv h
    unfold SanitizeLayer.loop at h
    rcases hs : SanitizeLayer.step sub host layer merge entry opq entries tr
      with _ | ⟨dir1, up2, tr2, r⟩
    · rw [hs] at h; simp at h
    · rw [hs] at h
      cases r with
      | error e => simp at h
      | ok u =>
        simp only at h
        cases dir1 with
        | none =>
          obtain ⟨tr3, r3, h3⟩ := SanitizeLayer.loop_gone sub host layer merge rest (up || up2) tr2
          rw [h3] at h
          simp at h
        | some d =>
          obtain ⟨opq1, entries1⟩ := d
          exact ih opq1 entries1 _ tr2 node up1 tr1
            (SanitizeLayer.step_keeps U sub host layer merge entry opq entries tr fuel rest hU
              hclean hinv opq1 entries1 up2 tr2 hs) h

/-- A successful `SanitizeLayer` on a well-formed tree leaves a clean
directory, nested no deeper than the fuel, if it leaves the directory. -/
theorem SanitizeLayer_result (host : FsHost) (merge : Bool) :
    ∀ (fuel : Nat) (layer : String) (t : FsNode) (tr : FsTrace) (node : FsNode) (up1 : Bool)
      (tr1 : FsTrace), t.WellFormed →
      SanitizeLayer host merge fuel layer t tr = some (some node, up1, tr1, .ok ()) →
      node.Clean = true ∧ node.depth ≤ fuel ∧ ∃ o es, node = .dir o es := by
  intro fuel
  induction fuel with
  | zero => intro layer t tr node up1 tr1 _ h; simp [SanitizeLayer] at h
  | succ n ih =>
    intro layer t tr node up1 tr1 hwf h
    unfold SanitizeLayer at h
    cases t with
    | file => simp at h
    | chardev => simp at h
    | dir o es =>
      simp only at h
      rcases hrd : (host tr).ReadDirectory layer with _ | error
      · rw [hrd] at h
        simp only at h
        simp only [FsNode.WellFormed] at hwf
        have hwl := (FsNode.WellFormedList_iff es).1 hwf.2
        have hinv : SanitizeLayer.Inv FsNode.WellFormed n (es.map fun e => e.1) es :=
          ⟨hwf.1, fun e he => Or.inl ⟨List.mem_map.2 ⟨e, he, rfl⟩, (hwl e he).2⟩⟩
        obtain ⟨o', es', hn, hfin⟩ := SanitizeLayer.loop_inv FsNode.WellFormed
          (SanitizeLayer host merge n) host layer merge n
          (fun layer o es tr node up tr1 hu hs =>
            ⟨(ih layer _ tr node up tr1 hu hs).1, (ih layer _ tr node up tr1 hu hs).2.1⟩)
          (fun layer o es tr hc hd => by
            obtain ⟨r, hr, _⟩ := SanitizeLayer_clean host merge n layer o es tr hc hd
            exact ⟨r, hr⟩)
          _ o es false tr node up1 tr1 hinv h
        subst hn
        have hall : ∀ e ∈ es', compareEq e.1 4 ".wh." = false ∧ e.2.Clean = true ∧
            e.2.depth ≤ n := by
          intro e he
          rcases hfin.2 e he with ⟨h1, _⟩ | h1
          · cases h1
          · exact h1
        refine ⟨?_, ?_, o', es', rfl⟩
        · simp only [FsNode.Clean]
          exact (FsNode.CleanList_iff es').2 fun e he => ⟨(hall e he).1, (hall e he).2.1⟩
        · simp only [FsNode.depth, Nat.add_le_add_iff_right]
          exact (FsNode.depthList_le_iff n es').2 fun e he => (hall e he).2.2
      · rw [hrd] at h
        simp at h

/-- A round returns when the recursive call returns on the directories that
wait for their round and on the clean ones. -/
theorem SanitizeLayer.step_some (U : FsNode → Prop)
    (sub : String → FsNode → FsTrace → Sanitized) (host : FsHost) (layer : String)
    (merge : Bool) (entry : String) (opq : Bool) (entries : List (String × FsNode))
    (tr : FsTrace) (fuel : Nat) (content : List String)
    (hsome : ∀ layer o es tr, U (.dir o es) → (sub layer (.dir o es) tr).isSome = true)
    (hclean : ∀ layer o es tr, (FsNode.dir o es).Clean = true →
      (FsNode.dir o es).depth ≤ fuel →
      ∃ r, sub layer (.dir o es) tr = some (some (.dir o es), false, tr, r))
    (hinv : SanitizeLayer.Inv U fuel (entry :: content) entries) :
    (SanitizeLayer.step sub host layer merge entry opq entries tr).isSome = true := by
  unfold SanitizeLayer.step
  by_cases hw : compareEq entry 4 ".wh." = true
  · rw [if_pos hw]
    rcases (host tr).RemoveAll (pathJoin layer entry) with _ | error
    · simp only
      split
      · split <;> rfl
      · split <;> rfl
    · rfl
  · rw [if_neg hw]
    rcases hf : findEntry entries entry with _ | node
    · rfl
    · cases node with
      | file => rfl
      | chardev => rfl
      | dir o es =>
        simp only
        have hmem := findEntry_some_mem entries entry _ hf
        have : (sub (pathJoin layer entry) (.dir o es) tr).isSome = true := by
          rcases hinv.2 _ hmem with ⟨_, hu⟩ | ⟨_, hc, hd⟩
          · exact hsome _ o es tr hu
          · obtain ⟨r, hr⟩ := hclean (pathJoin layer entry) o es tr hc hd
            rw [hr]; rfl
        rcases hs : sub (pathJoin layer entry) (.dir o es) tr with _ | ⟨slot, up, tr2, r⟩
        · rw [hs] at this; cases this
        · cases up with
          | true => cases slot <;> rfl
          | false => cases slot <;> rfl

/-- The loop returns when the recursive call returns on the directories that
wait for their round and on the clean ones. -/
theorem SanitizeLayer.loop_some (U : FsNode → Prop)
    (sub : String → FsNode → FsTrace → Sanitized) (host : FsHost) (layer : String)
    (merge : Bool) (fuel : Nat)
    (hsome : ∀ layer o es tr, U (.dir o es) → (sub layer (.dir o es) tr).isSome = true)
    (hU : ∀ layer o es tr node up tr1, U (.dir o es) →
      sub layer (.dir o es) tr = some (some node, up, tr1, .ok ()) →
      node.Clean = true ∧ node.depth ≤ fuel)
    (hclean : ∀ layer o es tr, (FsNode.dir o es).Clean = true →
      (FsNode.dir o es).depth ≤ fuel →
      ∃ r, sub layer (.dir o es) tr = some (some (.dir o es), false, tr, r)) :
    ∀ (content : List String) (opq : Bool) (entries : List (String × FsNode)) (up : Bool)
      (tr : FsTrace), SanitizeLayer.Inv U fuel content entries →
      (SanitizeLayer.loop sub host layer merge content (some (opq, entries)) up tr).isSome =
        true := by
  intro content
  induction content with
  | nil => intro opq entries up tr _; rfl
  | cons entry rest ih =>
    intro opq entries up tr hinv
    have h1 := SanitizeLayer.step_some U sub host layer merge entry opq entries tr fuel rest
      hsome hclean hinv
    unfold SanitizeLayer.loop
    rcases hs : SanitizeLayer.step sub host layer merge entry opq entries tr
      with _ | ⟨dir1, up2, tr2, r⟩
    · rw [hs] at h1; cases h1
    · cases r with
      | error e => rfl
      | ok u =>
        simp only
        cases dir1 with
        | none =>
          obtain ⟨tr3, r3, h3⟩ := SanitizeLayer.loop_gone sub host layer merge rest (up || up2) tr2
          rw [h3]; rfl
        | some d =>
          obtain ⟨opq1, entries1⟩ := d
          exact ih opq1 entries1 _ tr2
            (SanitizeLayer.step_keeps U sub host layer merge entry opq entries tr fuel rest hU
              hclean hinv opq1 entries1 up2 tr2 hs)

/-- With fuel for the nesting of a well-formed tree, `SanitizeLayer` returns. -/
theorem SanitizeLayer_some (host : FsHost) (merge : Bool) :
    ∀ (fuel : Nat) (layer : String) (t : FsNode) (tr : FsTrace), t.WellFormed →
      0 < fuel → t.depth ≤ fuel →
      (SanitizeLayer host merge fuel layer t tr).isSome = true := by
  intro fuel
  induction fuel with
  | zero => intro layer t tr _ h0 _; cases h0
  | succ n ih =>
    intro layer t tr hwf _ hd
    unfold SanitizeLayer
    cases t with
    | file => rfl
    | chardev => rfl
    | dir o es =>
      simp only
      rcases (host tr).ReadDirectory layer with _ | error
      · simp only
        simp only [FsNode.WellFormed] at hwf
        simp only [FsNode.depth, Nat.add_le_add_iff_right] at hd
        have hwl := (FsNode.WellFormedList_iff es).1 hwf.2
        have hdl := (FsNode.depthList_le_iff n es).1 hd
        refine SanitizeLayer.loop_some (fun node => node.WellFormed ∧ node.depth ≤ n)
          (SanitizeLayer host merge n) host layer merge n ?_ ?_ ?_ _ o es false tr
          ⟨hwf.1, fun e he => Or.inl ⟨List.mem_map.2 ⟨e, he, rfl⟩, (hwl e he).2, hdl e he⟩⟩
        · intro layer o es tr hu
          have hpos : 0 < n := by
            have := hu.2
            simp only [FsNode.depth] at this
            omega
          exact ih layer _ tr hu.1 hpos hu.2
        · intro layer o es tr node up tr1 hu hs
          exact ⟨(SanitizeLayer_result host merge n layer _ tr node up tr1 hu.1 hs).1,
            (SanitizeLayer_result host merge n layer _ tr node up tr1 hu.1 hs).2.1⟩
        · intro layer o es tr hc hd
          obtain ⟨r, hr, _⟩ := SanitizeLayer_clean host merge n layer o es tr hc hd
          exact ⟨r, hr⟩
      · rfl

/-- C17: `SanitizeLayer` on a directory tree as a file system holds it, in
either merge mode. With fuel for the nesting it returns. When it returns
success, no name that begins with the whiteout mark is left in any directory
of what is left of the tree, and a second `SanitizeLayer` at the path, in
either mode and whatever the host answers, returns, leaves what is there as it
is and makes no call that removes, creates or sets an attribute; it succeeds
when a directory is there and every directory can be read. -/
theorem C17_sanitize_idempotent (host : FsHost) (merge : Bool) (fuel : Nat) (layer : String)
    (t : FsNode) (tr : FsTrace) (hwf : t.WellFormed) :
    (0 < fuel → t.depth ≤ fuel →
      (SanitizeLayer host merge fuel layer t tr).isSome = true) ∧
    ∀ (s1 : Option FsNode) (up1 : Bool) (tr1 : FsTrace),
      SanitizeLayer host merge fuel layer t tr = some (s1, up1, tr1, .ok ()) →
      (∀ t1, s1 = some t1 → t1.Clean = true) ∧
      ∀ (host2 : FsHost) (merge2 : Bool) (tr2 : FsTrace),
        ∃ r, SanitizeLayer.onPath host2 merge2 fuel layer s1 tr2 = some (s1, false, tr2, r) ∧
          ((∀ tr p, (host2 tr).ReadDirectory p = none) → s1.isSome = true → r = .ok ()) := by
  refine ⟨SanitizeLayer_some host merge fuel layer t tr hwf, ?_⟩
  intro s1 up1 tr1 h
  cases s1 with
  | none =>
    refine ⟨(fun t1 ht => nomatch ht), fun host2 merge2 tr2 => ⟨_, rfl, (fun _ hs => nomatch hs)⟩⟩
  | some t1 =>
    obtain ⟨hc, hd, o1, es1, hdir⟩ :=
      SanitizeLayer_result host merge fuel layer t tr t1 up1 tr1 hwf h
    subst hdir
    refine ⟨(fun t2 ht => by cases ht; exact hc), fun host2 merge2 tr2 => ?_⟩
    obtain ⟨r, hr, hok⟩ := SanitizeLayer_clean host2 merge2 fuel layer o1 es1 tr2 hc hd
    exact ⟨r, hr, fun hrd _ => hok hrd⟩

/-- Witness for C17: the example layer is sanitized with seven calls, and the
second run on the result makes none; the layer with the bare whiteout mark is
removed by the first run, and the second run finds nothing to read. -/
theorem C17_sanitize_idempotent_witness :
    (SanitizeLayer exFsHost false 2 "/l" exLayer []).isSome = true ∧
    SanitizeLayer exFsHost false 2 "/l" exLayer [] =
      some (some (.dir false
          [("a", .file), ("d", .dir true [("y", .file), ("x", .chardev)]), ("b", .chardev)]),
        false,
        [.RemoveAll "/l/.wh.b", .RemoveAll "/l/b", .Mknod "/l/b",
         .RemoveAll "/l/d/.wh..wh..opq", .SetXAttr "/l/d" "trusted.overlay.opaque" "y",
         .RemoveAll "/l/d/.wh.x", .Mknod "/l/d/x"], .ok ()) ∧
    (∃ r, SanitizeLayer exFsHost true 2 "/l"
        (.dir false
          [("a", .file), ("d", .dir true [("y", .file), ("x", .chardev)]), ("b", .chardev)])
        [] =
      some (some (.dir false
          [("a", .file), ("d", .dir true [("y", .file), ("x", .chardev)]), ("b", .chardev)]),
        false, [], r)) ∧
    SanitizeLayer exFsHost true 2 "/l" exLayerMark [] =
      some (none, false, [.RemoveAll "/l/.wh.", .RemoveAll "/l/"], .ok ()) ∧
    ∃ r, SanitizeLayer.onPath exFsHost true 2 "/l" none [] = some (none, false, [], r) :=
  have hwf : exLayer.WellFormed := by
    simp [exLayer, FsNode.WellFormed, FsNode.WellFormedList, entryName]
  have hwf2 : exLayerMark.WellFormed := by
    simp [exLayerMark, FsNode.WellFormed, FsNode.WellFormedList, entryName]
  ⟨(C17_sanitize_idempotent exFsHost false 2 "/l" exLayer [] hwf).1 (by decide) (by decide),
   rfl,
   (((C17_sanitize_idempotent exFsHost false 2 "/l" exLayer [] hwf).2 _ _ _ rfl).2
      exFsHost true []).imp (fun _ h => h.1),
   rfl,
   (((C17_sanitize_idempotent exFsHost true 2 "/l" exLayerMark [] hwf2).2 none false _ rfl).2
      exFsHost true []).imp (fun _ h => h.1)⟩
/-! ## Recovery of links, tuning and building (C21 to C24) -/

/-- C21 (code defect): `RestoreFromStorage` tests `!UnlinkContainer(name)`,
and `UnlinkContainer` returns whether the list is empty. The restored volume
7 with the links `known` and `gone` keeps its link to the known container
after the unlink of `gone`, and is destroyed and unregistered; with the single
link `gone` the unlink leaves no link, and the volume stays registered and is
not destroyed. -/
theorem C21_dangling_link_test_inverted :
    (TVolumeHolder.RestoreFromStorage exLinksHost exDaemon).1.holder.Volumes = [] ∧
    ((TVolumeHolder.RestoreFromStorage exLinksHost exDaemon).1.heap 0).Containers =
      ["known"] ∧
    Event.Attach "known" 0 ∈ (TVolumeHolder.RestoreFromStorage exLinksHost exDaemon).1.trace ∧
    Event.RemoveAll "/place/porto_volumes/7/volume" ∈
      (TVolumeHolder.RestoreFromStorage exLinksHost exDaemon).1.trace ∧
    (TVolumeHolder.RestoreFromStorage exDanglingHost exDaemon).1.holder.Volumes =
      [("/place/porto_volumes/7/volume", 0)] ∧
    ((TVolumeHolder.RestoreFromStorage exDanglingHost exDaemon).1.heap 0).Containers = [] ∧
    Event.Unlink "/run/porto/kvs/7" ∉
      (TVolumeHolder.RestoreFromStorage exDanglingHost exDaemon).1.trace := by
  refine ⟨rfl, rfl, ?_, ?_, rfl, rfl, ?_⟩
  · decide
  · decide
  · decide

/-- C22 (code defect): the `continue` after the destroy of a volume with a
dangling link leaves only the loop over the links, so `Save` follows. Volume 7
is destroyed (its record unlinked) and unregistered, and then saved again:
when `RestoreFromStorage` returns it is not registered and its record is in
the store. -/
theorem C22_destroyed_volume_saved_again :
    (TVolumeHolder.RestoreFromStorage exLinksHost exDaemon).2 = .ok () ∧
    (TVolumeHolder.RestoreFromStorage exLinksHost exDaemon).1.holder.Volumes = [] ∧
    kvCalls (TVolumeHolder.RestoreFromStorage exLinksHost exDaemon).1.trace =
      [(true, "7"), (false, "/run/porto/kvs/7"), (true, "7")] ∧
    recordLeft "/run/porto/kvs" "7" true
      (TVolumeHolder.RestoreFromStorage exLinksHost exDaemon).1.trace = true := by
  refine ⟨rfl, rfl, rfl, rfl⟩

/-- C23 (code defect): `Tune` stores the error of `Resize` and does not test
it. On the loop volume L the resize to 10 MiB fails with NotSupported and the
limit stays at 5 MiB, and `Tune` saves the volume and returns success. -/
theorem C23_tune_drops_resize_error :
    (exVolumeL.Resize exHost (10 * MiB) 0 []).2.2 =
      .error ⟨.NotSupported, "loop backend doesn't suppport resize"⟩ ∧
    (exVolumeL.Tune exHost exHeapL exHolderC 2 [(V_SPACE_LIMIT, "10485760")] []).2.2 =
      .ok () ∧
    (exVolumeL.Tune exHost exHeapL exHolderC 2 [(V_SPACE_LIMIT, "10485760")] []).1.SpaceLimit =
      5 * MiB ∧
    kvCalls (exVolumeL.Tune exHost exHeapL exHolderC 2 [(V_SPACE_LIMIT, "10485760")] []).2.1 =
      [(true, "2")] := by
  refine ⟨rfl, rfl, rfl, rfl⟩


/-- C24 (code defect): `TVolume::Build` leaves by `return error` when the
chown or the chmod of the merged path fails, and by `return Save()` at the
end, so these three failures undo nothing. On the plain volume P with one
layer a failed copy of the layer unmounts the path and removes the path, the
storage and the internal directory, while a failed chown, a failed chmod and a
failed final save return their error after no unmount and no removal. -/
theorem C24_build_returns_without_rollback :
    (exVolumeP.Build exHost exCopyFails []).map (fun r => (undone r.2.1, r.2.2)) =
      some ([Event.UmountAll "/place/porto_volumes/3/volume",
             Event.RemoveAll "/place/porto_volumes/3/volume",
             Event.RemoveAll "/place/porto_volumes/3/plain",
             Event.RemoveAll "/place/porto_volumes/3/"],
            .error ⟨.Unknown, "copy: no space left"⟩) ∧
    (exVolumeP.Build exHost exChownFails []).map (fun r => (undone r.2.1, r.2.2)) =
      some ([], .error ⟨.Unknown, "chown: operation not permitted"⟩) ∧
    (exVolumeP.Build exHost exChmodFails []).map (fun r => (undone r.2.1, r.2.2)) =
      some ([], .error ⟨.Unknown, "chmod: operation not permitted"⟩) ∧
    (exVolumeP.Build exSaveFails exBuildHost []).map (fun r => (undone r.2.1, r.2.2)) =
      some ([], .error ⟨.Unknown, "save: no space left"⟩) ∧
    (exVolumeP.Build exHost exChownFails []).map (fun r => r.2.1) =
      some [Event.Mkdir "/place/porto_volumes/3/" 0o755,
            Event.Mkdir "/place/porto_volumes/3/plain" 0o755,
            Event.Mkdir "/place/porto_volumes/3/volume" 0o755,
            Event.BackendBuild,
            Event.CopyRecursive "/place/porto_layers/base" "/place/porto_volumes/3/volume",
            Event.SanitizeLayer "/place/porto_volumes/3/volume" true,
            Event.Chown "/place/porto_volumes/3/volume" ⟨0, 0⟩] := by
  refine ⟨rfl, rfl, rfl, rfl, rfl⟩

/-! ## Emptiness of a cgroup (C29) -/

/-- The integers pushed by `StringsToIntegers` follow those already in the
vector. -/
theorem StringsToIntegers_prefix (strings : List String) :
    ∀ integers, ∃ more, (StringsToIntegers strings integers).1 = integers ++ more := by
  induction strings with
  | nil => intro integers; exact ⟨[], by simp [StringsToIntegers]⟩
  | cons l strings ih =>
    intro integers
    rcases hl : stoi l with _ | i
    · exact ⟨[], by simp [StringsToIntegers, hl]⟩
    · obtain ⟨more, hm⟩ := ih (integers ++ [i])
      exact ⟨i :: more, by simp [StringsToIntegers, hl, hm]⟩

/-- The handler of `Remove` on a cgroup that `IsEmpty` reports empty at all
times kills nothing and asks for no further try. -/
theorem Remove.handler_empty (host : CgHost) (node : CgNode) (tr : CgTrace)
    (h : ∀ t, TCgroup.IsEmpty (host t) node = true) :
    (Remove.handler host node tr).2 = .ok false := by
  have hk : TCgroup.Kill host node (host tr).SIGKILL tr = (tr, .ok ()) := by
    unfold TCgroup.Kill
    split
    · have h1 := h tr
      unfold TCgroup.IsEmpty at h1
      rcases hg : TCgroup.GetTasks (host tr) node with ⟨tasks, _ | _⟩
      · rfl
      · rw [hg] at h1
        have : tasks = [] := by simpa [List.isEmpty_iff] using h1
        subst this
        rfl
    · rfl
  unfold Remove.handler
  rw [hk]
  simp only [h, Bool.not_true]

/-- C29: `IsEmpty` reports a cgroup empty when the file `tasks` cannot be
read and when its first line is refused by `stoi`; it reports it not empty
exactly when there is a first line that `stoi` accepts. For a cgroup reported
empty at all times the first try of the retry loop of `Remove` is the last
one, and `Remove` goes on to remove the directory. -/
theorem C29_isEmpty_ignores_read_errors (host : CgHost) (w : CgWorld) (node : CgNode) :
    (∀ error, w.AsLines (node.Path ++ "/" ++ "tasks") = .error error →
      TCgroup.IsEmpty w node = true) ∧
    (∀ l rest, w.AsLines (node.Path ++ "/" ++ "tasks") = .ok (l :: rest) → stoi l = none →
      TCgroup.IsEmpty w node = true) ∧
    (TCgroup.IsEmpty w node = false ↔
      ∃ l rest i, w.AsLines (node.Path ++ "/" ++ "tasks") = .ok (l :: rest) ∧ stoi l = some i) ∧
    (∀ name parent times tr,
      (∀ t, TCgroup.IsEmpty (host t) (.child name parent) = true) →
      RetryFailed (Remove.handler host (.child name parent)) (times + 1) tr =
        Remove.handler host (.child name parent) tr ∧
      (Remove.handler host (.child name parent) tr).2 = .ok false ∧
      (TCgroup.Remove host (.child name parent) tr).2 = .ok (.ok ())) := by
  refine ⟨?_, ?_, ?_, ?_⟩
  · intro error h
    simp [TCgroup.IsEmpty, TCgroup.GetTasks, TCgroup.GetKnobValueAsLines, h]
  · intro l rest h hl
    simp [TCgroup.IsEmpty, TCgroup.GetTasks, TCgroup.GetKnobValueAsLines, h, StringsToIntegers, hl]
  · constructor
    · intro h
      rcases ha : w.AsLines (node.Path ++ "/" ++ "tasks") with error | lines
      · simp [TCgroup.IsEmpty, TCgroup.GetTasks, TCgroup.GetKnobValueAsLines, ha] at h
      · cases lines with
        | nil =>
          simp [TCgroup.IsEmpty, TCgroup.GetTasks, TCgroup.GetKnobValueAsLines, ha,
            StringsToIntegers] at h
        | cons l rest =>
          rcases hl : stoi l with _ | i
          · simp [TCgroup.IsEmpty, TCgroup.GetTasks, TCgroup.GetKnobValueAsLines, ha,
              StringsToIntegers, hl] at h
          · exact ⟨l, rest, i, rfl, hl⟩
    · rintro ⟨l, rest, i, ha, hl⟩
      obtain ⟨more, hm⟩ := StringsToIntegers_prefix rest [i]
      simp [TCgroup.IsEmpty, TCgroup.GetTasks, TCgroup.GetKnobValueAsLines, ha,
        StringsToIntegers, hl, hm]
  · intro name parent times tr h
    have hh := Remove.handler_empty host (.child name parent) tr h
    have hr : RetryFailed (Remove.handler host (.child name parent)) (times + 1) tr =
        Remove.handler host (.child name parent) tr := by
      rcases hv : Remove.handler host (.child name parent) tr with ⟨tr1, r⟩
      rw [hv] at hh
      simp only at hh
      subst hh
      simp only [RetryFailed, hv]
    refine ⟨hr, hh, ?_⟩
    unfold TCgroup.Remove
    simp only
    rcases ((host tr).CGROUP_REMOVE_TIMEOUT_S * 10).toNat with _ | n
    · rfl
    · have hn : RetryFailed (Remove.handler host (.child name parent)) (n + 1) tr =
          Remove.handler host (.child name parent) tr := by
        rcases hv : Remove.handler host (.child name parent) tr with ⟨tr1, r⟩
        rw [hv] at hh
        simp only at hh
        subst hh
        simp only [RetryFailed, hv]
      rw [hn]
      rcases hv : Remove.handler host (.child name parent) tr with ⟨tr1, r⟩
      rw [hv] at hh
      simp only at hh
      subst hh
      rfl

/-- Witness of C29 on the example cgroup at a host whose `tasks` file begins
with a line that is no number. -/
theorem C29_isEmpty_ignores_read_errors_witness :
    TCgroup.IsEmpty (exCgHostGarbled []) (.child "porto" exCgRoot) = true ∧
    RetryFailed (Remove.handler exCgHostGarbled (.child "porto" exCgRoot)) 10 [] =
      ([.Unfreeze "/sys/fs/cgroup/freezer/porto"], .ok false) ∧
    (TCgroup.Remove exCgHostGarbled (.child "porto" exCgRoot) []).2 = .ok (.ok ()) :=
  ⟨(C29_isEmpty_ignores_read_errors exCgHostGarbled (exCgHostGarbled [])
      (.child "porto" exCgRoot)).2.1 "tasks" ["12"] rfl (by decide),
   ((C29_isEmpty_ignores_read_errors exCgHostGarbled (exCgHostGarbled [])
      (.child "porto" exCgRoot)).2.2.2 "porto" exCgRoot 9 [] (fun _ => rfl)).1.trans rfl,
   ((C29_isEmpty_ignores_read_errors exCgHostGarbled (exCgHostGarbled [])
      (.child "porto" exCgRoot)).2.2.2 "porto" exCgRoot 9 [] (fun _ => rfl)).2.2⟩

/-! ## Joining and splitting (C30) -/

/-- The loop of `CommaSeparatedList` builds what `String.intercalate` builds. -/
theorem CommaSeparatedList.loop_eq (rest : List String) :
    ∀ c ret, CommaSeparatedList.loop (c :: rest) ret =
      String.intercalate.go (ret ++ c) "," rest := by
  induction rest with
  | nil => intro c ret; simp [CommaSeparatedList.loop, String.intercalate.go]
  | cons d rest ih =>
    intro c ret
    rw [CommaSeparatedList.loop, if_pos (by simp), ih]
    simp [String.intercalate.go]

/-- Characters of an intercalated string. -/
theorem intercalate_go_data (rest : List String) :
    ∀ acc : String, (String.intercalate.go acc "," rest).data =
      acc.data ++ rest.flatMap fun s => ',' :: s.data := by
  induction rest with
  | nil => intro acc; simp [String.intercalate.go]
  | cons d rest ih =>
    intro acc
    simp [String.intercalate.go, ih, String.data_append]

/-- A run of characters without the separator is added to the token that
`getline` collects. -/
theorem SplitString.loop_token (sep : Char) (tok : List Char) (htok : sep ∉ tok) :
    ∀ cs cur tokens, tok ≠ [] →
      SplitString.loop sep (tok ++ cs) cur tokens =
        SplitString.loop sep cs (some (cur.getD [] ++ tok)) tokens := by
  induction tok with
  | nil => intro cs cur tokens h; exact absurd rfl h
  | cons c tok ih =>
    intro cs cur tokens _
    have hc : c ≠ sep := fun h => htok (by simp [h])
    have ht : sep ∉ tok := fun h => htok (by simp [h])
    rw [List.cons_append, SplitString.loop, if_neg hc]
    by_cases he : tok = []
    · subst he; simp
    · rw [ih ht cs _ tokens he]; simp

/-- The loop of `SplitString` on joined tokens gives the tokens back. -/
theorem SplitString.loop_joined (rest : List String) :
    ∀ (a : String) (tokens : List String),
      (∀ s ∈ a :: rest, s ≠ "" ∧ ',' ∉ s.data) →
      SplitString.loop ',' (a.data ++ rest.flatMap fun s => ',' :: s.data) none tokens =
        tokens ++ a :: rest := by
  induction rest with
  | nil =>
    intro a tokens h
    have ha := h a (by simp)
    have hne : a.data ≠ [] := fun h0 => ha.1 (String.ext h0)
    have := SplitString.loop_token ',' a.data ha.2 [] none tokens hne
    simp only [List.append_nil] at this
    simp [this, SplitString.loop]
  | cons b rest ih =>
    intro a tokens h
    have ha := h a (by simp)
    have hne : a.data ≠ [] := fun h0 => ha.1 (String.ext h0)
    rw [List.flatMap_cons, List.cons_append,
      SplitString.loop_token ',' a.data ha.2 _ none tokens hne, SplitString.loop, if_pos rfl,
      ih b _ (fun s hs => h s (List.mem_cons_of_mem _ hs))]
    simp

/-- C30: for a vector of non-empty strings without a comma,
`CommaSeparatedList` gives the elements with one comma between neighbours
(the empty string for the empty vector), and `SplitString` of it at the comma
into an empty vector returns success with the vector. -/
theorem C30_split_undoes_join (list : List String)
    (hne : ∀ s ∈ list, s ≠ "") (hcomma : ∀ s ∈ list, ',' ∉ s.data) :
    CommaSeparatedList list = String.intercalate "," list ∧
    CommaSeparatedList [] = "" ∧
    SplitString (CommaSeparatedList list) ',' [] = (list, .ok ()) := by
  refine ⟨?_, rfl, ?_⟩
  · cases list with
    | nil => rfl
    | cons a rest =>
      simp [CommaSeparatedList, CommaSeparatedList.loop_eq, String.intercalate]
  · cases list with
    | nil => rfl
    | cons a rest =>
      have h := SplitString.loop_joined rest a []
        (fun s hs => ⟨hne s hs, hcomma s hs⟩)
      simp only [SplitString, CommaSeparatedList, CommaSeparatedList.loop_eq,
        intercalate_go_data, String.data_append]
      simpa using h

/-- Witness of C30 on the names of three subsystems. -/
theorem C30_split_undoes_join_witness :
    CommaSeparatedList ["cpu", "cpuacct", "memory"] = "cpu,cpuacct,memory" ∧
    SplitString (CommaSeparatedList ["cpu", "cpuacct", "memory"]) ',' [] =
      (["cpu", "cpuacct", "memory"], .ok ()) :=
  ⟨(C30_split_undoes_join ["cpu", "cpuacct", "memory"] (by decide) (by decide)).1.trans rfl,
   (C30_split_undoes_join ["cpu", "cpuacct", "memory"] (by decide) (by decide)).2.2⟩

/-! ## Attaching and creating (C26, C28) -/

/-- C28: `Attach` returns success for every cgroup and pid. On a root it
makes no call; on another cgroup it appends the pid to `cgroup.procs` and
drops the result of the write. So the loop of `TTask::Start` over the leaf
cgroups never ends the child with an error. -/
theorem C28_attach_always_succeeds (host : CgHost) (pid : Int) (tr : CgTrace) :
    (∀ node, (TCgroup.Attach host node pid tr).2 = .ok ()) ∧
    (∀ mountpoint subsystems,
      (TCgroup.Attach host (.root mountpoint subsystems) pid tr).1 = tr) ∧
    (∀ name parent,
      (TCgroup.Attach host (.child name parent) pid tr).1 =
        tr ++ [.AppendString ((CgNode.child name parent).Path ++ "/" ++ "cgroup.procs")
          (to_string pid)]) ∧
    (∀ leaf_cgroups, (Start.attach host pid leaf_cgroups tr).2 = none) ∧
    (TCgroup.Attach exCgHostReadOnly (.child "porto" exCgRoot) 12 []) =
      ([.AppendString "/sys/fs/cgroup/freezer/porto/cgroup.procs" "12"], .ok ()) := by
  refine ⟨?_, ?_, ?_, ?_, rfl⟩
  · intro node
    cases node <;> rfl
  · intro mountpoint subsystems
    rfl
  · intro name parent
    rfl
  · intro leaf_cgroups
    induction leaf_cgroups generalizing tr with
    | nil => rfl
    | cons cg rest ih =>
      have h : (TCgroup.Attach host cg pid tr).2 = .ok () := by cases cg <;> rfl
      rcases ha : TCgroup.Attach host cg pid tr with ⟨tr1, r⟩
      rw [ha] at h
      simp only at h
      subst h
      simp only [Start.attach, ha]
      exact ih tr1

/-- C26 (code defect): `Create` on a cgroup that is not a root calls
`parent->Create()` and drops its result. On a host where the mount of the
hierarchy is refused, `Create` on the root returns the error of the mount,
and `Create` on its child `porto` repeats the failed creation of the root,
then makes its own directory and returns success. -/
theorem C26_create_drops_parent_error :
    TCgroup.Create exCgHostNoMount exCgMount exCgRoot [] =
      ([.Mounts, .Mount ⟨"cgroup", "/sys/fs/cgroup", "tmpfs", []⟩,
        .FolderCreate "/sys/fs/cgroup/freezer" 0o755, .Mount exCgMount],
       .error ⟨.Unknown, "mount: permission denied"⟩) ∧
    TCgroup.Create exCgHostNoMount exCgMount (.child "porto" exCgRoot) [] =
      ([.Mounts, .Mount ⟨"cgroup", "/sys/fs/cgroup", "tmpfs", []⟩,
        .FolderCreate "/sys/fs/cgroup/freezer" 0o755, .Mount exCgMount,
        .FolderCreate "/sys/fs/cgroup/freezer/porto" 0o755],
       .ok ()) := by
  refine ⟨rfl, rfl⟩

/-! ## The snapshot (C27) -/

set_option maxHeartbeats 4000000 in
/-- C27 (code defect): `FindChildren` takes the vector `cglist` by value,
so what the walk pushes is lost with the copy. On a host with the freezer
hierarchy mounted, whose directory holds `porto` with the cgroups `c1`,
`c1/hook` and `c2`, `TCgroupSnapshot::Create` returns success after listing
all of them, and the vector of the snapshot holds the root alone; the
objects made for the directories found have no reference left. -/
theorem C27_snapshot_keeps_roots_only :
    (TCgroupSnapshot.Create exCgHost (fun _ => exCgTree) exSnapshotStart).2 = .ok (.ok ()) ∧
    listed (TCgroupSnapshot.Create exCgHost (fun _ => exCgTree) exSnapshotStart).1.trace =
      ["/sys/fs/cgroup/freezer", "/sys/fs/cgroup/freezer/porto",
       "/sys/fs/cgroup/freezer/porto/c1", "/sys/fs/cgroup/freezer/porto/c1/hook",
       "/sys/fs/cgroup/freezer/porto/c2"] ∧
    (TCgroupSnapshot.Create exCgHost (fun _ => exCgTree) exSnapshotStart).1.snapshot.cgroups.map
        (fun c => ((TCgroupSnapshot.Create exCgHost (fun _ => exCgTree)
          exSnapshotStart).1.objects.heap c).node.Path) =
      ["/sys/fs/cgroup/freezer"] ∧
    (TCgroupSnapshot.Create exCgHost (fun _ => exCgTree) exSnapshotStart).1.objects.brk = 6 ∧
    (List.range 6).map
        (TCgroupSnapshot.Create exCgHost (fun _ => exCgTree) exSnapshotStart).1.objects.refs =
      [1, 0, 0, 0, 0, 0] := by
  decide!

/-! ## The whiteout rules (C25) -/

/-- The test of `SanitizeLayer` for the whiteout mark is the test for a
beginning. -/
theorem compareEq_prefix (entry : String) (len : Nat) (str : String)
    (hlen : str.data.length = len) :
    compareEq entry len str = StringStartsWith entry str := by
  unfold compareEq StringStartsWith substr
  rw [List.drop_zero]
  by_cases h : str.data <+: entry.data
  · have h1 := List.prefix_iff_eq_take.1 h
    rw [hlen] at h1
    have : String.mk (List.take len entry.data) = str := by rw [← h1]
    rw [decide_eq_true this]
    exact (List.isPrefixOf_iff_prefix.2 h).symm
  · have : ¬ String.mk (List.take len entry.data) = str := by
      intro h2
      apply h
      rw [← h2]
      exact List.take_prefix _ _
    rw [decide_eq_false this]
    cases hp : str.data.isPrefixOf entry.data
    · rfl
    · exact absurd (List.isPrefixOf_iff_prefix.1 hp) h

/-- The name cut out by `SanitizeLayer` is the target of the whiteout. -/
theorem substr_target (entry : String) :
    substr entry 4 entry.length = whiteoutTarget entry := by
  unfold substr whiteoutTarget
  congr 1
  apply List.take_of_length_le
  rw [List.length_drop]
  exact Nat.sub_le _ _

/-- Removal from entries that were filtered and mapped under their names. -/
theorem removeEntry_filterMap (g : String × FsNode → Option (String × FsNode))
    (hg : ∀ e e1, g e = some e1 → e1.1 = e.1) (x : String) :
    ∀ E : List (String × FsNode),
      removeEntry (E.filterMap g) x = E.filterMap fun e => if e.1 = x then none else g e := by
  intro E
  induction E with
  | nil => rfl
  | cons e E ih =>
    rcases hge : g e with _ | e1
    · rw [List.filterMap_cons_none hge, ih, List.filterMap_cons_none]
      simp [hge]
    · have hn := hg e e1 hge
      rw [List.filterMap_cons_some hge]
      by_cases hx : e.1 = x
      · rw [List.filterMap_cons_none (by simp [hx]), ← ih]
        simp [removeEntry, hn, hx]
      · have hc : List.filterMap (fun e => if e.1 = x then none else g e) (e :: E) =
            e1 :: List.filterMap (fun e => if e.1 = x then none else g e) E :=
          List.filterMap_cons_some (by simp [hx, hge])
        rw [hc, ← ih]
        simp [removeEntry, hn, hx]

/-- Removal from two lists of entries in a row. -/
theorem removeEntry_append (A B : List (String × FsNode)) (x : String) :
    removeEntry (A ++ B) x = removeEntry A x ++ removeEntry B x := by
  simp [removeEntry]

/-- Removal of a name that is not there. -/
theorem removeEntry_absent (A : List (String × FsNode)) (x : String)
    (h : ∀ e ∈ A, e.1 ≠ x) : removeEntry A x = A := by
  unfold removeEntry
  rw [List.filter_eq_self]
  intro e he
  simpa using h e he

/-- With distinct names an entry is known by its name. -/
theorem entry_unique : ∀ (E : List (String × FsNode)), (E.map fun e => e.1).Nodup →
    ∀ e1 ∈ E, ∀ e2 ∈ E, e1.1 = e2.1 → e1 = e2 := by
  intro E
  induction E with
  | nil => intro _ e1 h; cases h
  | cons e E ih =>
    intro hnd e1 h1 e2 h2 hn
    simp only [List.map_cons, List.nodup_cons, List.mem_map, not_exists, not_and] at hnd
    rcases List.mem_cons.1 h1 with r1 | r1 <;> rcases List.mem_cons.1 h2 with r2 | r2
    · rw [r1, r2]
    · subst r1; exact absurd hn.symm (hnd.1 e2 r2)
    · subst r2; exact absurd hn (hnd.1 e1 r1)
    · exact ih hnd.2 e1 r1 e2 r2 hn

/-- Lookup of a name none of whose entries is kept. -/
theorem findEntry_filterMap_none (g : String × FsNode → Option (String × FsNode))
    (hg : ∀ e e1, g e = some e1 → e1.1 = e.1) (M : List (String × FsNode)) (a : String) :
    ∀ E : List (String × FsNode), (∀ e ∈ E, e.1 = a → g e = none) →
      findEntry (E.filterMap g ++ M) a = findEntry M a := by
  intro E
  induction E with
  | nil => intro _; rfl
  | cons e E ih =>
    intro h
    have ih := ih fun e1 he1 => h e1 (List.mem_cons_of_mem _ he1)
    rcases hge : g e with _ | e1
    · rw [List.filterMap_cons_none hge]; exact ih
    · have hn := hg e e1 hge
      have hne : ¬ e1.1 = a := by
        intro hc
        have := h e (List.mem_cons_self _ _) (by rw [← hn]; exact hc)
        rw [hge] at this; cases this
      rw [List.filterMap_cons_some hge]
      unfold findEntry at ih ⊢
      rw [List.cons_append, List.find?_cons_of_neg _ (by simpa using hne)]
      exact ih

/-- Lookup of a name whose entry is kept. -/
theorem findEntry_filterMap_some (g : String × FsNode → Option (String × FsNode))
    (hg : ∀ e e1, g e = some e1 → e1.1 = e.1) (M : List (String × FsNode)) (a : String)
    (node node0 : FsNode) (hga : g (a, node) = some (a, node0)) :
    ∀ E : List (String × FsNode), (E.map fun e => e.1).Nodup → (a, node) ∈ E →
      findEntry (E.filterMap g ++ M) a = some node0 := by
  intro E
  induction E with
  | nil => intro _ h; cases h
  | cons e E ih =>
    intro hnd hmem
    have hnd1 := hnd
    simp only [List.map_cons, List.nodup_cons, List.mem_map, not_exists, not_and] at hnd
    rcases List.mem_cons.1 hmem with r | r
    · subst r
      rw [List.filterMap_cons_some hga]
      simp [findEntry]
    · have hea : ¬ e.1 = a := fun hc => hnd.1 (a, node) r hc.symm
      rcases hge : g e with _ | e1
      · rw [List.filterMap_cons_none hge]; exact ih hnd.2 r
      · have hn := hg e e1 hge
        rw [List.filterMap_cons_some hge]
        have ih := ih hnd.2 r
        unfold findEntry at ih ⊢
        rw [List.cons_append, List.find?_cons_of_neg _ (by rw [hn]; simpa using hea)]
        exact ih

/-- Replacement of a kept entry. -/
theorem replaceEntry_filterMap (g : String × FsNode → Option (String × FsNode))
    (hg : ∀ e e1, g e = some e1 → e1.1 = e.1) (M : List (String × FsNode)) (a : String)
    (node node0 node1 : FsNode) (hga : g (a, node) = some (a, node0)) :
    ∀ E : List (String × FsNode), (E.map fun e => e.1).Nodup → (a, node) ∈ E →
      replaceEntry (E.filterMap g ++ M) a node1 =
        (E.filterMap fun e => if e.1 = a then some (a, node1) else g e) ++ M := by
  intro E
  induction E with
  | nil => intro _ h; cases h
  | cons e E ih =>
    intro hnd hmem
    simp only [List.map_cons, List.nodup_cons, List.mem_map, not_exists, not_and] at hnd
    rcases List.mem_cons.1 hmem with r | r
    · subst r
      have hc : List.filterMap (fun e => if e.1 = a then some (a, node1) else g e)
            ((a, node) :: E) =
          (a, node1) :: List.filterMap (fun e => if e.1 = a then some (a, node1) else g e) E :=
        List.filterMap_cons_some (by simp)
      rw [List.filterMap_cons_some hga, hc]
      rw [List.cons_append, replaceEntry, if_pos rfl, List.cons_append]
      congr 2
      apply List.filterMap_congr
      intro e1 he1
      have : ¬ e1.1 = a := fun hc => hnd.1 e1 he1 hc
      simp [this]
    · have hea : ¬ e.1 = a := fun hc => hnd.1 (a, node) r hc.symm
      rcases hge : g e with _ | e1
      · rw [List.filterMap_cons_none hge, List.filterMap_cons_none (by simp [hea, hge])]
        exact ih hnd.2 r
      · have hn := hg e e1 hge
        have hc : List.filterMap (fun e => if e.1 = a then some (a, node1) else g e) (e :: E) =
            e1 :: List.filterMap (fun e => if e.1 = a then some (a, node1) else g e) E :=
          List.filterMap_cons_some (by simp [hea, hge])
        rw [List.filterMap_cons_some hge, hc]
        rw [List.cons_append, replaceEntry, if_neg (by rw [hn]; exact hea), ih hnd.2 r,
          List.cons_append]

/-- A whiteout is the mark followed by its target. -/
theorem whiteout_data (a : String) (h : isWhiteout a = true) :
    a.data = ['.', 'w', 'h', '.'] ++ (whiteoutTarget a).data := by
  unfold isWhiteout StringStartsWith at h
  obtain ⟨t, ht⟩ := List.isPrefixOf_iff_prefix.1 h
  unfold whiteoutTarget
  rw [← ht]
  rfl

/-- Two whiteouts of one target are the same name. -/
theorem whiteoutTarget_inj (a b : String) (ha : isWhiteout a = true) (hb : isWhiteout b = true)
    (h : whiteoutTarget a = whiteoutTarget b) : a = b := by
  apply String.ext
  rw [whiteout_data a ha, whiteout_data b hb, h]

/-- The target of a whiteout that is no metadata is no whiteout. -/
theorem whiteoutTarget_plain (a : String) (ha : isWhiteout a = true)
    (hm : isWhiteoutMetadata a = false) : isWhiteout (whiteoutTarget a) = false := by
  have h4 := compareEq_prefix a 4 ".wh." rfl
  have h8 := compareEq_prefix a 8 ".wh..wh." rfl
  have h := compareEq_target a (by rw [h4]; exact ha) (by rw [h8]; exact hm)
  rw [substr_target, compareEq_prefix _ 4 ".wh." rfl] at h
  exact h

/-- Whited out names: those of the names. -/
theorem mem_whiteoutTargets (names : List String) (x : String) :
    x ∈ whiteoutTargets names ↔
      ∃ a ∈ names, isWhiteout a = true ∧ isWhiteoutMetadata a = false ∧ whiteoutTarget a = x := by
  simp [whiteoutTargets, and_assoc]

/-- No whited out name is a whiteout. -/
theorem whiteoutTargets_plain (names : List String) (x : String)
    (h : x ∈ whiteoutTargets names) : isWhiteout x = false := by
  obtain ⟨a, _, ha, hm, rfl⟩ := (mem_whiteoutTargets names x).1 h
  exact whiteoutTarget_plain a ha hm

/-- Whited out names after one more name. -/
theorem whiteoutTargets_snoc (names : List String) (a : String) :
    whiteoutTargets (names ++ [a]) =
      whiteoutTargets names ++
        if isWhiteout a && !isWhiteoutMetadata a then [whiteoutTarget a] else [] := by
  unfold whiteoutTargets
  rw [List.filter_append, List.map_append]
  by_cases h : (isWhiteout a && !isWhiteoutMetadata a) = true
  · simp [h]
  · simp [h]

/-- What the loop keeps of an entry has the name of the entry. -/
theorem SanitizeLayer.kept_name (merge : Bool) (done : List String) (e e1 : String × FsNode)
    (h : SanitizeLayer.kept merge done e = some e1) : e1.1 = e.1 := by
  unfold SanitizeLayer.kept at h
  split at h
  · cases h
  · split at h
    · split at h
      · cases h
      · cases h; rfl
    · cases h; rfl

/-- The names of the devices made are the whited out names. -/
theorem SanitizeLayer.made_mem (merge : Bool) (done : List String) (e : String × FsNode)
    (h : e ∈ SanitizeLayer.made merge done) : e.1 ∈ whiteoutTargets done ∧ e.2 = .chardev := by
  unfold SanitizeLayer.made at h
  cases merge with
  | true => simp at h
  | false =>
    simp only [Bool.false_eq_true, if_false, List.mem_map] at h
    obtain ⟨x, hx, rfl⟩ := h
    exact ⟨hx, rfl⟩

/-- The devices made after one more name. -/
theorem SanitizeLayer.made_snoc (merge : Bool) (done : List String) (a : String) :
    SanitizeLayer.made merge (done ++ [a]) =
      SanitizeLayer.made merge done ++
        if isWhiteout a && !isWhiteoutMetadata a then
          (if merge then [] else [(whiteoutTarget a, FsNode.chardev)])
        else [] := by
  unfold SanitizeLayer.made
  rw [whiteoutTargets_snoc]
  cases merge with
  | true => simp
  | false =>
    by_cases h : (isWhiteout a && !isWhiteoutMetadata a) = true
    · simp [h]
    · simp [h]

/-- The rules leave what is no directory as it is. -/
theorem FsNode.sanitizedSpec_leaf (merge : Bool) (node : FsNode)
    (h : ∀ o es, node ≠ .dir o es) : node.sanitizedSpec merge = node := by
  cases node with
  | file => rfl
  | chardev => rfl
  | dir o es => exact absurd rfl (h o es)

/-- Entries without a bare whiteout, entry by entry. -/
theorem FsNode.RegularList_iff : ∀ es : List (String × FsNode),
    FsNode.RegularList es = true ↔ ∀ e ∈ es, e.1 ∉ bareWhiteouts ∧ e.2.Regular = true
  | [] => by simp [FsNode.RegularList]
  | (name, node) :: rest => by
    simp only [FsNode.RegularList, Bool.and_eq_true, Bool.not_eq_true', List.mem_cons,
      forall_eq_or_imp, FsNode.RegularList_iff rest, and_assoc]
    simp

/-- Behind a whiteout that is not bare stands the name of an entry. -/
theorem target_whiteoutTarget (a : String) (hw : isWhiteout a = true)
    (hbare : a ∉ bareWhiteouts) :
    target (whiteoutTarget a) = .child (whiteoutTarget a) := by
  have hd := whiteout_data a hw
  have hne : ∀ x : String, x ∈ ["", ".", ".."] → whiteoutTarget a ≠ x := by
    intro x hx hc
    apply hbare
    have : a = String.mk (['.', 'w', 'h', '.'] ++ x.data) := by
      apply String.ext
      rw [hd, hc]
    rw [this]
    simp only [List.mem_cons, List.mem_singleton, List.not_mem_nil, or_false] at hx
    rcases hx with rfl | rfl | rfl <;> decide
  unfold target
  rw [if_neg (by
    intro hc
    rcases hc with hc | hc
    · exact hne "" (by simp) hc
    · exact hne "." (by simp) hc),
    if_neg (fun hc => hne ".." (by simp) hc)]

/-- One successful round of the loop of `SanitizeLayer` on a name that is no
bare whiteout, when the recursive call leaves the directory it is called on
and the one that holds it: the directory is still there, and the round has
followed one of the rules. -/
theorem SanitizeLayer.step_rule_regular (sub : String → FsNode → FsTrace → Sanitized)
    (host : FsHost) (layer : String) (merge : Bool) (a : String) (opq : Bool)
    (entries : List (String × FsNode)) (tr : FsTrace)
    (dir1 : Dir) (up1 : Bool) (tr1 : FsTrace) (hbare : a ∉ bareWhiteouts)
    (hsubreg : ∀ o es slot up, findEntry entries a = some (.dir o es) →
      sub (pathJoin layer a) (.dir o es) tr = some (slot, up, tr1, .ok ()) →
      up = false ∧ ∃ node, slot = some node)
    (h : SanitizeLayer.step sub host layer merge a opq entries tr =
      some (dir1, up1, tr1, .ok ())) :
    ∃ opq1 entries1, dir1 = some (opq1, entries1) ∧ up1 = false ∧
      ((isWhiteout a = true ∧ isWhiteoutMetadata a = true ∧
          opq1 = (opq || decide (a = ".wh..wh..opq")) ∧
          entries1 = removeEntry entries a) ∨
        (isWhiteout a = true ∧ isWhiteoutMetadata a = false ∧ opq1 = opq ∧
          entries1 = removeEntry (removeEntry entries a) (whiteoutTarget a) ++
            if merge then [] else [(whiteoutTarget a, .chardev)]) ∨
        (isWhiteout a = false ∧ opq1 = opq ∧
          ((∃ o es node, findEntry entries a = some (.dir o es) ∧
              sub (pathJoin layer a) (.dir o es) tr = some (some node, false, tr1, .ok ()) ∧
              entries1 = replaceEntry entries a node) ∨
            ((∀ o es, findEntry entries a ≠ some (.dir o es)) ∧ entries1 = entries)))) := by
  have hw4 := compareEq_prefix a 4 ".wh." rfl
  have hw8 := compareEq_prefix a 8 ".wh..wh." rfl
  have hst := substr_target a
  rcases SanitizeLayer.step_rule sub host layer merge a opq entries tr dir1 up1 tr1 h with
    ⟨hw, hm, hup, hd⟩ | ⟨hw, hm, hcase⟩ | ⟨hw, hup, hcase⟩
  · rw [hw4] at hw
    rw [hw8] at hm
    exact ⟨_, _, hd, hup, Or.inl ⟨hw, hm, rfl, rfl⟩⟩
  · rw [hw4] at hw
    rw [hw8] at hm
    rw [hst] at hcase
    have ht := target_whiteoutTarget a hw hbare
    rcases hcase with ⟨_, hup, hd⟩ | ⟨hc, _, _⟩ | ⟨hc, _, _⟩
    · exact ⟨_, _, hd, hup, Or.inr (Or.inl ⟨hw, hm, rfl, rfl⟩)⟩
    · rw [ht] at hc; cases hc
    · rw [ht] at hc; cases hc
  · rw [hw4] at hw
    rcases hcase with ⟨o, es, slot, up, hf, hs, hd⟩ | ⟨hnodir, hd⟩
    · obtain ⟨hu, node, hn⟩ := hsubreg o es slot up hf hs
      subst hu hn
      simp only [Bool.false_eq_true, if_false] at hd
      exact ⟨_, _, hd, hup, Or.inr (Or.inr ⟨hw, rfl, Or.inl ⟨o, es, node, hf, hs, rfl⟩⟩)⟩
    · exact ⟨_, _, hd, hup, Or.inr (Or.inr ⟨hw, rfl, Or.inr ⟨hnodir, rfl⟩⟩)⟩

/-- A directory found under a name whose round is to come is an entry of the
directory as it was. -/
theorem SanitizeLayer.found_dir (merge : Bool) (E : List (String × FsNode))
    (done : List String) (a : String) (ha : a ∉ done)
    (entries : List (String × FsNode))
    (hinv : entries = E.filterMap (SanitizeLayer.kept merge done) ++ SanitizeLayer.made merge done)
    (o : Bool) (es : List (String × FsNode))
    (hf : findEntry entries a = some (.dir o es)) : (a, .dir o es) ∈ E := by
  have hmem := findEntry_some_mem _ _ _ hf
  rw [hinv] at hmem
  rcases List.mem_append.1 hmem with hm | hm
  · obtain ⟨e, he, hk⟩ := List.mem_filterMap.1 hm
    unfold SanitizeLayer.kept at hk
    split at hk
    · cases hk
    · split at hk
      · have hn : e.1 = a := by
          split at hk
          · cases hk
          · simp only [Option.some.injEq, Prod.mk.injEq] at hk
            exact hk.1
        rename_i hdone
        rw [hn] at hdone
        exact absurd hdone ha
      · cases hk
        exact he
  · have := (SanitizeLayer.made_mem merge done _ hm).2
    cases this

/-- One successful round of the loop of `SanitizeLayer` takes the entries
from what the rules make of the rounds done to what they make with one more
round, when the recursive call follows the rules. -/
theorem SanitizeLayer.step_refines (sub : String → FsNode → FsTrace → Sanitized)
    (host : FsHost) (layer : String) (merge : Bool) (E : List (String × FsNode))
    (hnd : (E.map fun e => e.1).Nodup) (hwf : ∀ e ∈ E, e.2.WellFormed)
    (hrg : ∀ e ∈ E, e.2.Regular = true)
    (hsub : ∀ layer node tr slot up tr1, node.WellFormed → node.Regular = true →
      sub layer node tr = some (slot, up, tr1, .ok ()) →
      slot = some (node.sanitizedSpec merge) ∧ up = false)
    (done : List String) (a : String) (ha : a ∉ done) (hbare : a ∉ bareWhiteouts)
    (opq : Bool) (entries : List (String × FsNode)) (tr : FsTrace)
    (dir1 : Dir) (up1 : Bool) (tr1 : FsTrace)
    (hinv : entries = E.filterMap (SanitizeLayer.kept merge done) ++ SanitizeLayer.made merge done)
    (h : SanitizeLayer.step sub host layer merge a opq entries tr =
      some (dir1, up1, tr1, .ok ())) :
    dir1 = some (opq || decide (a = ".wh..wh..opq"),
      E.filterMap (SanitizeLayer.kept merge (done ++ [a])) ++
        SanitizeLayer.made merge (done ++ [a])) ∧
    up1 = false := by
  have hg := SanitizeLayer.kept_name merge done
  have hmade_a : isWhiteout a = true → removeEntry (SanitizeLayer.made merge done) a =
      SanitizeLayer.made merge done := by
    intro hw
    apply removeEntry_absent
    intro e he hc
    have := whiteoutTargets_plain done e.1 (SanitizeLayer.made_mem merge done e he).1
    rw [hc, hw] at this
    cases this
  obtain ⟨opq1, entries1, hd1, hup, hrule⟩ := SanitizeLayer.step_rule_regular sub host layer
    merge a opq entries tr dir1 up1 tr1 hbare (by
      intro o es slot up hf hs
      have hmem := SanitizeLayer.found_dir merge E done a ha entries hinv o es hf
      obtain ⟨h1, h2⟩ := hsub _ _ _ _ _ _ (hwf _ hmem) (hrg _ hmem) hs
      exact ⟨h2, _, h1⟩) h
  suffices hmain : entries1 = E.filterMap (SanitizeLayer.kept merge (done ++ [a])) ++
      SanitizeLayer.made merge (done ++ [a]) ∧ opq1 = (opq || decide (a = ".wh..wh..opq")) by
    rw [hd1, hmain.1, ← hmain.2]
    exact ⟨rfl, hup⟩
  rcases hrule with ⟨hw, hm, ho, he⟩ | ⟨hw, hm, ho, he⟩ | ⟨hw, ho, hcase⟩
  · -- metadata
    refine ⟨?_, ho⟩
    rw [he, hinv, removeEntry_append, hmade_a hw, removeEntry_filterMap _ hg,
      SanitizeLayer.made_snoc]
    simp only [hw, hm, Bool.not_true, Bool.and_false, Bool.false_eq_true, if_false,
      List.append_nil]
    congr 1
    apply List.filterMap_congr
    intro e _
    unfold SanitizeLayer.kept
    rw [whiteoutTargets_snoc]
    simp only [hw, hm, Bool.not_true, Bool.and_false, Bool.false_eq_true, if_false,
      List.append_nil]
    by_cases hea : e.1 = a
    · simp [hea, hw]
    · simp [hea]
  · -- whiteout of a name
    have hx : whiteoutTarget a ∉ whiteoutTargets done := by
      intro hc
      obtain ⟨b, hb, hbw, _, hbt⟩ := (mem_whiteoutTargets done _).1 hc
      exact ha (by rw [← whiteoutTarget_inj b a hbw hw hbt]; exact hb)
    have hopq : a ≠ ".wh..wh..opq" := by
      intro hc
      rw [hc] at hm
      cases hm
    refine ⟨?_, by rw [ho]; simp [hopq]⟩
    rw [he, hinv, removeEntry_append, hmade_a hw, removeEntry_append,
      removeEntry_absent (SanitizeLayer.made merge done) (whiteoutTarget a)
        (fun e he hc => hx (by rw [← hc]; exact (SanitizeLayer.made_mem merge done e he).1)),
      removeEntry_filterMap _ hg, removeEntry_filterMap _ (by
        intro e e1 he1
        by_cases hea : e.1 = a
        · simp [hea] at he1
        · simp only [hea, if_false] at he1
          exact hg e e1 he1),
      SanitizeLayer.made_snoc, List.append_assoc]
    simp only [hw, hm, Bool.not_false, Bool.and_true, if_true]
    congr 1
    apply List.filterMap_congr
    intro e _
    unfold SanitizeLayer.kept
    rw [whiteoutTargets_snoc]
    simp only [hw, hm, Bool.not_false, Bool.and_true, if_true, List.mem_append,
      List.mem_singleton]
    by_cases hex : e.1 = whiteoutTarget a
    · simp [hex]
    · by_cases hea : e.1 = a
      · simp [hex, hea, hw]
      · simp [hex, hea]
  · -- no whiteout
    have hopq : a ≠ ".wh..wh..opq" := by
      intro hc
      rw [hc] at hw
      cases hw
    have hT : whiteoutTargets (done ++ [a]) = whiteoutTargets done := by
      rw [whiteoutTargets_snoc]; simp [hw]
    have hM : SanitizeLayer.made merge (done ++ [a]) = SanitizeLayer.made merge done := by
      rw [SanitizeLayer.made_snoc]; simp [hw]
    refine ⟨?_, by rw [ho]; simp [hopq]⟩
    rw [hM]
    -- entries of the directory named `a`
    have hother : ∀ e : String × FsNode, e.1 ≠ a →
        SanitizeLayer.kept merge (done ++ [a]) e = SanitizeLayer.kept merge done e := by
      intro e hea
      unfold SanitizeLayer.kept
      rw [hT]
      simp [hea]
    by_cases hat : a ∈ whiteoutTargets done
    · -- whited out before: not found as a directory
      have hgone : ∀ e ∈ E, e.1 = a → SanitizeLayer.kept merge done e = none := by
        intro e _ hea
        unfold SanitizeLayer.kept
        rw [hea, if_pos hat]
      have hfind : findEntry entries a = findEntry (SanitizeLayer.made merge done) a := by
        rw [hinv]
        exact findEntry_filterMap_none _ hg _ a E hgone
      have hnodir : ∀ o es, findEntry entries a ≠ some (.dir o es) := by
        intro o es hc
        rw [hfind] at hc
        have := (SanitizeLayer.made_mem merge done _ (findEntry_some_mem _ _ _ hc)).2
        cases this
      rcases hcase with ⟨o, es, node, hf, _, _⟩ | ⟨_, he⟩
      · exact absurd hf (hnodir o es)
      · rw [he, hinv]
        congr 1
        apply List.filterMap_congr
        intro e he
        by_cases hea : e.1 = a
        · rw [hgone e he hea]
          unfold SanitizeLayer.kept
          rw [hT, hea, if_pos hat]
        · exact (hother e hea).symm
    · -- still there if it was
      have hkeep : ∀ node, SanitizeLayer.kept merge done (a, node) = some (a, node) := by
        intro node
        unfold SanitizeLayer.kept
        simp [hat, ha]
      have hnew : ∀ node, SanitizeLayer.kept merge (done ++ [a]) (a, node) =
          some (a, node.sanitizedSpec merge) := by
        intro node
        unfold SanitizeLayer.kept
        rw [hT]
        simp [hat, hw]
      by_cases hin : ∃ node, (a, node) ∈ E
      · obtain ⟨node, hmem⟩ := hin
        have hf : findEntry entries a = some node := by
          rw [hinv]
          exact findEntry_filterMap_some _ hg _ a node node (hkeep node) E hnd hmem
        have hcongr : ∀ node1, node1 = node.sanitizedSpec merge →
            (E.filterMap fun e => if e.1 = a then some (a, node1)
              else SanitizeLayer.kept merge done e) =
            E.filterMap (SanitizeLayer.kept merge (done ++ [a])) := by
          intro node1 h1
          apply List.filterMap_congr
          intro e he
          by_cases hea : e.1 = a
          · have : e = (a, node) := entry_unique E hnd e he (a, node) hmem hea
            rw [this, hnew node, h1]
            simp
          · rw [if_neg hea, hother e hea]
        rcases hcase with ⟨o, es, node1, hf1, hs, he⟩ | ⟨hnodir, he⟩
        · rw [hf] at hf1
          cases hf1
          have h1 : node1 = FsNode.sanitizedSpec merge (.dir o es) :=
            Option.some.inj (hsub _ _ _ _ _ _ (hwf _ hmem) (hrg _ hmem) hs).1
          rw [he, hinv, replaceEntry_filterMap _ hg _ a _ _ node1 (hkeep _) E hnd hmem,
            hcongr node1 h1]
        · rw [he, hinv]
          congr 1
          rw [← hcongr node (FsNode.sanitizedSpec_leaf merge node (by
            intro o es hc
            rw [hc] at hf
            exact hnodir o es hf)).symm]
          apply List.filterMap_congr
          intro e he
          by_cases hea : e.1 = a
          · have : e = (a, node) := entry_unique E hnd e he (a, node) hmem hea
            rw [this, hkeep node]
            simp
          · rw [if_neg hea]
      · -- no entry of this name
        have hno : ∀ e ∈ E, e.1 ≠ a := by
          intro e he hea
          exact hin ⟨e.2, by rw [← hea]; exact he⟩
        have hnone : findEntry entries a = none := by
          rw [hinv]
          rw [findEntry_filterMap_none _ hg _ a E (fun e he hea => absurd hea (hno e he))]
          rcases hfm : findEntry (SanitizeLayer.made merge done) a with _ | node
          · rfl
          · exact absurd (SanitizeLayer.made_mem merge done _ (findEntry_some_mem _ _ _ hfm)).1 hat
        rcases hcase with ⟨o, es, node1, hf1, _, _⟩ | ⟨_, he⟩
        · rw [hnone] at hf1; cases hf1
        · rw [he, hinv]
          congr 1
          apply List.filterMap_congr
          intro e he
          exact (hother e (hno e he)).symm

/-- The loop of `SanitizeLayer` over names none of which is a bare whiteout,
when it succeeds, ends with what the rules make of all rounds. -/
theorem SanitizeLayer.loop_refines (sub : String → FsNode → FsTrace → Sanitized)
    (host : FsHost) (layer : String) (merge : Bool) (E : List (String × FsNode))
    (hnd : (E.map fun e => e.1).Nodup) (hwf : ∀ e ∈ E, e.2.WellFormed)
    (hrg : ∀ e ∈ E, e.2.Regular = true)
    (hsub : ∀ layer node tr slot up tr1, node.WellFormed → node.Regular = true →
      sub layer node tr = some (slot, up, tr1, .ok ()) →
      slot = some (node.sanitizedSpec merge) ∧ up = false) :
    ∀ (content done : List String) (opq : Bool) (entries : List (String × FsNode)) (up : Bool)
      (tr : FsTrace) (slot : Option FsNode) (up1 : Bool) (tr1 : FsTrace),
      (done ++ content).Nodup → (∀ n ∈ content, n ∉ bareWhiteouts) →
      entries = E.filterMap (SanitizeLayer.kept merge done) ++ SanitizeLayer.made merge done →
      SanitizeLayer.loop sub host layer merge content (some (opq, entries)) up tr =
        some (slot, up1, tr1, .ok ()) →
      slot = some (.dir (opq || content.contains ".wh..wh..opq")
        (E.filterMap (SanitizeLayer.kept merge (done ++ content)) ++
          SanitizeLayer.made merge (done ++ content))) ∧ up1 = up := by
  intro content
  induction content with
  | nil =>
    intro done opq entries up tr slot up1 tr1 _ _ hinv h
    simp only [SanitizeLayer.loop, Dir.node, Option.map_some', Option.some.injEq,
      Prod.mk.injEq] at h
    rw [← h.1, ← h.2.1, hinv]
    simp
  | cons a rest ih =>
    intro done opq entries up tr slot up1 tr1 hdone hbare hinv h
    unfold SanitizeLayer.loop at h
    rcases hs : SanitizeLayer.step sub host layer merge a opq entries tr
      with _ | ⟨dir1, up2, tr2, r⟩
    · rw [hs] at h; simp at h
    · rw [hs] at h
      cases r with
      | error e => simp at h
      | ok u =>
        simp only at h
        have ha : a ∉ done := by
          intro hc
          have := List.nodup_append.1 hdone
          exact this.2.2 hc (List.mem_cons_self _ _)
        obtain ⟨hd, hu⟩ := SanitizeLayer.step_refines sub host layer merge E hnd hwf hrg hsub
          done a ha (hbare a (List.mem_cons_self _ _)) opq entries tr dir1 up2 tr2 hinv hs
        subst hd hu
        have hdone1 : (done ++ [a] ++ rest).Nodup := by
          rw [List.append_assoc]; exact hdone
        obtain ⟨h1, h2⟩ := ih (done ++ [a]) _ _ _ tr2 slot up1 tr1 hdone1
          (fun n hn => hbare n (List.mem_cons_of_mem _ hn)) rfl h
        refine ⟨?_, by rw [h2]; simp⟩
        rw [h1, List.append_assoc]
        congr 2
        simp only [List.contains_cons, List.singleton_append]
        by_cases hopq : a = ".wh..wh..opq"
        · simp [hopq]
        · have : (".wh..wh..opq" == a) = false := by
            simpa using fun hc => hopq hc.symm
          simp [hopq, this]

/-- The entries that stay, entry by entry. -/
theorem FsNode.sanitizedSpecList_eq (merge : Bool) (targets : List String) :
    ∀ es : List (String × FsNode),
      FsNode.sanitizedSpecList merge targets es =
        es.filterMap fun e =>
          if isWhiteout e.1 || targets.contains e.1 then none
          else some (e.1, e.2.sanitizedSpec merge)
  | [] => rfl
  | (name, node) :: rest => by
    rw [FsNode.sanitizedSpecList, FsNode.sanitizedSpecList_eq merge targets rest]
    by_cases h : (isWhiteout name || targets.contains name) = true
    · rw [if_pos h, List.filterMap_cons_none (by rw [if_pos h])]
    · rw [if_neg h, List.filterMap_cons_some (by rw [if_neg h])]

/-- A successful `SanitizeLayer` on a well-formed tree without bare whiteouts
makes of it what the whiteout rules make, and leaves the directory that
holds it. -/
theorem SanitizeLayer_refines (host : FsHost) (merge : Bool) :
    ∀ (fuel : Nat) (layer : String) (t : FsNode) (tr : FsTrace) (slot : Option FsNode)
      (up : Bool) (tr1 : FsTrace),
      t.WellFormed → t.Regular = true →
      SanitizeLayer host merge fuel layer t tr = some (slot, up, tr1, .ok ()) →
      slot = some (t.sanitizedSpec merge) ∧ up = false := by
  intro fuel
  induction fuel with
  | zero => intro layer t tr slot up tr1 _ _ h; simp [SanitizeLayer] at h
  | succ n ih =>
    intro layer t tr slot up tr1 hwf hreg h
    unfold SanitizeLayer at h
    cases t with
    | file => simp at h
    | chardev => simp at h
    | dir o es =>
      simp only at h
      rcases hrd : (host tr).ReadDirectory layer with _ | error
      · rw [hrd] at h
        simp only at h
        simp only [FsNode.WellFormed] at hwf
        simp only [FsNode.Regular] at hreg
        have hwl := (FsNode.WellFormedList_iff es).1 hwf.2
        have hrl := (FsNode.RegularList_iff es).1 hreg
        obtain ⟨h1, h2⟩ := SanitizeLayer.loop_refines (SanitizeLayer host merge n) host layer
          merge es hwf.1 (fun e he => (hwl e he).2) (fun e he => (hrl e he).2) ih
          (es.map fun e => e.1) [] o es false tr slot up tr1
          (by simpa using hwf.1)
          (by
            intro name hn
            obtain ⟨e, he, rfl⟩ := List.mem_map.1 hn
            exact (hrl e he).1)
          (by
            have : es.filterMap (SanitizeLayer.kept merge []) = es := by
              have hk : SanitizeLayer.kept merge [] = some := by
                funext e
                simp [SanitizeLayer.kept, whiteoutTargets]
              rw [hk, List.filterMap_some]
            rw [this]
            cases merge <;> simp [SanitizeLayer.made, whiteoutTargets])
          h
        refine ⟨?_, h2⟩
        rw [h1, FsNode.sanitizedSpec, FsNode.sanitizedSpecList_eq]
        simp only [List.nil_append]
        congr 2
        congr 1
        · apply List.filterMap_congr
          intro e he
          have hmem : e.1 ∈ es.map fun e => e.1 := List.mem_map.2 ⟨e, he, rfl⟩
          unfold SanitizeLayer.kept
          by_cases ht : e.1 ∈ whiteoutTargets (es.map fun e => e.1)
          · simp [ht]
          · by_cases hw : isWhiteout e.1 = true
            · simp [ht, hmem, hw]
            · simp [ht, hmem, hw]
      · rw [hrd] at h
        simp at h

/-- The part of a round after a whiteout succeeds on a host that refuses no
call. -/
theorem SanitizeLayer.whiteout_ok (host : FsHost) (layer : String) (merge : Bool)
    (name : String) (opq : Bool) (entries : List (String × FsNode)) (tr : FsTrace)
    (hrm : ∀ tr p, (host tr).RemoveAll p = none)
    (hmk : ∀ tr p, (host tr).Mknod p = none) :
    (SanitizeLayer.whiteout host layer merge name opq entries tr).2.2.2 = .ok () := by
  unfold SanitizeLayer.whiteout
  simp only [hrm, hmk]
  rcases target name with _ | _ | n
  · cases merge <;> rfl
  · cases merge <;> rfl
  · by_cases hex : (findEntry entries name).isSome = true
    · rw [if_pos hex]; cases merge <;> rfl
    · rw [if_neg hex]; cases merge <;> rfl

/-- A round of the loop of `SanitizeLayer` succeeds on a host that refuses
no call, when the recursive call does. -/
theorem SanitizeLayer.step_ok (sub : String → FsNode → FsTrace → Sanitized)
    (host : FsHost) (layer : String) (merge : Bool) (entry : String) (opq : Bool)
    (entries : List (String × FsNode)) (tr : FsTrace)
    (hrm : ∀ tr p, (host tr).RemoveAll p = none)
    (hsx : ∀ tr p n v, (host tr).SetXAttr p n v = none)
    (hmk : ∀ tr p, (host tr).Mknod p = none)
    (hsub : ∀ layer o es tr r, sub layer (.dir o es) tr = some r → r.2.2.2 = .ok ())
    (r : Dir × Bool × FsTrace × Except TError Unit)
    (h : SanitizeLayer.step sub host layer merge entry opq entries tr = some r) :
    r.2.2.2 = .ok () := by
  unfold SanitizeLayer.step at h
  simp only [hrm, hsx] at h
  by_cases hw : compareEq entry 4 ".wh." = true
  · rw [if_pos hw] at h
    by_cases hopq : entry = ".wh..wh..opq"
    · rw [if_pos hopq] at h; cases h; rfl
    · rw [if_neg hopq] at h
      by_cases hm : compareEq entry 8 ".wh..wh." = true
      · rw [if_pos hm] at h; cases h; rfl
      · rw [if_neg hm] at h
        simp only [Option.some.injEq] at h
        rw [← h]
        exact SanitizeLayer.whiteout_ok host layer merge _ opq _ _ hrm hmk
  · rw [if_neg hw] at h
    rcases hf : findEntry entries entry with _ | node
    · rw [hf] at h; cases h; rfl
    · cases node with
      | file => rw [hf] at h; cases h; rfl
      | chardev => rw [hf] at h; cases h; rfl
      | dir o es =>
        rw [hf] at h
        simp only at h
        rcases hs : sub (pathJoin layer entry) (.dir o es) tr with _ | ⟨slot, up, tr2, r2⟩
        · rw [hs] at h; cases h
        · have hr2 := hsub _ _ _ _ _ hs
          simp only at hr2
          subst hr2
          rw [hs] at h
          cases up <;> cases slot <;> cases h <;> rfl

/-- A round of the loop of `SanitizeLayer` on a directory that has been
removed succeeds on a host that refuses no call. -/
theorem SanitizeLayer.absent_ok (host : FsHost) (layer : String) (merge : Bool)
    (entry : String) (tr : FsTrace)
    (hrm : ∀ tr p, (host tr).RemoveAll p = none)
    (hsx : ∀ tr p n v, (host tr).SetXAttr p n v = none)
    (hmk : ∀ tr p, (host tr).Mknod p = none) :
    (SanitizeLayer.absent host layer merge entry tr).2 = .ok () := by
  unfold SanitizeLayer.absent
  simp only [hrm, hsx, hmk]
  split
  · split
    · rfl
    · split
      · rfl
      · split <;> rfl
  · rfl

/-- The loop of `SanitizeLayer` succeeds on a host that refuses no call,
when the recursive call does. -/
theorem SanitizeLayer.loop_ok (sub : String → FsNode → FsTrace → Sanitized)
    (host : FsHost) (layer : String) (merge : Bool)
    (hrm : ∀ tr p, (host tr).RemoveAll p = none)
    (hsx : ∀ tr p n v, (host tr).SetXAttr p n v = none)
    (hmk : ∀ tr p, (host tr).Mknod p = none)
    (hsub : ∀ layer o es tr r, sub layer (.dir o es) tr = some r → r.2.2.2 = .ok ()) :
    ∀ (content : List String) (dir : Dir) (up : Bool) (tr : FsTrace)
      (r : Option FsNode × Bool × FsTrace × Except TError Unit),
      SanitizeLayer.loop sub host layer merge content dir up tr = some r →
      r.2.2.2 = .ok () := by
  intro content
  induction content with
  | nil =>
    intro dir up tr r h
    cases dir <;> simp only [SanitizeLayer.loop, Option.some.injEq] at h <;> rw [← h]
  | cons a rest ih =>
    intro dir up tr r h
    cases dir with
    | none =>
      unfold SanitizeLayer.loop at h
      have hok := SanitizeLayer.absent_ok host layer merge a tr hrm hsx hmk
      rcases ha : SanitizeLayer.absent host layer merge a tr with ⟨tr1, r1⟩
      rw [ha] at hok h
      simp only at hok
      subst hok
      exact ih _ _ _ _ h
    | some d =>
      obtain ⟨opq, entries⟩ := d
      unfold SanitizeLayer.loop at h
      rcases hs : SanitizeLayer.step sub host layer merge a opq entries tr
        with _ | ⟨dir1, up2, tr2, r1⟩
      · rw [hs] at h; cases h
      · have := SanitizeLayer.step_ok sub host layer merge a opq entries tr hrm hsx hmk hsub _ hs
        simp only at this
        subst this
        rw [hs] at h
        exact ih _ _ _ _ h

/-- On a host that refuses no call `SanitizeLayer` on a directory succeeds
when it returns. -/
theorem SanitizeLayer_ok (host : FsHost) (merge : Bool)
    (hrd : ∀ tr p, (host tr).ReadDirectory p = none)
    (hrm : ∀ tr p, (host tr).RemoveAll p = none)
    (hsx : ∀ tr p n v, (host tr).SetXAttr p n v = none)
    (hmk : ∀ tr p, (host tr).Mknod p = none) :
    ∀ (fuel : Nat) (layer : String) (o : Bool) (es : List (String × FsNode)) (tr : FsTrace)
      (r : Option FsNode × Bool × FsTrace × Except TError Unit),
      SanitizeLayer host merge fuel layer (.dir o es) tr = some r → r.2.2.2 = .ok () := by
  intro fuel
  induction fuel with
  | zero => intro layer o es tr r h; simp [SanitizeLayer] at h
  | succ n ih =>
    intro layer o es tr r h
    unfold SanitizeLayer at h
    simp only [hrd] at h
    exact SanitizeLayer.loop_ok (SanitizeLayer host merge n) host layer merge hrm hsx hmk ih
      _ _ _ _ _ h

/-- On a well-formed directory tree without bare whiteouts `SanitizeLayer`,
in either merge mode, follows the whiteout rules in every directory. When it
returns success the tree is the one that the rules make: every whiteout is
gone, a directory that held `.wh..wh..opq` is opaque, other metadata leaves
no trace, the name behind any other whiteout is gone when merging and is a
character device otherwise, and every other entry is in its place,
directories among them treated in the same way. With fuel for the nesting it
returns success on a directory when the host refuses no call. -/
theorem SanitizeLayer_follows_rules (host : FsHost) (merge : Bool) (fuel : Nat)
    (layer : String) (t : FsNode) (tr : FsTrace) (hwf : t.WellFormed)
    (hreg : t.Regular = true) :
    (∀ (slot : Option FsNode) (up : Bool) (tr1 : FsTrace),
      SanitizeLayer host merge fuel layer t tr = some (slot, up, tr1, .ok ()) →
      slot = some (t.sanitizedSpec merge) ∧ up = false) ∧
    (0 < fuel → t.depth ≤ fuel → t.IsDirectoryStrict = true →
      (∀ tr p, (host tr).ReadDirectory p = none) → (∀ tr p, (host tr).RemoveAll p = none) →
      (∀ tr p n v, (host tr).SetXAttr p n v = none) → (∀ tr p, (host tr).Mknod p = none) →
      ∃ tr1, SanitizeLayer host merge fuel layer t tr =
        some (some (t.sanitizedSpec merge), false, tr1, .ok ())) := by
  refine ⟨fun slot up tr1 h =>
    SanitizeLayer_refines host merge fuel layer t tr slot up tr1 hwf hreg h, ?_⟩
  intro hf hd hdir hrd hrm hsx hmk
  have hsome := SanitizeLayer_some host merge fuel layer t tr hwf hf hd
  rcases hr : SanitizeLayer host merge fuel layer t tr with _ | ⟨slot, up, tr1, r⟩
  · rw [hr] at hsome; cases hsome
  · cases t with
    | file => cases hdir
    | chardev => cases hdir
    | dir o es =>
      have hok := SanitizeLayer_ok host merge hrd hrm hsx hmk fuel layer o es tr _ hr
      simp only at hok
      subst hok
      obtain ⟨h1, h2⟩ := SanitizeLayer_refines host merge fuel layer _ tr slot up tr1 hwf hreg hr
      subst h1 h2
      exact ⟨tr1, rfl⟩

/-- C25 (code defect): behind the whiteout `.wh.` stands the empty name, and
behind `.wh...` stands dot-dot, so `layer / entry.substr(4)` is the directory
itself or the one that holds it, which exists and is removed with all that is
in it. When merging, on a host that refuses no call, `SanitizeLayer` returns
success on a layer that holds the file `a` and `.wh.` and leaves nothing at
the path of the layer, where the rules leave the directory with `a`; called
on a layer whose directory `d` holds `.wh...`, it removes the layer itself,
with the file `a` beside `d`. -/
theorem C25_bare_whiteout_removes_directory :
    SanitizeLayer exFsHost true 2 "/l" exLayerMark [] =
      some (none, false, [.RemoveAll "/l/.wh.", .RemoveAll "/l/"], .ok ()) ∧
    exLayerMark.sanitizedSpec true = .dir false [("a", .file)] ∧
    SanitizeLayer exFsHost true 3 "/l" exLayerUp [] =
      some (none, false, [.RemoveAll "/l/d/.wh...", .RemoveAll "/l/d/.."], .ok ()) ∧
    exLayerUp.sanitizedSpec true = .dir false [("d", .dir false []), ("a", .file)] := by
  refine ⟨rfl, rfl, rfl, rfl⟩
end Porto
